import Mathlib

/-!
DSE sequence to MIDI conversion (`src/dse/dse_interpreter.cpp`).

A shallow embedding of the class `DSESequenceToMidi` and of the declarations of
`dse_conversion_info.hpp` and `dse_interpreter.hpp` it uses, followed by theorems about the
embedding.

Conventions.
* Unsigned machine integers are `Nat`, signed ones `Int`; an arithmetic result or a conversion
  that can leave the width of its type is reduced to it (`u8`, `u16`, `u32`, `i8`, `i16`). The
  bytes of an event (`uint8_t` in the source) are below 256 in every real event.
* `std::vector` and `std::map` are lists; `operator[]` past the end is undefined in the source
  and reads a default value here.
* `throw` is `Except.error`.
* The jdksmidi library is not part of the repository: a message is the record of the setter
  that built it and of its arguments, and a MIDI track is the list of the messages put on it.
-/

namespace DSE

/-! ## Machine integers -/

/-- Conversion to `uint8_t`. -/
def u8 (n : Nat) : Nat := n % 256

/-- Conversion to `uint16_t`. -/
def u16 (n : Nat) : Nat := n % 65536

/-- Conversion to `uint32_t`. -/
def u32 (n : Nat) : Nat := n % 4294967296

/-- Conversion of a signed value to `uint8_t`. -/
def intToU8 (i : Int) : Nat := (i % 256).toNat

/-- Conversion of a signed value to `uint16_t`. -/
def intToU16 (i : Int) : Nat := (i % 65536).toNat

/-- Conversion of a signed value to `uint32_t`. -/
def intToU32 (i : Int) : Nat := (i % 4294967296).toNat

/-- Conversion of an unsigned value to `int8_t` (two's complement). -/
def i8 (n : Nat) : Int := if n % 256 < 128 then ((n % 256 : Nat) : Int) else ((n % 256 : Nat) : Int) - 256

/-- Conversion of an unsigned value to `int16_t` (two's complement). -/
def i16 (n : Nat) : Int :=
  if n % 65536 < 32768 then ((n % 65536 : Nat) : Int) else ((n % 65536 : Nat) : Int) - 65536

/-! ## Errors -/

/-- The exceptions the interpreter can raise, and the one undefined operation it can reach. -/
inductive Err where
  /-- `std::runtime_error` thrown by `HandlePauses` on event 0x95. -/
  | runtime_error
  /-- `std::out_of_range` thrown by `TrkDelayCodeVals.at`. -/
  | out_of_range
  /-- Integer division by zero in `ConvertTempoToMicrosecPerQuarterNote`. -/
  | division_by_zero
  deriving DecidableEq, Repr

instance {α : Type} [DecidableEq α] : DecidableEq (Except Err α)
  | .ok a, .ok b => if h : a = b then isTrue (by rw [h]) else isFalse (fun h2 => h (Except.ok.inj h2))
  | .error a, .error b =>
    if h : a = b then isTrue (by rw [h]) else isFalse (fun h2 => h (Except.error.inj h2))
  | .ok _, .error _ => isFalse (fun h => Except.noConfusion h)
  | .error _, .ok _ => isFalse (fun h => Except.noConfusion h)

/-! ## The sequence data model -/

/-- A track event as the interpreter reads it: `evcode` and `params` (both `uint8_t`). -/
structure TrkEvent where
  evcode : Nat
  params : List Nat
  deriving DecidableEq, Repr

/-- `ev.params.front()`. -/
def TrkEvent.front (ev : TrkEvent) : Nat := ev.params.headD 0

/-- `ev.params.back()`. -/
def TrkEvent.back (ev : TrkEvent) : Nat := ev.params.getLastD 0

/-- `ev.params[i]`. -/
def TrkEvent.param (ev : TrkEvent) (i : Nat) : Nat := ev.params.getD i 0

/-- A track: its MIDI channel (`GetMidiChannel()`) and its events. -/
structure MusicTrack where
  chan : Nat
  events : List TrkEvent
  deriving DecidableEq, Repr

instance : Inhabited MusicTrack := ⟨⟨0, []⟩⟩

/-- The parsed sequence with the two metadata fields the interpreter reads. -/
structure MusicSequence where
  tracks : List MusicTrack
  tpqn : Nat
  fname : String
  deriving DecidableEq, Repr

/-- `m_seq.getNbTracks()`. -/
def MusicSequence.getNbTracks (seq : MusicSequence) : Nat := seq.tracks.length

/-- `m_seq[trkno]` and `m_seq.track(trkno)`. -/
def MusicSequence.track (seq : MusicSequence) (trkno : Nat) : MusicTrack := seq.tracks.getD trkno default

/-! ## Event codes

Modelled from the spec: the enumeration `eTrkEventCodes` is declared in `dse/dse_sequence.hpp`,
which is not among the sources. The spec gives the families (a note-on range whose low 7 bits
are the velocity, fixed-duration pauses, the pause codes, the control events); the source pins
`PauseUntilRel` (its error message names event 0x95), `EndOfTrack` (the comment in
`ExportATrack` names 0x98), the note-on range (velocity is `evcode & 0x7F`) and the fixed
pauses (`audioutil.cpp` accepts a delay code when `(dt & 0xF0) == 0x80`). -/
namespace eTrkEventCodes

def NoteOnBeg : Nat := 0x01
def NoteOnEnd : Nat := 0x7F
def Delay_HN : Nat := 0x80
def Delay_64N : Nat := 0x8F
def RepeatLastPause : Nat := 0x90
def AddToLastPause : Nat := 0x91
def Pause8Bits : Nat := 0x92
def Pause16Bits : Nat := 0x93
def Pause24Bits : Nat := 0x94
def PauseUntilRel : Nat := 0x95
def EndOfTrack : Nat := 0x98
def LoopPointSet : Nat := 0x99
def SetOctave : Nat := 0xA0
def SetTempo : Nat := 0xA4
def SetPreset : Nat := 0xAC
def PitchBend : Nat := 0xD7
def SetTrkVol : Nat := 0xE0
def SetExpress : Nat := 0xE3
def SetTrkPan : Nat := 0xE8

end eTrkEventCodes

/-! ## The preset conversion table (`dse_conversion_info.hpp`) -/

/-- The effects that can be simulated via midi. -/
inductive eEffectTy where
  | Phaser
  | Vibrato
  deriving DecidableEq, Repr

/-- Data for effects that need to be simulated in the midi. -/
structure ExtraEffects where
  effty : eEffectTy
  rate : Int
  delay : Int
  depth : Int
  fadeout : Int
  deriving DecidableEq, Repr

/-- `NoteRemapData`: `destnote` is `int8_t`, `destpreset` is `uint8_t`, `destbank` is `int16_t`. -/
structure NoteRemapData where
  destnote : Int := 0
  destpreset : Nat := 255
  destbank : Int := -1
  deriving DecidableEq, Repr

/-- `PresetConvData`, fields in declaration order. -/
structure PresetConvData where
  midipres : Nat
  midibank : Int
  remapnotes : List (Int × NoteRemapData)
  extrafx : List ExtraEffects
  maxpoly : Nat
  priority : Nat
  maxkeydowndur : Nat
  transpose : Int
  deriving DecidableEq, Repr

/-- The constructor of `PresetConvData` with its member initialiser list. -/
def PresetConvData.ctor (presid : Nat) (bank : Int) (maxpolyphony prioritygrp maxkeyduration : Nat)
    (transposenote : Int) : PresetConvData :=
  let _unused := transposenote
  { midipres := presid
    midibank := bank
    remapnotes := []
    extrafx := []
    maxpoly := maxpolyphony
    priority := prioritygrp
    maxkeydowndur := maxkeyduration
    transpose := 0 }

/-- `SMDLPresetConversionInfo`: the map `convtbl` from DSE preset id to its conversion data. -/
structure SMDLPresetConversionInfo where
  convtbl : List (Nat × PresetConvData)
  deriving DecidableEq, Repr

/-- `FindConversionInfo(presid)`: `convtbl.find(presid)`, `none` standing for `end()`. -/
def SMDLPresetConversionInfo.FindConversionInfo (t : SMDLPresetConversionInfo) (presid : Nat) :
    Option PresetConvData :=
  t.convtbl.lookup presid

/-- Modelled from the spec: `RemapNote` is declared in `dse_conversion_info.hpp` and defined in a
file that is not among the sources. It returns the remap entry of the note in the preset's
`remapnotes` and, when the preset or the note has none, the same note with no preset and no bank
override (the defaults of `NoteRemapData`). -/
def SMDLPresetConversionInfo.RemapNote (t : SMDLPresetConversionInfo) (dsep : Nat) (note : Int) :
    NoteRemapData :=
  match t.FindConversionInfo dsep with
  | some d =>
    match d.remapnotes.lookup note with
    | some r => r
    | none => { destnote := note }
  | none => { destnote := note }

/-- Modelled from the spec: `utils::Clamp` is defined in `utils/utility.hpp`, which is not among
the sources; it bounds `val` to the interval from `min` to `max`. -/
def Clamp (val min max : Nat) : Nat :=
  if val < min then min else if max < val then max else val

/-! ## MIDI messages -/

/-- The meta event types the interpreter names. -/
inductive MetaTy where
  | META_GENERIC_TEXT
  | META_TRACK_NAME
  | META_MARKER_TEXT
  | META_TRACK_LOOP
  deriving DecidableEq, Repr

/-- The controller number of bank select, `C_GM_BANK` of jdksmidi. -/
def C_GM_BANK : Nat := 0x00

/-- What a `MIDITimedBigMessage` holds besides its time: the setter called and its arguments. -/
inductive MidiBody where
  | NoteOn (chan note vel : Nat)
  | NoteOff (chan note vel : Nat)
  | ControlChange (chan ctrl val : Nat)
  | ProgramChange (chan prg : Nat)
  | PitchBend (chan : Nat) (val : Int)
  | Tempo (microsec : Nat)
  | MetaType (ty : MetaTy)
  | Text (ty : MetaTy) (text : String)
  | SysEx (bytes : List Nat)
  | TimeSig
  deriving DecidableEq, Repr

/-- A message with its time stamp (`SetTime`). -/
structure MIDITimedBigMessage where
  time : Nat
  body : MidiBody
  deriving DecidableEq, Repr

/-- `outtrack.PutTextEvent( time, type, text, size )`. -/
def PutTextEvent (time : Nat) (ty : MetaTy) (text : String) : MIDITimedBigMessage :=
  ⟨time, .Text ty text⟩

def TXT_LoopStart : String := "LoopStart"
def TXT_LoopEnd : String := "LoopEnd"
def TXT_DSE_Event : String := "DSE_Event"
def UtilityID : String := "ExportedWith: ppmd_audioutil.exe ver0.1"
def DSE_MaxOctave : Int := 9
def NbMidiKeysInOctave : Int := 12

/-! ## Track state -/

/-- `NoteOnData`. -/
structure NoteOnData where
  noteid : Nat := 0
  noteonticks : Nat := 0
  noteoffticks : Nat := 0
  noteonnum : Nat := 0
  noteoffnum : Nat := 0
  deriving DecidableEq, Repr

/-- `TrkState`, fields and default member initialisers in declaration order. -/
structure TrkState where
  ticks_ : Nat := 0
  eventno_ : Nat := 0
  lastpause_ : Nat := 0
  lasthold_ : Nat := 0
  octave_ : Nat := 0
  prgm_ : Nat := 0
  sustainon : Bool := false
  curbank_ : Nat := 0
  curloop_ : Nat := 0
  pitchoffset_ : Int := 0
  looppoint_ : Nat := 0
  noteson_ : List NoteOnData := []
  curmaxpoly_ : Int := -1
  hasinvalidbank : Bool := false
  dseprgm_ : Nat := 0
  transpose : Int := 0
  presetoverriden : Bool := false
  ovrbank_ : Nat := 255
  ovrprgm_ : Nat := 255
  deriving DecidableEq, Repr

instance : Inhabited TrkState := ⟨{}⟩

/-! ## The converter object -/

/-- `eMIDIFormat`. -/
inductive eMIDIFormat where
  | SingleTrack
  | MultiTrack
  deriving DecidableEq, Repr

/-- `eMIDIMode`. -/
inductive eMIDIMode where
  | GM
  | GS
  | XG
  deriving DecidableEq, Repr

/-- What `ParsePlayNoteParam1` writes through its three reference parameters. -/
structure PlayNoteParam1 where
  inout_curoctave : Nat
  out_param2len : Nat
  out_midinote : Nat
  deriving DecidableEq, Repr

/-- The members of `DSESequenceToMidi` that a conversion never writes. `m_convtable` is `none`
for the null pointer of the constructor without conversion data, so that `m_hasconvtbl` is
`m_convtable.isSome`.

Two declarations of `dse/dse_sequence.hpp`, which is not among the sources, are taken as
parameters: the table `TrkDelayCodeVals` of the fixed-duration pauses, and the function
`ParsePlayNoteParam1( noteparam1, inout_curoctave, out_param2len, out_midinote )`, given here as
a function of the parameter byte and of the octave on entry. -/
structure DSESequenceToMidi where
  m_seq : MusicSequence
  m_convtable : Option SMDLPresetConversionInfo
  m_nbloops : Nat
  m_midifmt : eMIDIFormat
  m_midimode : eMIDIMode
  TrkDelayCodeVals : List (Nat × Nat)
  ParsePlayNoteParam1 : Nat → Nat → PlayNoteParam1

/-- The member `m_hasconvtbl`. -/
def DSESequenceToMidi.m_hasconvtbl (self : DSESequenceToMidi) : Bool := self.m_convtable.isSome

/-- `ShouldMarkUnsupported()`. -/
def ShouldMarkUnsupported : Bool := true

/-- `ShouldExportEventsPastEoT()`. -/
def ShouldExportEventsPastEoT : Bool := false

/-- `ShouldLeaveNoteWithInvalidPreset()`. -/
def ShouldLeaveNoteWithInvalidPreset : Bool := false

/-- `ConvertTempoToMicrosecPerQuarterNote` of `dse_interpreter.hpp`. -/
def ConvertTempoToMicrosecPerQuarterNote (bpm : Nat) : Except Err Nat :=
  let NbMicrosecPerMinute : Nat := 60000000
  if bpm = 0 then .error .division_by_zero else .ok (NbMicrosecPerMinute / bpm)

/-! ## Pauses -/

/-- `HandleFixedPauses`. -/
def HandleFixedPauses (self : DSESequenceToMidi) (ev : TrkEvent) (state : TrkState) :
    Except Err TrkState :=
  match self.TrkDelayCodeVals.lookup ev.evcode with
  | none => .error .out_of_range
  | some d =>
    let state := { state with lastpause_ := u8 d }
    .ok { state with ticks_ := u32 (state.ticks_ + state.lastpause_) }

/-- `HandlePauses`. -/
def HandlePauses (code : Nat) (ev : TrkEvent) (state : TrkState) : Except Err TrkState :=
  if code = eTrkEventCodes.Pause24Bits then
    let state := { state with
      lastpause_ := u32 ((ev.param 2 <<< 16) ||| (ev.param 1 <<< 8) ||| ev.param 0) }
    .ok { state with ticks_ := u32 (state.ticks_ + state.lastpause_) }
  else if code = eTrkEventCodes.Pause16Bits then
    let state := { state with lastpause_ := u32 ((u16 ev.back <<< 8) ||| ev.front) }
    .ok { state with ticks_ := u32 (state.ticks_ + state.lastpause_) }
  else if code = eTrkEventCodes.Pause8Bits then
    let state := { state with lastpause_ := ev.front }
    .ok { state with ticks_ := u32 (state.ticks_ + state.lastpause_) }
  else if code = eTrkEventCodes.AddToLastPause then
    let value : Int := i8 ev.front
    let state :=
      if ev.front ≥ state.lastpause_ then { state with lastpause_ := 0 }
      else { state with lastpause_ := intToU32 ((state.lastpause_ : Int) + value) }
    .ok { state with ticks_ := u32 (state.ticks_ + state.lastpause_) }
  else if code = eTrkEventCodes.RepeatLastPause then
    .ok { state with ticks_ := u32 (state.ticks_ + state.lastpause_) }
  else if code = eTrkEventCodes.PauseUntilRel then
    .error .runtime_error
  else
    .ok state

/-! ## Preset changes -/

/-- `HandleSetPreset`. `mess_time` is the time the caller gave `mess`; the result is the new
track state and the messages put on `outtrack`, in order. -/
def HandleSetPreset (self : DSESequenceToMidi) (ev : TrkEvent) (trkno trkchan : Nat)
    (state : TrkState) (mess_time : Nat) : TrkState × List MIDITimedBigMessage :=
  let originalprgm := ev.front
  let bankselMSB_time := state.ticks_
  let state : TrkState :=
    match self.m_convtable with
    | some convtable =>
      match convtable.FindConversionInfo originalprgm with
      | some found =>
        { state with
          hasinvalidbank := false
          curbank_ := intToU8 found.midibank
          prgm_ := found.midipres
          dseprgm_ := originalprgm
          curmaxpoly_ := i8 found.maxpoly
          transpose := found.transpose }
      | none =>
        { state with
          hasinvalidbank := true
          curbank_ := 0x7F
          prgm_ := originalprgm
          dseprgm_ := originalprgm
          curmaxpoly_ := -1
          transpose := 0 }
    | none =>
      { state with
        hasinvalidbank := false
        curbank_ := 0
        prgm_ := originalprgm
        dseprgm_ := originalprgm
        curmaxpoly_ := -1
        transpose := 0 }
  let out : List MIDITimedBigMessage :=
    if !state.presetoverriden then
      [ ⟨bankselMSB_time, .ControlChange (self.m_seq.track trkno).chan C_GM_BANK (u8 state.curbank_)⟩,
        ⟨mess_time, .ProgramChange trkchan state.prgm_⟩ ]
    else []
  ({ state with noteson_ := [] }, out)

/-! ## Notes -/

/-- The loop of `HandlePlayNote` that reads the `param2len` hold duration bytes. -/
def HandlePlayNote.holdtime (ev : TrkEvent) (param2len : Nat) : Nat :=
  (List.range param2len).foldl
    (fun holdtime cntby => u32 ((holdtime <<< 8) ||| ev.param (cntby + 1))) 0

/-- What the conversion-table block of `HandlePlayNote` leaves behind. -/
structure RemapResult where
  state : TrkState
  mnoteid : Nat
  out : List MIDITimedBigMessage

/-- The bank half of the branch of `HandlePlayNote` that overrides preset and bank: the statement
`if( remapdata.destbank != -1 ) { .. } else if( state.presetoverriden ) { .. }`. -/
def HandlePlayNote.overrideBank (chan : Nat) (state : TrkState) (remapdata : NoteRemapData) :
    TrkState × List MIDITimedBigMessage :=
  if remapdata.destbank ≠ -1 then
    if !state.presetoverriden ∨ (state.ovrbank_ : Int) ≠ remapdata.destbank then
      let state := { state with ovrbank_ := intToU16 remapdata.destbank }
      (state, [⟨state.ticks_, .ControlChange chan C_GM_BANK (u8 state.ovrbank_)⟩])
    else (state, [])
  else if state.presetoverriden then
    (state, [⟨state.ticks_, .ControlChange chan C_GM_BANK (u8 state.curbank_)⟩])
  else (state, [])

/-- The preset half of the same branch: the statement
`if( remapdata.destpreset != 255 ) { .. } else if( state.presetoverriden ) { .. }`. -/
def HandlePlayNote.overridePreset (trkchan : Nat) (state : TrkState) (remapdata : NoteRemapData) :
    TrkState × List MIDITimedBigMessage :=
  if remapdata.destpreset ≠ 255 then
    if !state.presetoverriden ∨ state.ovrprgm_ ≠ remapdata.destpreset then
      let state := { state with ovrprgm_ := remapdata.destpreset }
      (state, [⟨state.ticks_, .ProgramChange trkchan state.ovrprgm_⟩])
    else (state, [])
  else if state.presetoverriden then
    (state, [⟨state.ticks_, .ProgramChange trkchan state.prgm_⟩])
  else (state, [])

/-- The statement of `HandlePlayNote` that restores or overrides the preset and the bank
(`if( state.presetoverriden && .. ) { .. } else if( .. ) { .. }`). -/
def HandlePlayNote.override (chan trkchan : Nat) (state : TrkState) (remapdata : NoteRemapData) :
    TrkState × List MIDITimedBigMessage :=
  if state.presetoverriden ∧ remapdata.destpreset = 255 ∧ remapdata.destbank = -1 then
    ({ state with presetoverriden := false },
      [ ⟨state.ticks_, .ControlChange chan C_GM_BANK (u8 state.curbank_)⟩,
        ⟨state.ticks_, .ProgramChange trkchan state.prgm_⟩ ])
  else if remapdata.destpreset ≠ 255 ∧ remapdata.destbank ≠ -1 then
    let b := HandlePlayNote.overrideBank chan state remapdata
    let p := HandlePlayNote.overridePreset trkchan b.1 remapdata
    ({ p.1 with presetoverriden := true }, b.2 ++ p.2)
  else (state, [])

/-- The statement of `HandlePlayNote` that applies the transposition. -/
def HandlePlayNote.transposed (state : TrkState) (mnoteid : Nat) : Nat :=
  if state.transpose ≠ 0 then
    let transposed : Int := (mnoteid : Int) + state.transpose * NbMidiKeysInOctave
    if 0 ≤ transposed ∧ transposed < 127 then intToU8 transposed else mnoteid
  else mnoteid

/-- The first `if( m_hasconvtbl )` block of `HandlePlayNote` (note remap, preset override and
restore, transposition), for the table `convtable`. -/
def HandlePlayNote.remap (self : DSESequenceToMidi) (convtable : SMDLPresetConversionInfo)
    (trkno trkchan : Nat) (state : TrkState) (mnoteid : Nat) : RemapResult :=
  let remapdata := convtable.RemapNote state.dseprgm_ (i8 (mnoteid &&& 0x7F))
  let mnoteid := intToU8 remapdata.destnote
  let r := HandlePlayNote.override (self.m_seq.track trkno).chan trkchan state remapdata
  let state := r.1
  ⟨state, HandlePlayNote.transposed state mnoteid, r.2⟩

/-- The time of the note-off message: `state.ticks_ + state.lasthold_`, replaced by the result of
`utils::Clamp` when the table has an entry for the DSE program with a nonzero `maxkeydowndur`. -/
def HandlePlayNote.noteofftime (self : DSESequenceToMidi) (state : TrkState) : Nat :=
  let noteofftime := u32 (state.ticks_ + state.lasthold_)
  match self.m_convtable with
  | some convtable =>
    match convtable.FindConversionInfo state.dseprgm_ with
    | some found =>
      if found.maxkeydowndur ≠ 0 then Clamp state.lasthold_ 0 found.maxkeydowndur
      else noteofftime
    | none => noteofftime
  | none => noteofftime

/-- The first statements of `HandlePlayNote`: the call of `ParsePlayNoteParam1` on the first
parameter byte and the octave of the track, and the hold duration bytes. The result is the track
state and the note `mnoteid`. -/
def HandlePlayNote.parse (self : DSESequenceToMidi) (state : TrkState) (ev : TrkEvent) :
    TrkState × Nat :=
  let parsed := self.ParsePlayNoteParam1 ev.front state.octave_
  let state := { state with octave_ := u8 parsed.inout_curoctave }
  let param2len := u8 parsed.out_param2len
  let mnoteid := u8 parsed.out_midinote
  let holdtime := HandlePlayNote.holdtime ev param2len
  let state := if param2len ≠ 0 then { state with lasthold_ := holdtime } else state
  (state, mnoteid)

/-- The statement `if( m_hasconvtbl ) { .. }` of `HandlePlayNote` that remaps the note. -/
def HandlePlayNote.convert (self : DSESequenceToMidi) (trkno trkchan : Nat) (state : TrkState)
    (mnoteid : Nat) : RemapResult :=
  match self.m_convtable with
  | some convtable => HandlePlayNote.remap self convtable trkno trkchan state mnoteid
  | none => ⟨state, mnoteid, []⟩

/-- `HandlePlayNote`: the new track state and the messages put on `outtrack`, in order. -/
def HandlePlayNote (self : DSESequenceToMidi) (trkno trkchan : Nat) (state : TrkState)
    (ev : TrkEvent) : TrkState × List MIDITimedBigMessage :=
  let parsed := HandlePlayNote.parse self state ev
  let state := parsed.1
  let mess_time := state.ticks_
  let r := HandlePlayNote.convert self trkno trkchan state parsed.2
  let state := r.state
  let mnoteid := r.mnoteid
  let mess : MIDITimedBigMessage :=
    if state.hasinvalidbank ∧ ¬ ShouldLeaveNoteWithInvalidPreset then
      ⟨mess_time, .NoteOn trkchan mnoteid 0⟩
    else
      ⟨mess_time, .NoteOn trkchan mnoteid (ev.evcode &&& 0x7F)⟩
  let noteoff : MIDITimedBigMessage :=
    ⟨HandlePlayNote.noteofftime self state, .NoteOff trkchan (mnoteid &&& 0x7F) (ev.evcode &&& 0x7F)⟩
  (state, r.out ++ [mess, noteoff])

/-! ## Events -/

/-- One upper-case hexadecimal digit. -/
def hexDigit (d : Nat) : Char :=
  if d < 10 then Char.ofNat (48 + d) else Char.ofNat (55 + d)

/-- The digits of `n` in base 16, most significant first, in front of `acc`. -/
def hexDigits : Nat → Nat → List Char → List Char
  | 0, _, acc => acc
  | fuel + 1, n, acc =>
    if n < 16 then hexDigit n :: acc else hexDigits fuel (n / 16) (hexDigit (n % 16) :: acc)

/-- The stream output `hex << uppercase << static_cast<unsigned short>(n)`. -/
def hexUpper (n : Nat) : String := String.mk (hexDigits (n + 1) n [])

/-- The text of the marker that the `default` case of `HandleEvent` builds in `evmark`. -/
def evmark (ev : TrkEvent) : String :=
  ev.params.foldl (fun acc param => acc ++ ", 0x" ++ hexUpper param)
    (TXT_DSE_Event ++ "_ID:0x" ++ hexUpper ev.evcode)

/-- The part of the converter object that one call of `HandleEvent` reads and writes: the track
state passed as `state` (the caller passes `m_trkstates[trkno]`), the saved state
`m_beflooptrkstates[trkno]`, the two loop flags, and the messages put on `outtrack`. -/
structure EventVars where
  state : TrkState
  befloopstate : TrkState
  m_bshouldloop : Bool
  m_bLoopBegSet : Bool
  outtrack : List MIDITimedBigMessage
  deriving DecidableEq, Repr

/-- The case `LoopPointSet` of the `switch` of `HandleEvent`. -/
def HandleEvent.loopPointSet (self : DSESequenceToMidi) (v : EventVars) : EventVars :=
  if self.m_midifmt = eMIDIFormat.SingleTrack ∧ v.m_bLoopBegSet then v
  else
    let state := { v.state with looppoint_ := u32 (v.state.eventno_ + 1) }
    { state := state
      befloopstate := state
      m_bshouldloop := true
      m_bLoopBegSet := if self.m_midifmt = eMIDIFormat.SingleTrack then true else v.m_bLoopBegSet
      outtrack := v.outtrack ++
        [ PutTextEvent state.ticks_ .META_MARKER_TEXT TXT_LoopStart,
          ⟨state.ticks_, .MetaType .META_TRACK_LOOP⟩ ] }

/-- The `switch( code )` of `HandleEvent`, reached by the events that are neither pauses nor
notes. -/
def HandleEvent.switch (self : DSESequenceToMidi) (trkno trkchan : Nat) (ev : TrkEvent)
    (v : EventVars) : Except Err EventVars :=
  let code := ev.evcode
  let state := v.state
  if code = eTrkEventCodes.SetTempo then
    (ConvertTempoToMicrosecPerQuarterNote ev.front).map fun tempo =>
      { v with outtrack := v.outtrack ++ [⟨state.ticks_, .Tempo tempo⟩] }
  else if code = eTrkEventCodes.SetOctave then
    let newoctave : Int := i8 ev.front
    .ok { v with state := { state with octave_ := intToU8 newoctave } }
  else if code = eTrkEventCodes.SetExpress then
    .ok { v with outtrack := v.outtrack ++ [⟨state.ticks_, .ControlChange trkchan 0x0B ev.front⟩] }
  else if code = eTrkEventCodes.SetTrkVol then
    .ok { v with outtrack := v.outtrack ++ [⟨state.ticks_, .ControlChange trkchan 0x07 ev.front⟩] }
  else if code = eTrkEventCodes.SetTrkPan then
    .ok { v with outtrack := v.outtrack ++ [⟨state.ticks_, .ControlChange trkchan 0x0A ev.front⟩] }
  else if code = eTrkEventCodes.SetPreset then
    let r := HandleSetPreset self ev trkno trkchan state state.ticks_
    .ok { v with state := r.1, outtrack := v.outtrack ++ r.2 }
  else if code = eTrkEventCodes.PitchBend then
    .ok { v with outtrack := v.outtrack ++
      [⟨state.ticks_, .PitchBend trkchan (Int.lor (i16 (ev.front <<< 8)) (i16 ev.back))⟩] }
  else if code = eTrkEventCodes.LoopPointSet then
    .ok (HandleEvent.loopPointSet self v)
  else if ShouldMarkUnsupported then
    .ok { v with outtrack := v.outtrack ++ [PutTextEvent state.ticks_ .META_MARKER_TEXT (evmark ev)] }
  else
    .ok v

/-- The conditional structure of `HandleEvent`, up to the final increment of the event counter. -/
def HandleEvent.dispatch (self : DSESequenceToMidi) (trkno trkchan : Nat) (ev : TrkEvent)
    (v : EventVars) : Except Err EventVars :=
  let code := ev.evcode
  let state := v.state
  if eTrkEventCodes.RepeatLastPause ≤ code ∧ code ≤ eTrkEventCodes.PauseUntilRel then
    (HandlePauses code ev state).map fun state => { v with state := state }
  else if eTrkEventCodes.Delay_HN ≤ code ∧ code ≤ eTrkEventCodes.Delay_64N then
    (HandleFixedPauses self ev state).map fun state => { v with state := state }
  else if eTrkEventCodes.NoteOnBeg ≤ code ∧ code ≤ eTrkEventCodes.NoteOnEnd then
    let r := HandlePlayNote self trkno trkchan state ev
    .ok { v with state := r.1, outtrack := v.outtrack ++ r.2 }
  else
    HandleEvent.switch self trkno trkchan ev v

/-- `HandleEvent`. -/
def HandleEvent (self : DSESequenceToMidi) (trkno trkchan : Nat) (ev : TrkEvent)
    (v : EventVars) : Except Err EventVars :=
  (HandleEvent.dispatch self trkno trkchan ev v).map fun v =>
    { v with state := { v.state with eventno_ := u32 (v.state.eventno_ + 1) } }

/-- `HandleEvent` on each event of `evs` in turn, for one track. -/
def HandleEvents (self : DSESequenceToMidi) (trkno trkchan : Nat) :
    List TrkEvent → EventVars → Except Err EventVars
  | [], v => .ok v
  | ev :: rest, v =>
    match HandleEvent self trkno trkchan ev v with
    | .error e => .error e
    | .ok v => HandleEvents self trkno trkchan rest v

/-- The events that `HandleEvent` handles without error: every event but a pause-until-release,
a fixed-duration pause that `TrkDelayCodeVals` does not list, and a set-tempo of zero beats per
minute. -/
def TrkEvent.Handled (self : DSESequenceToMidi) (ev : TrkEvent) : Prop :=
  ev.evcode ≠ eTrkEventCodes.PauseUntilRel ∧
  (eTrkEventCodes.Delay_HN ≤ ev.evcode ∧ ev.evcode ≤ eTrkEventCodes.Delay_64N →
    (self.TrkDelayCodeVals.lookup ev.evcode).isSome) ∧
  (ev.evcode = eTrkEventCodes.SetTempo → ev.front ≠ 0)

instance (self : DSESequenceToMidi) (ev : TrkEvent) : Decidable (ev.Handled self) := by
  unfold TrkEvent.Handled
  infer_instance

/-! ## The exporter -/

/-- The output `m_midiout`: the clock resolution and, in the order of the calls, every message
put on a track together with the number of that track. -/
structure MIDIMultiTrack where
  clks_per_beat : Nat := 0
  events : List (Nat × MIDITimedBigMessage) := []
  deriving DecidableEq, Repr

/-- The messages of `m_midiout.GetTrack(trk)`, in the order they were put. -/
def MIDIMultiTrack.GetTrack (m : MIDIMultiTrack) (trk : Nat) : List MIDITimedBigMessage :=
  (m.events.filter fun e => e.1 = trk).map Prod.snd

/-- `m_midiout.GetTrack(trk)->PutEvent(..)` for each message of `msgs` in turn. -/
def MIDIMultiTrack.Put (m : MIDIMultiTrack) (trk : Nat) (msgs : List MIDITimedBigMessage) :
    MIDIMultiTrack :=
  { m with events := m.events ++ msgs.map fun msg => (trk, msg) }

/-- A record of the control flow of the exporter. The source prints a line at each of these
three points when logging is on. -/
inductive TraceEntry where
  /-- Entry of `ExportATrack`: the track, the index of the first event and the tick count of the
  track. -/
  | enter (intrk evno ticks : Nat)
  /-- A call of `HandleEvent` from `ExportATrack`: the track and the index of the event. -/
  | event (intrk evno : Nat)
  /-- Exit of `ExportATrack`: the track and its tick count. -/
  | leave (intrk ticks : Nat)
  deriving DecidableEq, Repr

/-- The state variables of `DSESequenceToMidi`. `trace` is not a member of the class: it records
the calls of `ExportATrack` and `HandleEvent` in the order they are made. -/
structure ConvState where
  m_trkstates : List TrkState := []
  m_beflooptrkstates : List TrkState := []
  m_songlsttick : Nat := 0
  m_bshouldloop : Bool := false
  m_bLoopBegSet : Bool := false
  m_midiout : MIDIMultiTrack := {}
  trace : List TraceEntry := []
  deriving DecidableEq, Repr

/-- The tick count `m_trkstates[trkno].ticks_`. -/
def ConvState.ticks (s : ConvState) (trkno : Nat) : Nat := (s.m_trkstates.getD trkno default).ticks_

/-- `std::vector::resize(n)` with value-initialised new elements. -/
def resize (l : List TrkState) (n : Nat) : List TrkState :=
  l.take n ++ List.replicate (n - l.length) default

/-- `PrepareMidiFile`. -/
def PrepareMidiFile (self : DSESequenceToMidi) (s : ConvState) : ConvState :=
  let m_midiout := { s.m_midiout with clks_per_beat := self.m_seq.tpqn }
  let m_midiout :=
    match self.m_midimode with
    | .GS =>
      let gsreset : MIDITimedBigMessage :=
        ⟨0, .SysEx [0xF0, 0x41, 0x10, 0x42, 0x12, 0x40, 0x00, 0x7F, 0x00, 0x41, 0xF7]⟩
      let gsoffdrums : MIDITimedBigMessage :=
        ⟨0, .SysEx [0x41, 0x10, 0x42, 0x12, 0x40, 0x10, 0x15, 0x00, 0x1B, 0xF7]⟩
      (m_midiout.Put 0 [gsreset]).Put 0 [gsoffdrums]
    | .XG =>
      let xgreset : MIDITimedBigMessage :=
        ⟨0, .SysEx [0x43, 0x10, 0x4C, 0x00, 0x00, 0x7E, 0x00, 0x00, 0x00]⟩
      m_midiout.Put 0 [xgreset]
    | .GM => m_midiout
  let timesig : MIDITimedBigMessage := ⟨0, .TimeSig⟩
  let m_midiout := m_midiout.Put 0 [timesig]
  let m_midiout := m_midiout.Put 0 [PutTextEvent 0 .META_TRACK_NAME self.m_seq.fname]
  let m_midiout := m_midiout.Put 0 [PutTextEvent 0 .META_GENERIC_TEXT UtilityID]
  { s with m_midiout := m_midiout }

/-- The variables that a call of `HandleEvent` for track `intrk` starts from: `state` is
`m_trkstates[intrk]`, and no message has been put yet. -/
def ConvState.load (s : ConvState) (intrk : Nat) : EventVars :=
  { state := s.m_trkstates.getD intrk default
    befloopstate := s.m_beflooptrkstates.getD intrk default
    m_bshouldloop := s.m_bshouldloop
    m_bLoopBegSet := s.m_bLoopBegSet
    outtrack := [] }

/-- The converter state after a call of `HandleEvent` for the event `evno` of track `intrk` that
left the variables `v` and put its messages on output track `outtrk`. -/
def ConvState.store (s : ConvState) (intrk outtrk evno : Nat) (v : EventVars) : ConvState :=
  { s with
    m_trkstates := s.m_trkstates.set intrk v.state
    m_beflooptrkstates := s.m_beflooptrkstates.set intrk v.befloopstate
    m_bshouldloop := v.m_bshouldloop
    m_bLoopBegSet := v.m_bLoopBegSet
    m_midiout := s.m_midiout.Put outtrk v.outtrack
    trace := s.trace ++ [.event intrk evno] }

/-- The call of `HandleEvent` in the body of the loop of `ExportATrack`, on the event `ev` at
index `evno` of track `intrk`: `state` is `m_trkstates[intrk]` and `outtrack` is output track
`outtrk`. -/
def ExportATrack.step (self : DSESequenceToMidi) (intrk outtrk evno : Nat) (ev : TrkEvent)
    (s : ConvState) : Except Err ConvState :=
  (HandleEvent self intrk (self.m_seq.track intrk).chan ev (s.load intrk)).map
    (s.store intrk outtrk evno)

/-- The loop of `ExportATrack` over the events that remain, the first of them at index `evno`. -/
def ExportATrack.loop (self : DSESequenceToMidi) (intrk outtrk : Nat) :
    List TrkEvent → Nat → ConvState → Except Err ConvState
  | [], _, s => .ok s
  | ev :: rest, evno, s =>
    if ev.evcode = eTrkEventCodes.EndOfTrack ∧ ¬ ShouldExportEventsPastEoT then .ok s
    else
      match ExportATrack.step self intrk outtrk evno ev s with
      | .error e => .error e
      | .ok s => ExportATrack.loop self intrk outtrk rest (evno + 1) s

/-- `ExportATrack( intrk, outtrk, evno )`. -/
def ExportATrack (self : DSESequenceToMidi) (intrk outtrk : Nat) (evno : Nat) (s : ConvState) :
    Except Err ConvState :=
  let s := { s with trace := s.trace ++ [.enter intrk evno (s.ticks intrk)] }
  (ExportATrack.loop self intrk outtrk ((self.m_seq.track intrk).events.drop evno) evno s).map
    fun s => { s with trace := s.trace ++ [.leave intrk (s.ticks intrk)] }

/-- The three statements that restore the state of track `trkno` before a loop repetition: the
saved state overwrites the live one, whose tick count is kept. -/
def RestoreTrackState (trkno : Nat) (s : ConvState) : ConvState :=
  let backticks := (s.m_trkstates.getD trkno default).ticks_
  let s := { s with m_trkstates := s.m_trkstates.set trkno (s.m_beflooptrkstates.getD trkno default) }
  { s with m_trkstates :=
      s.m_trkstates.set trkno { s.m_trkstates.getD trkno default with ticks_ := backticks } }

/-- A `for` loop over the track numbers `trknos` with body `body`. -/
def forTracks (body : Nat → ConvState → Except Err ConvState) :
    List Nat → ConvState → Except Err ConvState
  | [], s => .ok s
  | trkno :: rest, s =>
    match body trkno s with
    | .error e => .error e
    | .ok s => forTracks body rest s

/-- A `for` loop that runs `body` `n` times. -/
def forLoops (body : ConvState → Except Err ConvState) : Nat → ConvState → Except Err ConvState
  | 0, s => .ok s
  | n + 1, s =>
    match body s with
    | .error e => .error e
    | .ok s => forLoops body n s

/-- The body of the innermost loop of both export methods: restore track `trkno` and export it
to output track `outtrk` from its loop point. -/
def LoopATrack (self : DSESequenceToMidi) (outtrk : Nat → Nat) (trkno : Nat) (s : ConvState) :
    Except Err ConvState :=
  let s := RestoreTrackState trkno s
  ExportATrack self trkno (outtrk trkno) (s.m_trkstates.getD trkno default).looppoint_ s

/-- `ExportAsMultiTrack`. -/
def ExportAsMultiTrack (self : DSESequenceToMidi) (s : ConvState) : Except Err ConvState :=
  let nbTracks := self.m_seq.getNbTracks
  let s := { s with
    m_trkstates := resize s.m_trkstates nbTracks
    m_beflooptrkstates := resize s.m_beflooptrkstates nbTracks
    m_songlsttick := 0 }
  let s := PrepareMidiFile self s
  let firstpass := forTracks (fun trkno s =>
    (ExportATrack self trkno trkno 0 s).map fun s =>
      if s.m_bshouldloop then
        let loopend := PutTextEvent (s.m_trkstates.getD trkno default).ticks_ .META_MARKER_TEXT TXT_LoopEnd
        { s with m_midiout := s.m_midiout.Put trkno [loopend] }
      else s) (List.range nbTracks) s
  match firstpass with
  | .error e => .error e
  | .ok s =>
    if s.m_bshouldloop then
      forLoops (forTracks (LoopATrack self id) (List.range nbTracks)) self.m_nbloops s
    else .ok s

/-- `ExportAsSingleTrack`. -/
def ExportAsSingleTrack (self : DSESequenceToMidi) (s : ConvState) : Except Err ConvState :=
  let nbTracks := self.m_seq.getNbTracks
  let s := { s with
    m_trkstates := resize s.m_trkstates nbTracks
    m_beflooptrkstates := resize s.m_beflooptrkstates nbTracks
    m_songlsttick := 0 }
  let s := PrepareMidiFile self s
  let firstpass := forTracks (fun trkno s =>
    (ExportATrack self trkno 0 0 s).map fun s =>
      if s.m_songlsttick < (s.m_trkstates.getD trkno default).ticks_ then
        { s with m_songlsttick := (s.m_trkstates.getD trkno default).ticks_ }
      else s) (List.range nbTracks) s
  match firstpass with
  | .error e => .error e
  | .ok s =>
    if s.m_bshouldloop then
      let loopend := PutTextEvent s.m_songlsttick .META_MARKER_TEXT TXT_LoopEnd
      let s := { s with m_midiout := s.m_midiout.Put 0 [loopend] }
      forLoops (forTracks (LoopATrack self fun _ => 0) (List.range nbTracks)) self.m_nbloops s
    else .ok s

/-- The two export calls of `operator()`, on a freshly constructed converter. -/
def Export (self : DSESequenceToMidi) : Except Err ConvState :=
  match self.m_midifmt with
  | .SingleTrack => ExportAsSingleTrack self {}
  | .MultiTrack => ExportAsMultiTrack self {}

/-! ## Concrete inputs -/

/-- Modelled from the spec: `ParsePlayNoteParam1` is declared in `dse/dse_sequence.hpp`, which is
not among the sources. The low four bits of the parameter byte are the note within the octave,
the next two bits the octave-shift flag (lower, none, higher, reset) and the top two bits the
number of hold duration bytes that follow; the flag is applied to the octave before the note
`(param1 & 0xF) + octave * 12` is computed. `lastoctaveev` is the octave stored by the most
recent set-octave event, which the flag `reset` restores. -/
def ParsePlayNoteParam1 (lastoctaveev noteparam1 inout_curoctave : Nat) : PlayNoteParam1 :=
  let flag := (noteparam1 &&& 0x30) >>> 4
  let octave :=
    if flag = 0 then intToU8 ((inout_curoctave : Int) - 1)
    else if flag = 2 then u8 (inout_curoctave + 1)
    else if flag = 3 then lastoctaveev
    else inout_curoctave
  { inout_curoctave := octave
    out_param2len := (noteparam1 &&& 0xC0) >>> 6
    out_midinote := u8 ((noteparam1 &&& 0x0F) + octave * 12) }

/-- Whether a message is a note-on. -/
def MIDITimedBigMessage.IsNoteOn (m : MIDITimedBigMessage) : Bool :=
  match m.body with
  | .NoteOn _ _ _ => true
  | _ => false

/-- Whether a message is a note-off. -/
def MIDITimedBigMessage.IsNoteOff (m : MIDITimedBigMessage) : Bool :=
  match m.body with
  | .NoteOff _ _ _ => true
  | _ => false

/-- A conversion table whose only entry, for DSE program 1, limits the key-down duration to 3
ticks. -/
def tableMaxKeyDown3 : SMDLPresetConversionInfo :=
  ⟨[(1, PresetConvData.ctor 0 0 255 0 3 0)]⟩

/-- A sequence of one track on channel 0 with the events `events`, 48 ticks per quarter note. -/
def oneTrack (events : List TrkEvent) : MusicSequence :=
  ⟨[⟨0, events⟩], 48, "seq"⟩

/-- A converter for `seq`, General MIDI mode, no fixed-duration pause in the table, notes parsed
by `ParsePlayNoteParam1` (no set-octave event before). -/
def converter (seq : MusicSequence) (convtable : Option SMDLPresetConversionInfo)
    (midifmt : eMIDIFormat) (nbloops : Nat) : DSESequenceToMidi :=
  { m_seq := seq
    m_convtable := convtable
    m_nbloops := nbloops
    m_midifmt := midifmt
    m_midimode := .GM
    TrkDelayCodeVals := []
    ParsePlayNoteParam1 := ParsePlayNoteParam1 0 }

/-- A tempo track, and a track that selects program 1, waits 100 ticks and plays one note with
a hold duration of 5 ticks. -/
def seqNoteAfterPause : MusicSequence :=
  ⟨[⟨0, [⟨eTrkEventCodes.SetTempo, [120]⟩, ⟨eTrkEventCodes.EndOfTrack, []⟩]⟩,
    ⟨1, [⟨eTrkEventCodes.SetPreset, [1]⟩, ⟨eTrkEventCodes.Pause8Bits, [100]⟩, ⟨100, [0x55, 5]⟩,
         ⟨eTrkEventCodes.EndOfTrack, []⟩]⟩], 48, "seq"⟩

/-- A tempo track, and a track that selects program 1 and plays a note held 2 ticks at tick 100
and a note held 5 ticks at tick 150. -/
def seqTwoNotes : MusicSequence :=
  ⟨[⟨0, [⟨eTrkEventCodes.SetTempo, [120]⟩, ⟨eTrkEventCodes.EndOfTrack, []⟩]⟩,
    ⟨1, [⟨eTrkEventCodes.SetPreset, [1]⟩, ⟨eTrkEventCodes.Pause8Bits, [100]⟩, ⟨100, [0x55, 2]⟩,
         ⟨eTrkEventCodes.Pause8Bits, [50]⟩, ⟨100, [0x57, 5]⟩,
         ⟨eTrkEventCodes.EndOfTrack, []⟩]⟩], 48, "seq"⟩

/-- The variables of a track before its first event. -/
def varsInit : EventVars := ⟨{}, {}, false, false, []⟩

/-- The variables of a track on channel 0 after `SetPreset 9` as first event, with a table that
has no entry for program 9. -/
def varsAfterPreset9 : EventVars :=
  { state := { eventno_ := 1, prgm_ := 9, curbank_ := 127, hasinvalidbank := true, dseprgm_ := 9 }
    befloopstate := {}
    m_bshouldloop := false
    m_bLoopBegSet := false
    outtrack := [⟨0, .ControlChange 0 0 127⟩, ⟨0, .ProgramChange 0 9⟩] }

/-- The variables of the same track after a further `Pause8 10`. -/
def varsAfterPreset9Pause10 : EventVars :=
  { varsAfterPreset9 with
    state := { varsAfterPreset9.state with ticks_ := 10, eventno_ := 2, lastpause_ := 10 } }

/-- A tempo track, and a track that selects program 1, waits 100 ticks, marks its loop point,
plays a note held 5 ticks and waits 50 ticks. -/
def seqLoopNote : MusicSequence :=
  ⟨[⟨0, [⟨eTrkEventCodes.SetTempo, [120]⟩, ⟨eTrkEventCodes.EndOfTrack, []⟩]⟩,
    ⟨1, [⟨eTrkEventCodes.SetPreset, [1]⟩, ⟨eTrkEventCodes.Pause8Bits, [100]⟩,
         ⟨eTrkEventCodes.LoopPointSet, []⟩, ⟨100, [0x55, 5]⟩, ⟨eTrkEventCodes.Pause8Bits, [50]⟩,
         ⟨eTrkEventCodes.EndOfTrack, []⟩]⟩], 48, "seq"⟩

/-- One track: a loop-point marker followed by 10 events, the first of which is a second
loop-point marker and the others pauses of one tick. -/
def seqTwoMarkers : MusicSequence :=
  oneTrack ([⟨eTrkEventCodes.LoopPointSet, []⟩, ⟨eTrkEventCodes.LoopPointSet, []⟩] ++
    List.replicate 9 ⟨eTrkEventCodes.Pause8Bits, [1]⟩)

/-- Ten events: five times a note held 5 ticks followed by a pause of 10 ticks. -/
def tenEvents : List TrkEvent :=
  [ ⟨100, [0x55, 5]⟩, ⟨eTrkEventCodes.Pause8Bits, [10]⟩, ⟨100, [0x57, 5]⟩,
    ⟨eTrkEventCodes.Pause8Bits, [10]⟩, ⟨100, [0x59, 5]⟩, ⟨eTrkEventCodes.Pause8Bits, [10]⟩,
    ⟨100, [0x57, 5]⟩, ⟨eTrkEventCodes.Pause8Bits, [10]⟩, ⟨100, [0x55, 5]⟩,
    ⟨eTrkEventCodes.Pause8Bits, [10]⟩ ]

/-- One track: a pause of 4 ticks, a loop-point marker, `tenEvents` and an end-of-track event. -/
def seqLoopTen : MusicSequence :=
  oneTrack ([⟨eTrkEventCodes.Pause8Bits, [4]⟩] ++
    ⟨eTrkEventCodes.LoopPointSet, []⟩ :: (tenEvents ++ [⟨eTrkEventCodes.EndOfTrack, []⟩]))

/-- A converter state of one track: the live state is at tick 150 in octave 3, the saved state was
taken at tick 100 in octave 2 with the loop point 3. -/
def stateBeforeReplay : ConvState :=
  { m_trkstates := [{ ticks_ := 150, eventno_ := 5, octave_ := 3, looppoint_ := 3 }]
    m_beflooptrkstates := [{ ticks_ := 100, eventno_ := 2, octave_ := 2, looppoint_ := 3 }]
    m_bshouldloop := true }

/-! ## Reading the exporter's output -/

/-- The value of one hexadecimal digit character. -/
def hexDigitValue (c : Char) : Nat :=
  if c.toNat < 58 then c.toNat - 48 else c.toNat - 55

/-- The number that a text of hexadecimal digits denotes, most significant digit first. -/
def hexValue (text : String) : Nat :=
  text.data.foldl (fun acc c => acc * 16 + hexDigitValue c) 0

/-- The events that the loop of `ExportATrack` passes to `HandleEvent` when it starts at the
first event of `evs`: the events before the first end-of-track event. -/
def processed (evs : List TrkEvent) : List TrkEvent :=
  evs.takeWhile fun ev =>
    !decide (ev.evcode = eTrkEventCodes.EndOfTrack ∧ ¬ ShouldExportEventsPastEoT)

/-- An empty tempo track, and a track whose first event sets the tempo to 120 beats per
minute. -/
def seqTempoOnTrack1 : MusicSequence :=
  ⟨[⟨0, [⟨eTrkEventCodes.EndOfTrack, []⟩]⟩,
    ⟨1, [⟨eTrkEventCodes.SetTempo, [120]⟩, ⟨eTrkEventCodes.EndOfTrack, []⟩]⟩], 48, "seq"⟩

/-- One track: a pause of 4 ticks, then a pause until release. -/
def seqPauseUntilRel : MusicSequence :=
  oneTrack [⟨eTrkEventCodes.Pause8Bits, [4]⟩, ⟨eTrkEventCodes.PauseUntilRel, []⟩,
    ⟨eTrkEventCodes.EndOfTrack, []⟩]

/-- A conversion table whose only entry, for DSE program 1, keeps the program and the bank and
transposes the notes one octave up. -/
def tableTransposeUp : SMDLPresetConversionInfo :=
  ⟨[(1, { PresetConvData.ctor 1 0 255 0 0 0 with transpose := 1 })]⟩

/-- One track: select program 1, set octave 9 and play the key `key` of that octave, with no hold
duration byte. -/
def seqOctave9Key (key : Nat) : MusicSequence :=
  oneTrack [⟨eTrkEventCodes.SetPreset, [1]⟩, ⟨eTrkEventCodes.SetOctave, [9]⟩, ⟨100, [0x10 + key]⟩,
    ⟨eTrkEventCodes.EndOfTrack, []⟩]

/-- Whether a message is a system-exclusive message. -/
def MIDITimedBigMessage.IsSysEx (m : MIDITimedBigMessage) : Bool :=
  match m.body with
  | .SysEx _ => true
  | _ => false

/-- Whether a message is a channel message: a note, a controller, a program change or a pitch
bend. -/
def MIDITimedBigMessage.IsChannel (m : MIDITimedBigMessage) : Bool :=
  match m.body with
  | .NoteOn _ _ _ => true
  | .NoteOff _ _ _ => true
  | .ControlChange _ _ _ => true
  | .ProgramChange _ _ => true
  | .PitchBend _ _ => true
  | _ => false

/-- Whether a message is the marker text that ends the loop. -/
def MIDITimedBigMessage.IsLoopEnd (m : MIDITimedBigMessage) : Bool :=
  decide (m.body = .Text .META_MARKER_TEXT TXT_LoopEnd)

/-- Whether an entry of the trace records a call of `HandleEvent`. -/
def TraceEntry.IsEvent (e : TraceEntry) : Bool :=
  match e with
  | .event _ _ => true
  | _ => false

/-- What the export of another track leaves of track `t`: the sizes of the two state vectors, the
live and the saved state of `t`, the number of calls of `HandleEvent` on each event of `t`, and
the loop flag once it is set. -/
def ConvState.KeepsTrack (t : Nat) (s s' : ConvState) : Prop :=
  s'.m_trkstates.length = s.m_trkstates.length ∧
  s'.m_beflooptrkstates.length = s.m_beflooptrkstates.length ∧
  s'.m_trkstates.getD t default = s.m_trkstates.getD t default ∧
  s'.m_beflooptrkstates.getD t default = s.m_beflooptrkstates.getD t default ∧
  (∀ i, s'.trace.count (.event t i) = s.trace.count (.event t i)) ∧
  (s.m_bshouldloop = true → s'.m_bshouldloop = true)

/-- Two tracks that both mark a loop point: the first one at once, the second one after a pause
of 5 ticks. -/
def seqTwoLoopTracks : MusicSequence :=
  ⟨[⟨0, [⟨eTrkEventCodes.LoopPointSet, []⟩, ⟨eTrkEventCodes.Pause8Bits, [10]⟩,
         ⟨eTrkEventCodes.EndOfTrack, []⟩]⟩,
    ⟨1, [⟨eTrkEventCodes.Pause8Bits, [5]⟩, ⟨eTrkEventCodes.LoopPointSet, []⟩,
         ⟨eTrkEventCodes.Pause8Bits, [5]⟩, ⟨eTrkEventCodes.EndOfTrack, []⟩]⟩], 48, "seq"⟩

/-- A conversion table whose entry for DSE program 1 remaps the note 5 to the note 60 of preset
9 in bank 2. -/
def tableOverride : SMDLPresetConversionInfo :=
  ⟨[(1, { PresetConvData.ctor 1 0 255 0 0 0 with
      remapnotes := [(5, { destnote := 60, destpreset := 9, destbank := 2 })] })]⟩

/-- Two converter states that agree on track `N`: both hold a live and a saved state for it, these
are the same in both, and so are the two loop flags. -/
def ConvState.SameTrack (N : Nat) (s1 s2 : ConvState) : Prop :=
  N < s1.m_trkstates.length ∧ N < s2.m_trkstates.length ∧
  N < s1.m_beflooptrkstates.length ∧ N < s2.m_beflooptrkstates.length ∧
  s1.m_trkstates.getD N default = s2.m_trkstates.getD N default ∧
  s1.m_beflooptrkstates.getD N default = s2.m_beflooptrkstates.getD N default ∧
  s1.m_bshouldloop = s2.m_bshouldloop ∧ s1.m_bLoopBegSet = s2.m_bLoopBegSet

instance (N : Nat) (s1 s2 : ConvState) : Decidable (ConvState.SameTrack N s1 s2) := by
  unfold ConvState.SameTrack
  infer_instance

/-- What two runs that go from `s1` to `s1'` and from `s2` to `s2'` have in common when they
put the same messages and make the same calls, and end in states that agree on track `N`. -/
def ConvState.SamePass (N : Nat) (s1 s2 s1' s2' : ConvState) : Prop :=
  ConvState.SameTrack N s1' s2' ∧
  ∃ msgs tr,
    s1'.m_midiout.events = s1.m_midiout.events ++ msgs ∧
    s2'.m_midiout.events = s2.m_midiout.events ++ msgs ∧
    s1'.trace = s1.trace ++ tr ∧ s2'.trace = s2.trace ++ tr

/-- A track on channel 0 that sets the tempo and waits 10 ticks, and a second track on channel 1
with the events `track1`. -/
def seqTempoPause (track1 : List TrkEvent) : MusicSequence :=
  ⟨[⟨0, [⟨eTrkEventCodes.SetTempo, [120]⟩, ⟨eTrkEventCodes.Pause8Bits, [10]⟩,
         ⟨eTrkEventCodes.EndOfTrack, []⟩]⟩,
    ⟨1, track1⟩], 48, "seq"⟩

/-- A first track on channel 0 with the events `track0`, and a track on channel 1 that waits 5
ticks, marks its loop point and waits 5 ticks. -/
def seqMarkerOnTrack1 (track0 : List TrkEvent) : MusicSequence :=
  ⟨[⟨0, track0⟩,
    ⟨1, [⟨eTrkEventCodes.Pause8Bits, [5]⟩, ⟨eTrkEventCodes.LoopPointSet, []⟩,
         ⟨eTrkEventCodes.Pause8Bits, [5]⟩, ⟨eTrkEventCodes.EndOfTrack, []⟩]⟩], 48, "seq"⟩

/-- Whether a trace entry is the exit of `ExportATrack`. -/
def TraceEntry.IsLeave (e : TraceEntry) : Bool :=
  match e with
  | .leave _ _ => true
  | _ => false

/-- The bytes of a system-exclusive message, if the message is one. -/
def MIDITimedBigMessage.sysexBytes (m : MIDITimedBigMessage) : Option (List Nat) :=
  match m.body with
  | .SysEx bytes => some bytes
  | _ => none

/-- The address (three bytes), the data byte and the checksum of a Roland data-set message: the
five bytes before the end-of-exclusive byte. -/
def rolandFields (bytes : List Nat) : List Nat :=
  ((bytes.reverse.drop 1).take 5).reverse

/-- A conversion table whose entry for DSE program 1 remaps the note 5 to the note 60 of preset 9
with no bank, and the note 6 to the note 61 of bank 2 with no preset. -/
def tablePartialOverride : SMDLPresetConversionInfo :=
  ⟨[(1, { PresetConvData.ctor 1 0 255 0 0 0 with
      remapnotes := [(5, { destnote := 60, destpreset := 9, destbank := -1 }),
                     (6, { destnote := 61, destpreset := 255, destbank := 2 })] })]⟩
/-- The value of a bank select message: a control change of the controller `C_GM_BANK`. -/
def MIDITimedBigMessage.bankValue (m : MIDITimedBigMessage) : Option Nat :=
  match m.body with
  | .ControlChange _ ctrl val => if ctrl = C_GM_BANK then some val else none
  | _ => none

/-- The value of a program change message. -/
def MIDITimedBigMessage.programValue (m : MIDITimedBigMessage) : Option Nat :=
  match m.body with
  | .ProgramChange _ prg => some prg
  | _ => none

/-- The value of the last bank select of a list of messages, if it has one. -/
def lastBankSelect (out : List MIDITimedBigMessage) : Option Nat :=
  (out.filterMap MIDITimedBigMessage.bankValue).getLast?

/-- The value of the last program change of a list of messages, if it has one. -/
def lastProgramChange (out : List MIDITimedBigMessage) : Option Nat :=
  (out.filterMap MIDITimedBigMessage.programValue).getLast?

/-- The bank a track sounds with: the override bank when an override is latched, the current bank
otherwise. -/
def TrkState.effectiveBank (st : TrkState) : Nat :=
  if st.presetoverriden then st.ovrbank_ else st.curbank_

/-- The program a track sounds with: the override program when an override is latched, the
current program otherwise. -/
def TrkState.effectivePrgm (st : TrkState) : Nat :=
  if st.presetoverriden then st.ovrprgm_ else st.prgm_

/-- The messages `out` put for a track agree with its state: the last bank select, if there is
one, carries the effective bank and the last program change, if there is one, the effective
program, as bytes. -/
def TrkState.Agrees (st : TrkState) (out : List MIDITimedBigMessage) : Prop :=
  (∀ b, lastBankSelect out = some b → b % 256 = st.effectiveBank % 256) ∧
  (∀ p, lastProgramChange out = some p → p % 256 = st.effectivePrgm % 256)

instance (st : TrkState) (out : List MIDITimedBigMessage) : Decidable (st.Agrees out) :=
  decidable_of_iff
    (((lastBankSelect out).all fun b => decide (b % 256 = st.effectiveBank % 256)) = true ∧
      ((lastProgramChange out).all fun p => decide (p % 256 = st.effectivePrgm % 256)) = true)
    (by
      unfold TrkState.Agrees
      cases lastBankSelect out <;> cases lastProgramChange out <;> simp)

/-- One track on channel 0 that selects program 1, marks its loop point, plays a note, selects
program 2 and plays a second note. -/
def seqPresetAfterLoop : MusicSequence :=
  oneTrack [⟨eTrkEventCodes.SetPreset, [1]⟩, ⟨eTrkEventCodes.LoopPointSet, []⟩, ⟨100, [0x55, 5]⟩,
    ⟨eTrkEventCodes.SetPreset, [2]⟩, ⟨100, [0x57, 5]⟩, ⟨eTrkEventCodes.EndOfTrack, []⟩]

/-- A converter state of one track whose live state, at tick 10, has the program 2 and whose saved
state has the program 1 and the loop point 2. -/
def stateProgramChanged : ConvState :=
  { m_trkstates := [{ ticks_ := 10, prgm_ := 2 }]
    m_beflooptrkstates := [{ prgm_ := 1, looppoint_ := 2 }] }

/-- The channel of a channel message (a note, a controller, a program change or a pitch bend);
the other messages have none. -/
def MIDITimedBigMessage.channel (m : MIDITimedBigMessage) : Option Nat :=
  match m.body with
  | .NoteOn chan _ _ => some chan
  | .NoteOff chan _ _ => some chan
  | .ControlChange chan _ _ => some chan
  | .ProgramChange chan _ => some chan
  | .PitchBend chan _ => some chan
  | _ => none

/-- Whether a message is the marker text that starts the loop. -/
def MIDITimedBigMessage.IsLoopStart (m : MIDITimedBigMessage) : Bool :=
  decide (m.body = .Text .META_MARKER_TEXT TXT_LoopStart)

/-- The state of the single-track export as far as the marker that starts the loop goes: the two
loop flags are equal, and the output holds one such marker when they are set and none when they
are not. -/
def ConvState.OneLoopStart (s : ConvState) : Prop :=
  s.m_bshouldloop = s.m_bLoopBegSet ∧
  (s.m_midiout.events.filter fun x => x.2.IsLoopStart).length = if s.m_bLoopBegSet then 1 else 0

end DSE

namespace DSE
open eTrkEventCodes

/-! ## Frame properties of the note handler -/

/-- The bank half of an override changes the override bank only and puts no note message. -/
theorem HandlePlayNote.overrideBank_spec (chan : Nat) (state : TrkState) (remapdata : NoteRemapData) :
    (∃ ovrbank, (HandlePlayNote.overrideBank chan state remapdata).1 =
        { state with ovrbank_ := ovrbank }) ∧
    ∀ m ∈ (HandlePlayNote.overrideBank chan state remapdata).2,
      m.IsNoteOn = false ∧ m.IsNoteOff = false := by
  unfold HandlePlayNote.overrideBank
  split_ifs <;> exact ⟨⟨_, rfl⟩, by simp [MIDITimedBigMessage.IsNoteOn, MIDITimedBigMessage.IsNoteOff]⟩

/-- The preset half of an override changes the override program only and puts no note
message. -/
theorem HandlePlayNote.overridePreset_spec (trkchan : Nat) (state : TrkState)
    (remapdata : NoteRemapData) :
    (∃ ovrprgm, (HandlePlayNote.overridePreset trkchan state remapdata).1 =
        { state with ovrprgm_ := ovrprgm }) ∧
    ∀ m ∈ (HandlePlayNote.overridePreset trkchan state remapdata).2,
      m.IsNoteOn = false ∧ m.IsNoteOff = false := by
  unfold HandlePlayNote.overridePreset
  split_ifs <;> exact ⟨⟨_, rfl⟩, by simp [MIDITimedBigMessage.IsNoteOn, MIDITimedBigMessage.IsNoteOff]⟩

/-- The override statement changes the latch and the two override values only and puts no note
message. -/
theorem HandlePlayNote.override_spec (chan trkchan : Nat) (state : TrkState)
    (remapdata : NoteRemapData) :
    (∃ latch ovrbank ovrprgm, (HandlePlayNote.override chan trkchan state remapdata).1 =
        { state with presetoverriden := latch, ovrbank_ := ovrbank, ovrprgm_ := ovrprgm }) ∧
    ∀ m ∈ (HandlePlayNote.override chan trkchan state remapdata).2,
      m.IsNoteOn = false ∧ m.IsNoteOff = false := by
  unfold HandlePlayNote.override
  split_ifs
  · exact ⟨⟨_, _, _, rfl⟩, by simp [MIDITimedBigMessage.IsNoteOn, MIDITimedBigMessage.IsNoteOff]⟩
  · obtain ⟨⟨b, hb⟩, hbm⟩ := HandlePlayNote.overrideBank_spec chan state remapdata
    obtain ⟨⟨p, hp⟩, hpm⟩ := HandlePlayNote.overridePreset_spec trkchan
      (HandlePlayNote.overrideBank chan state remapdata).1 remapdata
    refine ⟨⟨true, b, p, ?_⟩, ?_⟩
    · show { (HandlePlayNote.overridePreset trkchan
          (HandlePlayNote.overrideBank chan state remapdata).1 remapdata).1 with
          presetoverriden := true } = _
      rw [hp, hb]
    · intro m hm
      rcases List.mem_append.mp hm with h | h
      · exact hbm m h
      · exact hpm m h
  · exact ⟨⟨_, _, _, rfl⟩, by simp⟩

/-- The fields of the track state that the conversion-table block of `HandlePlayNote` can change
are the override latch and the two override values. -/
theorem HandlePlayNote.remap_state (self : DSESequenceToMidi) (convtable : SMDLPresetConversionInfo)
    (trkno trkchan : Nat) (state : TrkState) (mnoteid : Nat) :
    ∃ latch ovrbank ovrprgm,
      (HandlePlayNote.remap self convtable trkno trkchan state mnoteid).state =
        { state with presetoverriden := latch, ovrbank_ := ovrbank, ovrprgm_ := ovrprgm } :=
  (HandlePlayNote.override_spec _ trkchan state _).1

/-- The conversion-table block of `HandlePlayNote` puts no note message on the track. -/
theorem HandlePlayNote.remap_out (self : DSESequenceToMidi) (convtable : SMDLPresetConversionInfo)
    (trkno trkchan : Nat) (state : TrkState) (mnoteid : Nat) :
    ∀ m ∈ (HandlePlayNote.remap self convtable trkno trkchan state mnoteid).out,
      m.IsNoteOn = false ∧ m.IsNoteOff = false :=
  (HandlePlayNote.override_spec _ trkchan state _).2

/-- The parsing statements of `HandlePlayNote` change the octave and the last hold duration
only. -/
theorem HandlePlayNote.parse_state (self : DSESequenceToMidi) (state : TrkState) (ev : TrkEvent) :
    ∃ octave hold,
      (HandlePlayNote.parse self state ev).1 = { state with octave_ := octave, lasthold_ := hold } := by
  unfold HandlePlayNote.parse
  simp only []
  split_ifs <;> exact ⟨_, _, rfl⟩

/-- The fields of the track state that the remapping statement can change are the override latch
and the two override values. -/
theorem HandlePlayNote.convert_state (self : DSESequenceToMidi) (trkno trkchan : Nat)
    (state : TrkState) (mnoteid : Nat) :
    ∃ latch ovrbank ovrprgm,
      (HandlePlayNote.convert self trkno trkchan state mnoteid).state =
        { state with presetoverriden := latch, ovrbank_ := ovrbank, ovrprgm_ := ovrprgm } := by
  unfold HandlePlayNote.convert
  cases self.m_convtable with
  | none => exact ⟨_, _, _, rfl⟩
  | some convtable => exact HandlePlayNote.remap_state self convtable trkno trkchan state mnoteid

/-- The remapping statement puts no note message on the track. -/
theorem HandlePlayNote.convert_out (self : DSESequenceToMidi) (trkno trkchan : Nat)
    (state : TrkState) (mnoteid : Nat) :
    ∀ m ∈ (HandlePlayNote.convert self trkno trkchan state mnoteid).out,
      m.IsNoteOn = false ∧ m.IsNoteOff = false := by
  unfold HandlePlayNote.convert
  cases self.m_convtable with
  | none => simp
  | some convtable => exact HandlePlayNote.remap_out self convtable trkno trkchan state mnoteid

/-- The fields of the track state that `HandlePlayNote` can change are the octave, the last hold
duration, the override latch and the two override values. -/
theorem HandlePlayNote_state (self : DSESequenceToMidi) (trkno trkchan : Nat) (state : TrkState)
    (ev : TrkEvent) :
    ∃ octave hold latch ovrbank ovrprgm,
      (HandlePlayNote self trkno trkchan state ev).1 =
        { state with octave_ := octave, lasthold_ := hold, presetoverriden := latch,
                     ovrbank_ := ovrbank, ovrprgm_ := ovrprgm } := by
  obtain ⟨o, h, hp⟩ := HandlePlayNote.parse_state self state ev
  obtain ⟨l, b, p, hc⟩ := HandlePlayNote.convert_state self trkno trkchan
    (HandlePlayNote.parse self state ev).1 (HandlePlayNote.parse self state ev).2
  refine ⟨o, h, l, b, p, ?_⟩
  show (HandlePlayNote.convert self trkno trkchan (HandlePlayNote.parse self state ev).1
    (HandlePlayNote.parse self state ev).2).state = _
  rw [hc, hp]

/-- The messages of `HandlePlayNote`: bank and program messages, then one note-on at the tick
count of the track, then one note-off at `HandlePlayNote.noteofftime` of the new state. -/
theorem HandlePlayNote_out (self : DSESequenceToMidi) (trkno trkchan : Nat) (state : TrkState)
    (ev : TrkEvent) :
    ∃ pre note,
      (HandlePlayNote self trkno trkchan state ev).2 =
        pre ++ [ ⟨state.ticks_, .NoteOn trkchan note
                   (if (HandlePlayNote self trkno trkchan state ev).1.hasinvalidbank then 0
                    else ev.evcode &&& 0x7F)⟩,
                 ⟨HandlePlayNote.noteofftime self (HandlePlayNote self trkno trkchan state ev).1,
                   .NoteOff trkchan (note &&& 0x7F) (ev.evcode &&& 0x7F)⟩ ] ∧
      (∀ m ∈ pre, m.IsNoteOn = false ∧ m.IsNoteOff = false) := by
  obtain ⟨o, h, hp⟩ := HandlePlayNote.parse_state self state ev
  have ht : (HandlePlayNote.parse self state ev).1.ticks_ = state.ticks_ := by rw [hp]
  refine ⟨(HandlePlayNote.convert self trkno trkchan (HandlePlayNote.parse self state ev).1
      (HandlePlayNote.parse self state ev).2).out,
    (HandlePlayNote.convert self trkno trkchan (HandlePlayNote.parse self state ev).1
      (HandlePlayNote.parse self state ev).2).mnoteid, ?_,
    HandlePlayNote.convert_out self trkno trkchan _ _⟩
  unfold HandlePlayNote
  simp only [ShouldLeaveNoteWithInvalidPreset, ht]
  split_ifs <;> simp_all

/-- A list of bank and program messages followed by a note-on and a note-off holds exactly that
note-on and exactly that note-off. -/
theorem filter_notes (pre : List MIDITimedBigMessage) (noteon noteoff : MIDITimedBigMessage)
    (hpre : ∀ m ∈ pre, m.IsNoteOn = false ∧ m.IsNoteOff = false)
    (hon : noteon.IsNoteOn = true ∧ noteon.IsNoteOff = false)
    (hoff : noteoff.IsNoteOn = false ∧ noteoff.IsNoteOff = true) :
    (pre ++ [noteon, noteoff]).filter MIDITimedBigMessage.IsNoteOn = [noteon] ∧
    (pre ++ [noteon, noteoff]).filter MIDITimedBigMessage.IsNoteOff = [noteoff] := by
  have h1 : pre.filter MIDITimedBigMessage.IsNoteOn = [] :=
    List.filter_eq_nil_iff.mpr fun m hm => by simp [(hpre m hm).1]
  have h2 : pre.filter MIDITimedBigMessage.IsNoteOff = [] :=
    List.filter_eq_nil_iff.mpr fun m hm => by simp [(hpre m hm).2]
  simp [List.filter_append, h1, h2, List.filter_cons, hon.1, hon.2, hoff.1, hoff.2]

/-- With a table entry whose maximum key-down duration is not zero, the time given to the
note-off is the smaller of the hold duration and that maximum. -/
theorem HandlePlayNote.noteofftime_clamped (self : DSESequenceToMidi)
    (convtable : SMDLPresetConversionInfo) (found : PresetConvData) (state : TrkState)
    (htbl : self.m_convtable = some convtable)
    (hfound : convtable.FindConversionInfo state.dseprgm_ = some found)
    (hM : found.maxkeydowndur ≠ 0) :
    HandlePlayNote.noteofftime self state = min state.lasthold_ found.maxkeydowndur := by
  unfold HandlePlayNote.noteofftime
  simp only [htbl, hfound, hM, ne_eq, not_false_eq_true, if_true, Clamp]
  split_ifs <;> omega

/-- Without a clamp (no table, no entry for the program, or an entry with maximum 0) the time
given to the note-off is the 32-bit sum of the tick count and the hold duration. -/
theorem HandlePlayNote.noteofftime_unclamped (self : DSESequenceToMidi) (state : TrkState)
    (h : ∀ convtable found, self.m_convtable = some convtable →
      convtable.FindConversionInfo state.dseprgm_ = some found → found.maxkeydowndur = 0) :
    HandlePlayNote.noteofftime self state = u32 (state.ticks_ + state.lasthold_) := by
  unfold HandlePlayNote.noteofftime
  cases htbl : self.m_convtable with
  | none => simp
  | some convtable =>
    cases hfound : convtable.FindConversionInfo state.dseprgm_ with
    | none => simp [hfound]
    | some found => simp [hfound, h convtable found htbl hfound]

/-! ## Note-off ticks -/

/-- C1: the note-off tick is at least the note-on tick. The converter breaks this: for the track
`[SetPreset 1, Pause8 100, NoteOn (hold 5)]` and a table whose entry for program 1 has a maximum
key-down duration of 3, the note-on is put at tick 100 and its note-off at tick 3. -/
theorem Export_noteoff_tick_below_noteon_tick :
    (Export (converter seqNoteAfterPause (some tableMaxKeyDown3) .MultiTrack 0)).map
        (fun s => s.m_midiout.GetTrack 1)
      = .ok [ ⟨0, .ControlChange 1 0 0⟩, ⟨0, .ProgramChange 1 0⟩,
              ⟨100, .NoteOn 1 5 100⟩, ⟨3, .NoteOff 1 5 100⟩ ] := by
  decide

/-- C2: with a maximum key-down duration M the note-off belongs at tick t + min(h, M). The
converter puts it at tick min(h, M): with M = 3, the note held 2 ticks at tick 100 gets its
note-off at tick 2 (not 102) and the note held 5 ticks at tick 150 gets it at tick 3 (not 153). -/
theorem Export_noteoff_tick_drops_noteon_tick :
    (Export (converter seqTwoNotes (some tableMaxKeyDown3) .MultiTrack 0)).map
        (fun s => (s.m_midiout.GetTrack 1).filter
          fun m => m.IsNoteOn || m.IsNoteOff)
      = .ok [ ⟨100, .NoteOn 1 5 100⟩, ⟨2, .NoteOff 1 5 100⟩,
              ⟨150, .NoteOn 1 7 100⟩, ⟨3, .NoteOff 1 7 100⟩ ] := by
  decide

/-- C3: when the table has an entry with maximum key-down duration M ≠ 0 for the DSE program of
the track, `HandlePlayNote` puts exactly one note-on, at the tick count t of the track, and
exactly one note-off, whose tick is at most t + M. -/
theorem HandlePlayNote_noteoff_le_maxkeydowndur (self : DSESequenceToMidi)
    (convtable : SMDLPresetConversionInfo) (found : PresetConvData) (trkno trkchan : Nat)
    (state : TrkState) (ev : TrkEvent)
    (htbl : self.m_convtable = some convtable)
    (hfound : convtable.FindConversionInfo state.dseprgm_ = some found)
    (hM : found.maxkeydowndur ≠ 0) :
    ∃ noteon noteoff,
      (HandlePlayNote self trkno trkchan state ev).2.filter MIDITimedBigMessage.IsNoteOn = [noteon] ∧
      (HandlePlayNote self trkno trkchan state ev).2.filter MIDITimedBigMessage.IsNoteOff = [noteoff] ∧
      noteon.time = state.ticks_ ∧
      noteoff.time ≤ state.ticks_ + found.maxkeydowndur := by
  obtain ⟨pre, note, hout, hpre⟩ := HandlePlayNote_out self trkno trkchan state ev
  obtain ⟨o, h, l, b, p, hst⟩ := HandlePlayNote_state self trkno trkchan state ev
  have hprg : (HandlePlayNote self trkno trkchan state ev).1.dseprgm_ = state.dseprgm_ := by rw [hst]
  have hoff := HandlePlayNote.noteofftime_clamped self convtable found
    (HandlePlayNote self trkno trkchan state ev).1 htbl (by rw [hprg]; exact hfound) hM
  obtain ⟨hon, hof⟩ := filter_notes pre _ _ hpre
    (show (MIDITimedBigMessage.mk state.ticks_ (.NoteOn trkchan note
      (if (HandlePlayNote self trkno trkchan state ev).1.hasinvalidbank then 0
       else ev.evcode &&& 0x7F))).IsNoteOn = true ∧ _ from ⟨rfl, rfl⟩)
    (show (MIDITimedBigMessage.mk
      (HandlePlayNote.noteofftime self (HandlePlayNote self trkno trkchan state ev).1)
      (.NoteOff trkchan (note &&& 0x7F) (ev.evcode &&& 0x7F))).IsNoteOn = false ∧ _ from ⟨rfl, rfl⟩)
  refine ⟨_, _, by rw [hout]; exact hon, by rw [hout]; exact hof, rfl, ?_⟩
  show HandlePlayNote.noteofftime self _ ≤ _
  rw [hoff]
  omega

/-- C3 at the state of a track at tick 100 on program 1, with a maximum of 3 ticks. -/
theorem HandlePlayNote_noteoff_le_maxkeydowndur_witness :
    (converter (oneTrack []) (some tableMaxKeyDown3) .MultiTrack 0).m_convtable
        = some tableMaxKeyDown3 ∧
      tableMaxKeyDown3.FindConversionInfo ({ ticks_ := 100, dseprgm_ := 1 } : TrkState).dseprgm_
        = some (PresetConvData.ctor 0 0 255 0 3 0) ∧
      (PresetConvData.ctor 0 0 255 0 3 0).maxkeydowndur ≠ 0 ∧
      ∃ noteon noteoff,
        (HandlePlayNote (converter (oneTrack []) (some tableMaxKeyDown3) .MultiTrack 0) 0 0
          { ticks_ := 100, dseprgm_ := 1 } ⟨100, [0x55, 5]⟩).2.filter
            MIDITimedBigMessage.IsNoteOn = [noteon] ∧
        (HandlePlayNote (converter (oneTrack []) (some tableMaxKeyDown3) .MultiTrack 0) 0 0
          { ticks_ := 100, dseprgm_ := 1 } ⟨100, [0x55, 5]⟩).2.filter
            MIDITimedBigMessage.IsNoteOff = [noteoff] ∧
        noteon.time = ({ ticks_ := 100, dseprgm_ := 1 } : TrkState).ticks_ ∧
        noteoff.time ≤ ({ ticks_ := 100, dseprgm_ := 1 } : TrkState).ticks_ +
          (PresetConvData.ctor 0 0 255 0 3 0).maxkeydowndur :=
  ⟨rfl, by decide, by decide,
    HandlePlayNote_noteoff_le_maxkeydowndur _ tableMaxKeyDown3 (PresetConvData.ctor 0 0 255 0 3 0)
      0 0 { ticks_ := 100, dseprgm_ := 1 } ⟨100, [0x55, 5]⟩ rfl (by decide) (by decide)⟩

/-! ## Add to last pause -/

/-- C4: an add-to-last-pause event with signed delta d sets the last pause to max(0, L + d). The
handler compares the unsigned parameter byte with the last pause instead: after an 8-bit pause
of 3 ticks, adding 5 leaves a last pause of 0 (not 8) and the tick count at 3 (not 11); after a
pause of 10 ticks, adding -1 (byte 0xFF) leaves a last pause of 0 (not 9). -/
theorem HandlePauses_AddToLastPause_clamps_positive_sum :
    ((HandlePauses Pause8Bits ⟨Pause8Bits, [3]⟩ {}).bind
        (HandlePauses AddToLastPause ⟨AddToLastPause, [5]⟩)
      = .ok { ticks_ := 3, lastpause_ := 0 }) ∧
    ((HandlePauses Pause8Bits ⟨Pause8Bits, [10]⟩ {}).bind
        (HandlePauses AddToLastPause ⟨AddToLastPause, [0xFF]⟩)
      = .ok { ticks_ := 10, lastpause_ := 0 }) := by
  decide

/-- C5: when the signed delta d of an add-to-last-pause event is negative and larger in
magnitude than the last pause, `HandlePauses` sets the last pause to 0 and leaves every other
field of the track state, the tick count included, as it was. -/
theorem HandlePauses_AddToLastPause_negative_clamps_to_zero (state : TrkState) (ev : TrkEvent)
    (hbyte : ev.front < 256)
    (hticks : state.ticks_ < 4294967296)
    (hneg : i8 ev.front < 0)
    (hmag : (state.lastpause_ : Int) < - i8 ev.front) :
    HandlePauses AddToLastPause ev state = .ok { state with lastpause_ := 0 } := by
  have hge : ev.front ≥ state.lastpause_ := by
    unfold i8 at hneg hmag
    split_ifs at hneg hmag <;> omega
  have ht : u32 state.ticks_ = state.ticks_ := by
    unfold u32
    omega
  simp [HandlePauses, AddToLastPause, Pause24Bits, Pause16Bits, Pause8Bits, hge, ht]

/-- C5 at a last pause of 3 ticks and the byte 0xFB (delta -5). -/
theorem HandlePauses_AddToLastPause_negative_clamps_to_zero_witness :
    (⟨AddToLastPause, [0xFB]⟩ : TrkEvent).front < 256 ∧
      ({ ticks_ := 40, lastpause_ := 3 } : TrkState).ticks_ < 4294967296 ∧
      i8 (⟨AddToLastPause, [0xFB]⟩ : TrkEvent).front < 0 ∧
      ((({ ticks_ := 40, lastpause_ := 3 } : TrkState).lastpause_ : Nat) : Int)
        < - i8 (⟨AddToLastPause, [0xFB]⟩ : TrkEvent).front ∧
      HandlePauses AddToLastPause ⟨AddToLastPause, [0xFB]⟩ { ticks_ := 40, lastpause_ := 3 }
        = .ok { ticks_ := 40, lastpause_ := 0 } :=
  ⟨by decide, by decide, by decide, by decide,
    HandlePauses_AddToLastPause_negative_clamps_to_zero { ticks_ := 40, lastpause_ := 3 }
      ⟨AddToLastPause, [0xFB]⟩ (by decide) (by decide) (by decide) (by decide)⟩

/-! ## The example sequence -/

/-- C6: for the single track `[SetTempo 120, Pause8 48, NoteOn]`, where the note-on has event
code 100 (velocity 100), a first parameter byte that `ParsePlayNoteParam1` decodes at octave 0 as
note 5 followed by one hold byte, and the hold byte 0x30, every export without a conversion table
(either layout, any device mode and repeat count) succeeds and its output track 0 holds a tempo
message of 500000 at tick 0, a note-on of note 5 with velocity 100 at tick 48 and a note-off of
note 5 at tick 96. -/
theorem Export_example_tempo_pause_note (self : DSESequenceToMidi) (chan param1 octave : Nat)
    (hseq : self.m_seq.tracks =
      [⟨chan, [⟨SetTempo, [120]⟩, ⟨Pause8Bits, [48]⟩, ⟨100, [param1, 0x30]⟩]⟩])
    (htbl : self.m_convtable = none)
    (hparse : self.ParsePlayNoteParam1 param1 0 = ⟨octave, 1, 5⟩) :
    ∃ s, Export self = .ok s ∧
      ⟨0, .Tempo 500000⟩ ∈ s.m_midiout.GetTrack 0 ∧
      ⟨48, .NoteOn chan 5 100⟩ ∈ s.m_midiout.GetTrack 0 ∧
      ⟨96, .NoteOff chan 5 100⟩ ∈ s.m_midiout.GetTrack 0 := by
  have hdef : (default : TrkState) = {} := rfl
  have hdeft : (default : MusicTrack) = ⟨0, []⟩ := rfl
  obtain ⟨seq, tbl, nbloops, midifmt, midimode, delays, parse⟩ := self
  obtain ⟨tracks, tpqn, fname⟩ := seq
  simp only at hseq htbl hparse
  subst hseq htbl
  cases midifmt <;> cases midimode <;>
    simp +decide [Export, ExportAsSingleTrack, ExportAsMultiTrack, MusicSequence.getNbTracks, resize,
      PrepareMidiFile, forTracks, List.range, List.range.loop, ExportATrack, ExportATrack.loop,
      ExportATrack.step, ConvState.load, ConvState.store, MusicSequence.track, HandleEvent, HandleEvent.dispatch, HandleEvent.switch,
      HandlePauses, HandlePlayNote, HandlePlayNote.parse, HandlePlayNote.convert,
      HandlePlayNote.noteofftime, HandlePlayNote.holdtime, hparse,
      ConvertTempoToMicrosecPerQuarterNote, TrkEvent.front, hdef, hdeft, TrkEvent.param,
      MIDIMultiTrack.Put, MIDIMultiTrack.GetTrack, ShouldExportEventsPastEoT,
      ShouldLeaveNoteWithInvalidPreset, Except.map, ConvState.ticks, u8, u32,
      SetTempo, Pause8Bits, EndOfTrack, RepeatLastPause, PauseUntilRel, Delay_HN, Delay_64N,
      NoteOnBeg, NoteOnEnd, Pause24Bits, Pause16Bits, AddToLastPause, PutTextEvent]

/-- C6 for the multi-track export in General MIDI mode, the note-on parameter byte 0x55 being
decoded by `ParsePlayNoteParam1`. -/
theorem Export_example_tempo_pause_note_witness :
    (converter (oneTrack [⟨SetTempo, [120]⟩, ⟨Pause8Bits, [48]⟩, ⟨100, [0x55, 0x30]⟩]) none
        .MultiTrack 0).m_seq.tracks =
      [⟨0, [⟨SetTempo, [120]⟩, ⟨Pause8Bits, [48]⟩, ⟨100, [0x55, 0x30]⟩]⟩] ∧
    (converter (oneTrack [⟨SetTempo, [120]⟩, ⟨Pause8Bits, [48]⟩, ⟨100, [0x55, 0x30]⟩]) none
        .MultiTrack 0).m_convtable = none ∧
    (converter (oneTrack [⟨SetTempo, [120]⟩, ⟨Pause8Bits, [48]⟩, ⟨100, [0x55, 0x30]⟩]) none
        .MultiTrack 0).ParsePlayNoteParam1 0x55 0 = ⟨0, 1, 5⟩ ∧
    ∃ s, Export (converter (oneTrack [⟨SetTempo, [120]⟩, ⟨Pause8Bits, [48]⟩, ⟨100, [0x55, 0x30]⟩])
        none .MultiTrack 0) = .ok s ∧
      ⟨0, .Tempo 500000⟩ ∈ s.m_midiout.GetTrack 0 ∧
      ⟨48, .NoteOn 0 5 100⟩ ∈ s.m_midiout.GetTrack 0 ∧
      ⟨96, .NoteOff 0 5 100⟩ ∈ s.m_midiout.GetTrack 0 :=
  ⟨rfl, rfl, by decide,
    Export_example_tempo_pause_note _ 0 0x55 0 rfl rfl (by decide)⟩

/-! ## Frame properties of the event handlers -/

/-- `HandlePauses` changes the tick count and the last pause only. -/
theorem HandlePauses_state (code : Nat) (ev : TrkEvent) (state state' : TrkState)
    (h : HandlePauses code ev state = .ok state') :
    ∃ ticks lastpause, state' = { state with ticks_ := ticks, lastpause_ := lastpause } := by
  unfold HandlePauses at h
  simp only [] at h
  split_ifs at h <;> (cases h; exact ⟨_, _, rfl⟩)

/-- `HandleFixedPauses` changes the tick count and the last pause only. -/
theorem HandleFixedPauses_state (self : DSESequenceToMidi) (ev : TrkEvent) (state state' : TrkState)
    (h : HandleFixedPauses self ev state = .ok state') :
    ∃ ticks lastpause, state' = { state with ticks_ := ticks, lastpause_ := lastpause } := by
  unfold HandleFixedPauses at h
  cases hd : self.TrkDelayCodeVals.lookup ev.evcode with
  | none => simp [hd] at h
  | some d =>
    simp only [hd] at h
    injection h with h
    subst h
    exact ⟨_, _, rfl⟩

/-- `HandleSetPreset` changes the program and bank fields and clears the notes buffer. -/
theorem HandleSetPreset_state (self : DSESequenceToMidi) (ev : TrkEvent) (trkno trkchan : Nat)
    (state : TrkState) (mess_time : Nat) :
    ∃ invalid bank prgm maxpoly transpose,
      (HandleSetPreset self ev trkno trkchan state mess_time).1 =
        { state with hasinvalidbank := invalid, curbank_ := bank, prgm_ := prgm,
                     dseprgm_ := ev.front, curmaxpoly_ := maxpoly, transpose := transpose,
                     noteson_ := [] } := by
  unfold HandleSetPreset
  simp only []
  cases self.m_convtable with
  | none => exact ⟨_, _, _, _, _, rfl⟩
  | some convtable =>
    simp only []
    cases hf : convtable.FindConversionInfo ev.front with
    | none => exact ⟨_, _, _, _, _, rfl⟩
    | some found => exact ⟨_, _, _, _, _, rfl⟩

/-- What the `switch` of `HandleEvent` leaves unchanged. -/
theorem HandleEvent.switch_frame (self : DSESequenceToMidi) (trkno trkchan : Nat) (ev : TrkEvent)
    (v v' : EventVars) (h : HandleEvent.switch self trkno trkchan ev v = .ok v') :
    v'.state.eventno_ = v.state.eventno_ ∧
    (ev.evcode ≠ SetPreset →
      v'.state.hasinvalidbank = v.state.hasinvalidbank ∧ v'.state.dseprgm_ = v.state.dseprgm_ ∧
      v'.state.prgm_ = v.state.prgm_ ∧ v'.state.curbank_ = v.state.curbank_ ∧
      v'.state.transpose = v.state.transpose) ∧
    (ev.evcode ≠ LoopPointSet →
      v'.state.looppoint_ = v.state.looppoint_ ∧ v'.befloopstate = v.befloopstate ∧
      v'.m_bshouldloop = v.m_bshouldloop ∧ v'.m_bLoopBegSet = v.m_bLoopBegSet) ∧
    ∃ msgs, v'.outtrack = v.outtrack ++ msgs := by
  unfold HandleEvent.switch at h
  simp only [] at h
  split_ifs at h with h4 h5 h6 h7 h8 h9 h10 h11 h12
  · cases hp : ConvertTempoToMicrosecPerQuarterNote ev.front with
    | error e => simp [hp, Except.map] at h
    | ok st =>
      simp only [hp, Except.map, Except.ok.injEq] at h
      subst h
      exact ⟨rfl, fun _ => ⟨rfl, rfl, rfl, rfl, rfl⟩, fun _ => ⟨rfl, rfl, rfl, rfl⟩, _, rfl⟩
  · simp only [Except.ok.injEq] at h
    subst h
    exact ⟨rfl, fun _ => ⟨rfl, rfl, rfl, rfl, rfl⟩, fun _ => ⟨rfl, rfl, rfl, rfl⟩, [], by simp⟩
  · simp only [Except.ok.injEq] at h
    subst h
    exact ⟨rfl, fun _ => ⟨rfl, rfl, rfl, rfl, rfl⟩, fun _ => ⟨rfl, rfl, rfl, rfl⟩, _, rfl⟩
  · simp only [Except.ok.injEq] at h
    subst h
    exact ⟨rfl, fun _ => ⟨rfl, rfl, rfl, rfl, rfl⟩, fun _ => ⟨rfl, rfl, rfl, rfl⟩, _, rfl⟩
  · simp only [Except.ok.injEq] at h
    subst h
    exact ⟨rfl, fun _ => ⟨rfl, rfl, rfl, rfl, rfl⟩, fun _ => ⟨rfl, rfl, rfl, rfl⟩, _, rfl⟩
  · obtain ⟨i, b, p, m, t, hs⟩ := HandleSetPreset_state self ev trkno trkchan v.state v.state.ticks_
    simp only [Except.ok.injEq] at h
    subst h
    rw [hs]
    exact ⟨rfl, fun hne => absurd h9 hne, fun _ => ⟨rfl, rfl, rfl, rfl⟩, _, rfl⟩
  · simp only [Except.ok.injEq] at h
    subst h
    exact ⟨rfl, fun _ => ⟨rfl, rfl, rfl, rfl, rfl⟩, fun _ => ⟨rfl, rfl, rfl, rfl⟩, _, rfl⟩
  · simp only [Except.ok.injEq] at h
    subst h
    unfold HandleEvent.loopPointSet
    by_cases hc : self.m_midifmt = eMIDIFormat.SingleTrack ∧ v.m_bLoopBegSet
    · rw [if_pos hc]
      exact ⟨rfl, fun _ => ⟨rfl, rfl, rfl, rfl, rfl⟩, fun hne => absurd h11 hne, [], by simp⟩
    · rw [if_neg hc]
      exact ⟨rfl, fun _ => ⟨rfl, rfl, rfl, rfl, rfl⟩, fun hne => absurd h11 hne, _, rfl⟩
  · simp only [Except.ok.injEq] at h
    subst h
    exact ⟨rfl, fun _ => ⟨rfl, rfl, rfl, rfl, rfl⟩, fun _ => ⟨rfl, rfl, rfl, rfl⟩, _, rfl⟩
  · simp only [Except.ok.injEq] at h
    subst h
    exact ⟨rfl, fun _ => ⟨rfl, rfl, rfl, rfl, rfl⟩, fun _ => ⟨rfl, rfl, rfl, rfl⟩, [], by simp⟩

/-- What one event leaves unchanged. The event counter is not touched before the final
increment; the preset fields change on a set-preset event only; the loop point, the saved state
and the loop flags change on a loop-point event only; messages are only ever added. -/
theorem HandleEvent.dispatch_frame (self : DSESequenceToMidi) (trkno trkchan : Nat) (ev : TrkEvent)
    (v v' : EventVars) (h : HandleEvent.dispatch self trkno trkchan ev v = .ok v') :
    v'.state.eventno_ = v.state.eventno_ ∧
    (ev.evcode ≠ SetPreset →
      v'.state.hasinvalidbank = v.state.hasinvalidbank ∧ v'.state.dseprgm_ = v.state.dseprgm_ ∧
      v'.state.prgm_ = v.state.prgm_ ∧ v'.state.curbank_ = v.state.curbank_ ∧
      v'.state.transpose = v.state.transpose) ∧
    (ev.evcode ≠ LoopPointSet →
      v'.state.looppoint_ = v.state.looppoint_ ∧ v'.befloopstate = v.befloopstate ∧
      v'.m_bshouldloop = v.m_bshouldloop ∧ v'.m_bLoopBegSet = v.m_bLoopBegSet) ∧
    ∃ msgs, v'.outtrack = v.outtrack ++ msgs := by
  unfold HandleEvent.dispatch at h
  simp only [] at h
  split_ifs at h with h1 h2 h3
  · cases hp : HandlePauses ev.evcode ev v.state with
    | error e => simp [hp, Except.map] at h
    | ok st =>
      obtain ⟨t, p, rfl⟩ := HandlePauses_state _ _ _ _ hp
      simp only [hp, Except.map, Except.ok.injEq] at h
      subst h
      exact ⟨rfl, fun _ => ⟨rfl, rfl, rfl, rfl, rfl⟩, fun _ => ⟨rfl, rfl, rfl, rfl⟩, [], by simp⟩
  · cases hp : HandleFixedPauses self ev v.state with
    | error e => simp [hp, Except.map] at h
    | ok st =>
      obtain ⟨t, p, rfl⟩ := HandleFixedPauses_state _ _ _ _ hp
      simp only [hp, Except.map, Except.ok.injEq] at h
      subst h
      exact ⟨rfl, fun _ => ⟨rfl, rfl, rfl, rfl, rfl⟩, fun _ => ⟨rfl, rfl, rfl, rfl⟩, [], by simp⟩
  · obtain ⟨o, hd, l, b, p, hs⟩ := HandlePlayNote_state self trkno trkchan v.state ev
    simp only [Except.ok.injEq] at h
    subst h
    rw [hs]
    exact ⟨rfl, fun _ => ⟨rfl, rfl, rfl, rfl, rfl⟩, fun _ => ⟨rfl, rfl, rfl, rfl⟩, _, rfl⟩
  · exact HandleEvent.switch_frame self trkno trkchan ev v v' h

/-- `HandleEvent` increments the event counter once; otherwise it leaves unchanged what
`HandleEvent.dispatch` leaves unchanged. -/
theorem HandleEvent_frame (self : DSESequenceToMidi) (trkno trkchan : Nat) (ev : TrkEvent)
    (v v' : EventVars) (h : HandleEvent self trkno trkchan ev v = .ok v') :
    v'.state.eventno_ = u32 (v.state.eventno_ + 1) ∧
    (ev.evcode ≠ SetPreset →
      v'.state.hasinvalidbank = v.state.hasinvalidbank ∧ v'.state.dseprgm_ = v.state.dseprgm_ ∧
      v'.state.prgm_ = v.state.prgm_ ∧ v'.state.curbank_ = v.state.curbank_ ∧
      v'.state.transpose = v.state.transpose) ∧
    (ev.evcode ≠ LoopPointSet →
      v'.state.looppoint_ = v.state.looppoint_ ∧ v'.befloopstate = v.befloopstate ∧
      v'.m_bshouldloop = v.m_bshouldloop ∧ v'.m_bLoopBegSet = v.m_bLoopBegSet) ∧
    ∃ msgs, v'.outtrack = v.outtrack ++ msgs := by
  unfold HandleEvent at h
  cases hd : HandleEvent.dispatch self trkno trkchan ev v with
  | error e => simp [hd, Except.map] at h
  | ok w =>
    simp only [hd, Except.map, Except.ok.injEq] at h
    subst h
    obtain ⟨h1, h2, h3, h4⟩ := HandleEvent.dispatch_frame self trkno trkchan ev v w hd
    exact ⟨by rw [← h1], h2, h3, h4⟩

/-- `HandleEvent` on a note-on event: the state and the messages of `HandlePlayNote`, and the
event counter incremented. -/
theorem HandleEvent_note (self : DSESequenceToMidi) (trkno trkchan : Nat) (ev : TrkEvent)
    (v : EventVars) (hnote : NoteOnBeg ≤ ev.evcode ∧ ev.evcode ≤ NoteOnEnd) :
    HandleEvent self trkno trkchan ev v = .ok
      { v with
        state := { (HandlePlayNote self trkno trkchan v.state ev).1 with
          eventno_ := u32 ((HandlePlayNote self trkno trkchan v.state ev).1.eventno_ + 1) }
        outtrack := v.outtrack ++ (HandlePlayNote self trkno trkchan v.state ev).2 } := by
  obtain ⟨h1, h2⟩ := hnote
  unfold NoteOnBeg at h1
  unfold NoteOnEnd at h2
  have c1 : ¬ (RepeatLastPause ≤ ev.evcode ∧ ev.evcode ≤ PauseUntilRel) := by
    unfold RepeatLastPause
    omega
  have c2 : ¬ (Delay_HN ≤ ev.evcode ∧ ev.evcode ≤ Delay_64N) := by
    unfold Delay_HN
    omega
  have c3 : NoteOnBeg ≤ ev.evcode ∧ ev.evcode ≤ NoteOnEnd := by
    unfold NoteOnBeg NoteOnEnd
    omega
  unfold HandleEvent HandleEvent.dispatch
  simp only [if_neg c1, if_neg c2, if_pos c3, Except.map]

/-- `HandleEvent` on a set-preset event: the state and the messages of `HandleSetPreset`, and the
event counter incremented. -/
theorem HandleEvent_SetPreset (self : DSESequenceToMidi) (trkno trkchan : Nat) (ev : TrkEvent)
    (v : EventVars) (hp : ev.evcode = SetPreset) :
    HandleEvent self trkno trkchan ev v = .ok
      { v with
        state := { (HandleSetPreset self ev trkno trkchan v.state v.state.ticks_).1 with
          eventno_ :=
            u32 ((HandleSetPreset self ev trkno trkchan v.state v.state.ticks_).1.eventno_ + 1) }
        outtrack := v.outtrack ++ (HandleSetPreset self ev trkno trkchan v.state v.state.ticks_).2 } := by
  unfold HandleEvent HandleEvent.dispatch HandleEvent.switch
  simp +decide [hp, SetPreset, RepeatLastPause, PauseUntilRel, Delay_HN, Delay_64N, NoteOnBeg,
    NoteOnEnd, SetTempo, SetOctave, SetExpress, SetTrkVol, SetTrkPan, Except.map]

/-- A set-preset event whose program has no entry in the table marks the bank as invalid and
records the program. -/
theorem HandleSetPreset_miss (self : DSESequenceToMidi) (convtable : SMDLPresetConversionInfo)
    (ev : TrkEvent) (trkno trkchan : Nat) (state : TrkState) (mess_time : Nat)
    (htbl : self.m_convtable = some convtable)
    (hmiss : convtable.FindConversionInfo ev.front = none) :
    (HandleSetPreset self ev trkno trkchan state mess_time).1.hasinvalidbank = true ∧
    (HandleSetPreset self ev trkno trkchan state mess_time).1.dseprgm_ = ev.front := by
  unfold HandleSetPreset
  simp [htbl, hmiss]

/-- Events other than set-preset keep the invalid-bank mark and the DSE program. -/
theorem HandleEvents_invalidbank (self : DSESequenceToMidi) (trkno trkchan : Nat)
    (evs : List TrkEvent) (hevs : ∀ e ∈ evs, e.evcode ≠ SetPreset) (v v' : EventVars)
    (h : HandleEvents self trkno trkchan evs v = .ok v') :
    v'.state.hasinvalidbank = v.state.hasinvalidbank ∧ v'.state.dseprgm_ = v.state.dseprgm_ := by
  induction evs generalizing v with
  | nil =>
    simp only [HandleEvents, Except.ok.injEq] at h
    subst h
    exact ⟨rfl, rfl⟩
  | cons e rest ih =>
    unfold HandleEvents at h
    cases he : HandleEvent self trkno trkchan e v with
    | error err => simp [he] at h
    | ok w =>
      simp only [he] at h
      obtain ⟨_, h2, _, _⟩ := HandleEvent_frame self trkno trkchan e v w he
      obtain ⟨a, b, _⟩ := h2 (hevs e (List.mem_cons_self _ _))
      obtain ⟨c, d⟩ := ih (fun x hx => hevs x (List.mem_cons_of_mem _ hx)) w h
      exact ⟨c.trans a, d.trans b⟩

/-! ## Notes of a program without a table entry -/

/-- C7: with a conversion table, after a set-preset event whose program has no entry in the
table and any further events other than set-preset, a note-on event is handled without error
and adds exactly one note-on message, with velocity 0 at the tick count of the track, and
exactly one note-off message, at the 32-bit sum of the tick count and the hold duration. -/
theorem HandleEvent_note_of_missing_preset (self : DSESequenceToMidi)
    (convtable : SMDLPresetConversionInfo) (trkno trkchan : Nat) (evp : TrkEvent)
    (evs : List TrkEvent) (ev : TrkEvent) (v0 v1 v : EventVars)
    (htbl : self.m_convtable = some convtable)
    (hp : evp.evcode = SetPreset)
    (hmiss : convtable.FindConversionInfo evp.front = none)
    (h1 : HandleEvent self trkno trkchan evp v0 = .ok v1)
    (hevs : ∀ e ∈ evs, e.evcode ≠ SetPreset)
    (hrun : HandleEvents self trkno trkchan evs v1 = .ok v)
    (hnote : NoteOnBeg ≤ ev.evcode ∧ ev.evcode ≤ NoteOnEnd) :
    ∃ v' msgs note,
      HandleEvent self trkno trkchan ev v = .ok v' ∧
      v'.outtrack = v.outtrack ++ msgs ∧
      msgs.filter MIDITimedBigMessage.IsNoteOn = [⟨v.state.ticks_, .NoteOn trkchan note 0⟩] ∧
      msgs.filter MIDITimedBigMessage.IsNoteOff =
        [⟨u32 (v.state.ticks_ + v'.state.lasthold_),
          .NoteOff trkchan (note &&& 0x7F) (ev.evcode &&& 0x7F)⟩] := by
  -- the state after the set-preset event
  rw [HandleEvent_SetPreset self trkno trkchan evp v0 hp] at h1
  simp only [Except.ok.injEq] at h1
  obtain ⟨hinv1, hprg1⟩ := HandleSetPreset_miss self convtable evp trkno trkchan v0.state
    v0.state.ticks_ htbl hmiss
  have hv1 : v1.state.hasinvalidbank = true ∧ v1.state.dseprgm_ = evp.front := by
    rw [← h1]
    exact ⟨hinv1, hprg1⟩
  -- the state before the note
  obtain ⟨hinv, hprg⟩ := HandleEvents_invalidbank self trkno trkchan evs hevs v1 v hrun
  rw [hv1.1] at hinv
  rw [hv1.2] at hprg
  -- the note
  obtain ⟨o, hd, l, b, p, hst⟩ := HandlePlayNote_state self trkno trkchan v.state ev
  obtain ⟨pre, note, hout, hpre⟩ := HandlePlayNote_out self trkno trkchan v.state ev
  have hinv' : (HandlePlayNote self trkno trkchan v.state ev).1.hasinvalidbank = true := by
    rw [hst]
    exact hinv
  have hprg' : (HandlePlayNote self trkno trkchan v.state ev).1.dseprgm_ = evp.front := by
    rw [hst]
    exact hprg
  have htk' : (HandlePlayNote self trkno trkchan v.state ev).1.ticks_ = v.state.ticks_ := by
    rw [hst]
  have hoff : HandlePlayNote.noteofftime self (HandlePlayNote self trkno trkchan v.state ev).1 =
      u32 (v.state.ticks_ + (HandlePlayNote self trkno trkchan v.state ev).1.lasthold_) := by
    rw [HandlePlayNote.noteofftime_unclamped, htk']
    intro t found ht hf
    rw [htbl] at ht
    cases ht
    rw [hprg', hmiss] at hf
    cases hf
  rw [hinv', hoff] at hout
  simp only [if_true] at hout
  obtain ⟨hon, hof⟩ := filter_notes pre _ _ hpre
    (show (MIDITimedBigMessage.mk v.state.ticks_ (.NoteOn trkchan note 0)).IsNoteOn = true ∧ _
      from ⟨rfl, rfl⟩)
    (show (MIDITimedBigMessage.mk
      (u32 (v.state.ticks_ + (HandlePlayNote self trkno trkchan v.state ev).1.lasthold_))
      (.NoteOff trkchan (note &&& 0x7F) (ev.evcode &&& 0x7F))).IsNoteOn = false ∧ _
      from ⟨rfl, rfl⟩)
  refine ⟨_, (HandlePlayNote self trkno trkchan v.state ev).2, note,
    HandleEvent_note self trkno trkchan ev v hnote, rfl, ?_, ?_⟩
  · rw [hout]
    exact hon
  · rw [hout]
    exact hof

/-- C7 for the events `SetPreset 9`, `Pause8 10` and a note-on with one hold byte, with a table
that has an entry for program 1 only. -/
theorem HandleEvent_note_of_missing_preset_witness :
    (converter (oneTrack []) (some tableMaxKeyDown3) .MultiTrack 0).m_convtable
        = some tableMaxKeyDown3 ∧
    (⟨SetPreset, [9]⟩ : TrkEvent).evcode = SetPreset ∧
    tableMaxKeyDown3.FindConversionInfo (⟨SetPreset, [9]⟩ : TrkEvent).front = none ∧
    HandleEvent (converter (oneTrack []) (some tableMaxKeyDown3) .MultiTrack 0) 0 0
        ⟨SetPreset, [9]⟩ varsInit = .ok varsAfterPreset9 ∧
    (∀ e ∈ [(⟨Pause8Bits, [10]⟩ : TrkEvent)], e.evcode ≠ SetPreset) ∧
    HandleEvents (converter (oneTrack []) (some tableMaxKeyDown3) .MultiTrack 0) 0 0
        [⟨Pause8Bits, [10]⟩] varsAfterPreset9 = .ok varsAfterPreset9Pause10 ∧
    (NoteOnBeg ≤ (⟨100, [0x55, 5]⟩ : TrkEvent).evcode ∧
      (⟨100, [0x55, 5]⟩ : TrkEvent).evcode ≤ NoteOnEnd) ∧
    ∃ v' msgs note,
      HandleEvent (converter (oneTrack []) (some tableMaxKeyDown3) .MultiTrack 0) 0 0
        ⟨100, [0x55, 5]⟩ varsAfterPreset9Pause10 = .ok v' ∧
      v'.outtrack = varsAfterPreset9Pause10.outtrack ++ msgs ∧
      msgs.filter MIDITimedBigMessage.IsNoteOn =
        [⟨varsAfterPreset9Pause10.state.ticks_, .NoteOn 0 note 0⟩] ∧
      msgs.filter MIDITimedBigMessage.IsNoteOff =
        [⟨u32 (varsAfterPreset9Pause10.state.ticks_ + v'.state.lasthold_),
          .NoteOff 0 (note &&& 0x7F) ((⟨100, [0x55, 5]⟩ : TrkEvent).evcode &&& 0x7F)⟩] :=
  ⟨rfl, rfl, by decide, by decide, by decide, by decide, by decide,
    HandleEvent_note_of_missing_preset _ tableMaxKeyDown3 0 0 ⟨SetPreset, [9]⟩
      [⟨Pause8Bits, [10]⟩] ⟨100, [0x55, 5]⟩ varsInit varsAfterPreset9 varsAfterPreset9Pause10
      rfl rfl (by decide) (by decide) (by decide) (by decide) (by decide)⟩

/-! ## Loop replay -/

/-- Reading element `i` of a list just after writing it. -/
theorem getD_set_self (l : List TrkState) (i : Nat) (a : TrkState) (h : i < l.length) :
    (l.set i a).getD i default = a := by
  simp [List.getD_eq_getElem?_getD, List.getElem?_set, h]

/-- Reading element `j` of a list after writing another element. -/
theorem getD_set_other (l : List TrkState) (i j : Nat) (a : TrkState) (h : i ≠ j) :
    (l.set i a).getD j default = l.getD j default := by
  simp [List.getD_eq_getElem?_getD, List.getElem?_set, h]

/-- A call of `HandleEvent` for track `intrk` leaves the states of the other tracks alone. -/
theorem ExportATrack.step_other (self : DSESequenceToMidi) (intrk outtrk evno : Nat) (ev : TrkEvent)
    (s s' : ConvState) (h : ExportATrack.step self intrk outtrk evno ev s = .ok s') (j : Nat)
    (hj : intrk ≠ j) :
    s'.m_trkstates.getD j default = s.m_trkstates.getD j default ∧
    s'.m_beflooptrkstates.getD j default = s.m_beflooptrkstates.getD j default := by
  unfold ExportATrack.step at h
  cases hv : HandleEvent self intrk (self.m_seq.track intrk).chan ev (s.load intrk) with
  | error e => simp [hv, Except.map] at h
  | ok v =>
    simp only [hv, Except.map, Except.ok.injEq] at h
    subst h
    exact ⟨getD_set_other _ _ _ _ hj, getD_set_other _ _ _ _ hj⟩

/-- The loop of `ExportATrack` for track `intrk` leaves the states of the other tracks alone. -/
theorem ExportATrack.loop_other (self : DSESequenceToMidi) (intrk outtrk : Nat)
    (evs : List TrkEvent) (evno : Nat) (s s' : ConvState)
    (h : ExportATrack.loop self intrk outtrk evs evno s = .ok s') (j : Nat) (hj : intrk ≠ j) :
    s'.m_trkstates.getD j default = s.m_trkstates.getD j default ∧
    s'.m_beflooptrkstates.getD j default = s.m_beflooptrkstates.getD j default := by
  induction evs generalizing evno s with
  | nil =>
    simp only [ExportATrack.loop, Except.ok.injEq] at h
    subst h
    exact ⟨rfl, rfl⟩
  | cons ev rest ih =>
    unfold ExportATrack.loop at h
    split_ifs at h with hc
    · simp only [Except.ok.injEq] at h
      subst h
      exact ⟨rfl, rfl⟩
    · cases hs : ExportATrack.step self intrk outtrk evno ev s with
      | error e => simp [hs] at h
      | ok s1 =>
        simp only [hs] at h
        obtain ⟨a, b⟩ := ExportATrack.step_other self intrk outtrk evno ev s s1 hs j hj
        obtain ⟨c, d⟩ := ih (evno + 1) s1 h
        exact ⟨c.trans a, d.trans b⟩

/-- `ExportATrack` for track `intrk` leaves the states of the other tracks alone. -/
theorem ExportATrack_other (self : DSESequenceToMidi) (intrk outtrk evno : Nat) (s s' : ConvState)
    (h : ExportATrack self intrk outtrk evno s = .ok s') (j : Nat) (hj : intrk ≠ j) :
    s'.m_trkstates.getD j default = s.m_trkstates.getD j default ∧
    s'.m_beflooptrkstates.getD j default = s.m_beflooptrkstates.getD j default := by
  unfold ExportATrack at h
  simp only [] at h
  cases hl : ExportATrack.loop self intrk outtrk ((self.m_seq.track intrk).events.drop evno) evno
      { s with trace := s.trace ++ [.enter intrk evno (s.ticks intrk)] } with
  | error e => simp [hl, Except.map] at h
  | ok s1 =>
    simp only [hl, Except.map, Except.ok.injEq] at h
    subst h
    exact ExportATrack.loop_other self intrk outtrk _ evno _ s1 hl j hj

/-- C10: a loop repetition of track `trkno` is `ExportATrack` from the loop point of the saved
state, run on the converter state in which the live state of the track equals its saved state
(the loop snapshot) in every field except the tick count, which keeps its value; the states of
the other tracks, the saved states and the other members are as before. The exports of the other
tracks that run between two traversals of the track change neither its live nor its saved
state, so that tick count is the one the previous traversal of the track ended with. -/
theorem LoopATrack_starts_from_snapshot (self : DSESequenceToMidi) (outtrk : Nat → Nat)
    (trkno : Nat) (s : ConvState) (h : trkno < s.m_trkstates.length) :
    LoopATrack self outtrk trkno s =
      ExportATrack self trkno (outtrk trkno) (s.m_beflooptrkstates.getD trkno default).looppoint_
        (RestoreTrackState trkno s) ∧
    (RestoreTrackState trkno s).m_trkstates.getD trkno default =
      { s.m_beflooptrkstates.getD trkno default with ticks_ := s.ticks trkno } ∧
    (∀ j, j ≠ trkno →
      (RestoreTrackState trkno s).m_trkstates.getD j default = s.m_trkstates.getD j default) ∧
    RestoreTrackState trkno s = { s with m_trkstates := (RestoreTrackState trkno s).m_trkstates } ∧
    (∀ intrk outtrk2 evno s1 s2, intrk ≠ trkno →
      ExportATrack self intrk outtrk2 evno s1 = .ok s2 →
      s2.m_trkstates.getD trkno default = s1.m_trkstates.getD trkno default ∧
      s2.m_beflooptrkstates.getD trkno default = s1.m_beflooptrkstates.getD trkno default) := by
  have hlive : (RestoreTrackState trkno s).m_trkstates.getD trkno default =
      { s.m_beflooptrkstates.getD trkno default with ticks_ := s.ticks trkno } := by
    unfold RestoreTrackState
    simp only [ConvState.ticks]
    rw [getD_set_self _ _ _ (by rw [List.length_set]; exact h), getD_set_self _ _ _ h]
  refine ⟨?_, hlive, ?_, rfl, ?_⟩
  · unfold LoopATrack
    simp only [hlive]
  · intro j hj
    unfold RestoreTrackState
    simp only []
    rw [getD_set_other _ _ _ _ (Ne.symm hj), getD_set_other _ _ _ _ (Ne.symm hj)]
  · intro intrk outtrk2 evno s1 s2 hne hex
    exact ExportATrack_other self intrk outtrk2 evno s1 s2 hex trkno hne

/-- `HandlePauses` fails on a pause-until-release only. -/
theorem HandlePauses_ok (code : Nat) (ev : TrkEvent) (state : TrkState) (h : code ≠ PauseUntilRel) :
    ∃ state', HandlePauses code ev state = .ok state' := by
  unfold HandlePauses
  simp only []
  split_ifs <;> exact ⟨_, rfl⟩

/-- The `switch` of `HandleEvent` fails on a set-tempo of zero only. -/
theorem HandleEvent.switch_ok (self : DSESequenceToMidi) (trkno trkchan : Nat) (ev : TrkEvent)
    (v : EventVars) (htempo : ev.evcode = SetTempo → ev.front ≠ 0) :
    ∃ w, HandleEvent.switch self trkno trkchan ev v = .ok w := by
  unfold HandleEvent.switch
  by_cases h4 : ev.evcode = SetTempo
  · have h0 := htempo h4
    simp [h4, ConvertTempoToMicrosecPerQuarterNote, h0, Except.map]
  · simp only [if_neg h4]
    split_ifs <;> exact ⟨_, rfl⟩

/-- `HandleEvent` succeeds on every event that is `Handled`. -/
theorem HandleEvent_ok (self : DSESequenceToMidi) (trkno trkchan : Nat) (ev : TrkEvent)
    (v : EventVars) (h : ev.Handled self) :
    ∃ v', HandleEvent self trkno trkchan ev v = .ok v' := by
  obtain ⟨hrel, hdelay, htempo⟩ := h
  suffices hd : ∃ w, HandleEvent.dispatch self trkno trkchan ev v = .ok w by
    obtain ⟨w, hw⟩ := hd
    exact ⟨_, by unfold HandleEvent; rw [hw]; rfl⟩
  unfold HandleEvent.dispatch
  by_cases h1 : RepeatLastPause ≤ ev.evcode ∧ ev.evcode ≤ PauseUntilRel
  · obtain ⟨st, hst⟩ := HandlePauses_ok ev.evcode ev v.state hrel
    simp only [if_pos h1, hst]
    exact ⟨_, rfl⟩
  · by_cases h2 : Delay_HN ≤ ev.evcode ∧ ev.evcode ≤ Delay_64N
    · simp only [if_neg h1, if_pos h2]
      unfold HandleFixedPauses
      cases hl : self.TrkDelayCodeVals.lookup ev.evcode with
      | none =>
        have := hdelay h2
        rw [hl] at this
        cases this
      | some d => exact ⟨_, rfl⟩
    · by_cases h3 : NoteOnBeg ≤ ev.evcode ∧ ev.evcode ≤ NoteOnEnd
      · simp only [if_neg h1, if_neg h2, if_pos h3]
        exact ⟨_, rfl⟩
      · simp only [if_neg h1, if_neg h2, if_neg h3]
        exact HandleEvent.switch_ok self trkno trkchan ev v htempo

/-- `HandleEvent` on a loop-point event that is honoured (multi-track layout, or no loop point
set yet): the loop point becomes the event counter plus one, the state with that loop point is
saved, and the song is marked as looping. -/
theorem HandleEvent_LoopPointSet (self : DSESequenceToMidi) (trkno trkchan : Nat) (ev : TrkEvent)
    (v : EventVars) (hp : ev.evcode = LoopPointSet)
    (hnew : ¬ (self.m_midifmt = eMIDIFormat.SingleTrack ∧ v.m_bLoopBegSet = true)) :
    HandleEvent self trkno trkchan ev v = .ok
      { state := { v.state with looppoint_ := u32 (v.state.eventno_ + 1),
                                eventno_ := u32 (v.state.eventno_ + 1) }
        befloopstate := { v.state with looppoint_ := u32 (v.state.eventno_ + 1) }
        m_bshouldloop := true
        m_bLoopBegSet := if self.m_midifmt = eMIDIFormat.SingleTrack then true else v.m_bLoopBegSet
        outtrack := v.outtrack ++
          [ PutTextEvent v.state.ticks_ .META_MARKER_TEXT TXT_LoopStart,
            ⟨v.state.ticks_, .MetaType .META_TRACK_LOOP⟩ ] } := by
  unfold HandleEvent HandleEvent.dispatch HandleEvent.switch HandleEvent.loopPointSet
  simp +decide only [hp, LoopPointSet, RepeatLastPause, PauseUntilRel, Delay_HN, Delay_64N,
    NoteOnBeg, NoteOnEnd, SetTempo, SetOctave, SetExpress, SetTrkVol, SetTrkPan, SetPreset,
    PitchBend, Except.map, if_neg hnew, if_false, if_true, and_false, and_true, false_and]

/-- Reading the variables of a track just after storing them. -/
theorem ConvState.load_store (s : ConvState) (intrk outtrk evno : Nat) (v : EventVars)
    (h1 : intrk < s.m_trkstates.length) (h2 : intrk < s.m_beflooptrkstates.length) :
    (s.store intrk outtrk evno v).load intrk = { v with outtrack := [] } := by
  unfold ConvState.store ConvState.load
  simp only [getD_set_self _ _ _ h1, getD_set_self _ _ _ h2]

/-- The loop of `ExportATrack` stops where the remaining events are none or start with an
end-of-track event. -/
theorem ExportATrack.loop_stop (self : DSESequenceToMidi) (intrk outtrk : Nat)
    (tail : List TrkEvent) (evno : Nat) (s : ConvState)
    (htail : ∀ e ∈ tail.head?, e.evcode = EndOfTrack) :
    ExportATrack.loop self intrk outtrk tail evno s = .ok s := by
  cases tail with
  | nil => rfl
  | cons e rest =>
    have he : e.evcode = EndOfTrack := htail e (by simp)
    unfold ExportATrack.loop
    simp [he, ShouldExportEventsPastEoT]

/-- The loop of `ExportATrack` over events that are handled and are neither end-of-track nor
loop-point events: each of them is passed to `HandleEvent` once, in order; the loop point, the
saved state and the loop flags stay as they are and the event counter advances with the index. -/
theorem ExportATrack.loop_run (self : DSESequenceToMidi) (intrk outtrk : Nat)
    (evs : List TrkEvent) :
    ∀ (evno : Nat) (s : ConvState), intrk < s.m_trkstates.length →
      intrk < s.m_beflooptrkstates.length →
      (∀ e ∈ evs, e.Handled self ∧ e.evcode ≠ EndOfTrack ∧ e.evcode ≠ LoopPointSet) →
      ∃ s',
        (∀ rest, ExportATrack.loop self intrk outtrk (evs ++ rest) evno s =
          ExportATrack.loop self intrk outtrk rest (evno + evs.length) s') ∧
        s'.trace = s.trace ++ (List.range' evno evs.length).map (TraceEntry.event intrk) ∧
        s'.m_trkstates.length = s.m_trkstates.length ∧
        s'.m_beflooptrkstates.length = s.m_beflooptrkstates.length ∧
        (s'.m_trkstates.getD intrk default).looppoint_ =
          (s.m_trkstates.getD intrk default).looppoint_ ∧
        s'.m_beflooptrkstates.getD intrk default = s.m_beflooptrkstates.getD intrk default ∧
        s'.m_bshouldloop = s.m_bshouldloop ∧ s'.m_bLoopBegSet = s.m_bLoopBegSet ∧
        u32 (s'.m_trkstates.getD intrk default).eventno_ =
          u32 ((s.m_trkstates.getD intrk default).eventno_ + evs.length) := by
  induction evs with
  | nil =>
    intro evno s _ _ _
    exact ⟨s, fun rest => rfl, by simp, rfl, rfl, rfl, rfl, rfl, rfl, rfl⟩
  | cons ev evs ih =>
    intro evno s h1 h2 hall
    obtain ⟨hh, heot, hlp⟩ := hall ev (List.mem_cons_self _ _)
    obtain ⟨v, hv⟩ := HandleEvent_ok self intrk (self.m_seq.track intrk).chan ev (s.load intrk) hh
    obtain ⟨fe, _, fl, _⟩ := HandleEvent_frame self intrk _ ev _ v hv
    obtain ⟨fl1, fl2, fl3, fl4⟩ := fl hlp
    have hstep : ExportATrack.step self intrk outtrk evno ev s = .ok (s.store intrk outtrk evno v) := by
      unfold ExportATrack.step
      rw [hv]
      rfl
    have g1 : intrk < (s.store intrk outtrk evno v).m_trkstates.length := by
      simp only [ConvState.store, List.length_set]
      exact h1
    have g2 : intrk < (s.store intrk outtrk evno v).m_beflooptrkstates.length := by
      simp only [ConvState.store, List.length_set]
      exact h2
    obtain ⟨s', r1, r2, r3, r4, r5, r6, r7, r8, r9⟩ :=
      ih (evno + 1) (s.store intrk outtrk evno v) g1 g2
        (fun e he => hall e (List.mem_cons_of_mem _ he))
    have hst : (s.store intrk outtrk evno v).m_trkstates.getD intrk default = v.state :=
      getD_set_self _ _ _ h1
    have hbf : (s.store intrk outtrk evno v).m_beflooptrkstates.getD intrk default =
        v.befloopstate := getD_set_self _ _ _ h2
    refine ⟨s', ?_, ?_, ?_, ?_, ?_, ?_, ?_, ?_, ?_⟩
    · intro rest
      have := r1 rest
      rw [List.cons_append, ExportATrack.loop, if_neg (fun hc => heot hc.1), hstep]
      simp only [List.length_cons]
      rw [this]
      congr 1
      omega
    · rw [r2]
      simp [ConvState.store, List.range'_succ]
    · rw [r3]
      simp [ConvState.store]
    · rw [r4]
      simp [ConvState.store]
    · rw [r5, hst, fl1]
      rfl
    · rw [r6, hbf, fl2]
      rfl
    · rw [r7]
      exact fl3
    · rw [r8]
      exact fl4
    · rw [r9, hst, fe]
      simp only [ConvState.load, List.length_cons, u32]
      omega

/-- The call of `HandleEvent` on a loop-point event that is honoured. -/
theorem ExportATrack.step_LoopPointSet (self : DSESequenceToMidi) (intrk outtrk evno : Nat)
    (ev : TrkEvent) (s : ConvState) (h1 : intrk < s.m_trkstates.length)
    (h2 : intrk < s.m_beflooptrkstates.length) (hp : ev.evcode = LoopPointSet)
    (hnew : ¬ (self.m_midifmt = eMIDIFormat.SingleTrack ∧ s.m_bLoopBegSet = true)) :
    ∃ s',
      ExportATrack.step self intrk outtrk evno ev s = .ok s' ∧
      s'.trace = s.trace ++ [.event intrk evno] ∧
      s'.m_trkstates.length = s.m_trkstates.length ∧
      s'.m_beflooptrkstates.length = s.m_beflooptrkstates.length ∧
      (s'.m_trkstates.getD intrk default).looppoint_ =
        u32 ((s.m_trkstates.getD intrk default).eventno_ + 1) ∧
      (s'.m_beflooptrkstates.getD intrk default).looppoint_ =
        u32 ((s.m_trkstates.getD intrk default).eventno_ + 1) ∧
      s'.m_bshouldloop = true := by
  have hv := HandleEvent_LoopPointSet self intrk (self.m_seq.track intrk).chan ev (s.load intrk)
    hp hnew
  refine ⟨_, by unfold ExportATrack.step; rw [hv]; rfl, rfl, ?_, ?_, ?_, ?_, rfl⟩
  · simp [ConvState.store]
  · simp [ConvState.store]
  · simp only [ConvState.store]
    rw [getD_set_self _ _ _ h1]
    rfl
  · simp only [ConvState.store]
    rw [getD_set_self _ _ _ h2]
    rfl

/-- The first traversal of a track `pre ++ marker :: post ++ tail` whose only loop-point event
is `marker` and whose first end-of-track event, if any, starts `tail`: every event of `pre`, the
marker and every event of `post` is handled once, and the saved state gets the loop point
`pre.length + 1`. -/
theorem ExportATrack_first_pass (self : DSESequenceToMidi) (intrk outtrk : Nat)
    (pre post tail : List TrkEvent) (marker : TrkEvent) (s : ConvState)
    (htrk : (self.m_seq.track intrk).events = pre ++ marker :: (post ++ tail))
    (h1 : intrk < s.m_trkstates.length) (h2 : intrk < s.m_beflooptrkstates.length)
    (he0 : (s.m_trkstates.getD intrk default).eventno_ = 0)
    (hnew : ¬ (self.m_midifmt = eMIDIFormat.SingleTrack ∧ s.m_bLoopBegSet = true))
    (hmarker : marker.evcode = LoopPointSet)
    (hpre : ∀ e ∈ pre, e.Handled self ∧ e.evcode ≠ EndOfTrack ∧ e.evcode ≠ LoopPointSet)
    (hpost : ∀ e ∈ post, e.Handled self ∧ e.evcode ≠ EndOfTrack ∧ e.evcode ≠ LoopPointSet)
    (htail : ∀ e ∈ tail.head?, e.evcode = EndOfTrack)
    (hsize : pre.length + 1 < 4294967296) :
    ∃ s',
      ExportATrack self intrk outtrk 0 s = .ok s' ∧
      s'.trace = s.trace ++ [.enter intrk 0 (s.ticks intrk)] ++
        (List.range' 0 (pre.length + 1 + post.length)).map (TraceEntry.event intrk) ++
        [.leave intrk (s'.ticks intrk)] ∧
      s'.m_trkstates.length = s.m_trkstates.length ∧
      s'.m_beflooptrkstates.length = s.m_beflooptrkstates.length ∧
      (s'.m_beflooptrkstates.getD intrk default).looppoint_ = pre.length + 1 ∧
      s'.m_bshouldloop = true := by
  obtain ⟨sB, b1, b2, b3, b4, _, _, _, b8, b9⟩ := ExportATrack.loop_run self intrk outtrk pre 0
    { s with trace := s.trace ++ [.enter intrk 0 (s.ticks intrk)] } h1 h2 hpre
  have hnewB : ¬ (self.m_midifmt = eMIDIFormat.SingleTrack ∧ sB.m_bLoopBegSet = true) := by
    rw [b8]
    exact hnew
  obtain ⟨sC, c1, c2, c3, c4, _, c6, c7⟩ := ExportATrack.step_LoopPointSet self intrk outtrk
    (0 + pre.length) marker sB (by rw [b3]; exact h1) (by rw [b4]; exact h2) hmarker hnewB
  obtain ⟨sD, d1, d2, d3, d4, _, d6, d7, _, _⟩ := ExportATrack.loop_run self intrk outtrk post
    (0 + pre.length + 1) sC (by rw [c3, b3]; exact h1) (by rw [c4, b4]; exact h2) hpost
  have hloop : ExportATrack.loop self intrk outtrk (pre ++ marker :: (post ++ tail)) 0
      { s with trace := s.trace ++ [.enter intrk 0 (s.ticks intrk)] } = .ok sD := by
    rw [b1, ExportATrack.loop, if_neg, c1]
    · simp only []
      rw [d1]
      exact ExportATrack.loop_stop self intrk outtrk tail _ sD htail
    · rw [hmarker]
      intro hc
      exact absurd hc.1 (by decide)
  refine ⟨{ sD with trace := sD.trace ++ [.leave intrk (sD.ticks intrk)] }, ?_, ?_, ?_, ?_, ?_, ?_⟩
  · unfold ExportATrack
    simp only [List.drop_zero, htrk]
    rw [hloop]
    rfl
  · show sD.trace ++ [TraceEntry.leave intrk (sD.ticks intrk)] = _
    rw [d2, c2, b2]
    simp only [List.append_assoc, List.append_cancel_left_eq, Nat.zero_add]
    have hr : List.range' 0 (pre.length + 1 + post.length) =
        List.range' 0 pre.length ++ (pre.length :: List.range' (pre.length + 1) post.length) := by
      rw [show pre.length + 1 + post.length = post.length + 1 + pre.length by omega,
        ← List.range'_append_1 0 pre.length (post.length + 1), List.range'_succ]
      simp
    rw [hr]
    simp
    rfl
  · show sD.m_trkstates.length = _
    rw [d3, c3, b3]
  · show sD.m_beflooptrkstates.length = _
    rw [d4, c4, b4]
  · show (sD.m_beflooptrkstates.getD intrk default).looppoint_ = _
    rw [d6, c6]
    have : u32 (sB.m_trkstates.getD intrk default).eventno_ = u32 (0 + pre.length) := by
      rw [b9]
      show u32 ((s.m_trkstates.getD intrk default).eventno_ + pre.length) = _
      rw [he0]
    unfold u32 at this ⊢
    omega
  · show sD.m_bshouldloop = true
    rw [d7, c7]

/-- A loop repetition of the same track: every event of `post` is handled once more, from the
tick count the track had, and the saved state is kept. -/
theorem LoopATrack_replay (self : DSESequenceToMidi) (outtrk : Nat → Nat) (intrk : Nat)
    (pre post tail : List TrkEvent) (marker : TrkEvent) (s : ConvState)
    (htrk : (self.m_seq.track intrk).events = pre ++ marker :: (post ++ tail))
    (h1 : intrk < s.m_trkstates.length) (h2 : intrk < s.m_beflooptrkstates.length)
    (hlp : (s.m_beflooptrkstates.getD intrk default).looppoint_ = pre.length + 1)
    (hpost : ∀ e ∈ post, e.Handled self ∧ e.evcode ≠ EndOfTrack ∧ e.evcode ≠ LoopPointSet)
    (htail : ∀ e ∈ tail.head?, e.evcode = EndOfTrack) :
    ∃ s',
      LoopATrack self outtrk intrk s = .ok s' ∧
      s'.trace = s.trace ++ [.enter intrk (pre.length + 1) (s.ticks intrk)] ++
        (List.range' (pre.length + 1) post.length).map (TraceEntry.event intrk) ++
        [.leave intrk (s'.ticks intrk)] ∧
      s'.m_trkstates.length = s.m_trkstates.length ∧
      s'.m_beflooptrkstates.length = s.m_beflooptrkstates.length ∧
      s'.m_beflooptrkstates.getD intrk default = s.m_beflooptrkstates.getD intrk default ∧
      s'.m_bshouldloop = s.m_bshouldloop := by
  obtain ⟨r1, r2, _, r4, _⟩ := LoopATrack_starts_from_snapshot self outtrk intrk s h1
  have hticks : (RestoreTrackState intrk s).ticks intrk = s.ticks intrk := by
    unfold ConvState.ticks
    rw [r2]
    rfl
  have hlen1 : (RestoreTrackState intrk s).m_trkstates.length = s.m_trkstates.length := by
    simp [RestoreTrackState]
  have hdrop : (pre ++ marker :: (post ++ tail)).drop (pre.length + 1) = post ++ tail := by
    rw [show pre ++ marker :: (post ++ tail) = (pre ++ [marker]) ++ (post ++ tail) by simp]
    exact List.drop_left' (by simp)
  obtain ⟨sD, d1, d2, d3, d4, _, d6, d7, _, _⟩ := ExportATrack.loop_run self intrk (outtrk intrk)
    post (pre.length + 1)
    { RestoreTrackState intrk s with
      trace := (RestoreTrackState intrk s).trace ++
        [.enter intrk (pre.length + 1) ((RestoreTrackState intrk s).ticks intrk)] }
    (by rw [hlen1]; exact h1) h2 hpost
  refine ⟨{ sD with trace := sD.trace ++ [.leave intrk (sD.ticks intrk)] }, ?_, ?_, ?_, ?_, ?_, ?_⟩
  · rw [r1, hlp]
    unfold ExportATrack
    simp only [htrk, hdrop]
    rw [d1, ExportATrack.loop_stop self intrk (outtrk intrk) tail _ sD htail]
    rfl
  · show sD.trace ++ [TraceEntry.leave intrk (sD.ticks intrk)] = _
    rw [d2, hticks]
    rfl
  · show sD.m_trkstates.length = _
    rw [d3]
    exact hlen1
  · show sD.m_beflooptrkstates.length = _
    rw [d4]
    rfl
  · show sD.m_beflooptrkstates.getD intrk default = _
    rw [d6]
    rfl
  · show sD.m_bshouldloop = _
    rw [d7]
    rfl

/-- A loop over a single track number. -/
theorem forTracks_one (body : Nat → ConvState → Except Err ConvState) (trkno : Nat)
    (s : ConvState) : forTracks body [trkno] s = body trkno s := by
  unfold forTracks
  cases body trkno s with
  | error e => rfl
  | ok s => rfl

/-- A loop that runs its body twice. -/
theorem forLoops_two (body : ConvState → Except Err ConvState) (s s1 s2 : ConvState)
    (h1 : body s = .ok s1) (h2 : body s1 = .ok s2) : forLoops body 2 s = .ok s2 := by
  simp [forLoops, h1, h2]

/-- Two loop repetitions of a sequence of one track `pre ++ marker :: post ++ tail` whose saved
state has the loop point `pre.length + 1`: two more traversals of `post`, each starting at the
tick count where the one before ended. -/
theorem forLoops_two_replays (self : DSESequenceToMidi) (outtrk : Nat → Nat)
    (pre post tail : List TrkEvent) (marker : TrkEvent) (s : ConvState)
    (htrk : (self.m_seq.track 0).events = pre ++ marker :: (post ++ tail))
    (h1 : 0 < s.m_trkstates.length) (h2 : 0 < s.m_beflooptrkstates.length)
    (hlp : (s.m_beflooptrkstates.getD 0 default).looppoint_ = pre.length + 1)
    (hpost : ∀ e ∈ post, e.Handled self ∧ e.evcode ≠ EndOfTrack ∧ e.evcode ≠ LoopPointSet)
    (htail : ∀ e ∈ tail.head?, e.evcode = EndOfTrack) :
    ∃ s' t2 t3,
      forLoops (forTracks (LoopATrack self outtrk) [0]) 2 s = .ok s' ∧
      s'.trace = s.trace ++
        [.enter 0 (pre.length + 1) (s.ticks 0)] ++
          (List.range' (pre.length + 1) post.length).map (TraceEntry.event 0) ++
        [.leave 0 t2, .enter 0 (pre.length + 1) t2] ++
          (List.range' (pre.length + 1) post.length).map (TraceEntry.event 0) ++
        [.leave 0 t3] := by
  obtain ⟨s2, e2, tr2, m1, m2, lp2, _⟩ := LoopATrack_replay self outtrk 0 pre post tail marker s
    htrk h1 h2 hlp hpost htail
  obtain ⟨s3, e3, tr3, _, _, _, _⟩ := LoopATrack_replay self outtrk 0 pre post tail marker s2
    htrk (by rw [m1]; exact h1) (by rw [m2]; exact h2) (by rw [lp2]; exact hlp) hpost htail
  refine ⟨s3, s2.ticks 0, s3.ticks 0,
    forLoops_two _ _ s2 s3 (by rw [forTracks_one]; exact e2) (by rw [forTracks_one]; exact e3), ?_⟩
  rw [tr3, tr2]
  simp

/-- C8, amended: a sequence of one track `pre ++ marker :: post ++ tail` in which `marker` is the
only loop-point event before the end of the track, `post` has 10 events, no event of `pre` or
`post` is an end-of-track event, every one of them is handled by `HandleEvent`, and `tail` is
empty or starts with an end-of-track event, is exported with repeat count 2 in either layout
without error; `HandleEvent` is called once on every event of `pre` and on the marker, and three
times on every event of `post`: once in the first traversal and once in each of the two
repetitions, which start at the event after the marker with the tick count at which the
traversal before ended. -/
theorem Export_loop_three_traversals (self : DSESequenceToMidi) (chan : Nat)
    (pre post tail : List TrkEvent) (marker : TrkEvent)
    (hseq : self.m_seq.tracks = [⟨chan, pre ++ marker :: (post ++ tail)⟩])
    (hloops : self.m_nbloops = 2)
    (hmarker : marker.evcode = LoopPointSet)
    (hpre : ∀ e ∈ pre, e.Handled self ∧ e.evcode ≠ EndOfTrack ∧ e.evcode ≠ LoopPointSet)
    (hpost : ∀ e ∈ post, e.Handled self ∧ e.evcode ≠ EndOfTrack ∧ e.evcode ≠ LoopPointSet)
    (hlen : post.length = 10)
    (htail : ∀ e ∈ tail.head?, e.evcode = EndOfTrack)
    (hsize : pre.length + 1 < 4294967296) :
    ∃ s t1 t2 t3,
      Export self = .ok s ∧
      s.trace =
        [.enter 0 0 0] ++ (List.range' 0 (pre.length + 11)).map (TraceEntry.event 0) ++
        [.leave 0 t1, .enter 0 (pre.length + 1) t1] ++
          (List.range' (pre.length + 1) 10).map (TraceEntry.event 0) ++
        [.leave 0 t2, .enter 0 (pre.length + 1) t2] ++
          (List.range' (pre.length + 1) 10).map (TraceEntry.event 0) ++
        [.leave 0 t3] := by
  have htrk : (self.m_seq.track 0).events = pre ++ marker :: (post ++ tail) := by
    simp [MusicSequence.track, hseq]
  have hnb : self.m_seq.getNbTracks = 1 := by
    simp [MusicSequence.getNbTracks, hseq]
  have hr1 : List.range 1 = [0] := rfl
  have hl0 : 0 < (resize [] 1).length := by decide
  obtain ⟨s1, e1, tr1, l1, l2, lp1, sl1⟩ := ExportATrack_first_pass self 0 0 pre post tail marker
    (PrepareMidiFile self
      { m_trkstates := resize [] 1, m_beflooptrkstates := resize [] 1, m_songlsttick := 0,
        m_bshouldloop := false, m_bLoopBegSet := false, m_midiout := {}, trace := [] })
    htrk hl0 hl0 rfl (by simp [PrepareMidiFile]) hmarker hpre hpost htail hsize
  have htr1 : s1.trace = [.enter 0 0 0] ++
      (List.range' 0 (pre.length + 11)).map (TraceEntry.event 0) ++ [.leave 0 (s1.ticks 0)] := by
    rw [tr1, hlen]
    rfl
  have g1 : 0 < s1.m_trkstates.length := by
    rw [l1]
    exact hl0
  have g2 : 0 < s1.m_beflooptrkstates.length := by
    rw [l2]
    exact hl0
  unfold Export
  cases hfmt : self.m_midifmt with
  | MultiTrack =>
    obtain ⟨s3, t2, t3, e3, tr3⟩ := forLoops_two_replays self id pre post tail marker
      { s1 with m_midiout := (s1.m_midiout.Put 0
          [PutTextEvent (s1.m_trkstates.getD 0 default).ticks_ .META_MARKER_TEXT TXT_LoopEnd]) }
      htrk g1 g2 lp1 hpost htail
    refine ⟨s3, s1.ticks 0, t2, t3, ?_, ?_⟩
    · simp only []
      unfold ExportAsMultiTrack
      simp only [hnb, hloops, hr1, forTracks_one]
      rw [e1]
      simp only [Except.map]
      rw [if_pos sl1, if_pos sl1]
      exact e3
    · rw [tr3, hlen]
      show s1.trace ++ _ ++ _ ++ _ ++ _ ++ _ = _
      rw [htr1]
      simp
      rfl
  | SingleTrack =>
    obtain ⟨s3, t2, t3, e3, tr3⟩ := forLoops_two_replays self (fun _ => 0) pre post tail marker
      { (if s1.m_songlsttick < (s1.m_trkstates.getD 0 default).ticks_ then
          { s1 with m_songlsttick := (s1.m_trkstates.getD 0 default).ticks_ } else s1) with
        m_midiout := ((if s1.m_songlsttick < (s1.m_trkstates.getD 0 default).ticks_ then
          { s1 with m_songlsttick := (s1.m_trkstates.getD 0 default).ticks_ }
            else s1).m_midiout.Put 0
          [PutTextEvent (if s1.m_songlsttick < (s1.m_trkstates.getD 0 default).ticks_ then
          { s1 with m_songlsttick := (s1.m_trkstates.getD 0 default).ticks_ }
            else s1).m_songlsttick .META_MARKER_TEXT TXT_LoopEnd]) }
      htrk (by split_ifs <;> exact g1) (by split_ifs <;> exact g2)
      (by split_ifs <;> exact lp1) hpost htail
    refine ⟨s3, s1.ticks 0, t2, t3, ?_, ?_⟩
    · simp only []
      unfold ExportAsSingleTrack
      simp only [hnb, hloops, hr1, forTracks_one]
      rw [e1]
      simp only [Except.map]
      rw [if_pos (by split_ifs <;> exact sl1)]
      exact e3
    · have tr3' : s3.trace = s1.trace ++
          [.enter 0 (pre.length + 1) (s1.ticks 0)] ++
            (List.range' (pre.length + 1) post.length).map (TraceEntry.event 0) ++
          [.leave 0 t2, .enter 0 (pre.length + 1) t2] ++
            (List.range' (pre.length + 1) post.length).map (TraceEntry.event 0) ++
          [.leave 0 t3] := by
        rw [tr3]
        split_ifs <;> rfl
      rw [tr3', hlen, htr1]
      simp

/-- C8 for the track `[Pause8 4, LoopPointSet] ++ tenEvents ++ [EndOfTrack]` in the single-track
layout. -/
theorem Export_loop_three_traversals_witness :
    (converter seqLoopTen none .SingleTrack 2).m_seq.tracks =
      [⟨0, [⟨Pause8Bits, [4]⟩] ++ ⟨LoopPointSet, []⟩ :: (tenEvents ++ [⟨EndOfTrack, []⟩])⟩] ∧
    (converter seqLoopTen none .SingleTrack 2).m_nbloops = 2 ∧
    (⟨LoopPointSet, []⟩ : TrkEvent).evcode = LoopPointSet ∧
    (∀ e ∈ [(⟨Pause8Bits, [4]⟩ : TrkEvent)],
      e.Handled (converter seqLoopTen none .SingleTrack 2) ∧ e.evcode ≠ EndOfTrack ∧
        e.evcode ≠ LoopPointSet) ∧
    (∀ e ∈ tenEvents,
      e.Handled (converter seqLoopTen none .SingleTrack 2) ∧ e.evcode ≠ EndOfTrack ∧
        e.evcode ≠ LoopPointSet) ∧
    tenEvents.length = 10 ∧
    (∀ e ∈ [(⟨EndOfTrack, []⟩ : TrkEvent)].head?, e.evcode = EndOfTrack) ∧
    [(⟨Pause8Bits, [4]⟩ : TrkEvent)].length + 1 < 4294967296 ∧
    ∃ s t1 t2 t3,
      Export (converter seqLoopTen none .SingleTrack 2) = .ok s ∧
      s.trace =
        [.enter 0 0 0] ++
          (List.range' 0 ([(⟨Pause8Bits, [4]⟩ : TrkEvent)].length + 11)).map (TraceEntry.event 0) ++
        [.leave 0 t1, .enter 0 ([(⟨Pause8Bits, [4]⟩ : TrkEvent)].length + 1) t1] ++
          (List.range' ([(⟨Pause8Bits, [4]⟩ : TrkEvent)].length + 1) 10).map (TraceEntry.event 0) ++
        [.leave 0 t2, .enter 0 ([(⟨Pause8Bits, [4]⟩ : TrkEvent)].length + 1) t2] ++
          (List.range' ([(⟨Pause8Bits, [4]⟩ : TrkEvent)].length + 1) 10).map (TraceEntry.event 0) ++
        [.leave 0 t3] :=
  ⟨rfl, rfl, rfl, by decide, by decide, by decide, by decide, by decide,
    Export_loop_three_traversals (converter seqLoopTen none .SingleTrack 2) 0
      [⟨Pause8Bits, [4]⟩] tenEvents [⟨EndOfTrack, []⟩] ⟨LoopPointSet, []⟩
      rfl rfl rfl (by decide) (by decide) (by decide) (by decide) (by decide)⟩

/-- C8 as stated fails in the multi-track layout when one of the 10 events after the marker is
itself a loop-point marker: for the track `[LoopPointSet, LoopPointSet, 9 pauses]` exported with
repeat count 2, the second marker (event 1, one of the 10 events) is handled once, and the 9
events after it three times. -/
theorem Export_second_marker_handled_once :
    (Export (converter seqTwoMarkers none .MultiTrack 2)).map
        (fun s => (List.range 11).map fun i => s.trace.count (.event 0 i))
      = .ok [1, 1, 3, 3, 3, 3, 3, 3, 3, 3, 3] := by
  decide

/-- C9: a loop repetition should put the messages of the first traversal after the loop point,
shifted by the difference of the tick counts. With a table whose entry for program 1 has a
maximum key-down duration of 3, the track `[SetPreset 1, Pause8 100, LoopPointSet, NoteOn (hold
5), Pause8 50]` gets its first note-on at tick 100 and the repeated one at tick 150, a shift of
50, but both note-offs at tick 3. Without the table both messages are shifted. -/
theorem Export_replay_noteoff_not_shifted :
    (Export (converter seqLoopNote (some tableMaxKeyDown3) .MultiTrack 1)).map
        (fun s => (s.m_midiout.GetTrack 1).filter fun m => m.IsNoteOn || m.IsNoteOff)
      = .ok [ ⟨100, .NoteOn 1 5 100⟩, ⟨3, .NoteOff 1 5 100⟩,
              ⟨150, .NoteOn 1 5 100⟩, ⟨3, .NoteOff 1 5 100⟩ ] ∧
    (Export (converter seqLoopNote none .MultiTrack 1)).map
        (fun s => (s.m_midiout.GetTrack 1).filter fun m => m.IsNoteOn || m.IsNoteOff)
      = .ok [ ⟨100, .NoteOn 1 5 100⟩, ⟨105, .NoteOff 1 5 100⟩,
              ⟨150, .NoteOn 1 5 100⟩, ⟨155, .NoteOff 1 5 100⟩ ] := by
  decide

/-- C10 at a converter state of one track, before its loop repetition: the live state becomes
the saved state with the tick count 150 of the live state. -/
theorem LoopATrack_starts_from_snapshot_witness :
    (0 < stateBeforeReplay.m_trkstates.length) ∧
    (RestoreTrackState 0 stateBeforeReplay).m_trkstates.getD 0 default =
      { ticks_ := 150, eventno_ := 2, octave_ := 2, looppoint_ := 3 } :=
  ⟨by decide,
    (LoopATrack_starts_from_snapshot (converter seqLoopNote none .MultiTrack 1) id 0
      stateBeforeReplay (by decide)).2.1⟩

/-! ## Pause until release -/

/-- `HandleEvent` throws on a pause-until-release event. -/
theorem HandleEvent_PauseUntilRel_error (self : DSESequenceToMidi) (trkno trkchan : Nat)
    (ev : TrkEvent) (v : EventVars) (hev : ev.evcode = PauseUntilRel) :
    HandleEvent self trkno trkchan ev v = .error .runtime_error := by
  unfold HandleEvent HandleEvent.dispatch HandlePauses
  simp +decide [hev, PauseUntilRel, RepeatLastPause, Pause24Bits, Pause16Bits, Pause8Bits,
    AddToLastPause, Except.map]

/-- The loop of `ExportATrack` fails when a pause-until-release event comes before the first
end-of-track event. -/
theorem ExportATrack.loop_PauseUntilRel (self : DSESequenceToMidi) (intrk outtrk : Nat)
    (pre : List TrkEvent) (ev : TrkEvent) (post : List TrkEvent)
    (hev : ev.evcode = PauseUntilRel) (hpre : ∀ e ∈ pre, e.evcode ≠ EndOfTrack) :
    ∀ (evno : Nat) (s : ConvState),
      ∃ e, ExportATrack.loop self intrk outtrk (pre ++ ev :: post) evno s = .error e := by
  induction pre with
  | nil =>
    intro evno s
    have hne : ¬ (ev.evcode = EndOfTrack ∧ ¬ ShouldExportEventsPastEoT) := by
      rw [hev]
      decide
    refine ⟨.runtime_error, ?_⟩
    show ExportATrack.loop self intrk outtrk (ev :: post) evno s = _
    unfold ExportATrack.loop
    rw [if_neg hne]
    unfold ExportATrack.step
    rw [HandleEvent_PauseUntilRel_error self _ _ ev _ hev]
    rfl
  | cons a rest ih =>
    intro evno s
    have hne : ¬ (a.evcode = EndOfTrack ∧ ¬ ShouldExportEventsPastEoT) :=
      fun h => hpre a (List.mem_cons_self _ _) h.1
    show ∃ e, ExportATrack.loop self intrk outtrk (a :: (rest ++ ev :: post)) evno s = _
    unfold ExportATrack.loop
    rw [if_neg hne]
    cases hs : ExportATrack.step self intrk outtrk evno a s with
    | error e => exact ⟨e, rfl⟩
    | ok s1 => exact ih (fun x hx => hpre x (List.mem_cons_of_mem _ hx)) (evno + 1) s1

/-- A body that fails on track `t` makes the loop over the tracks fail. -/
theorem forTracks_error (body : Nat → ConvState → Except Err ConvState) (t : Nat)
    (hbody : ∀ s, ∃ e, body t s = .error e) (l : List Nat) (ht : t ∈ l) :
    ∀ s, ∃ e, forTracks body l s = .error e := by
  induction l with
  | nil => simp at ht
  | cons a rest ih =>
    intro s
    unfold forTracks
    by_cases ha : a = t
    · subst ha
      obtain ⟨e, he⟩ := hbody s
      exact ⟨e, by rw [he]⟩
    · cases hb : body a s with
      | error e => exact ⟨e, rfl⟩
      | ok s1 =>
        have ht2 : t ∈ rest := by
          rcases List.mem_cons.mp ht with h | h
          · exact absurd h.symm ha
          · exact h
        exact ih ht2 s1

/-- C20: `HandleEvent` on a pause-until-release event (code 0x95) throws the runtime error, for
every track, every track state and every value of the other variables; a failed call returns no
state, so no message is put and no tick is added. The export of a sequence in which a track has
such an event before its first end-of-track event fails. -/
theorem HandleEvent_PauseUntilRel_aborts_export (self : DSESequenceToMidi) :
    (∀ (trkno trkchan : Nat) (ev : TrkEvent) (v : EventVars), ev.evcode = PauseUntilRel →
      HandleEvent self trkno trkchan ev v = .error .runtime_error) ∧
    (∀ (t : Nat) (pre : List TrkEvent) (ev : TrkEvent) (post : List TrkEvent),
      t < self.m_seq.getNbTracks → (self.m_seq.track t).events = pre ++ ev :: post →
      ev.evcode = PauseUntilRel → (∀ e ∈ pre, e.evcode ≠ EndOfTrack) →
      ∃ e, Export self = .error e) := by
  refine ⟨fun trkno trkchan ev v hev => HandleEvent_PauseUntilRel_error self trkno trkchan ev v hev,
    ?_⟩
  intro t pre ev post ht htrk hev hpre
  have hexp : ∀ outtrk s, ∃ e, ExportATrack self t outtrk 0 s = .error e := by
    intro outtrk s
    unfold ExportATrack
    simp only [List.drop_zero, htrk]
    obtain ⟨e, he⟩ := ExportATrack.loop_PauseUntilRel self t outtrk pre ev post hev hpre 0
      { s with trace := s.trace ++ [.enter t 0 (s.ticks t)] }
    exact ⟨e, by rw [he]; rfl⟩
  have hmem : t ∈ List.range self.m_seq.getNbTracks := List.mem_range.mpr ht
  unfold Export
  cases self.m_midifmt with
  | SingleTrack =>
    simp only []
    unfold ExportAsSingleTrack
    simp only []
    split
    · exact ⟨_, rfl⟩
    · rename_i s1 hs1
      exact absurd hs1 (fun h =>
        (forTracks_error _ t
          (by
            intro s
            obtain ⟨e, he⟩ := hexp 0 s
            refine ⟨e, ?_⟩
            show (ExportATrack self t 0 0 s).map _ = _
            rw [he]
            rfl) _ hmem _).elim
          fun e he => Except.noConfusion (h.symm.trans he))
  | MultiTrack =>
    simp only []
    unfold ExportAsMultiTrack
    simp only []
    split
    · exact ⟨_, rfl⟩
    · rename_i s1 hs1
      exact absurd hs1 (fun h =>
        (forTracks_error _ t
          (by
            intro s
            obtain ⟨e, he⟩ := hexp t s
            refine ⟨e, ?_⟩
            show (ExportATrack self t t 0 s).map _ = _
            rw [he]
            rfl) _ hmem _).elim
          fun e he => Except.noConfusion (h.symm.trans he))

/-- C20 for the track `[Pause8 4, PauseUntilRel, EndOfTrack]`: the call fails on the initial
variables of the track, and the export fails. -/
theorem HandleEvent_PauseUntilRel_aborts_export_witness :
    (⟨PauseUntilRel, []⟩ : TrkEvent).evcode = PauseUntilRel ∧
    0 < (converter seqPauseUntilRel none .MultiTrack 2).m_seq.getNbTracks ∧
    ((converter seqPauseUntilRel none .MultiTrack 2).m_seq.track 0).events
      = [⟨Pause8Bits, [4]⟩] ++ ⟨PauseUntilRel, []⟩ :: [⟨EndOfTrack, []⟩] ∧
    (∀ e ∈ [(⟨Pause8Bits, [4]⟩ : TrkEvent)], e.evcode ≠ EndOfTrack) ∧
    HandleEvent (converter seqPauseUntilRel none .MultiTrack 2) 0 0 ⟨PauseUntilRel, []⟩ varsInit
      = .error .runtime_error ∧
    ∃ e, Export (converter seqPauseUntilRel none .MultiTrack 2) = .error e :=
  ⟨rfl, by decide, rfl, by decide,
    (HandleEvent_PauseUntilRel_aborts_export (converter seqPauseUntilRel none .MultiTrack 2)).1
      0 0 ⟨PauseUntilRel, []⟩ varsInit rfl,
    (HandleEvent_PauseUntilRel_aborts_export (converter seqPauseUntilRel none .MultiTrack 2)).2
      0 [⟨Pause8Bits, [4]⟩] ⟨PauseUntilRel, []⟩ [⟨EndOfTrack, []⟩] (by decide) rfl rfl
      (by decide)⟩
/-! ## Tempo -/

/-- `HandleEvent` on a set-tempo event of at least one beat per minute. -/
theorem HandleEvent_SetTempo (self : DSESequenceToMidi) (trkno trkchan : Nat) (ev : TrkEvent)
    (v : EventVars) (hcode : ev.evcode = SetTempo) (h1 : 1 ≤ ev.front) :
    HandleEvent self trkno trkchan ev v = .ok
      { v with
        state := { v.state with eventno_ := u32 (v.state.eventno_ + 1) }
        outtrack := v.outtrack ++ [⟨v.state.ticks_, .Tempo (60000000 / ev.front)⟩] } := by
  have h0 : ev.front ≠ 0 := by omega
  unfold HandleEvent HandleEvent.dispatch HandleEvent.switch ConvertTempoToMicrosecPerQuarterNote
  simp +decide [hcode, h0, SetTempo, RepeatLastPause, PauseUntilRel, Delay_HN, Delay_64N,
    NoteOnBeg, NoteOnEnd, Except.map]

/-- C17: `ConvertTempoToMicrosecPerQuarterNote(bpm)` is the integer quotient of 60000000 by bpm
for every bpm from 1 to 255, so that 120 gives 500000, and `HandleEvent` on a set-tempo event
with that parameter puts one tempo message with that value at the tick count of the track; the
division by zero is reached for no bpm of at least 1. -/
theorem SetTempo_microseconds_per_quarter_note (self : DSESequenceToMidi) (trkno trkchan : Nat)
    (ev : TrkEvent) (v : EventVars) (hcode : ev.evcode = SetTempo) (h1 : 1 ≤ ev.front)
    (h255 : ev.front ≤ 255) :
    ConvertTempoToMicrosecPerQuarterNote ev.front = .ok (60000000 / ev.front) ∧
    60000000 / ev.front < 4294967296 ∧
    ConvertTempoToMicrosecPerQuarterNote 120 = .ok 500000 ∧
    ConvertTempoToMicrosecPerQuarterNote ev.front ≠ .error .division_by_zero ∧
    HandleEvent self trkno trkchan ev v = .ok
      { v with
        state := { v.state with eventno_ := u32 (v.state.eventno_ + 1) }
        outtrack := v.outtrack ++ [⟨v.state.ticks_, .Tempo (60000000 / ev.front)⟩] } := by
  have h0 : ev.front ≠ 0 := by omega
  have hc : ConvertTempoToMicrosecPerQuarterNote ev.front = .ok (60000000 / ev.front) := by
    unfold ConvertTempoToMicrosecPerQuarterNote
    simp [h0]
  refine ⟨hc, ?_, by decide, ?_, HandleEvent_SetTempo self trkno trkchan ev v hcode h1⟩
  · exact lt_of_le_of_lt (Nat.div_le_self _ _) (by decide)
  · rw [hc]
    exact fun h => Except.noConfusion h

/-- C17 for a set-tempo event of 120 beats per minute as first event of a track. -/
theorem SetTempo_microseconds_per_quarter_note_witness :
    (⟨SetTempo, [120]⟩ : TrkEvent).evcode = SetTempo ∧
    1 ≤ (⟨SetTempo, [120]⟩ : TrkEvent).front ∧ (⟨SetTempo, [120]⟩ : TrkEvent).front ≤ 255 ∧
    HandleEvent (converter seqTempoOnTrack1 none .MultiTrack 0) 0 0 ⟨SetTempo, [120]⟩ varsInit
      = .ok { varsInit with
              state := { varsInit.state with eventno_ := u32 (varsInit.state.eventno_ + 1) }
              outtrack := varsInit.outtrack ++
                [⟨varsInit.state.ticks_,
                  .Tempo (60000000 / (⟨SetTempo, [120]⟩ : TrkEvent).front)⟩] } :=
  ⟨rfl, by decide, by decide,
    (SetTempo_microseconds_per_quarter_note (converter seqTempoOnTrack1 none .MultiTrack 0) 0 0
      ⟨SetTempo, [120]⟩ varsInit rfl (by decide) (by decide)).2.2.2.2⟩

/-- C18 as stated fails: on track 1 of a two-track sequence, `HandleEvent` on a set-tempo event
of 120 beats per minute puts a tempo message, and the multi-track export has it on output
track 1. -/
theorem HandleEvent_SetTempo_on_track_1 :
    HandleEvent (converter seqTempoOnTrack1 none .MultiTrack 0) 1 1 ⟨SetTempo, [120]⟩ varsInit
      = .ok { varsInit with state := { eventno_ := 1 }, outtrack := [⟨0, .Tempo 500000⟩] } ∧
    (Export (converter seqTempoOnTrack1 none .MultiTrack 0)).map
        (fun s => s.m_midiout.GetTrack 1)
      = .ok [⟨0, .Tempo 500000⟩] := by
  decide

/-- C18, amended: a set-tempo event is honoured on every track. For every track index and
channel, `HandleEvent` on a set-tempo event of at least one beat per minute puts one tempo
message at the tick count of the track, and its result is the one it has for track 0. -/
theorem HandleEvent_SetTempo_on_every_track (self : DSESequenceToMidi) (trkno trkchan : Nat)
    (ev : TrkEvent) (v : EventVars) (hcode : ev.evcode = SetTempo) (h1 : 1 ≤ ev.front) :
    HandleEvent self trkno trkchan ev v = .ok
      { v with
        state := { v.state with eventno_ := u32 (v.state.eventno_ + 1) }
        outtrack := v.outtrack ++ [⟨v.state.ticks_, .Tempo (60000000 / ev.front)⟩] } ∧
    HandleEvent self trkno trkchan ev v = HandleEvent self 0 trkchan ev v := by
  refine ⟨HandleEvent_SetTempo self trkno trkchan ev v hcode h1, ?_⟩
  rw [HandleEvent_SetTempo self trkno trkchan ev v hcode h1,
    HandleEvent_SetTempo self 0 trkchan ev v hcode h1]

/-- C18, amended, for a set-tempo event of 120 beats per minute on track 1. -/
theorem HandleEvent_SetTempo_on_every_track_witness :
    (⟨SetTempo, [120]⟩ : TrkEvent).evcode = SetTempo ∧
    1 ≤ (⟨SetTempo, [120]⟩ : TrkEvent).front ∧
    HandleEvent (converter seqTempoOnTrack1 none .MultiTrack 0) 1 1 ⟨SetTempo, [120]⟩ varsInit
      = HandleEvent (converter seqTempoOnTrack1 none .MultiTrack 0) 0 1 ⟨SetTempo, [120]⟩
          varsInit :=
  ⟨rfl, by decide,
    (HandleEvent_SetTempo_on_every_track (converter seqTempoOnTrack1 none .MultiTrack 0) 1 1
      ⟨SetTempo, [120]⟩ varsInit rfl (by decide)).2⟩

/-! ## Events without a handler -/

/-- The value of a digit that `hexDigit` writes. -/
theorem hexDigitValue_hexDigit (d : Nat) (h : d < 16) : hexDigitValue (hexDigit d) = d := by
  interval_cases d <;> decide

/-- The digits that `hexDigit` writes. -/
theorem hexDigit_mem (d : Nat) (h : d < 16) : hexDigit d ∈ "0123456789ABCDEF".data := by
  interval_cases d <;> decide

/-- The digits are written in front of what was there. -/
theorem hexDigits_append (fuel : Nat) : ∀ (n : Nat) (acc : List Char),
    hexDigits fuel n acc = hexDigits fuel n [] ++ acc := by
  induction fuel with
  | zero =>
    intro n acc
    rfl
  | succ fuel ih =>
    intro n acc
    unfold hexDigits
    by_cases hn : n < 16
    · rw [if_pos hn, if_pos hn]
      rfl
    · rw [if_neg hn, if_neg hn, ih (n / 16) (hexDigit (n % 16) :: acc),
        ih (n / 16) [hexDigit (n % 16)]]
      simp

/-- The digits written for `n` denote `n`. -/
theorem hexDigits_value (fuel : Nat) : ∀ n : Nat, n < fuel →
    (hexDigits fuel n []).foldl (fun acc c => acc * 16 + hexDigitValue c) 0 = n := by
  induction fuel with
  | zero =>
    intro n hn
    omega
  | succ fuel ih =>
    intro n hn
    unfold hexDigits
    by_cases h16 : n < 16
    · rw [if_pos h16]
      simp [hexDigitValue_hexDigit n h16]
    · rw [if_neg h16, hexDigits_append fuel (n / 16) [hexDigit (n % 16)], List.foldl_append,
        ih (n / 16) (by omega)]
      simp only [List.foldl_cons, List.foldl_nil]
      rw [hexDigitValue_hexDigit (n % 16) (Nat.mod_lt _ (by decide))]
      omega

/-- The digits written for `n` are upper-case hexadecimal digits. -/
theorem hexDigits_mem (fuel : Nat) : ∀ n : Nat,
    ∀ c ∈ hexDigits fuel n [], c ∈ "0123456789ABCDEF".data := by
  induction fuel with
  | zero =>
    intro n c hc
    simp [hexDigits] at hc
  | succ fuel ih =>
    intro n c hc
    unfold hexDigits at hc
    by_cases h16 : n < 16
    · rw [if_pos h16] at hc
      rw [List.mem_singleton] at hc
      rw [hc]
      exact hexDigit_mem n h16
    · rw [if_neg h16, hexDigits_append fuel (n / 16) [hexDigit (n % 16)]] at hc
      rcases List.mem_append.mp hc with h | h
      · exact ih (n / 16) c h
      · rw [List.mem_singleton] at h
        rw [h]
        exact hexDigit_mem (n % 16) (Nat.mod_lt _ (by decide))

/-- `hexUpper n` denotes `n`. -/
theorem hexValue_hexUpper (n : Nat) : hexValue (hexUpper n) = n := by
  unfold hexValue hexUpper
  exact hexDigits_value (n + 1) n (by omega)

/-- `HandleEvent` on an event that reaches the `default` case of the `switch`. -/
theorem HandleEvent_default (self : DSESequenceToMidi) (trkno trkchan : Nat) (ev : TrkEvent)
    (v : EventVars)
    (hpause : ¬ (RepeatLastPause ≤ ev.evcode ∧ ev.evcode ≤ PauseUntilRel))
    (hdelay : ¬ (Delay_HN ≤ ev.evcode ∧ ev.evcode ≤ Delay_64N))
    (hnote : ¬ (NoteOnBeg ≤ ev.evcode ∧ ev.evcode ≤ NoteOnEnd))
    (hctl : ev.evcode ∉ [SetTempo, SetOctave, SetExpress, SetTrkVol, SetTrkPan, SetPreset,
      PitchBend, LoopPointSet]) :
    HandleEvent self trkno trkchan ev v = .ok
      { v with
        state := { v.state with eventno_ := u32 (v.state.eventno_ + 1) }
        outtrack := v.outtrack ++ [⟨v.state.ticks_, .Text .META_MARKER_TEXT (evmark ev)⟩] } := by
  simp only [List.mem_cons, List.mem_singleton, List.not_mem_nil, or_false, not_or] at hctl
  obtain ⟨c1, c2, c3, c4, c5, c6, c7, c8⟩ := hctl
  unfold HandleEvent HandleEvent.dispatch HandleEvent.switch
  simp only [if_neg hpause, if_neg hdelay, if_neg hnote, if_neg c1, if_neg c2, if_neg c3,
    if_neg c4, if_neg c5, if_neg c6, if_neg c7, if_neg c8]
  rfl

/-- C19: for every event whose code is not a pause, a fixed-duration pause, a note-on or one of
the control codes the `switch` names, `HandleEvent` succeeds, puts exactly one marker text
message at the tick count of the track, and changes nothing else than the event counter, which
it increments by one. The text is "DSE_Event_ID:0x", the code, and ", 0x" and the byte for each
parameter in order, each number written in upper-case hexadecimal digits that denote it. -/
theorem HandleEvent_unsupported_event_marker (self : DSESequenceToMidi) (trkno trkchan : Nat)
    (ev : TrkEvent) (v : EventVars)
    (hpause : ¬ (RepeatLastPause ≤ ev.evcode ∧ ev.evcode ≤ PauseUntilRel))
    (hdelay : ¬ (Delay_HN ≤ ev.evcode ∧ ev.evcode ≤ Delay_64N))
    (hnote : ¬ (NoteOnBeg ≤ ev.evcode ∧ ev.evcode ≤ NoteOnEnd))
    (hctl : ev.evcode ∉ [SetTempo, SetOctave, SetExpress, SetTrkVol, SetTrkPan, SetPreset,
      PitchBend, LoopPointSet]) :
    HandleEvent self trkno trkchan ev v = .ok
      { v with
        state := { v.state with eventno_ := u32 (v.state.eventno_ + 1) }
        outtrack := v.outtrack ++ [⟨v.state.ticks_, .Text .META_MARKER_TEXT (evmark ev)⟩] } ∧
    evmark ev = ev.params.foldl (fun text param => text ++ ", 0x" ++ hexUpper param)
      ("DSE_Event_ID:0x" ++ hexUpper ev.evcode) ∧
    ∀ n, hexValue (hexUpper n) = n ∧ ∀ c ∈ (hexUpper n).data, c ∈ "0123456789ABCDEF".data := by
  refine ⟨HandleEvent_default self trkno trkchan ev v hpause hdelay hnote hctl, ?_, ?_⟩
  · have ht : TXT_DSE_Event ++ "_ID:0x" = "DSE_Event_ID:0x" := by decide
    unfold evmark
    rw [ht]
  · intro n
    exact ⟨hexValue_hexUpper n, hexDigits_mem (n + 1) n⟩

/-- C19 for the event of code 0xBE with the parameter bytes 0x1F, 0x00 and 0xA0, as first event
of a track. -/
theorem HandleEvent_unsupported_event_marker_witness :
    ¬ (RepeatLastPause ≤ (⟨0xBE, [0x1F, 0, 0xA0]⟩ : TrkEvent).evcode ∧
        (⟨0xBE, [0x1F, 0, 0xA0]⟩ : TrkEvent).evcode ≤ PauseUntilRel) ∧
    ¬ (Delay_HN ≤ (⟨0xBE, [0x1F, 0, 0xA0]⟩ : TrkEvent).evcode ∧
        (⟨0xBE, [0x1F, 0, 0xA0]⟩ : TrkEvent).evcode ≤ Delay_64N) ∧
    ¬ (NoteOnBeg ≤ (⟨0xBE, [0x1F, 0, 0xA0]⟩ : TrkEvent).evcode ∧
        (⟨0xBE, [0x1F, 0, 0xA0]⟩ : TrkEvent).evcode ≤ NoteOnEnd) ∧
    (⟨0xBE, [0x1F, 0, 0xA0]⟩ : TrkEvent).evcode ∉ [SetTempo, SetOctave, SetExpress, SetTrkVol,
      SetTrkPan, SetPreset, PitchBend, LoopPointSet] ∧
    HandleEvent (converter (oneTrack []) none .MultiTrack 0) 0 0 ⟨0xBE, [0x1F, 0, 0xA0]⟩ varsInit
      = .ok { varsInit with
              state := { eventno_ := 1 }
              outtrack := [⟨0, .Text .META_MARKER_TEXT "DSE_Event_ID:0xBE, 0x1F, 0x0, 0xA0"⟩] } :=
  ⟨by decide, by decide, by decide, by decide,
    (HandleEvent_unsupported_event_marker (converter (oneTrack []) none .MultiTrack 0) 0 0
      ⟨0xBE, [0x1F, 0, 0xA0]⟩ varsInit (by decide) (by decide) (by decide) (by decide)).1⟩

/-! ## Preset changes -/

/-- C15: with a conversion table, `HandleEvent` on a set-preset event of program p succeeds and
changes the state of the track only. If the table has an entry e for p the state takes the
program `e.midipres`, the bank `e.midibank` (as `uint8_t`), the transposition `e.transpose`, the
polyphony `e.maxpoly` (as `int8_t`, so that 255 is -1, unset) and no invalid-bank mark; if it
has none the state takes the invalid-bank mark, the bank 0x7F, the program p, the transposition
0 and the polyphony -1. When no override is latched, a bank select and a program change with
the new bank and program are put at the tick count of the track, and nothing else; when one is
latched, no message is put. -/
theorem HandleEvent_SetPreset_with_table (self : DSESequenceToMidi)
    (convtable : SMDLPresetConversionInfo) (trkno trkchan : Nat) (ev : TrkEvent) (v : EventVars)
    (htbl : self.m_convtable = some convtable) (hcode : ev.evcode = SetPreset) :
    ∃ v', HandleEvent self trkno trkchan ev v = .ok v' ∧
      v'.befloopstate = v.befloopstate ∧ v'.m_bshouldloop = v.m_bshouldloop ∧
      v'.m_bLoopBegSet = v.m_bLoopBegSet ∧
      (∀ e, convtable.FindConversionInfo ev.front = some e →
        v'.state = { v.state with
          hasinvalidbank := false
          curbank_ := intToU8 e.midibank
          prgm_ := e.midipres
          dseprgm_ := ev.front
          curmaxpoly_ := i8 e.maxpoly
          transpose := e.transpose
          noteson_ := []
          eventno_ := u32 (v.state.eventno_ + 1) } ∧
        (0 ≤ e.midibank → e.midibank < 256 → (v'.state.curbank_ : Int) = e.midibank) ∧
        (e.maxpoly < 128 → v'.state.curmaxpoly_ = (e.maxpoly : Int)) ∧
        (e.maxpoly = 255 → v'.state.curmaxpoly_ = -1)) ∧
      (convtable.FindConversionInfo ev.front = none →
        v'.state = { v.state with
          hasinvalidbank := true
          curbank_ := 0x7F
          prgm_ := ev.front
          dseprgm_ := ev.front
          curmaxpoly_ := -1
          transpose := 0
          noteson_ := []
          eventno_ := u32 (v.state.eventno_ + 1) }) ∧
      (v.state.presetoverriden = false →
        v'.outtrack = v.outtrack ++
          [ ⟨v.state.ticks_,
              .ControlChange (self.m_seq.track trkno).chan C_GM_BANK v'.state.curbank_⟩,
            ⟨v.state.ticks_, .ProgramChange trkchan v'.state.prgm_⟩ ]) ∧
      (v.state.presetoverriden = true → v'.outtrack = v.outtrack) := by
  refine ⟨_, HandleEvent_SetPreset self trkno trkchan ev v hcode, rfl, rfl, rfl, ?_, ?_, ?_, ?_⟩
  · intro e he
    have hst : (HandleSetPreset self ev trkno trkchan v.state v.state.ticks_).1 =
        { v.state with
          hasinvalidbank := false
          curbank_ := intToU8 e.midibank
          prgm_ := e.midipres
          dseprgm_ := ev.front
          curmaxpoly_ := i8 e.maxpoly
          transpose := e.transpose
          noteson_ := [] } := by
      unfold HandleSetPreset
      simp only [htbl, he]
    simp only [hst]
    refine ⟨trivial, ?_, ?_, ?_⟩
    · intro h0 h256
      unfold intToU8
      rw [Int.emod_eq_of_lt h0 h256]
      exact Int.toNat_of_nonneg h0
    · intro h128
      unfold i8
      have hm : e.maxpoly % 256 = e.maxpoly := Nat.mod_eq_of_lt (by omega)
      rw [hm, if_pos h128]
    · intro h255
      rw [h255]
      decide
  · intro he
    have hst : (HandleSetPreset self ev trkno trkchan v.state v.state.ticks_).1 =
        { v.state with
          hasinvalidbank := true
          curbank_ := 0x7F
          prgm_ := ev.front
          dseprgm_ := ev.front
          curmaxpoly_ := -1
          transpose := 0
          noteson_ := [] } := by
      unfold HandleSetPreset
      simp only [htbl, he]
    simp only [hst]
  · intro hov
    show v.outtrack ++ (HandleSetPreset self ev trkno trkchan v.state v.state.ticks_).2 = _
    congr 1
    unfold HandleSetPreset
    simp only [htbl]
    cases hf : convtable.FindConversionInfo ev.front with
    | none => simp +decide [hov, u8]
    | some e =>
      have hb : intToU8 e.midibank % 256 = intToU8 e.midibank := by
        unfold intToU8
        omega
      simp +decide [hov, u8, hb]
  · intro hov
    show v.outtrack ++ (HandleSetPreset self ev trkno trkchan v.state v.state.ticks_).2 = _
    unfold HandleSetPreset
    simp only [htbl]
    cases hf : convtable.FindConversionInfo ev.front with
    | none => simp [hov]
    | some e => simp [hov]

/-- C15 for the set-preset events of program 1, which the table has, and of program 9, which it
has not, as first event of a track. -/
theorem HandleEvent_SetPreset_with_table_witness :
    (converter (oneTrack []) (some tableMaxKeyDown3) .MultiTrack 0).m_convtable
      = some tableMaxKeyDown3 ∧
    (⟨SetPreset, [1]⟩ : TrkEvent).evcode = SetPreset ∧
    (⟨SetPreset, [9]⟩ : TrkEvent).evcode = SetPreset ∧
    (∃ v', HandleEvent (converter (oneTrack []) (some tableMaxKeyDown3) .MultiTrack 0) 0 0
        ⟨SetPreset, [1]⟩ varsInit = .ok v' ∧ v'.state.hasinvalidbank = false) ∧
    (∃ v', HandleEvent (converter (oneTrack []) (some tableMaxKeyDown3) .MultiTrack 0) 0 0
        ⟨SetPreset, [9]⟩ varsInit = .ok v' ∧ v'.state.curbank_ = 0x7F) :=
  ⟨rfl, rfl, rfl,
    (HandleEvent_SetPreset_with_table (converter (oneTrack []) (some tableMaxKeyDown3) .MultiTrack 0)
      tableMaxKeyDown3 0 0 ⟨SetPreset, [1]⟩ varsInit rfl rfl).elim
      fun v' h => ⟨v', h.1, by rw [(h.2.2.2.2.1 (PresetConvData.ctor 0 0 255 0 3 0) (by decide)).1]⟩,
    (HandleEvent_SetPreset_with_table (converter (oneTrack []) (some tableMaxKeyDown3) .MultiTrack 0)
      tableMaxKeyDown3 0 0 ⟨SetPreset, [9]⟩ varsInit rfl rfl).elim
      fun v' h => ⟨v', h.1, by rw [h.2.2.2.2.2.1 (by decide)]⟩⟩
/-! ## Conversion without a table -/

/-- The `switch` of `HandleEvent` leaves the override latch as it was. -/
theorem HandleEvent.switch_presetoverriden (self : DSESequenceToMidi) (trkno trkchan : Nat)
    (ev : TrkEvent) (v v' : EventVars) (h : HandleEvent.switch self trkno trkchan ev v = .ok v') :
    v'.state.presetoverriden = v.state.presetoverriden := by
  unfold HandleEvent.switch at h
  simp only [] at h
  split_ifs at h with h4 h5 h6 h7 h8 h9 h10 h11 h12
  · cases hp : ConvertTempoToMicrosecPerQuarterNote ev.front with
    | error e => simp [hp, Except.map] at h
    | ok st =>
      simp only [hp, Except.map, Except.ok.injEq] at h
      subst h
      rfl
  · simp only [Except.ok.injEq] at h
    subst h
    rfl
  · simp only [Except.ok.injEq] at h
    subst h
    rfl
  · simp only [Except.ok.injEq] at h
    subst h
    rfl
  · simp only [Except.ok.injEq] at h
    subst h
    rfl
  · obtain ⟨i, b, p, m, t, hs⟩ := HandleSetPreset_state self ev trkno trkchan v.state v.state.ticks_
    simp only [Except.ok.injEq] at h
    subst h
    rw [hs]
  · simp only [Except.ok.injEq] at h
    subst h
    rfl
  · simp only [Except.ok.injEq] at h
    subst h
    unfold HandleEvent.loopPointSet
    by_cases hc : self.m_midifmt = eMIDIFormat.SingleTrack ∧ v.m_bLoopBegSet
    · rw [if_pos hc]
    · rw [if_neg hc]
  · simp only [Except.ok.injEq] at h
    subst h
    rfl
  · simp only [Except.ok.injEq] at h
    subst h
    rfl

/-- Without a table, `HandlePlayNote` changes the octave and the hold duration only, and puts
the note-on and the note-off of the note as parsed. -/
theorem HandlePlayNote_without_table (self : DSESequenceToMidi) (trkno trkchan : Nat)
    (state : TrkState) (ev : TrkEvent) (htbl : self.m_convtable = none) :
    HandlePlayNote self trkno trkchan state ev =
      ( (HandlePlayNote.parse self state ev).1,
        [ ⟨state.ticks_, .NoteOn trkchan (u8 (self.ParsePlayNoteParam1 ev.front state.octave_).out_midinote)
            (if state.hasinvalidbank then 0 else ev.evcode &&& 0x7F)⟩,
          ⟨u32 (state.ticks_ + (HandlePlayNote.parse self state ev).1.lasthold_),
            .NoteOff trkchan
              (u8 (self.ParsePlayNoteParam1 ev.front state.octave_).out_midinote &&& 0x7F)
              (ev.evcode &&& 0x7F)⟩ ] ) := by
  obtain ⟨o, hd, hs⟩ := HandlePlayNote.parse_state self state ev
  have h2 : (HandlePlayNote.parse self state ev).2 =
      u8 (self.ParsePlayNoteParam1 ev.front state.octave_).out_midinote := rfl
  unfold HandlePlayNote HandlePlayNote.convert HandlePlayNote.noteofftime
  simp only [htbl, h2]
  rw [hs]
  by_cases hb : state.hasinvalidbank = true
  · simp +decide [hb, ShouldLeaveNoteWithInvalidPreset]
  · simp +decide [hb, ShouldLeaveNoteWithInvalidPreset]

/-- Without a table, no event latches an override. -/
theorem HandleEvent_presetoverriden (self : DSESequenceToMidi) (trkno trkchan : Nat)
    (ev : TrkEvent) (v v' : EventVars) (htbl : self.m_convtable = none)
    (h : HandleEvent self trkno trkchan ev v = .ok v') :
    v'.state.presetoverriden = v.state.presetoverriden := by
  unfold HandleEvent at h
  cases hd : HandleEvent.dispatch self trkno trkchan ev v with
  | error e => simp [hd, Except.map] at h
  | ok w =>
    simp only [hd, Except.map, Except.ok.injEq] at h
    subst h
    show w.state.presetoverriden = _
    unfold HandleEvent.dispatch at hd
    simp only [] at hd
    split_ifs at hd with h1 h2 h3
    · cases hp : HandlePauses ev.evcode ev v.state with
      | error e => simp [hp, Except.map] at hd
      | ok st =>
        obtain ⟨t, p, rfl⟩ := HandlePauses_state _ _ _ _ hp
        simp only [hp, Except.map, Except.ok.injEq] at hd
        subst hd
        rfl
    · cases hp : HandleFixedPauses self ev v.state with
      | error e => simp [hp, Except.map] at hd
      | ok st =>
        obtain ⟨t, p, rfl⟩ := HandleFixedPauses_state _ _ _ _ hp
        simp only [hp, Except.map, Except.ok.injEq] at hd
        subst hd
        rfl
    · obtain ⟨o, hl, hs⟩ := HandlePlayNote.parse_state self v.state ev
      simp only [Except.ok.injEq] at hd
      subst hd
      rw [HandlePlayNote_without_table self trkno trkchan v.state ev htbl]
      show (HandlePlayNote.parse self v.state ev).1.presetoverriden = _
      rw [hs]
    · exact HandleEvent.switch_presetoverriden self trkno trkchan ev v w hd

/-- Without a table, no event marks the bank as invalid. -/
theorem HandleEvent_hasinvalidbank (self : DSESequenceToMidi) (trkno trkchan : Nat)
    (ev : TrkEvent) (v v' : EventVars) (htbl : self.m_convtable = none)
    (h : HandleEvent self trkno trkchan ev v = .ok v') (hv : v.state.hasinvalidbank = false) :
    v'.state.hasinvalidbank = false := by
  by_cases hp : ev.evcode = SetPreset
  · rw [HandleEvent_SetPreset self trkno trkchan ev v hp] at h
    simp only [Except.ok.injEq] at h
    subst h
    unfold HandleSetPreset
    simp only [htbl]
  · obtain ⟨_, h2, _, _⟩ := HandleEvent_frame self trkno trkchan ev v v' h
    rw [(h2 hp).1]
    exact hv

/-- C14: without a conversion table, a track never latches an override and never marks its bank
as invalid, from its initial state on. In such a state, `HandleEvent` on a set-preset event of
program p sets the program to p, the bank to 0, the transposition to 0 and the polyphony to -1
(unset), leaves the bank valid, and puts a bank select of bank 0 and a program change of program
p at the tick count of the track; and `HandleEvent` on a note-on event puts exactly a note-on
and a note-off, no bank select and no program change, with the note that `ParsePlayNoteParam1`
decoded (its low 7 bits in the note-off, the same number for a note below 128), as it is, and
the low 7 bits of the event code as velocity. -/
theorem HandleEvent_without_table (self : DSESequenceToMidi) (trkno trkchan : Nat)
    (htbl : self.m_convtable = none) :
    ((default : TrkState).presetoverriden = false ∧ (default : TrkState).hasinvalidbank = false) ∧
    (∀ (ev : TrkEvent) (v v' : EventVars), HandleEvent self trkno trkchan ev v = .ok v' →
      v.state.presetoverriden = false → v.state.hasinvalidbank = false →
      v'.state.presetoverriden = false ∧ v'.state.hasinvalidbank = false) ∧
    (∀ (ev : TrkEvent) (v : EventVars), ev.evcode = SetPreset →
      v.state.presetoverriden = false →
      HandleEvent self trkno trkchan ev v = .ok
        { v with
          state := { v.state with
            hasinvalidbank := false
            curbank_ := 0
            prgm_ := ev.front
            dseprgm_ := ev.front
            curmaxpoly_ := -1
            transpose := 0
            noteson_ := []
            eventno_ := u32 (v.state.eventno_ + 1) }
          outtrack := v.outtrack ++
            [ ⟨v.state.ticks_, .ControlChange (self.m_seq.track trkno).chan C_GM_BANK 0⟩,
              ⟨v.state.ticks_, .ProgramChange trkchan ev.front⟩ ] }) ∧
    (∀ (ev : TrkEvent) (v : EventVars), NoteOnBeg ≤ ev.evcode ∧ ev.evcode ≤ NoteOnEnd →
      v.state.hasinvalidbank = false →
      ∃ state' : TrkState,
        state'.ticks_ = v.state.ticks_ ∧
        HandleEvent self trkno trkchan ev v = .ok
          { v with
            state := state'
            outtrack := v.outtrack ++
              [ ⟨v.state.ticks_, .NoteOn trkchan
                  (u8 (self.ParsePlayNoteParam1 ev.front v.state.octave_).out_midinote)
                  (ev.evcode &&& 0x7F)⟩,
                ⟨u32 (v.state.ticks_ + state'.lasthold_), .NoteOff trkchan
                  (u8 (self.ParsePlayNoteParam1 ev.front v.state.octave_).out_midinote &&& 0x7F)
                  (ev.evcode &&& 0x7F)⟩ ] }) ∧
    (∀ n : Nat, n < 128 → n &&& 0x7F = n) := by
  refine ⟨⟨rfl, rfl⟩, ?_, ?_, ?_, ?_⟩
  · intro ev v v' h hov hinv
    exact ⟨(HandleEvent_presetoverriden self trkno trkchan ev v v' htbl h).trans hov,
      HandleEvent_hasinvalidbank self trkno trkchan ev v v' htbl h hinv⟩
  · intro ev v hp hov
    rw [HandleEvent_SetPreset self trkno trkchan ev v hp]
    unfold HandleSetPreset
    simp +decide [htbl, hov, u8]
  · intro ev v hnote hinv
    obtain ⟨o, hl, hs⟩ := HandlePlayNote.parse_state self v.state ev
    refine ⟨{ (HandlePlayNote.parse self v.state ev).1 with
      eventno_ := u32 ((HandlePlayNote.parse self v.state ev).1.eventno_ + 1) }, ?_, ?_⟩
    · show (HandlePlayNote.parse self v.state ev).1.ticks_ = _
      rw [hs]
    · rw [HandleEvent_note self trkno trkchan ev v hnote,
        HandlePlayNote_without_table self trkno trkchan v.state ev htbl]
      simp [hinv]
  · intro n hn
    have h : n &&& 127 = n % 2 ^ 7 := Nat.and_pow_two_sub_one_eq_mod n 7
    rw [h]
    exact Nat.mod_eq_of_lt hn

/-- C14 for a set-preset event of program 5 and for a note-on event of key 5 held 5 ticks, each
as first event of a track. -/
theorem HandleEvent_without_table_witness :
    (converter (oneTrack []) none .MultiTrack 0).m_convtable = none ∧
    (⟨SetPreset, [5]⟩ : TrkEvent).evcode = SetPreset ∧
    varsInit.state.presetoverriden = false ∧
    HandleEvent (converter (oneTrack []) none .MultiTrack 0) 0 0 ⟨SetPreset, [5]⟩ varsInit
      = .ok { varsInit with
              state := { prgm_ := 5, dseprgm_ := 5, eventno_ := 1 }
              outtrack := [⟨0, .ControlChange 0 0 0⟩, ⟨0, .ProgramChange 0 5⟩] } ∧
    (NoteOnBeg ≤ (⟨100, [0x55, 5]⟩ : TrkEvent).evcode ∧
      (⟨100, [0x55, 5]⟩ : TrkEvent).evcode ≤ NoteOnEnd) ∧
    varsInit.state.hasinvalidbank = false ∧
    ∃ state' : TrkState,
      state'.ticks_ = varsInit.state.ticks_ ∧
      HandleEvent (converter (oneTrack []) none .MultiTrack 0) 0 0 ⟨100, [0x55, 5]⟩ varsInit
        = .ok { varsInit with
                state := state'
                outtrack := varsInit.outtrack ++
                  [ ⟨varsInit.state.ticks_, .NoteOn 0
                      (u8 ((converter (oneTrack []) none .MultiTrack 0).ParsePlayNoteParam1
                        (⟨100, [0x55, 5]⟩ : TrkEvent).front varsInit.state.octave_).out_midinote)
                      ((⟨100, [0x55, 5]⟩ : TrkEvent).evcode &&& 0x7F)⟩,
                    ⟨u32 (varsInit.state.ticks_ + state'.lasthold_), .NoteOff 0
                      (u8 ((converter (oneTrack []) none .MultiTrack 0).ParsePlayNoteParam1
                        (⟨100, [0x55, 5]⟩ : TrkEvent).front varsInit.state.octave_).out_midinote
                        &&& 0x7F)
                      ((⟨100, [0x55, 5]⟩ : TrkEvent).evcode &&& 0x7F)⟩ ] } :=
  ⟨rfl, rfl, rfl,
    (HandleEvent_without_table (converter (oneTrack []) none .MultiTrack 0) 0 0 rfl).2.2.1
      ⟨SetPreset, [5]⟩ varsInit rfl rfl,
    by decide, rfl,
    (HandleEvent_without_table (converter (oneTrack []) none .MultiTrack 0) 0 0 rfl).2.2.2.1
      ⟨100, [0x55, 5]⟩ varsInit (by decide) rfl⟩

/-! ## Transposition -/

/-- C16: when the transposed note n + 12 k is a MIDI note, from 0 to 127, the note-on and the
note-off carry it. The converter tests `transposed < 127`: with a table entry that transposes one
octave up, the note 115 keeps the number 115 (not 127), while the note 114 becomes 126. -/
theorem Export_transposition_to_127_dropped :
    ((Export (converter (seqOctave9Key 7) (some tableTransposeUp) .MultiTrack 0)).map
        (fun s => (s.m_midiout.GetTrack 0).filter fun m => m.IsNoteOn || m.IsNoteOff)
      = .ok [⟨0, .NoteOn 0 115 100⟩, ⟨0, .NoteOff 0 115 100⟩]) ∧
    ((Export (converter (seqOctave9Key 6) (some tableTransposeUp) .MultiTrack 0)).map
        (fun s => (s.m_midiout.GetTrack 0).filter fun m => m.IsNoteOn || m.IsNoteOff)
      = .ok [⟨0, .NoteOn 0 126 100⟩, ⟨0, .NoteOff 0 126 100⟩]) := by
  decide

/-! ## The kinds of messages that an event puts -/

/-- The bank half of an override puts controller messages only. -/
theorem HandlePlayNote.overrideBank_channel (chan : Nat) (state : TrkState)
    (remapdata : NoteRemapData) :
    ∀ m ∈ (HandlePlayNote.overrideBank chan state remapdata).2, m.IsChannel = true := by
  unfold HandlePlayNote.overrideBank
  split_ifs <;> simp [MIDITimedBigMessage.IsChannel]

/-- The preset half of an override puts program changes only. -/
theorem HandlePlayNote.overridePreset_channel (trkchan : Nat) (state : TrkState)
    (remapdata : NoteRemapData) :
    ∀ m ∈ (HandlePlayNote.overridePreset trkchan state remapdata).2, m.IsChannel = true := by
  unfold HandlePlayNote.overridePreset
  split_ifs <;> simp [MIDITimedBigMessage.IsChannel]

/-- The override statement puts channel messages only. -/
theorem HandlePlayNote.override_channel (chan trkchan : Nat) (state : TrkState)
    (remapdata : NoteRemapData) :
    ∀ m ∈ (HandlePlayNote.override chan trkchan state remapdata).2, m.IsChannel = true := by
  unfold HandlePlayNote.override
  split_ifs
  · simp [MIDITimedBigMessage.IsChannel]
  · intro m hm
    rcases List.mem_append.mp hm with h | h
    · exact HandlePlayNote.overrideBank_channel chan state remapdata m h
    · exact HandlePlayNote.overridePreset_channel trkchan _ remapdata m h
  · simp

/-- `HandlePlayNote` puts channel messages only. -/
theorem HandlePlayNote_channel (self : DSESequenceToMidi) (trkno trkchan : Nat) (state : TrkState)
    (ev : TrkEvent) :
    ∀ m ∈ (HandlePlayNote self trkno trkchan state ev).2, m.IsChannel = true := by
  have hc : ∀ st n, ∀ m ∈ (HandlePlayNote.convert self trkno trkchan st n).out,
      m.IsChannel = true := by
    intro st n
    unfold HandlePlayNote.convert
    cases self.m_convtable with
    | none => simp
    | some convtable => exact HandlePlayNote.override_channel _ trkchan st _
  intro m hm
  unfold HandlePlayNote at hm
  simp only [] at hm
  rcases List.mem_append.mp hm with h | h
  · exact hc _ _ m h
  · simp only [List.mem_cons, List.mem_singleton, List.not_mem_nil, or_false] at h
    rcases h with h | h
    · rw [h]
      split_ifs <;> rfl
    · rw [h]
      rfl

/-- `HandleSetPreset` puts channel messages only. -/
theorem HandleSetPreset_channel (self : DSESequenceToMidi) (ev : TrkEvent) (trkno trkchan : Nat)
    (state : TrkState) (mess_time : Nat) :
    ∀ m ∈ (HandleSetPreset self ev trkno trkchan state mess_time).2, m.IsChannel = true := by
  unfold HandleSetPreset
  simp only []
  split_ifs <;> simp [MIDITimedBigMessage.IsChannel]

/-- The text of an event marker starts with the letter D. -/
theorem evmark_head (ev : TrkEvent) : (evmark ev).data.head? = some 'D' := by
  have hfold : ∀ (params : List Nat) (init : String), init.data.head? = some 'D' →
      (params.foldl (fun acc param => acc ++ ", 0x" ++ hexUpper param) init).data.head?
        = some 'D' := by
    intro params
    induction params with
    | nil =>
      intro init h
      exact h
    | cons p rest ih =>
      intro init h
      apply ih
      cases hd : init.data with
      | nil => simp [hd] at h
      | cons c cs =>
        rw [hd] at h
        simp only [String.data_append, hd]
        simpa using h
  unfold evmark
  apply hfold
  simp only [String.data_append]
  rfl

/-- The text of an event marker is not the text that ends the loop. -/
theorem evmark_ne_LoopEnd (ev : TrkEvent) : evmark ev ≠ TXT_LoopEnd := by
  intro h
  have h1 := evmark_head ev
  rw [h] at h1
  revert h1
  decide

/-- The messages that the `switch` of `HandleEvent` puts. -/
theorem HandleEvent.switch_kinds (self : DSESequenceToMidi) (trkno trkchan : Nat) (ev : TrkEvent)
    (v v' : EventVars) (h : HandleEvent.switch self trkno trkchan ev v = .ok v') :
    ∃ msgs, v'.outtrack = v.outtrack ++ msgs ∧
      ∀ m ∈ msgs, m.IsChannel = true ∨ (∃ t, m.body = .Tempo t) ∨
        m.body = .Text .META_MARKER_TEXT TXT_LoopStart ∨ m.body = .MetaType .META_TRACK_LOOP ∨
        m.body = .Text .META_MARKER_TEXT (evmark ev) := by
  unfold HandleEvent.switch at h
  simp only [] at h
  split_ifs at h with h4 h5 h6 h7 h8 h9 h10 h11 h12
  · cases hp : ConvertTempoToMicrosecPerQuarterNote ev.front with
    | error e => simp [hp, Except.map] at h
    | ok st =>
      simp only [hp, Except.map, Except.ok.injEq] at h
      subst h
      exact ⟨_, rfl, by simp⟩
  · simp only [Except.ok.injEq] at h
    subst h
    exact ⟨[], by simp, by simp⟩
  · simp only [Except.ok.injEq] at h
    subst h
    exact ⟨_, rfl, by simp [MIDITimedBigMessage.IsChannel]⟩
  · simp only [Except.ok.injEq] at h
    subst h
    exact ⟨_, rfl, by simp [MIDITimedBigMessage.IsChannel]⟩
  · simp only [Except.ok.injEq] at h
    subst h
    exact ⟨_, rfl, by simp [MIDITimedBigMessage.IsChannel]⟩
  · simp only [Except.ok.injEq] at h
    subst h
    exact ⟨_, rfl, fun m hm => Or.inl (HandleSetPreset_channel self ev trkno trkchan _ _ m hm)⟩
  · simp only [Except.ok.injEq] at h
    subst h
    exact ⟨_, rfl, by simp [MIDITimedBigMessage.IsChannel]⟩
  · simp only [Except.ok.injEq] at h
    subst h
    unfold HandleEvent.loopPointSet
    by_cases hc : self.m_midifmt = eMIDIFormat.SingleTrack ∧ v.m_bLoopBegSet
    · rw [if_pos hc]
      exact ⟨[], by simp, by simp⟩
    · rw [if_neg hc]
      exact ⟨_, rfl, by simp [PutTextEvent]⟩
  · simp only [Except.ok.injEq] at h
    subst h
    exact ⟨_, rfl, by simp [PutTextEvent]⟩
  · simp only [Except.ok.injEq] at h
    subst h
    exact ⟨[], by simp, by simp⟩

/-- The messages that `HandleEvent` puts: channel messages, a tempo, the two messages of a loop
start, or the marker of an event without a handler. -/
theorem HandleEvent_kinds (self : DSESequenceToMidi) (trkno trkchan : Nat) (ev : TrkEvent)
    (v v' : EventVars) (h : HandleEvent self trkno trkchan ev v = .ok v') :
    ∃ msgs, v'.outtrack = v.outtrack ++ msgs ∧
      ∀ m ∈ msgs, m.IsChannel = true ∨ (∃ t, m.body = .Tempo t) ∨
        m.body = .Text .META_MARKER_TEXT TXT_LoopStart ∨ m.body = .MetaType .META_TRACK_LOOP ∨
        m.body = .Text .META_MARKER_TEXT (evmark ev) := by
  unfold HandleEvent at h
  cases hd : HandleEvent.dispatch self trkno trkchan ev v with
  | error e => simp [hd, Except.map] at h
  | ok w =>
    simp only [hd, Except.map, Except.ok.injEq] at h
    subst h
    show ∃ msgs, w.outtrack = v.outtrack ++ msgs ∧ _
    unfold HandleEvent.dispatch at hd
    simp only [] at hd
    split_ifs at hd with h1 h2 h3
    · cases hp : HandlePauses ev.evcode ev v.state with
      | error e => simp [hp, Except.map] at hd
      | ok st =>
        simp only [hp, Except.map, Except.ok.injEq] at hd
        subst hd
        exact ⟨[], by simp, by simp⟩
    · cases hp : HandleFixedPauses self ev v.state with
      | error e => simp [hp, Except.map] at hd
      | ok st =>
        simp only [hp, Except.map, Except.ok.injEq] at hd
        subst hd
        exact ⟨[], by simp, by simp⟩
    · simp only [Except.ok.injEq] at hd
      subst hd
      exact ⟨_, rfl, fun m hm => Or.inl (HandlePlayNote_channel self trkno trkchan _ ev m hm)⟩
    · exact HandleEvent.switch_kinds self trkno trkchan ev v w hd

/-- No message that `HandleEvent` puts is a system-exclusive message or the marker that ends the
loop. -/
theorem HandleEvent_plain (self : DSESequenceToMidi) (trkno trkchan : Nat) (ev : TrkEvent)
    (v v' : EventVars) (h : HandleEvent self trkno trkchan ev v = .ok v') :
    ∃ msgs, v'.outtrack = v.outtrack ++ msgs ∧
      ∀ m ∈ msgs, m.IsSysEx = false ∧ m.IsLoopEnd = false := by
  obtain ⟨msgs, hm, hk⟩ := HandleEvent_kinds self trkno trkchan ev v v' h
  refine ⟨msgs, hm, ?_⟩
  intro m hmem
  obtain ⟨time, body⟩ := m
  rcases hk _ hmem with h1 | ⟨t, h1⟩ | h1 | h1 | h1
  · cases body <;> simp_all [MIDITimedBigMessage.IsChannel, MIDITimedBigMessage.IsSysEx,
      MIDITimedBigMessage.IsLoopEnd]
  · simp only at h1
    subst h1
    exact ⟨rfl, by simp +decide [MIDITimedBigMessage.IsLoopEnd, TXT_LoopStart, TXT_LoopEnd]⟩
  · simp only at h1
    subst h1
    exact ⟨rfl, by simp +decide [MIDITimedBigMessage.IsLoopEnd, TXT_LoopStart, TXT_LoopEnd]⟩
  · simp only at h1
    subst h1
    exact ⟨rfl, by simp +decide [MIDITimedBigMessage.IsLoopEnd, TXT_LoopStart, TXT_LoopEnd]⟩
  · simp only at h1
    subst h1
    refine ⟨rfl, ?_⟩
    unfold MIDITimedBigMessage.IsLoopEnd
    simp [evmark_ne_LoopEnd ev]

/-! ## Relations that the exporter preserves -/

/-- A reflexive and transitive relation that the body preserves for each track of the list is
preserved by the loop over the tracks. -/
theorem forTracks_rel (R : ConvState → ConvState → Prop) (hrefl : ∀ s, R s s)
    (htrans : ∀ a b c, R a b → R b c → R a c) (body : Nat → ConvState → Except Err ConvState)
    (l : List Nat) (hbody : ∀ t ∈ l, ∀ s s', body t s = .ok s' → R s s') :
    ∀ s s', forTracks body l s = .ok s' → R s s' := by
  induction l with
  | nil =>
    intro s s' h
    simp only [forTracks, Except.ok.injEq] at h
    subst h
    exact hrefl s
  | cons a rest ih =>
    intro s s' h
    unfold forTracks at h
    cases hb : body a s with
    | error e => simp [hb] at h
    | ok s1 =>
      simp only [hb] at h
      exact htrans _ _ _ (hbody a (List.mem_cons_self _ _) s s1 hb)
        (ih (fun t ht => hbody t (List.mem_cons_of_mem _ ht)) s1 s' h)

/-- A reflexive and transitive relation that the body preserves is preserved by the loop over the
repetitions. -/
theorem forLoops_rel (R : ConvState → ConvState → Prop) (hrefl : ∀ s, R s s)
    (htrans : ∀ a b c, R a b → R b c → R a c) (body : ConvState → Except Err ConvState)
    (hbody : ∀ s s', body s = .ok s' → R s s') :
    ∀ n s s', forLoops body n s = .ok s' → R s s' := by
  intro n
  induction n with
  | zero =>
    intro s s' h
    simp only [forLoops, Except.ok.injEq] at h
    subst h
    exact hrefl s
  | succ n ih =>
    intro s s' h
    unfold forLoops at h
    cases hb : body s with
    | error e => simp [hb] at h
    | ok s1 =>
      simp only [hb] at h
      exact htrans _ _ _ (hbody s s1 hb) (ih s1 s' h)

/-- A reflexive and transitive relation that `HandleEvent` preserves on each event before the
first end-of-track event is preserved by the loop of `ExportATrack`. -/
theorem ExportATrack.loop_rel (R : ConvState → ConvState → Prop) (hrefl : ∀ s, R s s)
    (htrans : ∀ a b c, R a b → R b c → R a c) (self : DSESequenceToMidi) (intrk outtrk : Nat)
    (evs : List TrkEvent)
    (hstep : ∀ ev ∈ processed evs, ∀ evno s s',
      ExportATrack.step self intrk outtrk evno ev s = .ok s' → R s s') :
    ∀ evno s s', ExportATrack.loop self intrk outtrk evs evno s = .ok s' → R s s' := by
  induction evs with
  | nil =>
    intro evno s s' h
    simp only [ExportATrack.loop, Except.ok.injEq] at h
    subst h
    exact hrefl s
  | cons a rest ih =>
    intro evno s s' h
    unfold ExportATrack.loop at h
    by_cases hc : a.evcode = EndOfTrack ∧ ¬ ShouldExportEventsPastEoT
    · rw [if_pos hc] at h
      simp only [Except.ok.injEq] at h
      subst h
      exact hrefl s
    · rw [if_neg hc] at h
      have hp : processed (a :: rest) = a :: processed rest := by
        unfold processed
        simp only [List.takeWhile, decide_eq_false hc, Bool.not_false]
      cases hs : ExportATrack.step self intrk outtrk evno a s with
      | error e => simp [hs] at h
      | ok s1 =>
        simp only [hs] at h
        exact htrans _ _ _
          (hstep a (by rw [hp]; exact List.mem_cons_self _ _) evno s s1 hs)
          (ih (fun ev hev => hstep ev (by rw [hp]; exact List.mem_cons_of_mem _ hev)) (evno + 1)
            s1 s' h)

/-- A reflexive and transitive relation that `HandleEvent` preserves on each event before the
first end-of-track event of those that `ExportATrack` starts from, and that the trace entries
of an entry and of an exit preserve, is preserved by `ExportATrack`. -/
theorem ExportATrack_rel (R : ConvState → ConvState → Prop) (hrefl : ∀ s, R s s)
    (htrans : ∀ a b c, R a b → R b c → R a c) (self : DSESequenceToMidi) (intrk outtrk evno : Nat)
    (hstep : ∀ ev ∈ processed ((self.m_seq.track intrk).events.drop evno), ∀ evno s s',
      ExportATrack.step self intrk outtrk evno ev s = .ok s' → R s s')
    (htrace : ∀ (s : ConvState) (e : TraceEntry), e.IsEvent = false →
      R s { s with trace := s.trace ++ [e] }) :
    ∀ s s', ExportATrack self intrk outtrk evno s = .ok s' → R s s' := by
  intro s s' h
  unfold ExportATrack at h
  simp only [] at h
  cases hl : ExportATrack.loop self intrk outtrk ((self.m_seq.track intrk).events.drop evno) evno
      { s with trace := s.trace ++ [.enter intrk evno (s.ticks intrk)] } with
  | error e => simp [hl, Except.map] at h
  | ok s1 =>
    simp only [hl, Except.map, Except.ok.injEq] at h
    subst h
    exact htrans _ _ _ (htrace s (.enter intrk evno (s.ticks intrk)) rfl)
      (htrans _ _ _ (ExportATrack.loop_rel R hrefl htrans self intrk outtrk _ hstep _ _ _ hl)
        (htrace s1 (.leave intrk (s1.ticks intrk)) rfl))

/-- A reflexive and transitive relation that every step of a multi-track export preserves holds
between the state after `PrepareMidiFile` and the final state. -/
theorem ExportAsMultiTrack_rel (R : ConvState → ConvState → Prop) (hrefl : ∀ s, R s s)
    (htrans : ∀ a b c, R a b → R b c → R a c) (self : DSESequenceToMidi)
    (hexp : ∀ intrk outtrk evno s s', ExportATrack self intrk outtrk evno s = .ok s' → R s s')
    (hput : ∀ (s : ConvState) trk ticks,
      R s { s with
        m_midiout := s.m_midiout.Put trk [PutTextEvent ticks .META_MARKER_TEXT TXT_LoopEnd] })
    (hrestore : ∀ trkno s, R s (RestoreTrackState trkno s))
    (s0 s : ConvState) (h : ExportAsMultiTrack self s0 = .ok s) :
    R (PrepareMidiFile self { s0 with
        m_trkstates := resize s0.m_trkstates self.m_seq.getNbTracks
        m_beflooptrkstates := resize s0.m_beflooptrkstates self.m_seq.getNbTracks
        m_songlsttick := 0 }) s := by
  unfold ExportAsMultiTrack at h
  simp only [] at h
  split at h
  · exact Except.noConfusion h
  · rename_i s1 hs1
    have h1 := forTracks_rel R hrefl htrans _ _
      (by
        intro t _ sa sb hb
        cases he : ExportATrack self t t 0 sa with
        | error e => simp [he, Except.map] at hb
        | ok sc =>
          simp only [he, Except.map, Except.ok.injEq] at hb
          subst hb
          refine htrans _ _ _ (hexp t t 0 sa sc he) ?_
          split_ifs
          · exact hput sc _ _
          · exact hrefl sc) _ _ hs1
    refine htrans _ _ _ h1 ?_
    split_ifs at h
    · exact forLoops_rel R hrefl htrans _
        (forTracks_rel R hrefl htrans _ _
          (by
            intro t _ sa sb hb
            exact htrans _ _ _ (hrestore t sa) (hexp t _ _ _ sb hb))) _ _ _ h
    · simp only [Except.ok.injEq] at h
      subst h
      exact hrefl s1

/-- A reflexive and transitive relation that every step of a single-track export preserves holds
between the state after `PrepareMidiFile` and the final state. -/
theorem ExportAsSingleTrack_rel (R : ConvState → ConvState → Prop) (hrefl : ∀ s, R s s)
    (htrans : ∀ a b c, R a b → R b c → R a c) (self : DSESequenceToMidi)
    (hexp : ∀ intrk outtrk evno s s', ExportATrack self intrk outtrk evno s = .ok s' → R s s')
    (hput : ∀ (s : ConvState) trk ticks,
      R s { s with
        m_midiout := s.m_midiout.Put trk [PutTextEvent ticks .META_MARKER_TEXT TXT_LoopEnd] })
    (hrestore : ∀ trkno s, R s (RestoreTrackState trkno s))
    (htick : ∀ (s : ConvState) ticks, R s { s with m_songlsttick := ticks })
    (s0 s : ConvState) (h : ExportAsSingleTrack self s0 = .ok s) :
    R (PrepareMidiFile self { s0 with
        m_trkstates := resize s0.m_trkstates self.m_seq.getNbTracks
        m_beflooptrkstates := resize s0.m_beflooptrkstates self.m_seq.getNbTracks
        m_songlsttick := 0 }) s := by
  unfold ExportAsSingleTrack at h
  simp only [] at h
  split at h
  · exact Except.noConfusion h
  · rename_i s1 hs1
    have h1 := forTracks_rel R hrefl htrans _ _
      (by
        intro t _ sa sb hb
        cases he : ExportATrack self t 0 0 sa with
        | error e => simp [he, Except.map] at hb
        | ok sc =>
          simp only [he, Except.map, Except.ok.injEq] at hb
          subst hb
          refine htrans _ _ _ (hexp t 0 0 sa sc he) ?_
          split_ifs
          · exact htick sc _
          · exact hrefl sc) _ _ hs1
    refine htrans _ _ _ h1 ?_
    split_ifs at h
    · refine htrans _ _ _ (hput s1 0 s1.m_songlsttick) ?_
      exact forLoops_rel R hrefl htrans _
        (forTracks_rel R hrefl htrans _ _
          (by
            intro t _ sa sb hb
            exact htrans _ _ _ (hrestore t sa) (hexp t _ _ _ sb hb))) _ _ _ h
    · simp only [Except.ok.injEq] at h
      subst h
      exact hrefl s1

/-! ## Device initialisation -/

/-- The messages that one call of `HandleEvent` from `ExportATrack` adds to the output: they go
to the output track `outtrk`, and none is a system-exclusive message or the marker that ends the
loop. -/
theorem ExportATrack.step_events (self : DSESequenceToMidi) (intrk outtrk evno : Nat)
    (ev : TrkEvent) (s s' : ConvState)
    (h : ExportATrack.step self intrk outtrk evno ev s = .ok s') :
    ∃ msgs : List MIDITimedBigMessage,
      s'.m_midiout.events = s.m_midiout.events ++ msgs.map (fun m => (outtrk, m)) ∧
      ∀ m ∈ msgs, m.IsSysEx = false ∧ m.IsLoopEnd = false := by
  unfold ExportATrack.step at h
  cases hv : HandleEvent self intrk (self.m_seq.track intrk).chan ev (s.load intrk) with
  | error e => simp [hv, Except.map] at h
  | ok v =>
    simp only [hv, Except.map, Except.ok.injEq] at h
    subst h
    obtain ⟨msgs, hm, hk⟩ := HandleEvent_plain self intrk _ ev _ v hv
    refine ⟨msgs, ?_, hk⟩
    have hv2 : v.outtrack = msgs := by
      rw [hm]
      rfl
    show (s.m_midiout.Put outtrk v.outtrack).events = _
    rw [hv2]
    rfl

/-- The messages put after `PrepareMidiFile` hold no system-exclusive message. -/
theorem Export_after_prepare (self : DSESequenceToMidi) (s : ConvState)
    (h : Export self = .ok s) :
    ∃ rest,
      s.m_midiout.events =
        (PrepareMidiFile self
          { ({} : ConvState) with
            m_trkstates := resize [] self.m_seq.getNbTracks
            m_beflooptrkstates := resize [] self.m_seq.getNbTracks
            m_songlsttick := 0 }).m_midiout.events ++ rest ∧
      ∀ x ∈ rest, x.2.IsSysEx = false := by
  have hrefl : ∀ a : ConvState, ∃ l, a.m_midiout.events = a.m_midiout.events ++ l ∧
      ∀ x ∈ l, x.2.IsSysEx = false := fun a => ⟨[], by simp, by simp⟩
  have htrans : ∀ a b c : ConvState,
      (∃ l, b.m_midiout.events = a.m_midiout.events ++ l ∧ ∀ x ∈ l, x.2.IsSysEx = false) →
      (∃ l, c.m_midiout.events = b.m_midiout.events ++ l ∧ ∀ x ∈ l, x.2.IsSysEx = false) →
      ∃ l, c.m_midiout.events = a.m_midiout.events ++ l ∧ ∀ x ∈ l, x.2.IsSysEx = false := by
    rintro a b c ⟨l1, h1, k1⟩ ⟨l2, h2, k2⟩
    refine ⟨l1 ++ l2, by rw [h2, h1, List.append_assoc], ?_⟩
    intro x hx
    rcases List.mem_append.mp hx with hx | hx
    · exact k1 x hx
    · exact k2 x hx
  have hexp : ∀ intrk outtrk evno (a b : ConvState),
      ExportATrack self intrk outtrk evno a = .ok b →
      ∃ l, b.m_midiout.events = a.m_midiout.events ++ l ∧ ∀ x ∈ l, x.2.IsSysEx = false := by
    intro intrk outtrk evno
    apply ExportATrack_rel _ hrefl htrans
    · intro ev _ evno a b hs
      obtain ⟨msgs, hm, hk⟩ := ExportATrack.step_events self intrk outtrk evno ev a b hs
      refine ⟨_, hm, ?_⟩
      intro x hx
      obtain ⟨m, hmem, rfl⟩ := List.mem_map.mp hx
      exact (hk m hmem).1
    · intro a t _
      exact ⟨[], by simp, by simp⟩
  have hput : ∀ (a : ConvState) trk ticks,
      ∃ l, ({ a with m_midiout :=
          a.m_midiout.Put trk [PutTextEvent ticks .META_MARKER_TEXT TXT_LoopEnd] }
            : ConvState).m_midiout.events = a.m_midiout.events ++ l ∧
        ∀ x ∈ l, x.2.IsSysEx = false := by
    intro a trk ticks
    exact ⟨_, rfl, by simp [PutTextEvent, MIDITimedBigMessage.IsSysEx]⟩
  have hrestore : ∀ trkno (a : ConvState),
      ∃ l, (RestoreTrackState trkno a).m_midiout.events = a.m_midiout.events ++ l ∧
        ∀ x ∈ l, x.2.IsSysEx = false := fun trkno a => ⟨[], by simp [RestoreTrackState], by simp⟩
  unfold Export at h
  cases hf : self.m_midifmt with
  | SingleTrack =>
    simp only [hf] at h
    exact ExportAsSingleTrack_rel _ hrefl htrans self hexp hput hrestore
      (fun a ticks => ⟨[], by simp, by simp⟩) _ _ h
  | MultiTrack =>
    simp only [hf] at h
    exact ExportAsMultiTrack_rel _ hrefl htrans self hexp hput hrestore _ _ h

/-- C13: `PrepareMidiFile` puts its messages on output track 0 at tick 0: no system-exclusive
message in GM mode, two in GS mode, the GS reset and then the message that turns the drum
channel off, one in XG mode, and after them the time signature, the track name and the utility
text. In every export these messages come first, in this order, and no message put after them
is a system-exclusive message; so each device initialisation message is put before every channel
message, at a tick that is at most the tick of any other message. -/
theorem Export_device_init_first (self : DSESequenceToMidi) :
    ∃ sysex : List MIDITimedBigMessage,
      sysex = (match self.m_midimode with
        | .GM => []
        | .GS => [ ⟨0, .SysEx [0xF0, 0x41, 0x10, 0x42, 0x12, 0x40, 0x00, 0x7F, 0x00, 0x41, 0xF7]⟩,
                   ⟨0, .SysEx [0x41, 0x10, 0x42, 0x12, 0x40, 0x10, 0x15, 0x00, 0x1B, 0xF7]⟩ ]
        | .XG => [ ⟨0, .SysEx [0x43, 0x10, 0x4C, 0x00, 0x00, 0x7E, 0x00, 0x00, 0x00]⟩ ]) ∧
      (∀ m ∈ sysex, m.IsSysEx = true ∧ m.time = 0) ∧
      (∀ s0 : ConvState, (PrepareMidiFile self s0).m_midiout.events =
        s0.m_midiout.events ++ sysex.map (fun m => (0, m)) ++
          [ (0, ⟨0, .TimeSig⟩), (0, ⟨0, .Text .META_TRACK_NAME self.m_seq.fname⟩),
            (0, ⟨0, .Text .META_GENERIC_TEXT UtilityID⟩) ]) ∧
      (∀ s, Export self = .ok s →
        ∃ rest, s.m_midiout.events =
          sysex.map (fun m => (0, m)) ++
            [ (0, ⟨0, .TimeSig⟩), (0, ⟨0, .Text .META_TRACK_NAME self.m_seq.fname⟩),
              (0, ⟨0, .Text .META_GENERIC_TEXT UtilityID⟩) ] ++ rest ∧
          (∀ x ∈ rest, x.2.IsSysEx = false) ∧
          (∀ m ∈ sysex, ∀ x ∈ rest, m.time ≤ x.2.time)) := by
  refine ⟨_, rfl, ?_, ?_, ?_⟩
  · cases self.m_midimode <;> simp [MIDITimedBigMessage.IsSysEx]
  · intro s0
    unfold PrepareMidiFile
    cases self.m_midimode <;> simp [MIDIMultiTrack.Put, PutTextEvent]
  · intro s h
    obtain ⟨rest, hev, hrest⟩ := Export_after_prepare self s h
    refine ⟨rest, ?_, hrest, ?_⟩
    · rw [hev]
      unfold PrepareMidiFile
      cases self.m_midimode <;> simp [MIDIMultiTrack.Put, PutTextEvent]
    · intro m hm x _
      have h0 : m.time = 0 := by
        revert m
        cases self.m_midimode <;> simp
      rw [h0]
      exact Nat.zero_le _

/-- C13 for the multi-track export in GS mode of a track that selects program 5 at tick 0: the
two system-exclusive messages are the first two messages of the output. -/
theorem Export_device_init_first_witness :
    ∃ s, Export { converter (oneTrack [⟨SetPreset, [5]⟩]) none .MultiTrack 0 with
        m_midimode := .GS } = .ok s ∧
      s.m_midiout.events =
        [ (0, ⟨0, .SysEx [0xF0, 0x41, 0x10, 0x42, 0x12, 0x40, 0x00, 0x7F, 0x00, 0x41, 0xF7]⟩),
          (0, ⟨0, .SysEx [0x41, 0x10, 0x42, 0x12, 0x40, 0x10, 0x15, 0x00, 0x1B, 0xF7]⟩),
          (0, ⟨0, .TimeSig⟩), (0, ⟨0, .Text .META_TRACK_NAME "seq"⟩),
          (0, ⟨0, .Text .META_GENERIC_TEXT UtilityID⟩),
          (0, ⟨0, .ControlChange 0 0 0⟩), (0, ⟨0, .ProgramChange 0 5⟩) ] ∧
      ∃ sysex : List MIDITimedBigMessage, ∃ rest,
        s.m_midiout.events =
          sysex.map (fun m => (0, m)) ++
            [ (0, ⟨0, .TimeSig⟩), (0, ⟨0, .Text .META_TRACK_NAME "seq"⟩),
              (0, ⟨0, .Text .META_GENERIC_TEXT UtilityID⟩) ] ++ rest ∧
          (∀ x ∈ rest, x.2.IsSysEx = false) :=
  (Export_device_init_first { converter (oneTrack [⟨SetPreset, [5]⟩]) none .MultiTrack 0 with
      m_midimode := .GS }).elim
    fun sysex h =>
      ⟨_, rfl, rfl, sysex, (h.2.2.2 _ rfl).elim fun rest hr => ⟨rest, hr.1, hr.2.1⟩⟩


/-! ## The trace of an export -/

/-- A call of `HandleEvent` from `ExportATrack` adds its entry to the trace. -/
theorem ExportATrack.step_trace (self : DSESequenceToMidi) (intrk outtrk evno : Nat)
    (ev : TrkEvent) (s s' : ConvState)
    (h : ExportATrack.step self intrk outtrk evno ev s = .ok s') :
    s'.trace = s.trace ++ [.event intrk evno] := by
  unfold ExportATrack.step at h
  cases hv : HandleEvent self intrk (self.m_seq.track intrk).chan ev (s.load intrk) with
  | error e => simp [hv, Except.map] at h
  | ok v =>
    simp only [hv, Except.map, Except.ok.injEq] at h
    subst h
    rfl

/-- The loop of `ExportATrack` calls `HandleEvent` once on each event before the first
end-of-track event, in order. -/
theorem ExportATrack.loop_trace (self : DSESequenceToMidi) (intrk outtrk : Nat)
    (evs : List TrkEvent) :
    ∀ evno s s', ExportATrack.loop self intrk outtrk evs evno s = .ok s' →
      s'.trace = s.trace ++
        (List.range' evno (processed evs).length).map (TraceEntry.event intrk) := by
  induction evs with
  | nil =>
    intro evno s s' h
    simp only [ExportATrack.loop, Except.ok.injEq] at h
    subst h
    simp [processed]
  | cons a rest ih =>
    intro evno s s' h
    unfold ExportATrack.loop at h
    by_cases hc : a.evcode = EndOfTrack ∧ ¬ ShouldExportEventsPastEoT
    · rw [if_pos hc] at h
      simp only [Except.ok.injEq] at h
      subst h
      have hp : processed (a :: rest) = [] := by
        unfold processed
        simp only [List.takeWhile, decide_eq_true hc, Bool.not_true]
      simp [hp]
    · rw [if_neg hc] at h
      have hp : processed (a :: rest) = a :: processed rest := by
        unfold processed
        simp only [List.takeWhile, decide_eq_false hc, Bool.not_false]
      cases hs : ExportATrack.step self intrk outtrk evno a s with
      | error e => simp [hs] at h
      | ok s1 =>
        simp only [hs] at h
        rw [ih (evno + 1) s1 s' h, ExportATrack.step_trace self intrk outtrk evno a s s1 hs, hp,
          List.length_cons, List.range'_succ]
        simp

/-- The trace of `ExportATrack`: its entry, the calls of `HandleEvent` on the events before the
first end-of-track event, and its exit. -/
theorem ExportATrack_trace (self : DSESequenceToMidi) (intrk outtrk evno : Nat)
    (s s' : ConvState) (h : ExportATrack self intrk outtrk evno s = .ok s') :
    s'.trace = s.trace ++ [.enter intrk evno (s.ticks intrk)] ++
      (List.range' evno (processed ((self.m_seq.track intrk).events.drop evno)).length).map
        (TraceEntry.event intrk) ++
      [.leave intrk (s'.ticks intrk)] := by
  unfold ExportATrack at h
  simp only [] at h
  cases hl : ExportATrack.loop self intrk outtrk ((self.m_seq.track intrk).events.drop evno) evno
      { s with trace := s.trace ++ [.enter intrk evno (s.ticks intrk)] } with
  | error e => simp [hl, Except.map] at h
  | ok s1 =>
    simp only [hl, Except.map, Except.ok.injEq] at h
    subst h
    show s1.trace ++ [.leave intrk (s1.ticks intrk)] = _
    rw [ExportATrack.loop_trace self intrk outtrk _ _ _ _ hl]
    rfl

/-- When each pass of the body adds `g t` to a list read from the state, the loop over the tracks
adds these lists in the order of the tracks. -/
theorem forTracks_acc {α : Type} (f : ConvState → List α) (g : Nat → List α)
    (body : Nat → ConvState → Except Err ConvState) (l : List Nat)
    (hbody : ∀ t ∈ l, ∀ s s', body t s = .ok s' → f s' = f s ++ g t) :
    ∀ s s', forTracks body l s = .ok s' → f s' = f s ++ l.flatMap g := by
  induction l with
  | nil =>
    intro s s' h
    simp only [forTracks, Except.ok.injEq] at h
    subst h
    simp
  | cons a rest ih =>
    intro s s' h
    unfold forTracks at h
    cases hb : body a s with
    | error e => simp [hb] at h
    | ok s1 =>
      simp only [hb] at h
      rw [ih (fun t ht => hbody t (List.mem_cons_of_mem _ ht)) s1 s' h,
        hbody a (List.mem_cons_self _ _) s s1 hb, List.flatMap_cons, List.append_assoc]

/-! ## Exports without a loop point -/

/-- The repeat count has no part in a call of `HandleEvent` from `ExportATrack`. -/
theorem ExportATrack.step_nbloops (self : DSESequenceToMidi) (n : Nat) (intrk outtrk evno : Nat)
    (ev : TrkEvent) (s : ConvState) :
    ExportATrack.step { self with m_nbloops := n } intrk outtrk evno ev s =
      ExportATrack.step self intrk outtrk evno ev s := rfl

/-- The repeat count has no part in the loop of `ExportATrack`. -/
theorem ExportATrack.loop_nbloops (self : DSESequenceToMidi) (n : Nat) (intrk outtrk : Nat)
    (evs : List TrkEvent) :
    ∀ evno s, ExportATrack.loop { self with m_nbloops := n } intrk outtrk evs evno s =
      ExportATrack.loop self intrk outtrk evs evno s := by
  induction evs with
  | nil =>
    intro evno s
    rfl
  | cons a rest ih =>
    intro evno s
    unfold ExportATrack.loop
    simp only [ExportATrack.step_nbloops, ih]

/-- The repeat count has no part in `ExportATrack`. -/
theorem ExportATrack_nbloops (self : DSESequenceToMidi) (n : Nat) (intrk outtrk evno : Nat)
    (s : ConvState) :
    ExportATrack { self with m_nbloops := n } intrk outtrk evno s =
      ExportATrack self intrk outtrk evno s := by
  unfold ExportATrack
  simp only [ExportATrack.loop_nbloops]

/-- A track of the sequence, by its number. -/
theorem MusicSequence.track_mem (seq : MusicSequence) (t : Nat) (ht : t < seq.getNbTracks) :
    seq.track t ∈ seq.tracks := by
  unfold MusicSequence.track
  unfold MusicSequence.getNbTracks at ht
  rw [List.getD_eq_getElem _ _ ht]
  exact List.getElem_mem ht

/-- `ExportATrack` from the first event of a track in which no loop-point event comes before the
first end-of-track event: the loop flags are as before, and the messages put hold neither a
system-exclusive message nor the marker that ends the loop. -/
theorem ExportATrack_without_marker (self : DSESequenceToMidi) (intrk outtrk : Nat)
    (hno : ∀ e ∈ processed (self.m_seq.track intrk).events, e.evcode ≠ LoopPointSet)
    (s s' : ConvState) (h : ExportATrack self intrk outtrk 0 s = .ok s') :
    s'.m_bshouldloop = s.m_bshouldloop ∧ s'.m_bLoopBegSet = s.m_bLoopBegSet ∧
    ∃ l, s'.m_midiout.events = s.m_midiout.events ++ l ∧
      ∀ x ∈ l, x.2.IsSysEx = false ∧ x.2.IsLoopEnd = false := by
  revert s s'
  apply ExportATrack_rel (fun s s' => s'.m_bshouldloop = s.m_bshouldloop ∧
    s'.m_bLoopBegSet = s.m_bLoopBegSet ∧
    ∃ l, s'.m_midiout.events = s.m_midiout.events ++ l ∧
      ∀ x ∈ l, x.2.IsSysEx = false ∧ x.2.IsLoopEnd = false)
  · intro a
    exact ⟨rfl, rfl, [], by simp, by simp⟩
  · rintro a b c ⟨h1, h2, l1, h3, k1⟩ ⟨h4, h5, l2, h6, k2⟩
    refine ⟨h4.trans h1, h5.trans h2, l1 ++ l2, by rw [h6, h3, List.append_assoc], ?_⟩
    intro x hx
    rcases List.mem_append.mp hx with hx | hx
    · exact k1 x hx
    · exact k2 x hx
  · intro ev hev evno a b hs
    rw [List.drop_zero] at hev
    obtain ⟨msgs, hm, hk⟩ := ExportATrack.step_events self intrk outtrk evno ev a b hs
    unfold ExportATrack.step at hs
    cases hv : HandleEvent self intrk (self.m_seq.track intrk).chan ev (a.load intrk) with
    | error e => simp [hv, Except.map] at hs
    | ok v =>
      simp only [hv, Except.map, Except.ok.injEq] at hs
      subst hs
      obtain ⟨_, _, h3, _⟩ := HandleEvent_frame self intrk _ ev _ v hv
      obtain ⟨_, _, h7, h8⟩ := h3 (hno ev hev)
      refine ⟨h7, h8, _, hm, ?_⟩
      intro x hx
      obtain ⟨m, hmem, rfl⟩ := List.mem_map.mp hx
      exact hk m hmem
  · intro a t _
    exact ⟨rfl, rfl, [], by simp, by simp⟩

/-- The first pass over the tracks of a sequence in which no track has a loop-point event before
its first end-of-track event: the song stays without a loop, no marker that ends the loop is
put, and `HandleEvent` is called once on each event before the first end-of-track event of each
track. `body` is the body of the first loop of either export method. -/
theorem firstpass_without_marker (self : DSESequenceToMidi)
    (hno : ∀ trk ∈ self.m_seq.tracks, ∀ e ∈ processed trk.events, e.evcode ≠ LoopPointSet)
    (body : Nat → ConvState → Except Err ConvState) (outtrk : Nat → Nat)
    (hbody : ∀ t s s', body t s = .ok s' → ∃ s1, ExportATrack self t (outtrk t) 0 s = .ok s1 ∧
      s'.trace = s1.trace ∧ s'.m_bLoopBegSet = s1.m_bLoopBegSet ∧
      (s1.m_bshouldloop = false → s'.m_bshouldloop = false ∧ s'.m_midiout = s1.m_midiout))
    (s s' : ConvState) (h : forTracks body (List.range self.m_seq.getNbTracks) s = .ok s')
    (h0 : s.m_bshouldloop = false) :
    s'.m_bshouldloop = false ∧
    (∃ l, s'.m_midiout.events = s.m_midiout.events ++ l ∧ ∀ x ∈ l, x.2.IsLoopEnd = false) ∧
    s'.trace.filter TraceEntry.IsEvent = s.trace.filter TraceEntry.IsEvent ++
      (List.range self.m_seq.getNbTracks).flatMap fun t =>
        (List.range (processed (self.m_seq.track t).events).length).map (TraceEntry.event t) := by
  have hR := forTracks_rel (fun a b : ConvState => a.m_bshouldloop = false →
      b.m_bshouldloop = false ∧
      ∃ l, b.m_midiout.events = a.m_midiout.events ++ l ∧ ∀ x ∈ l, x.2.IsLoopEnd = false)
    (fun a _ => ⟨‹_›, [], by simp, by simp⟩)
    (by
      intro a b c h1 h2 ha
      obtain ⟨hb, l1, e1, k1⟩ := h1 ha
      obtain ⟨hc, l2, e2, k2⟩ := h2 hb
      refine ⟨hc, l1 ++ l2, by rw [e2, e1, List.append_assoc], ?_⟩
      intro x hx
      rcases List.mem_append.mp hx with hx | hx
      · exact k1 x hx
      · exact k2 x hx)
    body (List.range self.m_seq.getNbTracks)
    (by
      intro t ht a b hb ha
      obtain ⟨s1, he, _, _, hf⟩ := hbody t a b hb
      obtain ⟨h1, _, l, h3, k⟩ := ExportATrack_without_marker self t (outtrk t)
        (hno _ (MusicSequence.track_mem _ t (List.mem_range.mp ht))) a s1 he
      obtain ⟨h4, h5⟩ := hf (h1.trans ha)
      exact ⟨h4, l, by rw [h5, h3], fun x hx => (k x hx).2⟩) s s' h h0
  refine ⟨hR.1, hR.2, ?_⟩
  refine forTracks_acc (fun a => a.trace.filter TraceEntry.IsEvent) _ body _ ?_ s s' h
  intro t _ a b hb
  obtain ⟨s1, he, ht, _, _⟩ := hbody t a b hb
  show b.trace.filter TraceEntry.IsEvent = _
  rw [ht, ExportATrack_trace self t (outtrk t) 0 a s1 he, List.drop_zero, List.range_eq_range']
  simp [List.filter_append, TraceEntry.IsEvent, List.filter_map, Function.comp_def]

/-- The repeat count has no part in `PrepareMidiFile`. -/
theorem PrepareMidiFile_nbloops (self : DSESequenceToMidi) (n : Nat) (s : ConvState) :
    PrepareMidiFile { self with m_nbloops := n } s = PrepareMidiFile self s := rfl

/-- `PrepareMidiFile` puts no marker that ends the loop. -/
theorem PrepareMidiFile_no_LoopEnd (self : DSESequenceToMidi) :
    ∀ x ∈ (PrepareMidiFile self
        { ({} : ConvState) with
          m_trkstates := resize [] self.m_seq.getNbTracks
          m_beflooptrkstates := resize [] self.m_seq.getNbTracks
          m_songlsttick := 0 }).m_midiout.events, x.2.IsLoopEnd = false := by
  unfold PrepareMidiFile
  cases self.m_midimode <;>
    simp +decide [MIDIMultiTrack.Put, PutTextEvent, MIDITimedBigMessage.IsLoopEnd]

/-- The single-track export of a sequence in which no track has a loop-point event before its
first end-of-track event. -/
theorem ExportAsSingleTrack_without_loop_point (self : DSESequenceToMidi)
    (hno : ∀ trk ∈ self.m_seq.tracks, ∀ e ∈ processed trk.events, e.evcode ≠ LoopPointSet) :
    ExportAsSingleTrack self {} = ExportAsSingleTrack { self with m_nbloops := 0 } {} ∧
    ∀ s, ExportAsSingleTrack self {} = .ok s →
      (∀ x ∈ s.m_midiout.events, x.2.IsLoopEnd = false) ∧
      s.trace.filter TraceEntry.IsEvent =
        (List.range self.m_seq.getNbTracks).flatMap fun t =>
          (List.range (processed (self.m_seq.track t).events).length).map
            (TraceEntry.event t) := by
  have hprep := PrepareMidiFile_no_LoopEnd self
  unfold ExportAsSingleTrack
  simp only [ExportATrack_nbloops, PrepareMidiFile_nbloops]
  generalize hfp : forTracks _ _ _ = fp
  cases fp with
  | error e => exact ⟨rfl, fun s h => Except.noConfusion h⟩
  | ok s1 =>
    obtain ⟨h1, ⟨l, h2, h3⟩, h4⟩ := firstpass_without_marker self hno _ (fun _ => 0)
      (by
        intro t a b hb
        cases he : ExportATrack self t 0 0 a with
        | error e => simp [he, Except.map] at hb
        | ok sc =>
          simp only [he, Except.map, Except.ok.injEq] at hb
          subst hb
          refine ⟨sc, rfl, ?_, ?_, ?_⟩
          · split_ifs <;> rfl
          · split_ifs <;> rfl
          · intro hsc
            split_ifs
            · exact ⟨hsc, rfl⟩
            · exact ⟨hsc, rfl⟩) _ s1 hfp rfl
    simp only [h1]
    refine ⟨rfl, ?_⟩
    intro s hs
    simp only [Bool.false_eq_true, if_false, Except.ok.injEq] at hs
    subst hs
    refine ⟨?_, by simpa using h4⟩
    intro x hx
    rw [h2] at hx
    rcases List.mem_append.mp hx with hx | hx
    · exact hprep x hx
    · exact h3 x hx

/-- The multi-track export of a sequence in which no track has a loop-point event before its
first end-of-track event. -/
theorem ExportAsMultiTrack_without_loop_point (self : DSESequenceToMidi)
    (hno : ∀ trk ∈ self.m_seq.tracks, ∀ e ∈ processed trk.events, e.evcode ≠ LoopPointSet) :
    ExportAsMultiTrack self {} = ExportAsMultiTrack { self with m_nbloops := 0 } {} ∧
    ∀ s, ExportAsMultiTrack self {} = .ok s →
      (∀ x ∈ s.m_midiout.events, x.2.IsLoopEnd = false) ∧
      s.trace.filter TraceEntry.IsEvent =
        (List.range self.m_seq.getNbTracks).flatMap fun t =>
          (List.range (processed (self.m_seq.track t).events).length).map
            (TraceEntry.event t) := by
  have hprep := PrepareMidiFile_no_LoopEnd self
  unfold ExportAsMultiTrack
  simp only [ExportATrack_nbloops, PrepareMidiFile_nbloops]
  generalize hfp : forTracks _ _ _ = fp
  cases fp with
  | error e => exact ⟨rfl, fun s h => Except.noConfusion h⟩
  | ok s1 =>
    obtain ⟨h1, ⟨l, h2, h3⟩, h4⟩ := firstpass_without_marker self hno _ id
      (by
        intro t a b hb
        cases he : ExportATrack self t t 0 a with
        | error e => simp [he, Except.map] at hb
        | ok sc =>
          simp only [he, Except.map, Except.ok.injEq] at hb
          subst hb
          refine ⟨sc, he, ?_, ?_, ?_⟩
          · split_ifs <;> rfl
          · split_ifs <;> rfl
          · intro hsc
            rw [if_neg (by simp [hsc])]
            exact ⟨hsc, rfl⟩) _ s1 hfp rfl
    simp only [h1]
    refine ⟨rfl, ?_⟩
    intro s hs
    simp only [Bool.false_eq_true, if_false, Except.ok.injEq] at hs
    subst hs
    refine ⟨?_, by simpa using h4⟩
    intro x hx
    rw [h2] at hx
    rcases List.mem_append.mp hx with hx | hx
    · exact hprep x hx
    · exact h3 x hx

/-- C12: when no track of the sequence has a loop-point event before its first end-of-track
event, the export is the same for every repeat count as for the repeat count 0, whether it
succeeds or fails; when it succeeds, `HandleEvent` was called exactly once on each event before
the first end-of-track event of each track, track after track, and no marker that ends the loop
was put. -/
theorem Export_without_loop_point (self : DSESequenceToMidi)
    (hno : ∀ trk ∈ self.m_seq.tracks, ∀ e ∈ processed trk.events, e.evcode ≠ LoopPointSet) :
    Export self = Export { self with m_nbloops := 0 } ∧
    ∀ s, Export self = .ok s →
      (∀ x ∈ s.m_midiout.events, x.2.IsLoopEnd = false) ∧
      s.trace.filter TraceEntry.IsEvent =
        (List.range self.m_seq.getNbTracks).flatMap fun t =>
          (List.range (processed (self.m_seq.track t).events).length).map
            (TraceEntry.event t) := by
  obtain ⟨hS1, hS2⟩ := ExportAsSingleTrack_without_loop_point self hno
  obtain ⟨hM1, hM2⟩ := ExportAsMultiTrack_without_loop_point self hno
  have e0 : Export { self with m_nbloops := 0 } =
      match self.m_midifmt with
      | .SingleTrack => ExportAsSingleTrack { self with m_nbloops := 0 } {}
      | .MultiTrack => ExportAsMultiTrack { self with m_nbloops := 0 } {} := rfl
  rw [e0, ← hS1, ← hM1]
  refine ⟨rfl, ?_⟩
  intro s hs
  unfold Export at hs
  cases hf : self.m_midifmt with
  | SingleTrack =>
    simp only [hf] at hs
    exact hS2 s hs
  | MultiTrack =>
    simp only [hf] at hs
    exact hM2 s hs

/-- C12 for the tempo track and the track `[SetPreset 1, Pause8 100, NoteOn, EndOfTrack]`, in
the multi-track layout with the repeat count 3. -/
theorem Export_without_loop_point_witness :
    (∀ trk ∈ (converter seqNoteAfterPause none .MultiTrack 3).m_seq.tracks,
      ∀ e ∈ processed trk.events, e.evcode ≠ LoopPointSet) ∧
    Export (converter seqNoteAfterPause none .MultiTrack 3)
      = Export { converter seqNoteAfterPause none .MultiTrack 3 with m_nbloops := 0 } ∧
    ∃ s, Export (converter seqNoteAfterPause none .MultiTrack 3) = .ok s ∧
      s.trace.filter TraceEntry.IsEvent
        = [.event 0 0, .event 1 0, .event 1 1, .event 1 2] :=
  ⟨by decide,
    (Export_without_loop_point (converter seqNoteAfterPause none .MultiTrack 3) (by decide)).1,
    _, rfl,
    ((Export_without_loop_point (converter seqNoteAfterPause none .MultiTrack 3) (by decide)).2
      _ rfl).2⟩


/-! ## What the export of one track leaves of another -/

/-- `HandleEvent` on a loop-point event that the single-track layout skips: only the event counter
changes. -/
theorem HandleEvent_LoopPointSet_skipped (self : DSESequenceToMidi) (trkno trkchan : Nat)
    (ev : TrkEvent) (v : EventVars) (hp : ev.evcode = LoopPointSet)
    (hset : self.m_midifmt = eMIDIFormat.SingleTrack ∧ v.m_bLoopBegSet = true) :
    HandleEvent self trkno trkchan ev v = .ok
      { v with state := { v.state with eventno_ := u32 (v.state.eventno_ + 1) } } := by
  unfold HandleEvent HandleEvent.dispatch HandleEvent.switch HandleEvent.loopPointSet
  simp +decide only [hp, LoopPointSet, RepeatLastPause, PauseUntilRel, Delay_HN, Delay_64N,
    NoteOnBeg, NoteOnEnd, SetTempo, SetOctave, SetExpress, SetTrkVol, SetTrkPan, SetPreset,
    PitchBend, Except.map, if_pos hset, if_false, if_true, and_false, and_true, false_and]

/-- No event clears the loop flag. -/
theorem HandleEvent_shouldloop (self : DSESequenceToMidi) (trkno trkchan : Nat) (ev : TrkEvent)
    (v v' : EventVars) (h : HandleEvent self trkno trkchan ev v = .ok v')
    (hv : v.m_bshouldloop = true) : v'.m_bshouldloop = true := by
  by_cases hp : ev.evcode = LoopPointSet
  · by_cases hset : self.m_midifmt = eMIDIFormat.SingleTrack ∧ v.m_bLoopBegSet = true
    · rw [HandleEvent_LoopPointSet_skipped self trkno trkchan ev v hp hset] at h
      simp only [Except.ok.injEq] at h
      subst h
      exact hv
    · rw [HandleEvent_LoopPointSet self trkno trkchan ev v hp hset] at h
      simp only [Except.ok.injEq] at h
      subst h
      rfl
  · obtain ⟨_, _, h3, _⟩ := HandleEvent_frame self trkno trkchan ev v v' h
    rw [(h3 hp).2.2.1]
    exact hv

/-- Nothing changes nothing. -/
theorem ConvState.KeepsTrack.refl (t : Nat) (s : ConvState) : ConvState.KeepsTrack t s s :=
  ⟨rfl, rfl, rfl, rfl, fun _ => rfl, fun h => h⟩

/-- What two steps in a row leave. -/
theorem ConvState.KeepsTrack.trans (t : Nat) (a b c : ConvState)
    (hab : ConvState.KeepsTrack t a b) (hbc : ConvState.KeepsTrack t b c) :
    ConvState.KeepsTrack t a c :=
  ⟨hbc.1.trans hab.1, hbc.2.1.trans hab.2.1, hbc.2.2.1.trans hab.2.2.1,
    hbc.2.2.2.1.trans hab.2.2.2.1,
    fun i => (hbc.2.2.2.2.1 i).trans (hab.2.2.2.2.1 i),
    fun hloop => hbc.2.2.2.2.2 (hab.2.2.2.2.2 hloop)⟩

/-- `ExportATrack` on track `j` leaves another track `t` as it was. -/
theorem ExportATrack_keeps (self : DSESequenceToMidi) (j outtrk evno t : Nat) (hj : j ≠ t)
    (s s' : ConvState) (h : ExportATrack self j outtrk evno s = .ok s') :
    ConvState.KeepsTrack t s s' := by
  revert s s'
  apply ExportATrack_rel (ConvState.KeepsTrack t) (ConvState.KeepsTrack.refl t)
    (ConvState.KeepsTrack.trans t)
  · intro ev _ evno a b hs
    have htr := ExportATrack.step_trace self j outtrk evno ev a b hs
    obtain ⟨ho1, ho2⟩ := ExportATrack.step_other self j outtrk evno ev a b hs t hj
    unfold ExportATrack.step at hs
    cases hv : HandleEvent self j (self.m_seq.track j).chan ev (a.load j) with
    | error e => simp [hv, Except.map] at hs
    | ok v =>
      simp only [hv, Except.map, Except.ok.injEq] at hs
      subst hs
      refine ⟨?_, ?_, ho1, ho2, ?_, ?_⟩
      · show (a.m_trkstates.set j v.state).length = _
        rw [List.length_set]
      · show (a.m_beflooptrkstates.set j v.befloopstate).length = _
        rw [List.length_set]
      · intro i
        rw [htr, List.count_append, List.count_singleton]
        have hne : (TraceEntry.event j evno == TraceEntry.event t i) = false := by
          simp [hj]
        rw [hne]
        rfl
      · intro hb
        exact HandleEvent_shouldloop self j _ ev _ v hv hb
  · intro a e he
    refine ⟨rfl, rfl, rfl, rfl, ?_, fun h => h⟩
    intro i
    show (a.trace ++ [e]).count _ = _
    rw [List.count_append, List.count_singleton]
    have hne : (e == TraceEntry.event t i) = false := by
      cases e <;> simp_all [TraceEntry.IsEvent]
    rw [hne]
    rfl

/-- Restoring track `j` leaves another track `t` as it was. -/
theorem RestoreTrackState_keeps (j t : Nat) (hj : j ≠ t) (s : ConvState) :
    ConvState.KeepsTrack t s (RestoreTrackState j s) := by
  unfold RestoreTrackState
  refine ⟨?_, rfl, ?_, rfl, fun _ => rfl, fun h => h⟩
  · simp only [List.length_set]
  · simp only [getD_set_other _ _ _ _ hj]

/-- A loop repetition of track `j` leaves another track `t` as it was. -/
theorem LoopATrack_keeps (self : DSESequenceToMidi) (outtrk : Nat → Nat) (j t : Nat)
    (hj : j ≠ t) (s s' : ConvState) (h : LoopATrack self outtrk j s = .ok s') :
    ConvState.KeepsTrack t s s' :=
  ConvState.KeepsTrack.trans t _ _ _ (RestoreTrackState_keeps j t hj s)
    (ExportATrack_keeps self j _ _ t hj _ _ h)

/-! ## Success of the export of a track -/

/-- The loop of `ExportATrack` succeeds on events that `HandleEvent` handles. -/
theorem ExportATrack.loop_ok (self : DSESequenceToMidi) (intrk outtrk : Nat)
    (evs : List TrkEvent) (hevs : ∀ e ∈ evs, e.Handled self) :
    ∀ evno s, ∃ s', ExportATrack.loop self intrk outtrk evs evno s = .ok s' := by
  induction evs with
  | nil =>
    intro evno s
    exact ⟨s, rfl⟩
  | cons a rest ih =>
    intro evno s
    unfold ExportATrack.loop
    by_cases hc : a.evcode = EndOfTrack ∧ ¬ ShouldExportEventsPastEoT
    · rw [if_pos hc]
      exact ⟨s, rfl⟩
    · rw [if_neg hc]
      obtain ⟨v, hv⟩ := HandleEvent_ok self intrk (self.m_seq.track intrk).chan a (s.load intrk)
        (hevs a (List.mem_cons_self _ _))
      have hs : ExportATrack.step self intrk outtrk evno a s
          = .ok (s.store intrk outtrk evno v) := by
        unfold ExportATrack.step
        rw [hv]
        rfl
      rw [hs]
      exact ih (fun e he => hevs e (List.mem_cons_of_mem _ he)) (evno + 1) _

/-- `ExportATrack` succeeds on a track whose events `HandleEvent` handles. -/
theorem ExportATrack_ok (self : DSESequenceToMidi) (intrk outtrk evno : Nat) (s : ConvState)
    (hevs : ∀ e ∈ (self.m_seq.track intrk).events, e.Handled self) :
    ∃ s', ExportATrack self intrk outtrk evno s = .ok s' := by
  unfold ExportATrack
  obtain ⟨s1, h1⟩ := ExportATrack.loop_ok self intrk outtrk
    ((self.m_seq.track intrk).events.drop evno)
    (fun e he => hevs e (List.mem_of_mem_drop he)) evno
    { s with trace := s.trace ++ [.enter intrk evno (s.ticks intrk)] }
  simp only [h1]
  exact ⟨_, rfl⟩

/-! ## Loops over the tracks -/

/-- The number of calls on the event `i` of track `t` among the calls on the events `a` to
`a + n - 1` of that track. -/
theorem count_event_map_range' (t i : Nat) : ∀ (n a : Nat),
    ((List.range' a n).map (TraceEntry.event t)).count (.event t i) =
      if a ≤ i ∧ i < a + n then 1 else 0 := by
  intro n
  induction n with
  | zero =>
    intro a
    have : ¬ (a ≤ i ∧ i < a) := by omega
    simp [this]
  | succ n ih =>
    intro a
    rw [List.range'_succ, List.map_cons, List.count_cons, ih (a + 1)]
    by_cases hai : a = i
    · subst hai
      have h1 : ¬ (a + 1 ≤ a ∧ a < a + 1 + n) := by omega
      have h2 : a ≤ a ∧ a < a + (n + 1) := by omega
      simp [h1, h2]
    · have hne : (TraceEntry.event t a == TraceEntry.event t i) = false := by
        simp [hai]
      rw [hne]
      by_cases hc : a + 1 ≤ i ∧ i < a + 1 + n
      · have h2 : a ≤ i ∧ i < a + (n + 1) := by omega
        simp [hc, h2]
      · have h2 : ¬ (a ≤ i ∧ i < a + (n + 1)) := by omega
        simp [hc, h2]

/-- The loop over the tracks, unfolded once. -/
theorem forTracks_cons (body : Nat → ConvState → Except Err ConvState) (a : Nat) (l : List Nat)
    (s : ConvState) :
    forTracks body (a :: l) s =
      match body a s with
      | .error e => .error e
      | .ok s1 => forTracks body l s1 := rfl

/-- The loop over two lists of tracks in a row. -/
theorem forTracks_append (body : Nat → ConvState → Except Err ConvState) (l1 l2 : List Nat) :
    ∀ s, forTracks body (l1 ++ l2) s =
      match forTracks body l1 s with
      | .error e => .error e
      | .ok s1 => forTracks body l2 s1 := by
  induction l1 with
  | nil =>
    intro s
    rfl
  | cons a rest ih =>
    intro s
    rw [List.cons_append, forTracks_cons, forTracks_cons]
    cases hb : body a s with
    | error e => rfl
    | ok s1 => exact ih s1

/-- When the body succeeds on each track of the list and keeps a reflexive and transitive
relation, so does the loop over the tracks. -/
theorem forTracks_total (R : ConvState → ConvState → Prop) (hrefl : ∀ s, R s s)
    (htrans : ∀ a b c, R a b → R b c → R a c) (body : Nat → ConvState → Except Err ConvState)
    (l : List Nat) (hbody : ∀ j ∈ l, ∀ s, ∃ s', body j s = .ok s' ∧ R s s') :
    ∀ s, ∃ s', forTracks body l s = .ok s' ∧ R s s' := by
  induction l with
  | nil =>
    intro s
    exact ⟨s, rfl, hrefl s⟩
  | cons a rest ih =>
    intro s
    obtain ⟨s1, h1, r1⟩ := hbody a (List.mem_cons_self _ _) s
    obtain ⟨s2, h2, r2⟩ := ih (fun j hj => hbody j (List.mem_cons_of_mem _ hj)) s1
    refine ⟨s2, ?_, htrans _ _ _ r1 r2⟩
    unfold forTracks
    rw [h1]
    exact h2

/-- One pass over the tracks `0` to `n - 1`, seen from track `t`: the tracks before `t` succeed
and keep `Rb`, and once the body has succeeded on `t` the tracks after it succeed and keep
`Ra`. -/
theorem forTracks_round (Rb Ra : ConvState → ConvState → Prop) (hbrefl : ∀ s, Rb s s)
    (hbtrans : ∀ a b c, Rb a b → Rb b c → Rb a c) (harefl : ∀ s, Ra s s)
    (hatrans : ∀ a b c, Ra a b → Ra b c → Ra a c)
    (body : Nat → ConvState → Except Err ConvState) (t n : Nat) (ht : t < n)
    (hbefore : ∀ j, j < t → ∀ s, ∃ s', body j s = .ok s' ∧ Rb s s')
    (hafter : ∀ j, t < j → j < n → ∀ s, ∃ s', body j s = .ok s' ∧ Ra s s') (s : ConvState) :
    ∃ s1, Rb s s1 ∧ ∀ s2, body t s1 = .ok s2 →
      ∃ s3, forTracks body (List.range n) s = .ok s3 ∧ Ra s2 s3 := by
  have hsplit : List.range n = List.range' 0 t ++ t :: List.range' (t + 1) (n - t - 1) := by
    rw [List.range_eq_range', ← List.range'_succ]
    have h1 : n - t - 1 + 1 = n - t := by omega
    rw [h1]
    have h2 := List.range'_append_1 0 t (n - t)
    rw [Nat.zero_add] at h2
    rw [h2]
    congr 1
    omega
  obtain ⟨s1, h1, r1⟩ := forTracks_total Rb hbrefl hbtrans body (List.range' 0 t)
    (fun j hj => hbefore j (by
      rw [List.mem_range'_1] at hj
      omega)) s
  refine ⟨s1, r1, ?_⟩
  intro s2 h2
  obtain ⟨s3, h3, r3⟩ := forTracks_total Ra harefl hatrans body (List.range' (t + 1) (n - t - 1))
    (fun j hj => hafter j
      (by
        rw [List.mem_range'_1] at hj
        omega)
      (by
        rw [List.mem_range'_1] at hj
        omega)) s2
  refine ⟨s3, ?_, r3⟩
  rw [hsplit, forTracks_append, h1]
  show forTracks body (t :: List.range' (t + 1) (n - t - 1)) s1 = _
  unfold forTracks
  rw [h2]
  exact h3

/-! ## Exports with a loop point -/

/-- The vector of `n` fresh track states has `n` elements. -/
theorem length_resize_nil (n : Nat) : (resize [] n).length = n := by
  simp [resize]

/-- Every element of the vector of fresh track states is the default state. -/
theorem getD_resize_nil (n t : Nat) : (resize [] n).getD t default = default := by
  simp only [resize, List.take_nil, List.length_nil, Nat.sub_zero, List.nil_append]
  rw [List.getD_eq_getElem?_getD]
  by_cases h : t < n
  · simp [List.getElem?_replicate, h]
  · simp [List.getElem?_replicate, h]

/-- A step that leaves the state vectors, the trace and the loop flag as they were leaves every
track as it was. -/
theorem ConvState.KeepsTrack.of_eq (t : Nat) (s s' : ConvState)
    (h1 : s'.m_trkstates = s.m_trkstates) (h2 : s'.m_beflooptrkstates = s.m_beflooptrkstates)
    (h3 : s'.trace = s.trace) (h4 : s'.m_bshouldloop = s.m_bshouldloop) :
    ConvState.KeepsTrack t s s' := by
  refine ⟨by rw [h1], by rw [h2], by rw [h1], by rw [h2], fun i => by rw [h3], fun h => ?_⟩
  rw [h4]
  exact h

/-- The first pass over the tracks, seen from a track `t` whose events are
`pre ++ marker :: post ++ tail` with no other loop-point event and no end-of-track event before
`tail`: the pass succeeds, the saved state of `t` points after the marker, the loop flag is set,
and `HandleEvent` was called once on each event of `t` up to the last one of `post`. `body` is
the body of the first loop of either export method: `ExportATrack` followed by a step `w` that
leaves the states, the trace and the loop flags as they are. -/
theorem firstpass_with_marker (self : DSESequenceToMidi) (t : Nat)
    (pre post tail : List TrkEvent) (marker : TrkEvent)
    (hall : ∀ trk ∈ self.m_seq.tracks, ∀ e ∈ trk.events, e.Handled self)
    (ht : t < self.m_seq.getNbTracks)
    (htrk : (self.m_seq.track t).events = pre ++ marker :: (post ++ tail))
    (hmarker : marker.evcode = LoopPointSet)
    (hpre : ∀ e ∈ pre, e.evcode ≠ EndOfTrack ∧ e.evcode ≠ LoopPointSet)
    (hpost : ∀ e ∈ post, e.evcode ≠ EndOfTrack ∧ e.evcode ≠ LoopPointSet)
    (htail : ∀ e ∈ tail.head?, e.evcode = EndOfTrack)
    (hsize : pre.length + 1 < 4294967296)
    (hfirst : self.m_midifmt = .SingleTrack → ∀ j < t,
      ∀ e ∈ processed (self.m_seq.track j).events, e.evcode ≠ LoopPointSet)
    (body : Nat → ConvState → Except Err ConvState) (outtrk : Nat → Nat)
    (w : Nat → ConvState → ConvState)
    (hbody : ∀ j s, body j s = (ExportATrack self j (outtrk j) 0 s).map (w j))
    (hw : ∀ j s, (w j s).m_trkstates = s.m_trkstates ∧
      (w j s).m_beflooptrkstates = s.m_beflooptrkstates ∧ (w j s).trace = s.trace ∧
      (w j s).m_bshouldloop = s.m_bshouldloop ∧ (w j s).m_bLoopBegSet = s.m_bLoopBegSet)
    (s : ConvState) (h1 : t < s.m_trkstates.length) (h2 : t < s.m_beflooptrkstates.length)
    (he0 : (s.m_trkstates.getD t default).eventno_ = 0) (hbeg : s.m_bLoopBegSet = false) :
    ∃ s', forTracks body (List.range self.m_seq.getNbTracks) s = .ok s' ∧
      s'.m_trkstates.length = s.m_trkstates.length ∧
      s'.m_beflooptrkstates.length = s.m_beflooptrkstates.length ∧
      (s'.m_beflooptrkstates.getD t default).looppoint_ = pre.length + 1 ∧
      s'.m_bshouldloop = true ∧
      ∀ i, s'.trace.count (.event t i) =
        s.trace.count (.event t i) + if i < pre.length + 1 + post.length then 1 else 0 := by
  have hhandled : ∀ j, j < self.m_seq.getNbTracks →
      ∀ e ∈ (self.m_seq.track j).events, e.Handled self :=
    fun j hj => hall _ (MusicSequence.track_mem _ j hj)
  have hmemt : ∀ e, e ∈ pre ∨ e ∈ post → e ∈ (self.m_seq.track t).events := by
    intro e he
    rw [htrk]
    rcases he with he | he
    · exact List.mem_append_left _ he
    · exact List.mem_append_right _ (List.mem_cons_of_mem _ (List.mem_append_left _ he))
  have hother : ∀ j, j ≠ t → j < self.m_seq.getNbTracks → ∀ a, ∃ b, body j a = .ok b ∧
      ConvState.KeepsTrack t a b ∧
      ((∀ e ∈ processed (self.m_seq.track j).events, e.evcode ≠ LoopPointSet) →
        b.m_bLoopBegSet = a.m_bLoopBegSet) := by
    intro j hj hjn a
    obtain ⟨a1, ha1⟩ := ExportATrack_ok self j (outtrk j) 0 a (hhandled j hjn)
    obtain ⟨w1, w2, w3, w4, w5⟩ := hw j a1
    refine ⟨w j a1, by rw [hbody, ha1]; rfl, ?_, ?_⟩
    · exact ConvState.KeepsTrack.trans t _ _ _ (ExportATrack_keeps self j _ _ t hj a a1 ha1)
        (ConvState.KeepsTrack.of_eq t _ _ w1 w2 w3 w4)
    · intro hno
      rw [w5]
      exact (ExportATrack_without_marker self j (outtrk j) hno a a1 ha1).2.1
  obtain ⟨s1, ⟨k1, kb⟩, hrest⟩ := forTracks_round
    (fun a b => ConvState.KeepsTrack t a b ∧
      (self.m_midifmt = .SingleTrack → b.m_bLoopBegSet = a.m_bLoopBegSet))
    (ConvState.KeepsTrack t)
    (fun a => ⟨ConvState.KeepsTrack.refl t a, fun _ => rfl⟩)
    (fun a b c h1 h2 => ⟨ConvState.KeepsTrack.trans t a b c h1.1 h2.1,
      fun hf => (h2.2 hf).trans (h1.2 hf)⟩)
    (ConvState.KeepsTrack.refl t) (ConvState.KeepsTrack.trans t)
    body t self.m_seq.getNbTracks ht
    (by
      intro j hj a
      obtain ⟨b, hb, hk, hl⟩ := hother j (by omega) (by omega) a
      exact ⟨b, hb, hk, fun hf => hl (hfirst hf j hj)⟩)
    (by
      intro j hj hjn a
      obtain ⟨b, hb, hk, _⟩ := hother j (by omega) hjn a
      exact ⟨b, hb, hk⟩) s
  obtain ⟨k1a, k1b, k1c, k1d, k1e, k1f⟩ := k1
  have hnew : ¬ (self.m_midifmt = eMIDIFormat.SingleTrack ∧ s1.m_bLoopBegSet = true) := by
    rintro ⟨hf, hb⟩
    rw [kb hf, hbeg] at hb
    exact Bool.noConfusion hb
  obtain ⟨s2, e2, tr2, l2a, l2b, lp2, sl2⟩ := ExportATrack_first_pass self t (outtrk t) pre post
    tail marker s1 htrk (by rw [k1a]; exact h1) (by rw [k1b]; exact h2) (by rw [k1c]; exact he0)
    hnew hmarker
    (fun e he => ⟨hhandled t ht e (hmemt e (Or.inl he)), hpre e he⟩)
    (fun e he => ⟨hhandled t ht e (hmemt e (Or.inr he)), hpost e he⟩) htail hsize
  obtain ⟨w1, w2, w3, w4, w5⟩ := hw t s2
  obtain ⟨s3, e3, k3a, k3b, k3c, k3d, k3e, k3f⟩ := hrest (w t s2) (by rw [hbody, e2]; rfl)
  refine ⟨s3, e3, ?_, ?_, ?_, ?_, ?_⟩
  · rw [k3a, w1, l2a, k1a]
  · rw [k3b, w2, l2b, k1b]
  · rw [k3d, w2, lp2]
  · exact k3f (by rw [w4]; exact sl2)
  · intro i
    rw [k3e i, w3, tr2]
    simp only [List.count_append, List.count_singleton, count_event_map_range', k1e i]
    simp

/-- One repetition of all tracks, seen from the track `t` of `firstpass_with_marker`: it succeeds
and `HandleEvent` was called once more on each event of `post`, and on no other event of `t`. -/
theorem looppass_with_marker (self : DSESequenceToMidi) (t : Nat)
    (pre post tail : List TrkEvent) (marker : TrkEvent)
    (hall : ∀ trk ∈ self.m_seq.tracks, ∀ e ∈ trk.events, e.Handled self)
    (ht : t < self.m_seq.getNbTracks)
    (htrk : (self.m_seq.track t).events = pre ++ marker :: (post ++ tail))
    (hpost : ∀ e ∈ post, e.evcode ≠ EndOfTrack ∧ e.evcode ≠ LoopPointSet)
    (htail : ∀ e ∈ tail.head?, e.evcode = EndOfTrack)
    (outtrk : Nat → Nat) (s : ConvState)
    (h1 : t < s.m_trkstates.length) (h2 : t < s.m_beflooptrkstates.length)
    (hlp : (s.m_beflooptrkstates.getD t default).looppoint_ = pre.length + 1) :
    ∃ s', forTracks (LoopATrack self outtrk) (List.range self.m_seq.getNbTracks) s = .ok s' ∧
      t < s'.m_trkstates.length ∧ t < s'.m_beflooptrkstates.length ∧
      (s'.m_beflooptrkstates.getD t default).looppoint_ = pre.length + 1 ∧
      ∀ i, s'.trace.count (.event t i) = s.trace.count (.event t i) +
        if pre.length + 1 ≤ i ∧ i < pre.length + 1 + post.length then 1 else 0 := by
  have hhandled : ∀ j, j < self.m_seq.getNbTracks →
      ∀ e ∈ (self.m_seq.track j).events, e.Handled self :=
    fun j hj => hall _ (MusicSequence.track_mem _ j hj)
  have hother : ∀ j, j ≠ t → j < self.m_seq.getNbTracks → ∀ a,
      ∃ b, LoopATrack self outtrk j a = .ok b ∧ ConvState.KeepsTrack t a b := by
    intro j hj hjn a
    obtain ⟨b, hb⟩ := ExportATrack_ok self j (outtrk j)
      ((RestoreTrackState j a).m_trkstates.getD j default).looppoint_ (RestoreTrackState j a)
      (hhandled j hjn)
    exact ⟨b, hb, LoopATrack_keeps self outtrk j t hj a b hb⟩
  obtain ⟨s1, k1, hrest⟩ := forTracks_round (ConvState.KeepsTrack t) (ConvState.KeepsTrack t)
    (ConvState.KeepsTrack.refl t) (ConvState.KeepsTrack.trans t)
    (ConvState.KeepsTrack.refl t) (ConvState.KeepsTrack.trans t)
    (LoopATrack self outtrk) t self.m_seq.getNbTracks ht
    (fun j hj a => hother j (by omega) (by omega) a)
    (fun j hj hjn a => hother j (by omega) hjn a) s
  obtain ⟨k1a, k1b, k1c, k1d, k1e, k1f⟩ := k1
  obtain ⟨s2, e2, tr2, l2a, l2b, lp2, _⟩ := LoopATrack_replay self outtrk t pre post tail marker s1
    htrk (by rw [k1a]; exact h1) (by rw [k1b]; exact h2) (by rw [k1d]; exact hlp)
    (fun e he => ⟨hhandled t ht e (by
      rw [htrk]
      exact List.mem_append_right _ (List.mem_cons_of_mem _ (List.mem_append_left _ he))),
      hpost e he⟩) htail
  obtain ⟨s3, e3, k3a, k3b, k3c, k3d, k3e, k3f⟩ := hrest s2 e2
  refine ⟨s3, e3, ?_, ?_, ?_, ?_⟩
  · rw [k3a, l2a, k1a]
    exact h1
  · rw [k3b, l2b, k1b]
    exact h2
  · rw [k3d, lp2, k1d]
    exact hlp
  · intro i
    rw [k3e i, tr2]
    simp only [List.count_append, List.count_singleton, count_event_map_range', k1e i]
    simp

/-- The repetitions of all tracks, seen from the track `t` of `firstpass_with_marker`: they
succeed and `HandleEvent` was called once more per repetition on each event of `post`, and on no
other event of `t`. -/
theorem forLoops_with_marker (self : DSESequenceToMidi) (t : Nat)
    (pre post tail : List TrkEvent) (marker : TrkEvent)
    (hall : ∀ trk ∈ self.m_seq.tracks, ∀ e ∈ trk.events, e.Handled self)
    (ht : t < self.m_seq.getNbTracks)
    (htrk : (self.m_seq.track t).events = pre ++ marker :: (post ++ tail))
    (hpost : ∀ e ∈ post, e.evcode ≠ EndOfTrack ∧ e.evcode ≠ LoopPointSet)
    (htail : ∀ e ∈ tail.head?, e.evcode = EndOfTrack)
    (outtrk : Nat → Nat) :
    ∀ (n : Nat) (s : ConvState), t < s.m_trkstates.length → t < s.m_beflooptrkstates.length →
      (s.m_beflooptrkstates.getD t default).looppoint_ = pre.length + 1 →
      ∃ s', forLoops (forTracks (LoopATrack self outtrk) (List.range self.m_seq.getNbTracks)) n s
          = .ok s' ∧
        ∀ i, s'.trace.count (.event t i) = s.trace.count (.event t i) +
          n * if pre.length + 1 ≤ i ∧ i < pre.length + 1 + post.length then 1 else 0 := by
  intro n
  induction n with
  | zero =>
    intro s _ _ _
    exact ⟨s, rfl, fun i => by simp⟩
  | succ n ih =>
    intro s h1 h2 hlp
    obtain ⟨s1, e1, g1, g2, lp1, c1⟩ := looppass_with_marker self t pre post tail marker hall ht
      htrk hpost htail outtrk s h1 h2 hlp
    obtain ⟨s2, e2, c2⟩ := ih s1 g1 g2 lp1
    refine ⟨s2, ?_, ?_⟩
    · unfold forLoops
      rw [e1]
      exact e2
    · intro i
      rw [c2 i, c1 i]
      split_ifs <;> simp
      ring

/-- C11 as stated fails. In the single-track layout only the first loop-point event of the song
is honoured: with two tracks that both mark a loop point and the repeat count 1, the events 0
and 2 of the second track, before and after its marker at index 1, are both handled twice. In the
multi-track layout, when a track has two loop-point events, at indices 0 and 1, the event 1,
after the first marker, is handled once whatever the repeat count (here 2). -/
theorem Export_replay_not_from_own_loop_point :
    ((Export (converter seqTwoLoopTracks none .SingleTrack 1)).map
        (fun s => (s.trace.count (.event 1 0), s.trace.count (.event 1 2)))
      = .ok (2, 2)) ∧
    ((Export (converter seqTwoMarkers none .MultiTrack 2)).map
        (fun s => (s.trace.count (.event 0 1), s.trace.count (.event 0 2)))
      = .ok (1, 3)) := by
  decide

/-- C11, amended: for every repeat count N and in both layouts, take a sequence all of whose
events `HandleEvent` handles and a track whose events are `pre ++ marker :: post ++ tail`, where
`marker` is the only loop-point event before `tail`, no end-of-track event comes before `tail`,
and `tail` is empty or starts with the end-of-track event; in the single-track layout, no earlier
track has a loop-point event before its first end-of-track event. Then the export succeeds, and
`HandleEvent` is called exactly once on each event up to the marker, at index k, exactly N + 1
times on each event of `post`, after k and before the end of the track, and never on a later
event. -/
theorem Export_loop_point_traversals (self : DSESequenceToMidi) (t : Nat)
    (pre post tail : List TrkEvent) (marker : TrkEvent)
    (hall : ∀ trk ∈ self.m_seq.tracks, ∀ e ∈ trk.events, e.Handled self)
    (ht : t < self.m_seq.getNbTracks)
    (htrk : (self.m_seq.track t).events = pre ++ marker :: (post ++ tail))
    (hmarker : marker.evcode = LoopPointSet)
    (hpre : ∀ e ∈ pre, e.evcode ≠ EndOfTrack ∧ e.evcode ≠ LoopPointSet)
    (hpost : ∀ e ∈ post, e.evcode ≠ EndOfTrack ∧ e.evcode ≠ LoopPointSet)
    (htail : ∀ e ∈ tail.head?, e.evcode = EndOfTrack)
    (hsize : pre.length + 1 < 4294967296)
    (hfirst : self.m_midifmt = .SingleTrack → ∀ j < t,
      ∀ e ∈ processed (self.m_seq.track j).events, e.evcode ≠ LoopPointSet) :
    ∃ s, Export self = .ok s ∧
      ∀ i, s.trace.count (.event t i) =
        if i ≤ pre.length then 1
        else if i ≤ pre.length + post.length then self.m_nbloops + 1
        else 0 := by
  have hlen := length_resize_nil self.m_seq.getNbTracks
  have hcount : ∀ (c0 c1 c2 i : Nat),
      c1 = c0 + (if i < pre.length + 1 + post.length then 1 else 0) →
      c2 = c1 + self.m_nbloops *
        (if pre.length + 1 ≤ i ∧ i < pre.length + 1 + post.length then 1 else 0) →
      c0 = 0 →
      c2 = if i ≤ pre.length then 1
        else if i ≤ pre.length + post.length then self.m_nbloops + 1
        else 0 := by
    intro c0 c1 c2 i h1 h2 h0
    rw [h2, h1, h0]
    split_ifs <;> omega
  unfold Export
  cases hf : self.m_midifmt with
  | SingleTrack =>
    simp only []
    obtain ⟨s1, e1, l1, l2, lp1, sl1, c1⟩ := firstpass_with_marker self t pre post tail marker
      hall ht htrk hmarker hpre hpost htail hsize hfirst
      (fun trkno s => (ExportATrack self trkno 0 0 s).map fun (s : ConvState) =>
        if s.m_songlsttick < (s.m_trkstates.getD trkno default).ticks_ then
          { s with m_songlsttick := (s.m_trkstates.getD trkno default).ticks_ }
        else s)
      (fun _ => 0)
      (fun trkno (s : ConvState) =>
        if s.m_songlsttick < (s.m_trkstates.getD trkno default).ticks_ then
          { s with m_songlsttick := (s.m_trkstates.getD trkno default).ticks_ }
        else s)
      (fun j s => rfl)
      (by
        intro j s
        beta_reduce
        split_ifs <;> exact ⟨rfl, rfl, rfl, rfl, rfl⟩)
      (PrepareMidiFile self
        { ({} : ConvState) with
          m_trkstates := resize [] self.m_seq.getNbTracks
          m_beflooptrkstates := resize [] self.m_seq.getNbTracks
          m_songlsttick := 0 })
      (by
        show t < (resize [] self.m_seq.getNbTracks).length
        rw [hlen]
        exact ht)
      (by
        show t < (resize [] self.m_seq.getNbTracks).length
        rw [hlen]
        exact ht)
      (by
        show ((resize [] self.m_seq.getNbTracks).getD t default).eventno_ = 0
        rw [getD_resize_nil]
        rfl)
      rfl
    obtain ⟨s2, e2, c2⟩ := forLoops_with_marker self t pre post tail marker hall ht htrk hpost
      htail (fun _ => 0) self.m_nbloops
      { s1 with m_midiout :=
          (s1.m_midiout.Put 0 [PutTextEvent s1.m_songlsttick .META_MARKER_TEXT TXT_LoopEnd]) }
      (by
        show t < s1.m_trkstates.length
        rw [show s1.m_trkstates.length = self.m_seq.getNbTracks from l1.trans hlen]
        exact ht)
      (by
        show t < s1.m_beflooptrkstates.length
        rw [show s1.m_beflooptrkstates.length = self.m_seq.getNbTracks from l2.trans hlen]
        exact ht)
      lp1
    refine ⟨s2, ?_, fun i => hcount _ _ _ i (c1 i) (c2 i) rfl⟩
    unfold ExportAsSingleTrack
    simp only []
    rw [e1]
    simp only []
    rw [if_pos sl1]
    exact e2
  | MultiTrack =>
    simp only []
    obtain ⟨s1, e1, l1, l2, lp1, sl1, c1⟩ := firstpass_with_marker self t pre post tail marker
      hall ht htrk hmarker hpre hpost htail hsize hfirst
      (fun trkno s => (ExportATrack self trkno trkno 0 s).map fun (s : ConvState) =>
        if s.m_bshouldloop then
          { s with m_midiout := (s.m_midiout.Put trkno
              [PutTextEvent (s.m_trkstates.getD trkno default).ticks_ .META_MARKER_TEXT
                TXT_LoopEnd]) }
        else s)
      id
      (fun trkno (s : ConvState) =>
        if s.m_bshouldloop then
          { s with m_midiout := (s.m_midiout.Put trkno
              [PutTextEvent (s.m_trkstates.getD trkno default).ticks_ .META_MARKER_TEXT
                TXT_LoopEnd]) }
        else s)
      (fun j s => rfl)
      (by
        intro j s
        beta_reduce
        split_ifs <;> exact ⟨rfl, rfl, rfl, rfl, rfl⟩)
      (PrepareMidiFile self
        { ({} : ConvState) with
          m_trkstates := resize [] self.m_seq.getNbTracks
          m_beflooptrkstates := resize [] self.m_seq.getNbTracks
          m_songlsttick := 0 })
      (by
        show t < (resize [] self.m_seq.getNbTracks).length
        rw [hlen]
        exact ht)
      (by
        show t < (resize [] self.m_seq.getNbTracks).length
        rw [hlen]
        exact ht)
      (by
        show ((resize [] self.m_seq.getNbTracks).getD t default).eventno_ = 0
        rw [getD_resize_nil]
        rfl)
      rfl
    obtain ⟨s2, e2, c2⟩ := forLoops_with_marker self t pre post tail marker hall ht htrk hpost
      htail id self.m_nbloops s1
      (by
        rw [show s1.m_trkstates.length = self.m_seq.getNbTracks from l1.trans hlen]
        exact ht)
      (by
        rw [show s1.m_beflooptrkstates.length = self.m_seq.getNbTracks from l2.trans hlen]
        exact ht)
      lp1
    refine ⟨s2, ?_, fun i => hcount _ _ _ i (c1 i) (c2 i) rfl⟩
    unfold ExportAsMultiTrack
    simp only []
    rw [e1]
    simp only []
    rw [if_pos sl1]
    exact e2

/-- C11, amended, for the second of two tracks that both mark a loop point, in the multi-track
layout with the repeat count 3: the pause before the marker and the marker are handled once, the
pause after the marker 4 times. -/
theorem Export_loop_point_traversals_witness :
    (∀ trk ∈ (converter seqTwoLoopTracks none .MultiTrack 3).m_seq.tracks,
      ∀ e ∈ trk.events, e.Handled (converter seqTwoLoopTracks none .MultiTrack 3)) ∧
    1 < (converter seqTwoLoopTracks none .MultiTrack 3).m_seq.getNbTracks ∧
    ((converter seqTwoLoopTracks none .MultiTrack 3).m_seq.track 1).events
      = [⟨Pause8Bits, [5]⟩] ++ ⟨LoopPointSet, []⟩ :: ([⟨Pause8Bits, [5]⟩] ++ [⟨EndOfTrack, []⟩]) ∧
    ∃ s, Export (converter seqTwoLoopTracks none .MultiTrack 3) = .ok s ∧
      ∀ i, s.trace.count (.event 1 i) =
        if i ≤ [(⟨Pause8Bits, [5]⟩ : TrkEvent)].length then 1
        else if i ≤ [(⟨Pause8Bits, [5]⟩ : TrkEvent)].length +
            [(⟨Pause8Bits, [5]⟩ : TrkEvent)].length then
          (converter seqTwoLoopTracks none .MultiTrack 3).m_nbloops + 1
        else 0 :=
  ⟨by decide, by decide, rfl,
    Export_loop_point_traversals (converter seqTwoLoopTracks none .MultiTrack 3) 1
      [⟨Pause8Bits, [5]⟩] [⟨Pause8Bits, [5]⟩] [⟨EndOfTrack, []⟩] ⟨LoopPointSet, []⟩
      (by decide) (by decide) rfl rfl (by decide) (by decide) (by decide) (by decide)
      (by decide)⟩


/-! ## The constructor of a table entry -/

/-- C24: the constructor of `PresetConvData` stores its first five arguments in their fields and
leaves the two lists empty, but it initialises `transpose` with 0 whatever `transposenote` is:
the entry built with `transposenote = 3` has `transpose = 0`. -/
theorem PresetConvData_ctor_drops_transposenote (presid : Nat) (bank : Int)
    (maxpolyphony prioritygrp maxkeyduration : Nat) (transposenote : Int) :
    PresetConvData.ctor presid bank maxpolyphony prioritygrp maxkeyduration transposenote =
      { midipres := presid, midibank := bank, remapnotes := [], extrafx := [],
        maxpoly := maxpolyphony, priority := prioritygrp, maxkeydowndur := maxkeyduration,
        transpose := 0 } ∧
    (PresetConvData.ctor 5 2 16 1 480 3).transpose = 0 :=
  ⟨rfl, rfl⟩

/-! ## The markers that end the loop -/

/-- C21: in the multi-track layout every output track gets one marker `LoopEnd` when the song
loops. The converter tests the loop flag after each track of the first pass, and the flag is
only set once a loop-point event has been handled: for a tempo track followed by a track that
marks its loop point, output track 0 gets no `LoopEnd` and output track 1 gets one, at tick
150. -/
theorem Export_no_LoopEnd_before_first_marker :
    (Export (converter seqLoopNote none .MultiTrack 0)).map
        (fun s => ((s.m_midiout.GetTrack 0).filter MIDITimedBigMessage.IsLoopEnd,
          (s.m_midiout.GetTrack 1).filter MIDITimedBigMessage.IsLoopEnd))
      = .ok ([], [⟨150, .Text .META_MARKER_TEXT "LoopEnd"⟩]) := by
  decide

/-! ## The tick count -/

/-- C25: an event that `HandleEvent` handles and that is neither a pause nor a fixed-duration
pause leaves the tick count of the track as it was; a pause or a fixed-duration pause adds the
new last pause to it, in 32-bit arithmetic. So the tick count does not decrease unless the sum
leaves 32 bits. -/
theorem HandleEvent_ticks_monotone (self : DSESequenceToMidi) (trkno trkchan : Nat)
    (ev : TrkEvent) (v v' : EventVars) (h : HandleEvent self trkno trkchan ev v = .ok v') :
    (¬ (RepeatLastPause ≤ ev.evcode ∧ ev.evcode ≤ PauseUntilRel) →
      ¬ (Delay_HN ≤ ev.evcode ∧ ev.evcode ≤ Delay_64N) → v'.state.ticks_ = v.state.ticks_) ∧
    ((RepeatLastPause ≤ ev.evcode ∧ ev.evcode ≤ PauseUntilRel) ∨
      (Delay_HN ≤ ev.evcode ∧ ev.evcode ≤ Delay_64N) →
      v'.state.ticks_ = u32 (v.state.ticks_ + v'.state.lastpause_)) ∧
    (v.state.ticks_ + v'.state.lastpause_ < 4294967296 → v.state.ticks_ ≤ v'.state.ticks_) := by
  have hA : ¬ (RepeatLastPause ≤ ev.evcode ∧ ev.evcode ≤ PauseUntilRel) →
      ¬ (Delay_HN ≤ ev.evcode ∧ ev.evcode ≤ Delay_64N) → v'.state.ticks_ = v.state.ticks_ := by
    intro c1 c2
    unfold HandleEvent at h
    cases hd : HandleEvent.dispatch self trkno trkchan ev v with
    | error e => simp [hd, Except.map] at h
    | ok w =>
      simp only [hd, Except.map, Except.ok.injEq] at h
      subst h
      show w.state.ticks_ = _
      unfold HandleEvent.dispatch at hd
      simp only [if_neg c1, if_neg c2] at hd
      by_cases c3 : NoteOnBeg ≤ ev.evcode ∧ ev.evcode ≤ NoteOnEnd
      · rw [if_pos c3] at hd
        obtain ⟨o, hl, l, b, p, hs⟩ := HandlePlayNote_state self trkno trkchan v.state ev
        simp only [Except.ok.injEq] at hd
        subst hd
        show (HandlePlayNote self trkno trkchan v.state ev).1.ticks_ = _
        rw [hs]
      · rw [if_neg c3] at hd
        unfold HandleEvent.switch at hd
        simp only [] at hd
        split_ifs at hd with h4 h5 h6 h7 h8 h9 h10 h11 h12
        · cases hp : ConvertTempoToMicrosecPerQuarterNote ev.front with
          | error e => simp [hp, Except.map] at hd
          | ok st =>
            simp only [hp, Except.map, Except.ok.injEq] at hd
            subst hd
            rfl
        · simp only [Except.ok.injEq] at hd
          subst hd
          rfl
        · simp only [Except.ok.injEq] at hd
          subst hd
          rfl
        · simp only [Except.ok.injEq] at hd
          subst hd
          rfl
        · simp only [Except.ok.injEq] at hd
          subst hd
          rfl
        · obtain ⟨i, b, p, m, t, hs⟩ :=
            HandleSetPreset_state self ev trkno trkchan v.state v.state.ticks_
          simp only [Except.ok.injEq] at hd
          subst hd
          show (HandleSetPreset self ev trkno trkchan v.state v.state.ticks_).1.ticks_ = _
          rw [hs]
        · simp only [Except.ok.injEq] at hd
          subst hd
          rfl
        · simp only [Except.ok.injEq] at hd
          subst hd
          unfold HandleEvent.loopPointSet
          by_cases hc : self.m_midifmt = eMIDIFormat.SingleTrack ∧ v.m_bLoopBegSet
          · rw [if_pos hc]
          · rw [if_neg hc]
        · simp only [Except.ok.injEq] at hd
          subst hd
          rfl
        · simp only [Except.ok.injEq] at hd
          subst hd
          rfl
  have hB : (RepeatLastPause ≤ ev.evcode ∧ ev.evcode ≤ PauseUntilRel) ∨
      (Delay_HN ≤ ev.evcode ∧ ev.evcode ≤ Delay_64N) →
      v'.state.ticks_ = u32 (v.state.ticks_ + v'.state.lastpause_) := by
    intro hc
    unfold HandleEvent at h
    cases hd : HandleEvent.dispatch self trkno trkchan ev v with
    | error e => simp [hd, Except.map] at h
    | ok w =>
      simp only [hd, Except.map, Except.ok.injEq] at h
      subst h
      show w.state.ticks_ = u32 (v.state.ticks_ + w.state.lastpause_)
      unfold HandleEvent.dispatch at hd
      simp only [] at hd
      by_cases c1 : RepeatLastPause ≤ ev.evcode ∧ ev.evcode ≤ PauseUntilRel
      · rw [if_pos c1] at hd
        cases hp : HandlePauses ev.evcode ev v.state with
        | error e => simp [hp, Except.map] at hd
        | ok st =>
          simp only [hp, Except.map, Except.ok.injEq] at hd
          subst hd
          show st.ticks_ = u32 (v.state.ticks_ + st.lastpause_)
          unfold HandlePauses at hp
          simp only [] at hp
          split_ifs at hp with k1 k2 k3 k4 k5 k6 k7
          all_goals first
            | (simp only [Except.ok.injEq] at hp
               subst hp
               rfl)
            | (exfalso
               obtain ⟨a1, a2⟩ := c1
               unfold RepeatLastPause at a1 k6
               unfold PauseUntilRel at a2 k7
               unfold Pause24Bits at k1
               unfold Pause16Bits at k2
               unfold Pause8Bits at k3
               unfold AddToLastPause at k4
               omega)
      · rw [if_neg c1] at hd
        have c2 : Delay_HN ≤ ev.evcode ∧ ev.evcode ≤ Delay_64N := by
          rcases hc with hc | hc
          · exact absurd hc c1
          · exact hc
        rw [if_pos c2] at hd
        cases hp : HandleFixedPauses self ev v.state with
        | error e => simp [hp, Except.map] at hd
        | ok st =>
          simp only [hp, Except.map, Except.ok.injEq] at hd
          subst hd
          show st.ticks_ = u32 (v.state.ticks_ + st.lastpause_)
          unfold HandleFixedPauses at hp
          cases hl : self.TrkDelayCodeVals.lookup ev.evcode with
          | none => simp [hl] at hp
          | some d =>
            simp only [hl, Except.ok.injEq] at hp
            subst hp
            rfl
  refine ⟨hA, hB, ?_⟩
  intro hno
  by_cases hc : (RepeatLastPause ≤ ev.evcode ∧ ev.evcode ≤ PauseUntilRel) ∨
      (Delay_HN ≤ ev.evcode ∧ ev.evcode ≤ Delay_64N)
  · rw [hB hc]
    unfold u32
    rw [Nat.mod_eq_of_lt hno]
    exact Nat.le_add_right _ _
  · rw [hA (fun h1 => hc (Or.inl h1)) (fun h2 => hc (Or.inr h2))]

/-- C25 for a pause of 10 ticks at tick 5. -/
theorem HandleEvent_ticks_monotone_witness :
    HandleEvent (converter (oneTrack []) none .MultiTrack 0) 0 0 ⟨Pause8Bits, [10]⟩
        { varsInit with state := { ticks_ := 5 } }
      = .ok { varsInit with state := { ticks_ := 15, eventno_ := 1, lastpause_ := 10 } } ∧
    ((5 : Nat) + 10 < 4294967296 → (5 : Nat) ≤ 15) :=
  ⟨by decide,
    (HandleEvent_ticks_monotone (converter (oneTrack []) none .MultiTrack 0) 0 0
      ⟨Pause8Bits, [10]⟩ { varsInit with state := { ticks_ := 5 } }
      { varsInit with state := { ticks_ := 15, eventno_ := 1, lastpause_ := 10 } }
      (by decide)).2.2⟩


/-! ## The pause events -/

/-- A byte put below a value shifted left by 8 bits. -/
theorem shiftLeft8_or (a b : Nat) (hb : b < 256) : (a <<< 8) ||| b = 256 * a + b := by
  rw [Nat.shiftLeft_eq, Nat.mul_comm]
  exact (Nat.mul_add_lt_is_or (show b < 2 ^ 8 from hb) a).symm

/-- A 16-bit value put below a value shifted left by 16 bits. -/
theorem shiftLeft16_or (a b : Nat) (hb : b < 65536) : (a <<< 16) ||| b = 65536 * a + b := by
  rw [Nat.shiftLeft_eq, Nat.mul_comm]
  exact (Nat.mul_add_lt_is_or (show b < 2 ^ 16 from hb) a).symm

/-- C26: `HandleEvent` on the events of the pause family. A pause of 8, 16 or 24 bits whose
parameter bytes are `p0`, `p1`, `p2` (least significant first) sets the last pause to the value
`v` of these bytes and adds `v` to the tick count; a fixed-duration pause whose duration in
`TrkDelayCodeVals` is `d` sets the last pause to `d` and adds `d`; a repeat-last-pause adds the
last pause and leaves it, also right after a fixed-duration pause. The sums are 32-bit. -/
theorem HandleEvent_pause_family (self : DSESequenceToMidi) (trkno trkchan : Nat)
    (v : EventVars) :
    (∀ p0, p0 < 256 →
      HandleEvent self trkno trkchan ⟨Pause8Bits, [p0]⟩ v = .ok
        { v with state := { v.state with
            lastpause_ := p0, ticks_ := u32 (v.state.ticks_ + p0),
            eventno_ := u32 (v.state.eventno_ + 1) } }) ∧
    (∀ p0 p1, p0 < 256 → p1 < 256 →
      HandleEvent self trkno trkchan ⟨Pause16Bits, [p0, p1]⟩ v = .ok
        { v with state := { v.state with
            lastpause_ := p0 + 256 * p1, ticks_ := u32 (v.state.ticks_ + (p0 + 256 * p1)),
            eventno_ := u32 (v.state.eventno_ + 1) } }) ∧
    (∀ p0 p1 p2, p0 < 256 → p1 < 256 → p2 < 256 →
      HandleEvent self trkno trkchan ⟨Pause24Bits, [p0, p1, p2]⟩ v = .ok
        { v with state := { v.state with
            lastpause_ := p0 + 256 * p1 + 65536 * p2,
            ticks_ := u32 (v.state.ticks_ + (p0 + 256 * p1 + 65536 * p2)),
            eventno_ := u32 (v.state.eventno_ + 1) } }) ∧
    (∀ code params d, Delay_HN ≤ code ∧ code ≤ Delay_64N →
      self.TrkDelayCodeVals.lookup code = some d → d < 256 →
      HandleEvent self trkno trkchan ⟨code, params⟩ v = .ok
        { v with state := { v.state with
            lastpause_ := d, ticks_ := u32 (v.state.ticks_ + d),
            eventno_ := u32 (v.state.eventno_ + 1) } } ∧
      ∀ params2, HandleEvents self trkno trkchan [⟨code, params⟩, ⟨RepeatLastPause, params2⟩] v =
        .ok { v with state := { v.state with
            lastpause_ := d, ticks_ := u32 (u32 (v.state.ticks_ + d) + d),
            eventno_ := u32 (u32 (v.state.eventno_ + 1) + 1) } }) ∧
    (∀ params,
      HandleEvent self trkno trkchan ⟨RepeatLastPause, params⟩ v = .ok
        { v with state := { v.state with
            ticks_ := u32 (v.state.ticks_ + v.state.lastpause_),
            eventno_ := u32 (v.state.eventno_ + 1) } }) := by
  have hrep : ∀ (w : EventVars) params,
      HandleEvent self trkno trkchan ⟨RepeatLastPause, params⟩ w = .ok
        { w with state := { w.state with
            ticks_ := u32 (w.state.ticks_ + w.state.lastpause_),
            eventno_ := u32 (w.state.eventno_ + 1) } } := by
    intro w params
    simp +decide [HandleEvent, HandleEvent.dispatch, HandlePauses, Except.map, RepeatLastPause,
      PauseUntilRel, Pause24Bits, Pause16Bits, Pause8Bits, AddToLastPause]
  refine ⟨?_, ?_, ?_, ?_, hrep v⟩
  · intro p0 _
    simp +decide [HandleEvent, HandleEvent.dispatch, HandlePauses, Except.map, RepeatLastPause,
      PauseUntilRel, Pause24Bits, Pause16Bits, Pause8Bits, TrkEvent.front]
  · intro p0 p1 h0 h1
    have e : u32 ((u16 p1 <<< 8) ||| p0) = p0 + 256 * p1 := by
      rw [shiftLeft8_or _ _ h0]
      unfold u32 u16
      omega
    simp +decide [HandleEvent, HandleEvent.dispatch, HandlePauses, Except.map, RepeatLastPause,
      PauseUntilRel, Pause24Bits, Pause16Bits, TrkEvent.front, TrkEvent.back, e]
  · intro p0 p1 p2 h0 h1 h2
    have e : u32 ((p2 <<< 16) ||| (p1 <<< 8) ||| p0) = p0 + 256 * p1 + 65536 * p2 := by
      rw [Nat.lor_assoc, shiftLeft8_or _ _ h0, shiftLeft16_or _ _ (by omega)]
      unfold u32
      omega
    simp +decide [HandleEvent, HandleEvent.dispatch, HandlePauses, Except.map, RepeatLastPause,
      PauseUntilRel, Pause24Bits, TrkEvent.param, e]
  · intro code params d hc hl hd
    have c1 : ¬ (RepeatLastPause ≤ code ∧ code ≤ PauseUntilRel) := by
      obtain ⟨a1, a2⟩ := hc
      unfold Delay_64N at a2
      unfold RepeatLastPause
      omega
    have e : u8 d = d := Nat.mod_eq_of_lt hd
    have h1 : HandleEvent self trkno trkchan ⟨code, params⟩ v = .ok
        { v with state := { v.state with
            lastpause_ := d, ticks_ := u32 (v.state.ticks_ + d),
            eventno_ := u32 (v.state.eventno_ + 1) } } := by
      unfold HandleEvent HandleEvent.dispatch
      simp only [if_neg c1, if_pos hc, HandleFixedPauses, hl, e, Except.map]
    refine ⟨h1, fun params2 => ?_⟩
    unfold HandleEvents
    rw [h1]
    simp only []
    unfold HandleEvents
    rw [hrep]
    rfl


/-! ## The hold duration of a note -/

/-- The hold duration read from one byte. -/
theorem HandlePlayNote.holdtime_one (ev : TrkEvent) (h1 : ev.param 1 < 256) :
    HandlePlayNote.holdtime ev 1 = ev.param 1 := by
  have e : HandlePlayNote.holdtime ev 1 = u32 ((0 <<< 8) ||| ev.param 1) := rfl
  rw [e, shiftLeft8_or _ _ h1]
  unfold u32
  omega

/-- The hold duration read from two bytes, the most significant first. -/
theorem HandlePlayNote.holdtime_two (ev : TrkEvent) (h1 : ev.param 1 < 256)
    (h2 : ev.param 2 < 256) :
    HandlePlayNote.holdtime ev 2 = 256 * ev.param 1 + ev.param 2 := by
  have e : HandlePlayNote.holdtime ev 2 =
      u32 ((HandlePlayNote.holdtime ev 1 <<< 8) ||| ev.param 2) := rfl
  rw [e, HandlePlayNote.holdtime_one ev h1, shiftLeft8_or _ _ h2]
  unfold u32
  omega

/-- The hold duration read from three bytes, the most significant first. -/
theorem HandlePlayNote.holdtime_three (ev : TrkEvent) (h1 : ev.param 1 < 256)
    (h2 : ev.param 2 < 256) (h3 : ev.param 3 < 256) :
    HandlePlayNote.holdtime ev 3 = 65536 * ev.param 1 + 256 * ev.param 2 + ev.param 3 := by
  have e : HandlePlayNote.holdtime ev 3 =
      u32 ((HandlePlayNote.holdtime ev 2 <<< 8) ||| ev.param 3) := rfl
  rw [e, HandlePlayNote.holdtime_two ev h1 h2, shiftLeft8_or _ _ h3]
  unfold u32
  omega

/-- A parameter of an event whose parameters are bytes is a byte. -/
theorem TrkEvent.param_lt (ev : TrkEvent) (hbytes : ∀ b ∈ ev.params, b < 256) (i : Nat) :
    ev.param i < 256 := by
  unfold TrkEvent.param
  by_cases hi : i < ev.params.length
  · rw [List.getD_eq_getElem _ _ hi]
    exact hbytes _ (List.getElem_mem hi)
  · rw [List.getD_eq_default _ _ (Nat.le_of_not_lt hi)]
    decide

/-- The last hold duration after `HandlePlayNote` is the one its parsing statements leave. -/
theorem HandlePlayNote_lasthold (self : DSESequenceToMidi) (trkno trkchan : Nat)
    (state : TrkState) (ev : TrkEvent) :
    (HandlePlayNote self trkno trkchan state ev).1.lasthold_ =
      if u8 (self.ParsePlayNoteParam1 ev.front state.octave_).out_param2len ≠ 0 then
        HandlePlayNote.holdtime ev (u8 (self.ParsePlayNoteParam1 ev.front state.octave_).out_param2len)
      else state.lasthold_ := by
  obtain ⟨l, b, p, hc⟩ := HandlePlayNote.convert_state self trkno trkchan
    (HandlePlayNote.parse self state ev).1 (HandlePlayNote.parse self state ev).2
  have e : (HandlePlayNote self trkno trkchan state ev).1 =
      (HandlePlayNote.convert self trkno trkchan (HandlePlayNote.parse self state ev).1
        (HandlePlayNote.parse self state ev).2).state := rfl
  rw [e, hc]
  show (HandlePlayNote.parse self state ev).1.lasthold_ = _
  unfold HandlePlayNote.parse
  simp only []
  split_ifs <;> rfl

/-- The octave after `HandlePlayNote` is the one `ParsePlayNoteParam1` returns for the first
parameter byte and the octave before. -/
theorem HandlePlayNote_octave (self : DSESequenceToMidi) (trkno trkchan : Nat)
    (state : TrkState) (ev : TrkEvent) :
    (HandlePlayNote self trkno trkchan state ev).1.octave_ =
      u8 (self.ParsePlayNoteParam1 ev.front state.octave_).inout_curoctave := by
  obtain ⟨l, b, p, hc⟩ := HandlePlayNote.convert_state self trkno trkchan
    (HandlePlayNote.parse self state ev).1 (HandlePlayNote.parse self state ev).2
  have e : (HandlePlayNote self trkno trkchan state ev).1 =
      (HandlePlayNote.convert self trkno trkchan (HandlePlayNote.parse self state ev).1
        (HandlePlayNote.parse self state ev).2).state := rfl
  rw [e, hc]
  show (HandlePlayNote.parse self state ev).1.octave_ = _
  unfold HandlePlayNote.parse
  simp only []
  split_ifs <;> rfl

/-- C27: the hold duration of a note-on whose parameters are bytes. When `ParsePlayNoteParam1`
announces 1, 2 or 3 duration bytes, the last hold duration becomes their value, the most
significant byte first; when it announces none, the last hold duration is kept. When no
maximum key-down duration applies (no table, no entry for the DSE program, or an entry with
maximum 0), the one note-off is put at the 32-bit sum of the tick count and that hold
duration. -/
theorem HandlePlayNote_hold_duration (self : DSESequenceToMidi) (trkno trkchan : Nat)
    (state : TrkState) (ev : TrkEvent) (hbytes : ∀ b ∈ ev.params, b < 256) :
    (u8 (self.ParsePlayNoteParam1 ev.front state.octave_).out_param2len = 0 →
      (HandlePlayNote self trkno trkchan state ev).1.lasthold_ = state.lasthold_) ∧
    (u8 (self.ParsePlayNoteParam1 ev.front state.octave_).out_param2len = 1 →
      (HandlePlayNote self trkno trkchan state ev).1.lasthold_ = ev.param 1) ∧
    (u8 (self.ParsePlayNoteParam1 ev.front state.octave_).out_param2len = 2 →
      (HandlePlayNote self trkno trkchan state ev).1.lasthold_ =
        256 * ev.param 1 + ev.param 2) ∧
    (u8 (self.ParsePlayNoteParam1 ev.front state.octave_).out_param2len = 3 →
      (HandlePlayNote self trkno trkchan state ev).1.lasthold_ =
        65536 * ev.param 1 + 256 * ev.param 2 + ev.param 3) ∧
    ((∀ convtable found, self.m_convtable = some convtable →
        convtable.FindConversionInfo state.dseprgm_ = some found → found.maxkeydowndur = 0) →
      ∃ note, ((HandlePlayNote self trkno trkchan state ev).2.filter
          MIDITimedBigMessage.IsNoteOff) =
        [⟨(state.ticks_ + (HandlePlayNote self trkno trkchan state ev).1.lasthold_) % 4294967296,
          .NoteOff trkchan note (ev.evcode &&& 0x7F)⟩]) := by
  have hl := HandlePlayNote_lasthold self trkno trkchan state ev
  refine ⟨?_, ?_, ?_, ?_, ?_⟩
  · intro h0
    rw [hl, h0]
    rfl
  · intro h1
    rw [hl, h1]
    exact HandlePlayNote.holdtime_one ev (TrkEvent.param_lt ev hbytes 1)
  · intro h2
    rw [hl, h2]
    exact HandlePlayNote.holdtime_two ev (TrkEvent.param_lt ev hbytes 1)
      (TrkEvent.param_lt ev hbytes 2)
  · intro h3
    rw [hl, h3]
    exact HandlePlayNote.holdtime_three ev (TrkEvent.param_lt ev hbytes 1)
      (TrkEvent.param_lt ev hbytes 2) (TrkEvent.param_lt ev hbytes 3)
  · intro hclamp
    obtain ⟨o, h, l, b, p, hs⟩ := HandlePlayNote_state self trkno trkchan state ev
    obtain ⟨pre, note, hout, hpre⟩ := HandlePlayNote_out self trkno trkchan state ev
    have hd : (HandlePlayNote self trkno trkchan state ev).1.dseprgm_ = state.dseprgm_ := by
      rw [hs]
    have ht : (HandlePlayNote self trkno trkchan state ev).1.ticks_ = state.ticks_ := by
      rw [hs]
    have hn := HandlePlayNote.noteofftime_unclamped self
      (HandlePlayNote self trkno trkchan state ev).1 (by rw [hd]; exact hclamp)
    rw [ht] at hn
    refine ⟨note &&& 0x7F, ?_⟩
    rw [hout, hn]
    exact (filter_notes pre ⟨_, .NoteOn _ _ _⟩ ⟨_, .NoteOff _ _ _⟩ hpre ⟨rfl, rfl⟩ ⟨rfl, rfl⟩).2

/-- C27 for a note with one duration byte 5, at tick 100 with the last hold duration 9. -/
theorem HandlePlayNote_hold_duration_witness :
    (∀ b ∈ (⟨100, [0x55, 5]⟩ : TrkEvent).params, b < 256) ∧
    u8 ((converter (oneTrack []) none .MultiTrack 0).ParsePlayNoteParam1
      (TrkEvent.front ⟨100, [0x55, 5]⟩) 0).out_param2len = 1 ∧
    (HandlePlayNote (converter (oneTrack []) none .MultiTrack 0) 0 0
      { ticks_ := 100, lasthold_ := 9 } ⟨100, [0x55, 5]⟩).1.lasthold_ = 5 :=
  ⟨by decide, by decide,
    (HandlePlayNote_hold_duration (converter (oneTrack []) none .MultiTrack 0) 0 0
      { ticks_ := 100, lasthold_ := 9 } ⟨100, [0x55, 5]⟩ (by decide)).2.1 (by decide)⟩

/-! ## Preset overrides of a note -/

/-- With a table, `HandlePlayNote` puts the messages of its override statement, then the
note-on at the tick count of the track, then the note-off. -/
theorem HandlePlayNote_with_table (self : DSESequenceToMidi)
    (convtable : SMDLPresetConversionInfo) (trkno trkchan : Nat) (state : TrkState)
    (ev : TrkEvent) (htbl : self.m_convtable = some convtable) :
    ∃ noteon noteoff, noteon.IsNoteOn = true ∧ noteon.time = state.ticks_ ∧
      noteoff.IsNoteOff = true ∧
      HandlePlayNote self trkno trkchan state ev =
        ( (HandlePlayNote.override (self.m_seq.track trkno).chan trkchan
            (HandlePlayNote.parse self state ev).1
            (convtable.RemapNote state.dseprgm_
              (i8 ((HandlePlayNote.parse self state ev).2 &&& 0x7F)))).1,
          (HandlePlayNote.override (self.m_seq.track trkno).chan trkchan
            (HandlePlayNote.parse self state ev).1
            (convtable.RemapNote state.dseprgm_
              (i8 ((HandlePlayNote.parse self state ev).2 &&& 0x7F)))).2 ++
            [noteon, noteoff] ) := by
  obtain ⟨o, h, hp⟩ := HandlePlayNote.parse_state self state ev
  have hd : (HandlePlayNote.parse self state ev).1.dseprgm_ = state.dseprgm_ := by rw [hp]
  have ht : (HandlePlayNote.parse self state ev).1.ticks_ = state.ticks_ := by rw [hp]
  unfold HandlePlayNote
  simp only [HandlePlayNote.convert, htbl, HandlePlayNote.remap, hd, ht]
  split_ifs
  · refine ⟨_, _, ?_, ?_, ?_, rfl⟩ <;> rfl
  · refine ⟨_, _, ?_, ?_, ?_, rfl⟩ <;> rfl

/-- The parsing statements of `HandlePlayNote` leave the override latch, the override values,
the tick count, the bank and the program as they are. -/
theorem HandlePlayNote.parse_keeps (self : DSESequenceToMidi) (state : TrkState)
    (ev : TrkEvent) :
    (HandlePlayNote.parse self state ev).1.presetoverriden = state.presetoverriden ∧
    (HandlePlayNote.parse self state ev).1.ovrbank_ = state.ovrbank_ ∧
    (HandlePlayNote.parse self state ev).1.ovrprgm_ = state.ovrprgm_ ∧
    (HandlePlayNote.parse self state ev).1.ticks_ = state.ticks_ ∧
    (HandlePlayNote.parse self state ev).1.curbank_ = state.curbank_ ∧
    (HandlePlayNote.parse self state ev).1.prgm_ = state.prgm_ := by
  obtain ⟨o, h, hp⟩ := HandlePlayNote.parse_state self state ev
  rw [hp]
  exact ⟨rfl, rfl, rfl, rfl, rfl, rfl⟩

/-- C29: the restore of an override. With a table, when the remap of the played note has the
destination preset 255 and the destination bank -1: if an override is latched,
`HandlePlayNote` puts a bank select with the current bank of the track (its low byte) and a
program change with its current program, both at the tick count of the track, then the note-on
and the note-off, and clears the latch; if none is latched it puts the note-on and the note-off only.
The current bank and program of the track are not changed. -/
theorem HandlePlayNote_override_restore (self : DSESequenceToMidi)
    (convtable : SMDLPresetConversionInfo) (trkno trkchan : Nat) (state : TrkState)
    (ev : TrkEvent) (htbl : self.m_convtable = some convtable)
    (hpreset : (convtable.RemapNote state.dseprgm_
      (i8 ((HandlePlayNote.parse self state ev).2 &&& 0x7F))).destpreset = 255)
    (hbank : (convtable.RemapNote state.dseprgm_
      (i8 ((HandlePlayNote.parse self state ev).2 &&& 0x7F))).destbank = -1) :
    ∃ noteon noteoff, noteon.IsNoteOn = true ∧ noteon.time = state.ticks_ ∧
      noteoff.IsNoteOff = true ∧
      (state.presetoverriden = true →
        (HandlePlayNote self trkno trkchan state ev).2 =
          [ ⟨state.ticks_,
              .ControlChange (self.m_seq.track trkno).chan C_GM_BANK (u8 state.curbank_)⟩,
            ⟨state.ticks_, .ProgramChange trkchan state.prgm_⟩, noteon, noteoff ]) ∧
      (state.presetoverriden = false →
        (HandlePlayNote self trkno trkchan state ev).2 = [noteon, noteoff]) ∧
      (HandlePlayNote self trkno trkchan state ev).1.presetoverriden = false ∧
      (HandlePlayNote self trkno trkchan state ev).1.curbank_ = state.curbank_ ∧
      (HandlePlayNote self trkno trkchan state ev).1.prgm_ = state.prgm_ := by
  obtain ⟨noteon, noteoff, hon, htime, hoff, heq⟩ :=
    HandlePlayNote_with_table self convtable trkno trkchan state ev htbl
  obtain ⟨k1, k2, k3, k4, k5, k6⟩ := HandlePlayNote.parse_keeps self state ev
  refine ⟨noteon, noteoff, hon, htime, hoff, ?_⟩
  rw [heq]
  unfold HandlePlayNote.override
  cases hl : state.presetoverriden with
  | true =>
    have c : (HandlePlayNote.parse self state ev).1.presetoverriden = true ∧
        (convtable.RemapNote state.dseprgm_
          (i8 ((HandlePlayNote.parse self state ev).2 &&& 0x7F))).destpreset = 255 ∧
        (convtable.RemapNote state.dseprgm_
          (i8 ((HandlePlayNote.parse self state ev).2 &&& 0x7F))).destbank = -1 :=
      ⟨k1.trans hl, hpreset, hbank⟩
    rw [if_pos c]
    refine ⟨fun _ => ?_, fun h => Bool.noConfusion h, rfl, k5, k6⟩
    show [_, _] ++ [noteon, noteoff] = _
    rw [k4, k5, k6]
    rfl
  | false =>
    have c : ¬ ((HandlePlayNote.parse self state ev).1.presetoverriden = true ∧
        (convtable.RemapNote state.dseprgm_
          (i8 ((HandlePlayNote.parse self state ev).2 &&& 0x7F))).destpreset = 255 ∧
        (convtable.RemapNote state.dseprgm_
          (i8 ((HandlePlayNote.parse self state ev).2 &&& 0x7F))).destbank = -1) := by
      intro h
      rw [k1, hl] at h
      exact Bool.noConfusion h.1
    have c2 : ¬ ((convtable.RemapNote state.dseprgm_
          (i8 ((HandlePlayNote.parse self state ev).2 &&& 0x7F))).destpreset ≠ 255 ∧
        (convtable.RemapNote state.dseprgm_
          (i8 ((HandlePlayNote.parse self state ev).2 &&& 0x7F))).destbank ≠ -1) :=
      fun h => h.1 hpreset
    rw [if_neg c, if_neg c2]
    exact ⟨fun h => Bool.noConfusion h, fun _ => rfl, k1.trans hl, k5, k6⟩

/-- C29 for a note of DSE program 1 without a remap entry, on a track whose override is
latched, at tick 10 with the current bank 2 and the current program 7. -/
theorem HandlePlayNote_override_restore_witness :
    (converter (oneTrack []) (some tableTransposeUp) .MultiTrack 0).m_convtable =
      some tableTransposeUp ∧
    (tableTransposeUp.RemapNote 1 (i8 ((HandlePlayNote.parse
      (converter (oneTrack []) (some tableTransposeUp) .MultiTrack 0)
      { ticks_ := 10, curbank_ := 2, prgm_ := 7, dseprgm_ := 1, presetoverriden := true,
        ovrbank_ := 3, ovrprgm_ := 4 } ⟨100, [0x55, 5]⟩).2 &&& 0x7F))).destpreset = 255 ∧
    (tableTransposeUp.RemapNote 1 (i8 ((HandlePlayNote.parse
      (converter (oneTrack []) (some tableTransposeUp) .MultiTrack 0)
      { ticks_ := 10, curbank_ := 2, prgm_ := 7, dseprgm_ := 1, presetoverriden := true,
        ovrbank_ := 3, ovrprgm_ := 4 } ⟨100, [0x55, 5]⟩).2 &&& 0x7F))).destbank = -1 ∧
    ∃ noteon noteoff : MIDITimedBigMessage, noteon.IsNoteOn = true ∧ noteon.time = 10 ∧
      noteoff.IsNoteOff = true ∧
      (HandlePlayNote (converter (oneTrack []) (some tableTransposeUp) .MultiTrack 0) 0 0
        { ticks_ := 10, curbank_ := 2, prgm_ := 7, dseprgm_ := 1, presetoverriden := true,
          ovrbank_ := 3, ovrprgm_ := 4 } ⟨100, [0x55, 5]⟩).2 =
        [ ⟨10, .ControlChange 0 0 2⟩, ⟨10, .ProgramChange 0 7⟩, noteon, noteoff ] :=
  ⟨rfl, by decide, by decide,
    (HandlePlayNote_override_restore (converter (oneTrack []) (some tableTransposeUp)
        .MultiTrack 0) tableTransposeUp 0 0
      { ticks_ := 10, curbank_ := 2, prgm_ := 7, dseprgm_ := 1, presetoverriden := true,
        ovrbank_ := 3, ovrprgm_ := 4 } ⟨100, [0x55, 5]⟩ rfl (by decide) (by decide)).elim
      fun noteon h => h.elim fun noteoff h =>
        ⟨noteon, noteoff, h.1, h.2.1, h.2.2.1, h.2.2.2.1 rfl⟩⟩


/-- The branch of the override statement taken when the remap gives both a preset and a bank:
the bank select is put when no override is latched or the latched bank differs, the program
change when no override is latched or the latched program differs, and the latch is set. -/
theorem HandlePlayNote.override_full (chan trkchan : Nat) (st : TrkState) (rd : NoteRemapData)
    (hp : rd.destpreset ≠ 255) (hb : rd.destbank ≠ -1) :
    (HandlePlayNote.override chan trkchan st rd).2 =
      (if st.presetoverriden = false ∨ (st.ovrbank_ : Int) ≠ rd.destbank then
        [⟨st.ticks_, .ControlChange chan C_GM_BANK (u8 (intToU16 rd.destbank))⟩] else []) ++
      (if st.presetoverriden = false ∨ st.ovrprgm_ ≠ rd.destpreset then
        [⟨st.ticks_, .ProgramChange trkchan rd.destpreset⟩] else []) ∧
    (HandlePlayNote.override chan trkchan st rd).1 =
      { st with
        presetoverriden := true
        ovrbank_ := (if st.presetoverriden = false ∨ (st.ovrbank_ : Int) ≠ rd.destbank then
          intToU16 rd.destbank else st.ovrbank_)
        ovrprgm_ := rd.destpreset } := by
  have c1 : ¬ (st.presetoverriden = true ∧ rd.destpreset = 255 ∧ rd.destbank = -1) :=
    fun h => hp h.2.1
  unfold HandlePlayNote.override
  rw [if_neg c1, if_pos ⟨hp, hb⟩]
  unfold HandlePlayNote.overridePreset HandlePlayNote.overrideBank
  simp only [if_pos hp, if_pos hb]
  cases hl : st.presetoverriden with
  | false => simp
  | true =>
    by_cases k1 : (st.ovrbank_ : Int) = rd.destbank
    · by_cases k2 : st.ovrprgm_ = rd.destpreset
      · simp [k1, k2, hl]
      · simp [k1, k2, hl]
    · by_cases k2 : st.ovrprgm_ = rd.destpreset
      · simp [k1, k2, hl]
      · simp [k1, k2, hl]

/-- C30: the full override of a note. With a table, when the remap of the played note gives a
preset `P` other than 255 and a bank `B` other than -1, `HandlePlayNote` puts a bank select
with `B` (as a byte) exactly when no override is latched or the latched bank differs from `B`,
then a program change with `P` exactly when no override is latched or the latched program
differs from `P`, then the note-on and the note-off; afterwards the latch is set with the
program `P` and, for a bank from 0 to 65535, the bank `B`, so that a following note whose
remap gives the same `P` and `B` puts its note-on and its note-off only. -/
theorem HandlePlayNote_override_change_only (self : DSESequenceToMidi)
    (convtable : SMDLPresetConversionInfo) (trkno trkchan : Nat) (state : TrkState)
    (ev : TrkEvent) (P : Nat) (B : Int) (htbl : self.m_convtable = some convtable)
    (hP : (convtable.RemapNote state.dseprgm_
      (i8 ((HandlePlayNote.parse self state ev).2 &&& 0x7F))).destpreset = P)
    (hB : (convtable.RemapNote state.dseprgm_
      (i8 ((HandlePlayNote.parse self state ev).2 &&& 0x7F))).destbank = B)
    (hpreset : P ≠ 255) (hbank : B ≠ -1) :
    (∃ noteon noteoff, noteon.IsNoteOn = true ∧ noteon.time = state.ticks_ ∧
      noteoff.IsNoteOff = true ∧
      (HandlePlayNote self trkno trkchan state ev).2 =
        (if state.presetoverriden = false ∨ (state.ovrbank_ : Int) ≠ B then
          [⟨state.ticks_,
            .ControlChange (self.m_seq.track trkno).chan C_GM_BANK (u8 (intToU16 B))⟩]
          else []) ++
        (if state.presetoverriden = false ∨ state.ovrprgm_ ≠ P then
          [⟨state.ticks_, .ProgramChange trkchan P⟩] else []) ++
        [noteon, noteoff]) ∧
    (HandlePlayNote self trkno trkchan state ev).1.presetoverriden = true ∧
    (HandlePlayNote self trkno trkchan state ev).1.ovrprgm_ = P ∧
    (0 ≤ B → B < 65536 →
      ((HandlePlayNote self trkno trkchan state ev).1.ovrbank_ : Int) = B ∧
      ∀ ev2,
        (convtable.RemapNote state.dseprgm_ (i8 ((HandlePlayNote.parse self
          (HandlePlayNote self trkno trkchan state ev).1 ev2).2 &&& 0x7F))).destpreset = P →
        (convtable.RemapNote state.dseprgm_ (i8 ((HandlePlayNote.parse self
          (HandlePlayNote self trkno trkchan state ev).1 ev2).2 &&& 0x7F))).destbank = B →
        ∃ noteon noteoff, noteon.IsNoteOn = true ∧ noteoff.IsNoteOff = true ∧
          (HandlePlayNote self trkno trkchan
            (HandlePlayNote self trkno trkchan state ev).1 ev2).2 = [noteon, noteoff]) := by
  obtain ⟨noteon, noteoff, hon, htime, hoff, heq⟩ :=
    HandlePlayNote_with_table self convtable trkno trkchan state ev htbl
  obtain ⟨k1, k2, k3, k4, k5, k6⟩ := HandlePlayNote.parse_keeps self state ev
  obtain ⟨f2, f1⟩ := HandlePlayNote.override_full (self.m_seq.track trkno).chan trkchan
    (HandlePlayNote.parse self state ev).1
    (convtable.RemapNote state.dseprgm_ (i8 ((HandlePlayNote.parse self state ev).2 &&& 0x7F)))
    (by rw [hP]; exact hpreset) (by rw [hB]; exact hbank)
  rw [hP, hB, k1, k2, k3, k4] at f2
  rw [hP, hB, k1, k2] at f1
  have s1 : (HandlePlayNote self trkno trkchan state ev).1 = _ := (congrArg Prod.fst heq).trans f1
  have hbankval : 0 ≤ B → B < 65536 →
      ((HandlePlayNote self trkno trkchan state ev).1.ovrbank_ : Int) = B := by
    intro h0 h1
    rw [s1]
    show ((if state.presetoverriden = false ∨ (state.ovrbank_ : Int) ≠ B then intToU16 B
      else state.ovrbank_ : Nat) : Int) = B
    split_ifs with c
    · unfold intToU16
      omega
    · by_contra hne
      exact c (Or.inr hne)
  refine ⟨⟨noteon, noteoff, hon, htime, hoff, ?_⟩, by rw [s1], by rw [s1], fun h0 h1 =>
    ⟨hbankval h0 h1, fun ev2 hP2 hB2 => ?_⟩⟩
  · rw [heq]
    show _ ++ [noteon, noteoff] = _
    rw [f2]
  · obtain ⟨on2, off2, hon2, _, hoff2, heq2⟩ :=
      HandlePlayNote_with_table self convtable trkno trkchan
        (HandlePlayNote self trkno trkchan state ev).1 ev2 htbl
    obtain ⟨j1, j2, j3, j4, j5, j6⟩ := HandlePlayNote.parse_keeps self
      (HandlePlayNote self trkno trkchan state ev).1 ev2
    obtain ⟨o, h, l, b, p, hs⟩ := HandlePlayNote_state self trkno trkchan state ev
    have hd : (HandlePlayNote self trkno trkchan state ev).1.dseprgm_ = state.dseprgm_ := by
      rw [hs]
    rw [hd] at heq2
    obtain ⟨g2, _⟩ := HandlePlayNote.override_full (self.m_seq.track trkno).chan trkchan
      (HandlePlayNote.parse self (HandlePlayNote self trkno trkchan state ev).1 ev2).1
      (convtable.RemapNote state.dseprgm_ (i8 ((HandlePlayNote.parse self
        (HandlePlayNote self trkno trkchan state ev).1 ev2).2 &&& 0x7F)))
      (by rw [hP2]; exact hpreset) (by rw [hB2]; exact hbank)
    have e1 : (HandlePlayNote self trkno trkchan state ev).1.presetoverriden = true := by
      rw [s1]
    have e2 : (HandlePlayNote self trkno trkchan state ev).1.ovrprgm_ = P := by
      rw [s1]
    have c1 : ¬ ((HandlePlayNote self trkno trkchan state ev).1.presetoverriden = false ∨
        ((HandlePlayNote self trkno trkchan state ev).1.ovrbank_ : Int) ≠ B) := by
      rw [e1, hbankval h0 h1]
      simp
    have c2 : ¬ ((HandlePlayNote self trkno trkchan state ev).1.presetoverriden = false ∨
        (HandlePlayNote self trkno trkchan state ev).1.ovrprgm_ ≠ P) := by
      rw [e1, e2]
      simp
    rw [hP2, hB2, j1, j2, j3, if_neg c1, if_neg c2] at g2
    refine ⟨on2, off2, hon2, hoff2, ?_⟩
    rw [heq2]
    show _ ++ [on2, off2] = _
    rw [g2]
    rfl

/-- C30 for the note 5 of DSE program 1, which the table remaps to preset 9 in bank 2, on a
track without a latched override: bank select, program change, note-on and note-off. -/
theorem HandlePlayNote_override_change_only_witness :
    (converter (oneTrack []) (some tableOverride) .MultiTrack 0).m_convtable =
      some tableOverride ∧
    (tableOverride.RemapNote 1 (i8 ((HandlePlayNote.parse
      (converter (oneTrack []) (some tableOverride) .MultiTrack 0)
      { ticks_ := 10, dseprgm_ := 1 } ⟨100, [0x55, 5]⟩).2 &&& 0x7F))).destpreset = 9 ∧
    (tableOverride.RemapNote 1 (i8 ((HandlePlayNote.parse
      (converter (oneTrack []) (some tableOverride) .MultiTrack 0)
      { ticks_ := 10, dseprgm_ := 1 } ⟨100, [0x55, 5]⟩).2 &&& 0x7F))).destbank = 2 ∧
    (9 : Nat) ≠ 255 ∧ (2 : Int) ≠ -1 ∧
    (HandlePlayNote (converter (oneTrack []) (some tableOverride) .MultiTrack 0) 0 0
      { ticks_ := 10, dseprgm_ := 1 } ⟨100, [0x55, 5]⟩).2 =
      [ ⟨10, .ControlChange 0 0 2⟩, ⟨10, .ProgramChange 0 9⟩, ⟨10, .NoteOn 0 60 100⟩,
        ⟨15, .NoteOff 0 60 100⟩ ] ∧
    (HandlePlayNote (converter (oneTrack []) (some tableOverride) .MultiTrack 0) 0 0
      { ticks_ := 10, dseprgm_ := 1 } ⟨100, [0x55, 5]⟩).1.presetoverriden = true :=
  ⟨rfl, by decide, by decide, by decide, by decide, by decide,
    (HandlePlayNote_override_change_only (converter (oneTrack []) (some tableOverride)
        .MultiTrack 0) tableOverride 0 0 { ticks_ := 10, dseprgm_ := 1 } ⟨100, [0x55, 5]⟩ 9 2
      rfl (by decide) (by decide) (by decide) (by decide)).2.1⟩


/-- C26 for a 16-bit pause with the bytes 0x2C and 0x01 (300 ticks), and for a fixed-duration
pause of 96 ticks followed by a repeat-last-pause. -/
theorem HandleEvent_pause_family_witness :
    ((0x2C : Nat) < 256 ∧ (1 : Nat) < 256) ∧
    HandleEvent (converter (oneTrack []) none .MultiTrack 0) 0 0 ⟨Pause16Bits, [0x2C, 1]⟩
        varsInit =
      .ok { varsInit with state := { varsInit.state with
          lastpause_ := 0x2C + 256 * 1, ticks_ := u32 (varsInit.state.ticks_ + (0x2C + 256 * 1)),
          eventno_ := u32 (varsInit.state.eventno_ + 1) } } ∧
    ((Delay_HN ≤ 0x80 ∧ 0x80 ≤ Delay_64N) ∧
      List.lookup 0x80 [((0x80 : Nat), (96 : Nat))] = some 96 ∧ (96 : Nat) < 256) ∧
    HandleEvents { converter (oneTrack []) none .MultiTrack 0 with
          TrkDelayCodeVals := [(0x80, 96)] } 0 0
        [⟨0x80, []⟩, ⟨RepeatLastPause, []⟩] varsInit =
      .ok { varsInit with state := { varsInit.state with
          lastpause_ := 96, ticks_ := u32 (u32 (varsInit.state.ticks_ + 96) + 96),
          eventno_ := u32 (u32 (varsInit.state.eventno_ + 1) + 1) } } :=
  ⟨by decide,
    (HandleEvent_pause_family (converter (oneTrack []) none .MultiTrack 0) 0 0 varsInit).2.1
      0x2C 1 (by decide) (by decide),
    by decide,
    ((HandleEvent_pause_family { converter (oneTrack []) none .MultiTrack 0 with
        TrkDelayCodeVals := [(0x80, 96)] } 0 0 varsInit).2.2.2.1
      0x80 [] 96 (by decide) (by decide) (by decide)).2 []⟩

/-! ## The decoding of a note -/

/-- `HandleEvent` on a note-on event succeeds and leaves the octave that `ParsePlayNoteParam1`
returns for the first parameter byte and the octave before. -/
theorem HandleEvent_note_octave (self : DSESequenceToMidi) (trkno trkchan : Nat) (ev : TrkEvent)
    (v : EventVars) (hnote : NoteOnBeg ≤ ev.evcode ∧ ev.evcode ≤ NoteOnEnd) :
    ∃ v', HandleEvent self trkno trkchan ev v = .ok v' ∧
      v'.state.octave_ =
        u8 (self.ParsePlayNoteParam1 ev.front v.state.octave_).inout_curoctave :=
  ⟨_, HandleEvent_note self trkno trkchan ev v hnote,
    HandlePlayNote_octave self trkno trkchan v.state ev⟩

/-- `HandleEvent` on a set-octave event succeeds and leaves the octave of its parameter. -/
theorem HandleEvent_SetOctave (self : DSESequenceToMidi) (trkno trkchan : Nat)
    (params : List Nat) (v : EventVars) :
    ∃ v', HandleEvent self trkno trkchan ⟨SetOctave, params⟩ v = .ok v' ∧
      v'.state.octave_ = intToU8 (i8 (params.headD 0)) := by
  refine ⟨{ v with state := { v.state with
      octave_ := intToU8 (i8 (params.headD 0)), eventno_ := u32 (v.state.eventno_ + 1) } },
    ?_, rfl⟩
  simp +decide [HandleEvent, HandleEvent.dispatch, HandleEvent.switch, Except.map,
    RepeatLastPause, PauseUntilRel, Delay_HN, Delay_64N, NoteOnBeg, NoteOnEnd, SetOctave,
    SetTempo, TrkEvent.front]

/-- C28, the flag `reset`: whatever `ParsePlayNoteParam1` computes and whatever the two
note-on events `higher` and `reset` are, the converter cannot leave octave 4 after
`[SetOctave 3, higher]`, octave 3 after `[SetOctave 3, higher, reset]` and octave 4 after
`[SetOctave 4, reset]`: in both cases the event `reset` is decoded from its parameter byte and
the octave 4, the value of the last set-octave event not being kept. -/
theorem HandleEvents_reset_not_last_set_octave :
    ¬ ∃ (parse : Nat → Nat → PlayNoteParam1) (higher reset : TrkEvent),
      (NoteOnBeg ≤ higher.evcode ∧ higher.evcode ≤ NoteOnEnd) ∧
      (NoteOnBeg ≤ reset.evcode ∧ reset.evcode ≤ NoteOnEnd) ∧
      (HandleEvents { converter (oneTrack []) none .MultiTrack 0 with
          ParsePlayNoteParam1 := parse } 0 0 [⟨SetOctave, [3]⟩, higher] varsInit).map
        (fun v => v.state.octave_) = .ok 4 ∧
      (HandleEvents { converter (oneTrack []) none .MultiTrack 0 with
          ParsePlayNoteParam1 := parse } 0 0 [⟨SetOctave, [3]⟩, higher, reset] varsInit).map
        (fun v => v.state.octave_) = .ok 3 ∧
      (HandleEvents { converter (oneTrack []) none .MultiTrack 0 with
          ParsePlayNoteParam1 := parse } 0 0 [⟨SetOctave, [4]⟩, reset] varsInit).map
        (fun v => v.state.octave_) = .ok 4 := by
  rintro ⟨parse, higher, reset, hh, hr, h1, h2, h3⟩
  obtain ⟨a, ha, hao⟩ := HandleEvent_SetOctave { converter (oneTrack []) none .MultiTrack 0 with
    ParsePlayNoteParam1 := parse } 0 0 [3] varsInit
  obtain ⟨b, hb, hbo⟩ := HandleEvent_note_octave { converter (oneTrack []) none .MultiTrack 0 with
    ParsePlayNoteParam1 := parse } 0 0 higher a hh
  obtain ⟨c, hc, hco⟩ := HandleEvent_note_octave { converter (oneTrack []) none .MultiTrack 0 with
    ParsePlayNoteParam1 := parse } 0 0 reset b hr
  obtain ⟨a', ha', hao'⟩ := HandleEvent_SetOctave { converter (oneTrack []) none .MultiTrack 0 with
    ParsePlayNoteParam1 := parse } 0 0 [4] varsInit
  obtain ⟨c', hc', hco'⟩ := HandleEvent_note_octave
    { converter (oneTrack []) none .MultiTrack 0 with ParsePlayNoteParam1 := parse } 0 0 reset
    a' hr
  simp only [HandleEvents, ha, hb, Except.map, Except.ok.injEq] at h1
  simp only [HandleEvents, ha, hb, hc, Except.map, Except.ok.injEq] at h2
  simp only [HandleEvents, ha', hc', Except.map, Except.ok.injEq] at h3
  have e4 : a'.state.octave_ = 4 := hao'
  rw [h1] at hco
  rw [e4] at hco'
  rw [← hco', h3] at hco
  rw [hco] at h2
  exact absurd h2 (by decide)

/-- C28: the decoding of a note-on event. `HandleEvent` succeeds; the octave of the track
becomes the one that `ParsePlayNoteParam1` returns for the first parameter byte and the octave
before, and the next note-on event is decoded from that octave; one note-on is put at the tick
count of the track, after bank and program messages only, with the low 7 bits of the event
code as velocity, or 0 when the preset of the track is marked invalid; without a table no
other message precedes it and its note is the one `ParsePlayNoteParam1` returns. -/
theorem HandleEvent_note_decoding (self : DSESequenceToMidi) (trkno trkchan : Nat)
    (ev : TrkEvent) (v : EventVars) (hnote : NoteOnBeg ≤ ev.evcode ∧ ev.evcode ≤ NoteOnEnd) :
    ∃ v', HandleEvent self trkno trkchan ev v = .ok v' ∧
      v'.state.octave_ =
        u8 (self.ParsePlayNoteParam1 ev.front v.state.octave_).inout_curoctave ∧
      (∃ pre note noteoff, noteoff.IsNoteOff = true ∧
        (∀ m ∈ pre, m.IsNoteOn = false ∧ m.IsNoteOff = false) ∧
        v'.outtrack = v.outtrack ++ pre ++
          [ ⟨v.state.ticks_, .NoteOn trkchan note
              (if v.state.hasinvalidbank then 0 else ev.evcode &&& 0x7F)⟩, noteoff ] ∧
        (self.m_convtable = none →
          pre = [] ∧
          note = u8 (self.ParsePlayNoteParam1 ev.front v.state.octave_).out_midinote)) ∧
      ∀ ev2, NoteOnBeg ≤ ev2.evcode ∧ ev2.evcode ≤ NoteOnEnd →
        ∃ v'', HandleEvent self trkno trkchan ev2 v' = .ok v'' ∧
          v''.state.octave_ =
            u8 (self.ParsePlayNoteParam1 ev2.front
              (u8 (self.ParsePlayNoteParam1 ev.front v.state.octave_).inout_curoctave)
              ).inout_curoctave := by
  have hoct := HandlePlayNote_octave self trkno trkchan v.state ev
  refine ⟨_, HandleEvent_note self trkno trkchan ev v hnote, hoct, ?_, fun ev2 h2 => ?_⟩
  · obtain ⟨o, h, l, b, p, hs⟩ := HandlePlayNote_state self trkno trkchan v.state ev
    have hb : (HandlePlayNote self trkno trkchan v.state ev).1.hasinvalidbank =
        v.state.hasinvalidbank := by rw [hs]
    cases htbl : self.m_convtable with
    | none =>
      refine ⟨[], _,
        ⟨u32 (v.state.ticks_ + (HandlePlayNote.parse self v.state ev).1.lasthold_),
          .NoteOff trkchan
            (u8 (self.ParsePlayNoteParam1 ev.front v.state.octave_).out_midinote &&& 0x7F)
            (ev.evcode &&& 0x7F)⟩, rfl, by simp, ?_, fun _ => ⟨rfl, rfl⟩⟩
      · show v.outtrack ++ (HandlePlayNote self trkno trkchan v.state ev).2 = _
        rw [HandlePlayNote_without_table self trkno trkchan v.state ev htbl, List.append_nil]
    | some convtable =>
      obtain ⟨pre, note, hout, hpre⟩ := HandlePlayNote_out self trkno trkchan v.state ev
      refine ⟨pre, note,
        ⟨HandlePlayNote.noteofftime self (HandlePlayNote self trkno trkchan v.state ev).1,
          .NoteOff trkchan (note &&& 0x7F) (ev.evcode &&& 0x7F)⟩, rfl, hpre, ?_,
        fun h => Option.noConfusion h⟩
      · show v.outtrack ++ (HandlePlayNote self trkno trkchan v.state ev).2 = _
        rw [hout, hb, List.append_assoc]
  · obtain ⟨w, hw, hwo⟩ := HandleEvent_note_octave self trkno trkchan ev2
      { v with
        state := { (HandlePlayNote self trkno trkchan v.state ev).1 with
          eventno_ := u32 ((HandlePlayNote self trkno trkchan v.state ev).1.eventno_ + 1) }
        outtrack := v.outtrack ++ (HandlePlayNote self trkno trkchan v.state ev).2 } h2
    refine ⟨w, hw, ?_⟩
    rw [hwo]
    show u8 (self.ParsePlayNoteParam1 ev2.front
      (HandlePlayNote self trkno trkchan v.state ev).1.octave_).inout_curoctave = _
    rw [hoct]

/-- C28 for a note-on with the parameter byte 0x25 in octave 3, decoded as the spec describes:
the flag raises the octave to 4. -/
theorem HandleEvent_note_decoding_witness :
    (NoteOnBeg ≤ (⟨100, [0x25]⟩ : TrkEvent).evcode ∧
      (⟨100, [0x25]⟩ : TrkEvent).evcode ≤ NoteOnEnd) ∧
    ∃ v', HandleEvent (converter (oneTrack []) none .MultiTrack 0) 0 0 ⟨100, [0x25]⟩
        { varsInit with state := { octave_ := 3 } } = .ok v' ∧
      v'.state.octave_ = 4 :=
  ⟨by decide,
    (HandleEvent_note_decoding (converter (oneTrack []) none .MultiTrack 0) 0 0 ⟨100, [0x25]⟩
      { varsInit with state := { octave_ := 3 } } (by decide)).elim
      fun v' h => ⟨v', h.1, h.2.1⟩⟩


/-! ## What a track shares with the other tracks -/

/-- `HandleEvent` reads of the converter only the table, the layout, the two decoding tables and
the channel of the track. -/
theorem HandleEvent_congr (self1 self2 : DSESequenceToMidi) (trkno trkchan : Nat)
    (ev : TrkEvent) (v : EventVars)
    (hchan : (self1.m_seq.track trkno).chan = (self2.m_seq.track trkno).chan)
    (htbl : self1.m_convtable = self2.m_convtable) (hfmt : self1.m_midifmt = self2.m_midifmt)
    (hdelay : self1.TrkDelayCodeVals = self2.TrkDelayCodeVals)
    (hparse : self1.ParsePlayNoteParam1 = self2.ParsePlayNoteParam1) :
    HandleEvent self1 trkno trkchan ev v = HandleEvent self2 trkno trkchan ev v := by
  unfold HandleEvent HandleEvent.dispatch HandleEvent.switch HandleFixedPauses HandlePlayNote
    HandlePlayNote.parse HandlePlayNote.convert HandlePlayNote.remap HandlePlayNote.noteofftime
    HandleSetPreset HandleEvent.loopPointSet
  simp only [hchan, htbl, hfmt, hdelay, hparse]

/-- Two states that agree on track `N` give `HandleEvent` the same variables for it. -/
theorem ConvState.SameTrack.load (N : Nat) (s1 s2 : ConvState)
    (h : ConvState.SameTrack N s1 s2) : s1.load N = s2.load N := by
  obtain ⟨_, _, _, _, h5, h6, h7, h8⟩ := h
  unfold ConvState.load
  rw [h5, h6, h7, h8]

/-- Two states that agree on track `N` still do after the same variables are stored for it. -/
theorem ConvState.SameTrack.store (N outtrk evno : Nat) (v : EventVars) (s1 s2 : ConvState)
    (h : ConvState.SameTrack N s1 s2) :
    ConvState.SameTrack N (s1.store N outtrk evno v) (s2.store N outtrk evno v) := by
  obtain ⟨h1, h2, h3, h4, _, _, _, _⟩ := h
  refine ⟨?_, ?_, ?_, ?_, ?_, ?_, rfl, rfl⟩
  · show N < (s1.m_trkstates.set N v.state).length
    rw [List.length_set]
    exact h1
  · show N < (s2.m_trkstates.set N v.state).length
    rw [List.length_set]
    exact h2
  · show N < (s1.m_beflooptrkstates.set N v.befloopstate).length
    rw [List.length_set]
    exact h3
  · show N < (s2.m_beflooptrkstates.set N v.befloopstate).length
    rw [List.length_set]
    exact h4
  · show (s1.m_trkstates.set N v.state).getD N default =
      (s2.m_trkstates.set N v.state).getD N default
    rw [getD_set_self _ _ _ h1, getD_set_self _ _ _ h2]
  · show (s1.m_beflooptrkstates.set N v.befloopstate).getD N default =
      (s2.m_beflooptrkstates.set N v.befloopstate).getD N default
    rw [getD_set_self _ _ _ h3, getD_set_self _ _ _ h4]

/-- The loop of `ExportATrack` over the same events of track `N`, run by two converters that
agree on what `HandleEvent` reads, from two states that agree on track `N`: both runs fail with
the same error, or both succeed, put the same messages, make the same calls and end in states
that agree on track `N`. -/
theorem ExportATrack.loop_same_track (self1 self2 : DSESequenceToMidi) (N outtrk : Nat)
    (hchan : (self1.m_seq.track N).chan = (self2.m_seq.track N).chan)
    (htbl : self1.m_convtable = self2.m_convtable) (hfmt : self1.m_midifmt = self2.m_midifmt)
    (hdelay : self1.TrkDelayCodeVals = self2.TrkDelayCodeVals)
    (hparse : self1.ParsePlayNoteParam1 = self2.ParsePlayNoteParam1) (evs : List TrkEvent) :
    ∀ evno s1 s2, ConvState.SameTrack N s1 s2 →
      (∀ e, ExportATrack.loop self1 N outtrk evs evno s1 = .error e →
        ExportATrack.loop self2 N outtrk evs evno s2 = .error e) ∧
      ∀ s1', ExportATrack.loop self1 N outtrk evs evno s1 = .ok s1' →
        ∃ s2', ExportATrack.loop self2 N outtrk evs evno s2 = .ok s2' ∧
          ConvState.SamePass N s1 s2 s1' s2' := by
  induction evs with
  | nil =>
    intro evno s1 s2 hs
    have e1 : ExportATrack.loop self1 N outtrk [] evno s1 = .ok s1 := by
      rw [ExportATrack.loop]
    have e2 : ExportATrack.loop self2 N outtrk [] evno s2 = .ok s2 := by
      rw [ExportATrack.loop]
    rw [e1, e2]
    refine ⟨fun e h => Except.noConfusion h, fun s1' h => ?_⟩
    simp only [Except.ok.injEq] at h
    subst h
    exact ⟨s2, rfl, hs, [], [], by simp, by simp, by simp, by simp⟩
  | cons a rest ih =>
    intro evno s1 s2 hs
    by_cases hc : a.evcode = EndOfTrack ∧ ¬ ShouldExportEventsPastEoT
    · have e1 : ExportATrack.loop self1 N outtrk (a :: rest) evno s1 = .ok s1 := by
        rw [ExportATrack.loop, if_pos hc]
      have e2 : ExportATrack.loop self2 N outtrk (a :: rest) evno s2 = .ok s2 := by
        rw [ExportATrack.loop, if_pos hc]
      rw [e1, e2]
      refine ⟨fun e h => Except.noConfusion h, fun s1' h => ?_⟩
      simp only [Except.ok.injEq] at h
      subst h
      exact ⟨s2, rfl, hs, [], [], by simp, by simp, by simp, by simp⟩
    · have hstep2 : ExportATrack.step self2 N outtrk evno a s2 =
          (HandleEvent self1 N (self1.m_seq.track N).chan a (s1.load N)).map
            (s2.store N outtrk evno) := by
        unfold ExportATrack.step
        rw [HandleEvent_congr self1 self2 N _ a _ hchan htbl hfmt hdelay hparse, hchan,
          ConvState.SameTrack.load N s1 s2 hs]
      cases hv : HandleEvent self1 N (self1.m_seq.track N).chan a (s1.load N) with
      | error e0 =>
        have e1 : ExportATrack.loop self1 N outtrk (a :: rest) evno s1 = .error e0 := by
          rw [ExportATrack.loop, if_neg hc]
          unfold ExportATrack.step
          rw [hv]
          rfl
        have e2 : ExportATrack.loop self2 N outtrk (a :: rest) evno s2 = .error e0 := by
          rw [ExportATrack.loop, if_neg hc, hstep2, hv]
          rfl
        rw [e1, e2]
        exact ⟨fun e h => h, fun s1' h => Except.noConfusion h⟩
      | ok v =>
        have e1 : ExportATrack.loop self1 N outtrk (a :: rest) evno s1 =
            ExportATrack.loop self1 N outtrk rest (evno + 1) (s1.store N outtrk evno v) := by
          rw [ExportATrack.loop, if_neg hc]
          unfold ExportATrack.step
          rw [hv]
          rfl
        have e2 : ExportATrack.loop self2 N outtrk (a :: rest) evno s2 =
            ExportATrack.loop self2 N outtrk rest (evno + 1) (s2.store N outtrk evno v) := by
          rw [ExportATrack.loop, if_neg hc, hstep2, hv]
          rfl
        rw [e1, e2]
        obtain ⟨ihe, iho⟩ := ih (evno + 1) _ _
          (ConvState.SameTrack.store N outtrk evno v s1 s2 hs)
        refine ⟨ihe, fun s1' h => ?_⟩
        obtain ⟨s2', h2, hst, msgs, tr, m1, m2, t1, t2⟩ := iho s1' h
        refine ⟨s2', h2, hst, v.outtrack.map (fun m => (outtrk, m)) ++ msgs,
          [.event N evno] ++ tr, ?_, ?_, ?_, ?_⟩
        · rw [m1, ← List.append_assoc]
          rfl
        · rw [m2, ← List.append_assoc]
          rfl
        · rw [t1, ← List.append_assoc]
          rfl
        · rw [t2, ← List.append_assoc]
          rfl

/-- The same for `ExportATrack`. -/
theorem ExportATrack_same_track (self1 self2 : DSESequenceToMidi) (N outtrk evno : Nat)
    (s1 s2 : ConvState)
    (hseq : self1.m_seq.track N = self2.m_seq.track N)
    (htbl : self1.m_convtable = self2.m_convtable) (hfmt : self1.m_midifmt = self2.m_midifmt)
    (hdelay : self1.TrkDelayCodeVals = self2.TrkDelayCodeVals)
    (hparse : self1.ParsePlayNoteParam1 = self2.ParsePlayNoteParam1)
    (hs : ConvState.SameTrack N s1 s2) :
    (∀ e, ExportATrack self1 N outtrk evno s1 = .error e →
      ExportATrack self2 N outtrk evno s2 = .error e) ∧
    ∀ s1', ExportATrack self1 N outtrk evno s1 = .ok s1' →
      ∃ s2', ExportATrack self2 N outtrk evno s2 = .ok s2' ∧
        ConvState.SamePass N s1 s2 s1' s2' := by
  have hticks : s1.ticks N = s2.ticks N := by
    unfold ConvState.ticks
    rw [hs.2.2.2.2.1]
  have hs0 : ConvState.SameTrack N
      { s1 with trace := s1.trace ++ [.enter N evno (s1.ticks N)] }
      { s2 with trace := s2.trace ++ [.enter N evno (s2.ticks N)] } := hs
  obtain ⟨he, ho⟩ := ExportATrack.loop_same_track self1 self2 N outtrk (by rw [hseq]) htbl hfmt
    hdelay hparse ((self1.m_seq.track N).events.drop evno) evno _ _ hs0
  unfold ExportATrack
  simp only []
  rw [← hseq]
  cases h1 : ExportATrack.loop self1 N outtrk ((self1.m_seq.track N).events.drop evno) evno
      { s1 with trace := s1.trace ++ [.enter N evno (s1.ticks N)] } with
  | error e0 =>
    rw [he e0 h1]
    exact ⟨fun e h => h, fun s1' h => Except.noConfusion h⟩
  | ok a =>
    obtain ⟨b, h2, hst, msgs, tr, m1, m2, t1, t2⟩ := ho a h1
    rw [h2]
    refine ⟨fun e h => Except.noConfusion h, fun s1' h => ?_⟩
    simp only [Except.map, Except.ok.injEq] at h
    subst h
    have hab : a.ticks N = b.ticks N := by
      unfold ConvState.ticks
      rw [hst.2.2.2.2.1]
    refine ⟨_, rfl, hst, msgs, [.enter N evno (s1.ticks N)] ++ tr ++ [.leave N (a.ticks N)],
      m1, m2, ?_, ?_⟩
    · show a.trace ++ [.leave N (a.ticks N)] = _
      rw [t1]
      simp only [List.append_assoc]
    · show b.trace ++ [.leave N (b.ticks N)] = _
      rw [t2, hab, hticks]
      simp only [List.append_assoc]

/-- C23, the shared flags: the tracks are not independent. Multi-track layout, repeat count 1:
the track `[SetTempo 120, Pause8 10, EndOfTrack]` puts its tempo once and ends at tick 10 when
the other track is `[EndOfTrack]`, and puts it twice and ends at tick 20 when the other track
is `[LoopPointSet, EndOfTrack]`. Single-track layout, repeat count 1: the track
`[Pause8 5, LoopPointSet, Pause8 5, EndOfTrack]` ends at tick 15 with the loop point 2 when
the track before it is `[EndOfTrack]`, and at tick 20 with the loop point 0 when the track
before it is `[LoopPointSet, EndOfTrack]`. -/
theorem Export_track_depends_on_other_tracks :
    (seqTempoPause [⟨LoopPointSet, []⟩, ⟨EndOfTrack, []⟩]).track 0 =
      (seqTempoPause [⟨EndOfTrack, []⟩]).track 0 ∧
    (Export (converter (seqTempoPause [⟨EndOfTrack, []⟩]) none .MultiTrack 1)).map
        (fun s => (s.m_midiout.GetTrack 0, s.ticks 0)) =
      .ok ([ ⟨0, .TimeSig⟩, ⟨0, .Text .META_TRACK_NAME "seq"⟩,
             ⟨0, .Text .META_GENERIC_TEXT "ExportedWith: ppmd_audioutil.exe ver0.1"⟩,
             ⟨0, .Tempo 500000⟩ ], 10) ∧
    (Export (converter (seqTempoPause [⟨LoopPointSet, []⟩, ⟨EndOfTrack, []⟩]) none
        .MultiTrack 1)).map (fun s => (s.m_midiout.GetTrack 0, s.ticks 0)) =
      .ok ([ ⟨0, .TimeSig⟩, ⟨0, .Text .META_TRACK_NAME "seq"⟩,
             ⟨0, .Text .META_GENERIC_TEXT "ExportedWith: ppmd_audioutil.exe ver0.1"⟩,
             ⟨0, .Tempo 500000⟩, ⟨10, .Tempo 500000⟩ ], 20) ∧
    (seqMarkerOnTrack1 [⟨LoopPointSet, []⟩, ⟨EndOfTrack, []⟩]).track 1 =
      (seqMarkerOnTrack1 [⟨EndOfTrack, []⟩]).track 1 ∧
    (Export (converter (seqMarkerOnTrack1 [⟨EndOfTrack, []⟩]) none .SingleTrack 1)).map
        (fun s => (s.ticks 1, (s.m_trkstates.getD 1 default).looppoint_)) = .ok (15, 2) ∧
    (Export (converter (seqMarkerOnTrack1 [⟨LoopPointSet, []⟩, ⟨EndOfTrack, []⟩]) none
        .SingleTrack 1)).map
        (fun s => (s.ticks 1, (s.m_trkstates.getD 1 default).looppoint_)) = .ok (20, 0) := by
  decide

/-- C23: what a pass over track `N` depends on. Two converters that agree on track `N` (events
and channel), the table, the layout and the two decoding tables, started in two states that
agree on the live and the saved state of track `N` and on the two loop flags, either both fail
with the same error or both succeed; then they put the same messages, make the same calls of
`HandleEvent`, and leave the same live and saved state of track `N` and the same loop flags.
A pass over another track leaves the live and the saved state of track `N` as they were. -/
theorem ExportATrack_depends_on_track_and_flags (self1 self2 : DSESequenceToMidi)
    (N outtrk evno : Nat) (s1 s2 : ConvState)
    (hseq : self1.m_seq.track N = self2.m_seq.track N)
    (htbl : self1.m_convtable = self2.m_convtable) (hfmt : self1.m_midifmt = self2.m_midifmt)
    (hdelay : self1.TrkDelayCodeVals = self2.TrkDelayCodeVals)
    (hparse : self1.ParsePlayNoteParam1 = self2.ParsePlayNoteParam1)
    (hs : ConvState.SameTrack N s1 s2) :
    (match ExportATrack self1 N outtrk evno s1, ExportATrack self2 N outtrk evno s2 with
      | .ok s1', .ok s2' => ConvState.SamePass N s1 s2 s1' s2'
      | .error e1, .error e2 => e1 = e2
      | _, _ => False) ∧
    ∀ j outtrk evno s s', j ≠ N → ExportATrack self1 j outtrk evno s = .ok s' →
      s'.m_trkstates.getD N default = s.m_trkstates.getD N default ∧
      s'.m_beflooptrkstates.getD N default = s.m_beflooptrkstates.getD N default := by
  obtain ⟨he, ho⟩ := ExportATrack_same_track self1 self2 N outtrk evno s1 s2 hseq htbl hfmt
    hdelay hparse hs
  refine ⟨?_, fun j outtrk evno s s' hj h => ExportATrack_other self1 j outtrk evno s s' h N hj⟩
  cases h1 : ExportATrack self1 N outtrk evno s1 with
  | error e0 =>
    rw [he e0 h1]
  | ok a =>
    obtain ⟨b, h2, hp⟩ := ho a h1
    rw [h2]
    exact hp

/-- C23 for the track `[SetTempo 120, Pause8 10, EndOfTrack]` of two sequences whose second
tracks differ, from two states whose second tracks differ. -/
theorem ExportATrack_depends_on_track_and_flags_witness :
    ((converter (seqTempoPause [⟨LoopPointSet, []⟩, ⟨EndOfTrack, []⟩]) none .MultiTrack
        1).m_seq.track 0 =
      (converter (seqTempoPause [⟨EndOfTrack, []⟩]) none .MultiTrack 1).m_seq.track 0 ∧
      ConvState.SameTrack 0
        { m_trkstates := [{}, {}], m_beflooptrkstates := [{}, {}] }
        { m_trkstates := [{}, { ticks_ := 7 }], m_beflooptrkstates := [{}, { ticks_ := 3 }],
          m_songlsttick := 7 }) ∧
    (match
      ExportATrack (converter (seqTempoPause [⟨LoopPointSet, []⟩, ⟨EndOfTrack, []⟩]) none
        .MultiTrack 1) 0 0 0 { m_trkstates := [{}, {}], m_beflooptrkstates := [{}, {}] },
      ExportATrack (converter (seqTempoPause [⟨EndOfTrack, []⟩]) none .MultiTrack 1) 0 0 0
        { m_trkstates := [{}, { ticks_ := 7 }], m_beflooptrkstates := [{}, { ticks_ := 3 }],
          m_songlsttick := 7 } with
      | .ok s1', .ok s2' =>
        ConvState.SamePass 0 { m_trkstates := [{}, {}], m_beflooptrkstates := [{}, {}] }
          { m_trkstates := [{}, { ticks_ := 7 }], m_beflooptrkstates := [{}, { ticks_ := 3 }],
            m_songlsttick := 7 } s1' s2'
      | .error e1, .error e2 => e1 = e2
      | _, _ => False) :=
  ⟨⟨rfl, by decide⟩,
    (ExportATrack_depends_on_track_and_flags
      (converter (seqTempoPause [⟨LoopPointSet, []⟩, ⟨EndOfTrack, []⟩]) none .MultiTrack 1)
      (converter (seqTempoPause [⟨EndOfTrack, []⟩]) none .MultiTrack 1) 0 0 0
      { m_trkstates := [{}, {}], m_beflooptrkstates := [{}, {}] }
      { m_trkstates := [{}, { ticks_ := 7 }], m_beflooptrkstates := [{}, { ticks_ := 3 }],
        m_songlsttick := 7 } rfl rfl rfl rfl rfl (by decide)).1⟩


/-! ## The marker that ends the loop in the single-track layout -/

/-- The loop flag is set whenever the flag of the first loop point is: `HandleEvent` keeps this,
and after a loop-point event the loop flag is set. -/
theorem HandleEvent_LoopBegSet (self : DSESequenceToMidi) (trkno trkchan : Nat) (ev : TrkEvent)
    (v v' : EventVars) (h : HandleEvent self trkno trkchan ev v = .ok v')
    (hinv : v.m_bLoopBegSet = true → v.m_bshouldloop = true) :
    (v'.m_bLoopBegSet = true → v'.m_bshouldloop = true) ∧
    (ev.evcode = LoopPointSet → v'.m_bshouldloop = true) := by
  by_cases hp : ev.evcode = LoopPointSet
  · by_cases hset : self.m_midifmt = eMIDIFormat.SingleTrack ∧ v.m_bLoopBegSet = true
    · rw [HandleEvent_LoopPointSet_skipped self trkno trkchan ev v hp hset] at h
      simp only [Except.ok.injEq] at h
      subst h
      exact ⟨hinv, fun _ => hinv hset.2⟩
    · rw [HandleEvent_LoopPointSet self trkno trkchan ev v hp hset] at h
      simp only [Except.ok.injEq] at h
      subst h
      exact ⟨fun _ => rfl, fun _ => rfl⟩
  · obtain ⟨_, _, h3, _⟩ := HandleEvent_frame self trkno trkchan ev v v' h
    obtain ⟨_, _, f1, f2⟩ := h3 hp
    exact ⟨fun hb => f1.trans (hinv (f2.symm.trans hb)), fun hq => absurd hq hp⟩

/-- The same for a call of `HandleEvent` from `ExportATrack`, which leaves the last tick of the
song as it is. -/
theorem ExportATrack.step_flags (self : DSESequenceToMidi) (intrk outtrk evno : Nat)
    (ev : TrkEvent) (s s' : ConvState)
    (h : ExportATrack.step self intrk outtrk evno ev s = .ok s')
    (hinv : s.m_bLoopBegSet = true → s.m_bshouldloop = true) :
    (s'.m_bLoopBegSet = true → s'.m_bshouldloop = true) ∧
    (ev.evcode = LoopPointSet → s'.m_bshouldloop = true) ∧
    (s.m_bshouldloop = true → s'.m_bshouldloop = true) ∧
    s'.m_songlsttick = s.m_songlsttick := by
  unfold ExportATrack.step at h
  cases hv : HandleEvent self intrk (self.m_seq.track intrk).chan ev (s.load intrk) with
  | error e => simp [hv, Except.map] at h
  | ok v =>
    simp only [hv, Except.map, Except.ok.injEq] at h
    subst h
    obtain ⟨k1, k2⟩ := HandleEvent_LoopBegSet self intrk _ ev _ v hv hinv
    exact ⟨k1, k2, fun hs => HandleEvent_shouldloop self intrk _ ev _ v hv hs, rfl⟩

/-- The same for the loop of `ExportATrack`: when one of the events before the first
end-of-track event is a loop-point event, the loop flag is set afterwards. -/
theorem ExportATrack.loop_flags (self : DSESequenceToMidi) (intrk outtrk : Nat)
    (evs : List TrkEvent) :
    ∀ evno s s', ExportATrack.loop self intrk outtrk evs evno s = .ok s' →
      (s.m_bLoopBegSet = true → s.m_bshouldloop = true) →
      (s'.m_bLoopBegSet = true → s'.m_bshouldloop = true) ∧
      (s.m_bshouldloop = true → s'.m_bshouldloop = true) ∧
      ((∃ e ∈ processed evs, e.evcode = LoopPointSet) → s'.m_bshouldloop = true) ∧
      s'.m_songlsttick = s.m_songlsttick := by
  induction evs with
  | nil =>
    intro evno s s' h hinv
    simp only [ExportATrack.loop, Except.ok.injEq] at h
    subst h
    refine ⟨hinv, fun hs => hs, ?_, rfl⟩
    rintro ⟨e, he, _⟩
    simp [processed] at he
  | cons a rest ih =>
    intro evno s s' h hinv
    rw [ExportATrack.loop] at h
    by_cases hc : a.evcode = EndOfTrack ∧ ¬ ShouldExportEventsPastEoT
    · rw [if_pos hc] at h
      simp only [Except.ok.injEq] at h
      subst h
      have hp : processed (a :: rest) = [] := by
        unfold processed
        simp only [List.takeWhile, decide_eq_true hc, Bool.not_true]
      refine ⟨hinv, fun hs => hs, ?_, rfl⟩
      rintro ⟨e, he, _⟩
      rw [hp] at he
      exact absurd he (List.not_mem_nil e)
    · rw [if_neg hc] at h
      have hp : processed (a :: rest) = a :: processed rest := by
        unfold processed
        simp only [List.takeWhile, decide_eq_false hc, Bool.not_false]
      cases hs : ExportATrack.step self intrk outtrk evno a s with
      | error e => simp [hs] at h
      | ok s1 =>
        simp only [hs] at h
        obtain ⟨k1, k2, k3, k4⟩ := ExportATrack.step_flags self intrk outtrk evno a s s1 hs hinv
        obtain ⟨j1, j2, j3, j4⟩ := ih (evno + 1) s1 s' h k1
        refine ⟨j1, fun hf => j2 (k3 hf), ?_, j4.trans k4⟩
        rintro ⟨e, he, hm⟩
        rw [hp] at he
        rcases List.mem_cons.mp he with rfl | he
        · exact j2 (k2 hm)
        · exact j3 ⟨e, he, hm⟩

/-- The same for `ExportATrack`. -/
theorem ExportATrack_flags (self : DSESequenceToMidi) (intrk outtrk evno : Nat)
    (s s' : ConvState) (h : ExportATrack self intrk outtrk evno s = .ok s')
    (hinv : s.m_bLoopBegSet = true → s.m_bshouldloop = true) :
    (s'.m_bLoopBegSet = true → s'.m_bshouldloop = true) ∧
    (s.m_bshouldloop = true → s'.m_bshouldloop = true) ∧
    ((∃ e ∈ processed ((self.m_seq.track intrk).events.drop evno), e.evcode = LoopPointSet) →
      s'.m_bshouldloop = true) ∧
    s'.m_songlsttick = s.m_songlsttick := by
  unfold ExportATrack at h
  simp only [] at h
  cases hl : ExportATrack.loop self intrk outtrk ((self.m_seq.track intrk).events.drop evno) evno
      { s with trace := s.trace ++ [.enter intrk evno (s.ticks intrk)] } with
  | error e => simp [hl, Except.map] at h
  | ok s1 =>
    simp only [hl, Except.map, Except.ok.injEq] at h
    subst h
    have hf := ExportATrack.loop_flags self intrk outtrk _ evno
      { s with trace := s.trace ++ [.enter intrk evno (s.ticks intrk)] } s1 hl hinv
    exact hf

/-- The messages that `ExportATrack` puts hold no marker that ends the loop, and its trace
entries are added after those there are. -/
theorem ExportATrack_no_LoopEnd (self : DSESequenceToMidi) (intrk outtrk evno : Nat)
    (s s' : ConvState) (h : ExportATrack self intrk outtrk evno s = .ok s') :
    (∃ l, s'.m_midiout.events = s.m_midiout.events ++ l ∧ ∀ x ∈ l, x.2.IsLoopEnd = false) ∧
    ∃ tr, s'.trace = s.trace ++ tr := by
  refine ⟨?_, ?_⟩
  · revert s s'
    apply ExportATrack_rel
      (fun a b : ConvState =>
        ∃ l, b.m_midiout.events = a.m_midiout.events ++ l ∧ ∀ x ∈ l, x.2.IsLoopEnd = false)
      (fun a => ⟨[], by simp, by simp⟩)
    · rintro a b c ⟨l1, h1, k1⟩ ⟨l2, h2, k2⟩
      refine ⟨l1 ++ l2, by rw [h2, h1, List.append_assoc], ?_⟩
      intro x hx
      rcases List.mem_append.mp hx with hx | hx
      · exact k1 x hx
      · exact k2 x hx
    · intro ev _ evno a b hs
      obtain ⟨msgs, hm, hk⟩ := ExportATrack.step_events self intrk outtrk evno ev a b hs
      refine ⟨_, hm, ?_⟩
      intro x hx
      obtain ⟨m, hmem, rfl⟩ := List.mem_map.mp hx
      exact (hk m hmem).2
    · intro a t _
      exact ⟨[], by simp, by simp⟩
  · rw [ExportATrack_trace self intrk outtrk evno s s' h, List.append_assoc, List.append_assoc]
    exact ⟨_, rfl⟩

/-- The largest of a start value and the numbers of a list is at least each of them. -/
theorem le_foldl_max (l : List Nat) :
    ∀ a, a ≤ l.foldl max a ∧ ∀ x ∈ l, x ≤ l.foldl max a := by
  induction l with
  | nil => exact fun a => ⟨Nat.le_refl a, fun x hx => absurd hx (List.not_mem_nil x)⟩
  | cons b rest ih =>
    intro a
    obtain ⟨h1, h2⟩ := ih (max a b)
    refine ⟨Nat.le_trans (Nat.le_max_left a b) h1, fun x hx => ?_⟩
    rcases List.mem_cons.mp hx with rfl | hx
    · exact Nat.le_trans (Nat.le_max_right a x) h1
    · exact h2 x hx

/-- The first pass of the single-track export over the tracks `a` to `a + m - 1`: each track
leaves one exit entry in the trace, with the tick count it still has at the end of the pass;
the last tick of the song becomes the largest of its value before and these tick counts; no
marker that ends the loop is put; and the loop flag is set at the end when it was before or
when one of these tracks has a loop-point event before its first end-of-track event. `body` is
the body of the first loop of `ExportAsSingleTrack`. -/
theorem firstpass_songlsttick (self : DSESequenceToMidi)
    (body : Nat → ConvState → Except Err ConvState)
    (hbody : ∀ t s s', body t s = .ok s' → ∃ s1, ExportATrack self t 0 0 s = .ok s1 ∧
      s'.trace = s1.trace ∧ s'.m_trkstates = s1.m_trkstates ∧
      s'.m_songlsttick = max s1.m_songlsttick (s1.ticks t) ∧ s'.m_midiout = s1.m_midiout ∧
      s'.m_bshouldloop = s1.m_bshouldloop ∧ s'.m_bLoopBegSet = s1.m_bLoopBegSet) :
    ∀ m a s s', forTracks body (List.range' a m) s = .ok s' →
      (s.m_bLoopBegSet = true → s.m_bshouldloop = true) →
      s'.trace.filter TraceEntry.IsLeave = s.trace.filter TraceEntry.IsLeave ++
        (List.range' a m).map (fun t => TraceEntry.leave t (s'.ticks t)) ∧
      s'.m_songlsttick = ((List.range' a m).map s'.ticks).foldl max s.m_songlsttick ∧
      (∀ j, j < a → s'.ticks j = s.ticks j) ∧
      (∃ l, s'.m_midiout.events = s.m_midiout.events ++ l ∧ ∀ x ∈ l, x.2.IsLoopEnd = false) ∧
      (s'.m_bLoopBegSet = true → s'.m_bshouldloop = true) ∧
      (s.m_bshouldloop = true → s'.m_bshouldloop = true) ∧
      ((∃ t ∈ List.range' a m, ∃ e ∈ processed (self.m_seq.track t).events,
          e.evcode = LoopPointSet) → s'.m_bshouldloop = true) := by
  intro m
  induction m with
  | zero =>
    intro a s s' h hinv
    simp only [List.range'_zero, forTracks, Except.ok.injEq] at h
    subst h
    refine ⟨by simp, by simp, fun _ _ => rfl, ⟨[], by simp, by simp⟩, hinv, fun hs => hs, ?_⟩
    rintro ⟨t, ht, _⟩
    simp at ht
  | succ m ih =>
    intro a s s' h hinv
    rw [List.range'_succ, forTracks_cons] at h
    cases hb : body a s with
    | error e => simp [hb] at h
    | ok sa =>
      simp only [hb] at h
      obtain ⟨s1, he, b1, b2, b3, b4, b5, b6⟩ := hbody a s sa hb
      obtain ⟨f1, f2, f3, f4⟩ := ExportATrack_flags self a 0 0 s s1 he hinv
      obtain ⟨⟨l1, e1, n1⟩, _⟩ := ExportATrack_no_LoopEnd self a 0 0 s s1 he
      have hinva : sa.m_bLoopBegSet = true → sa.m_bshouldloop = true := by
        rw [b5, b6]
        exact f1
      obtain ⟨i1, i2, i3, ⟨l2, e2, n2⟩, i5, i6, i7⟩ := ih (a + 1) sa s' h hinva
      have hta : s'.ticks a = s1.ticks a := by
        rw [i3 a (Nat.lt_succ_self a)]
        unfold ConvState.ticks
        rw [b2]
      refine ⟨?_, ?_, ?_, ?_, i5, fun hs => i6 (by rw [b5]; exact f2 hs), ?_⟩
      · rw [i1, b1, ExportATrack_trace self a 0 0 s s1 he, List.range'_succ, List.map_cons, hta]
        simp [List.filter_append, TraceEntry.IsLeave, List.filter_map, Function.comp_def]
      · rw [i2, b3, f4, List.range'_succ, List.map_cons, List.foldl_cons, hta]
      · intro j hj
        rw [i3 j (Nat.lt_succ_of_lt hj)]
        unfold ConvState.ticks
        rw [b2, (ExportATrack_other self a 0 0 s s1 he j (Nat.ne_of_gt hj)).1]
      · refine ⟨l1 ++ l2, by rw [e2, b4, e1, List.append_assoc], ?_⟩
        intro x hx
        rcases List.mem_append.mp hx with hx | hx
        · exact n1 x hx
        · exact n2 x hx
      · rintro ⟨t, ht, hm⟩
        rw [List.range'_succ] at ht
        rcases List.mem_cons.mp ht with rfl | ht
        · exact i6 (by rw [b5]; exact f3 (by rw [List.drop_zero]; exact hm))
        · exact i7 ⟨t, ht, hm⟩

/-- A loop that runs a body that always succeeds succeeds. -/
theorem forLoops_total (body : ConvState → Except Err ConvState)
    (hbody : ∀ s, ∃ s', body s = .ok s') :
    ∀ n s, ∃ s', forLoops body n s = .ok s' := by
  intro n
  induction n with
  | zero => exact fun s => ⟨s, rfl⟩
  | succ n ih =>
    intro s
    obtain ⟨s1, h1⟩ := hbody s
    obtain ⟨s2, h2⟩ := ih s1
    refine ⟨s2, ?_⟩
    rw [forLoops, h1]
    exact h2

/-- The repetitions of either export method put no marker that ends the loop and add their
trace entries after those there are. -/
theorem forLoops_no_LoopEnd (self : DSESequenceToMidi) (outtrk : Nat → Nat) (l : List Nat)
    (n : Nat) (s s' : ConvState)
    (h : forLoops (forTracks (LoopATrack self outtrk) l) n s = .ok s') :
    (∃ k, s'.m_midiout.events = s.m_midiout.events ++ k ∧ ∀ x ∈ k, x.2.IsLoopEnd = false) ∧
    ∃ tr, s'.trace = s.trace ++ tr := by
  revert s s'
  apply forLoops_rel
    (fun a b : ConvState =>
      (∃ k, b.m_midiout.events = a.m_midiout.events ++ k ∧ ∀ x ∈ k, x.2.IsLoopEnd = false) ∧
      ∃ tr, b.trace = a.trace ++ tr)
    (fun a => ⟨⟨[], by simp, by simp⟩, [], by simp⟩)
  · rintro a b c ⟨⟨l1, h1, k1⟩, t1, u1⟩ ⟨⟨l2, h2, k2⟩, t2, u2⟩
    refine ⟨⟨l1 ++ l2, by rw [h2, h1, List.append_assoc], ?_⟩, t1 ++ t2,
      by rw [u2, u1, List.append_assoc]⟩
    intro x hx
    rcases List.mem_append.mp hx with hx | hx
    · exact k1 x hx
    · exact k2 x hx
  · apply forTracks_rel
      (fun a b : ConvState =>
        (∃ k, b.m_midiout.events = a.m_midiout.events ++ k ∧ ∀ x ∈ k, x.2.IsLoopEnd = false) ∧
        ∃ tr, b.trace = a.trace ++ tr)
      (fun a => ⟨⟨[], by simp, by simp⟩, [], by simp⟩)
    · rintro a b c ⟨⟨l1, h1, k1⟩, t1, u1⟩ ⟨⟨l2, h2, k2⟩, t2, u2⟩
      refine ⟨⟨l1 ++ l2, by rw [h2, h1, List.append_assoc], ?_⟩, t1 ++ t2,
        by rw [u2, u1, List.append_assoc]⟩
      intro x hx
      rcases List.mem_append.mp hx with hx | hx
      · exact k1 x hx
      · exact k2 x hx
    · intro t _ a b hb
      exact ExportATrack_no_LoopEnd self t _ _ (RestoreTrackState t a) b hb


/-- The single-track export succeeds when every event of the sequence is handled. -/
theorem ExportAsSingleTrack_ok (self : DSESequenceToMidi)
    (hall : ∀ trk ∈ self.m_seq.tracks, ∀ e ∈ trk.events, e.Handled self) (s : ConvState) :
    ∃ s', ExportAsSingleTrack self s = .ok s' := by
  have hexp : ∀ t ∈ List.range self.m_seq.getNbTracks, ∀ outtrk evno a,
      ∃ b, ExportATrack self t outtrk evno a = .ok b := fun t ht outtrk evno a =>
    ExportATrack_ok self t outtrk evno a
      (hall _ (MusicSequence.track_mem _ t (List.mem_range.mp ht)))
  have hloops : ∀ a, ∃ b, forLoops (forTracks (LoopATrack self fun _ => 0)
      (List.range self.m_seq.getNbTracks)) self.m_nbloops a = .ok b :=
    forLoops_total _ (fun a =>
      (forTracks_total (fun _ _ => True) (fun _ => trivial) (fun _ _ _ _ _ => trivial)
        (LoopATrack self fun _ => 0) (List.range self.m_seq.getNbTracks)
        (fun j hj a => (hexp j hj _ _ _).elim fun b hb => ⟨b, hb, trivial⟩) a).elim
        fun b hb => ⟨b, hb.1⟩) self.m_nbloops
  unfold ExportAsSingleTrack
  simp only []
  generalize hfp : forTracks _ _ _ = fp
  cases fp with
  | error e =>
    exact ((forTracks_total (fun _ _ => True) (fun _ => trivial) (fun _ _ _ _ _ => trivial)
      _ (List.range self.m_seq.getNbTracks)
      (by
        intro j hj a
        obtain ⟨b, hb⟩ := hexp j hj 0 0 a
        beta_reduce
        rw [hb]
        exact ⟨_, rfl, trivial⟩) _).elim fun s1 h1 => Except.noConfusion (h1.1.symm.trans hfp))
  | ok s1 =>
    simp only []
    split_ifs
    · exact hloops _
    · exact ⟨s1, rfl⟩

/-- C22: the marker that ends the loop in the single-track layout. The export succeeds when
every event is handled. When it succeeds, the first exits of `ExportATrack` in the trace are
those of the first pass, one per track in the order of the tracks, each with the tick count
`ends t` of its track at that point; when some track has a loop-point event before its first
end-of-track event, exactly one marker `LoopEnd` is put, on output track 0 at the largest of
these tick counts (which is at least each of them); when no track has one, none is put. -/
theorem Export_single_track_LoopEnd (self : DSESequenceToMidi)
    (hfmt : self.m_midifmt = .SingleTrack) :
    ((∀ trk ∈ self.m_seq.tracks, ∀ e ∈ trk.events, e.Handled self) →
      ∃ s, Export self = .ok s) ∧
    ∀ s, Export self = .ok s →
      ∃ ends : Nat → Nat,
        (s.trace.filter TraceEntry.IsLeave).take self.m_seq.getNbTracks =
          (List.range self.m_seq.getNbTracks).map (fun t => TraceEntry.leave t (ends t)) ∧
        (∀ t, t < self.m_seq.getNbTracks →
          ends t ≤ ((List.range self.m_seq.getNbTracks).map ends).foldl max 0) ∧
        ((∃ trk ∈ self.m_seq.tracks, ∃ e ∈ processed trk.events, e.evcode = LoopPointSet) →
          s.m_midiout.events.filter (fun x => x.2.IsLoopEnd) =
            [(0, PutTextEvent (((List.range self.m_seq.getNbTracks).map ends).foldl max 0)
              .META_MARKER_TEXT TXT_LoopEnd)]) ∧
        ((∀ trk ∈ self.m_seq.tracks, ∀ e ∈ processed trk.events, e.evcode ≠ LoopPointSet) →
          s.m_midiout.events.filter (fun x => x.2.IsLoopEnd) = []) := by
  have hE : Export self = ExportAsSingleTrack self {} := by
    unfold Export
    rw [hfmt]
  rw [hE]
  refine ⟨fun hall => ExportAsSingleTrack_ok self hall {}, ?_⟩
  intro s h0
  have hprep := PrepareMidiFile_no_LoopEnd self
  have h := h0
  revert h
  unfold ExportAsSingleTrack
  simp only []
  generalize hfp : forTracks _ _ _ = fp
  intro h
  cases fp with
  | error e => exact Except.noConfusion h
  | ok s1 =>
    simp only [] at h
    rw [List.range_eq_range'] at hfp
    obtain ⟨t1, t2, _, ⟨l, e1, n1⟩, _, _, t7⟩ := firstpass_songlsttick self _
      (by
        intro t a b hb
        cases he : ExportATrack self t 0 0 a with
        | error e => simp [he, Except.map] at hb
        | ok sc =>
          simp only [he, Except.map, Except.ok.injEq] at hb
          subst hb
          refine ⟨sc, rfl, ?_, ?_, ?_, ?_, ?_, ?_⟩
          · split_ifs <;> rfl
          · split_ifs <;> rfl
          · split_ifs with c
            · exact (Nat.max_eq_right (Nat.le_of_lt c)).symm
            · exact (Nat.max_eq_left (Nat.le_of_not_lt c)).symm
          · split_ifs <;> rfl
          · split_ifs <;> rfl
          · split_ifs <;> rfl) self.m_seq.getNbTracks 0 _ s1 hfp
      (fun hb => Bool.noConfusion hb)
    have hlen : (s1.trace.filter TraceEntry.IsLeave).length = self.m_seq.getNbTracks := by
      rw [t1]
      simp [PrepareMidiFile]
    have hpost : (∃ k, s.m_midiout.events = s1.m_midiout.events ++
          (if s1.m_bshouldloop = true then
            [(0, PutTextEvent s1.m_songlsttick .META_MARKER_TEXT TXT_LoopEnd)] else []) ++ k ∧
          ∀ x ∈ k, x.2.IsLoopEnd = false) ∧
        ∃ tr, s.trace = s1.trace ++ tr := by
      cases hf : s1.m_bshouldloop with
      | false =>
        simp only [hf, Bool.false_eq_true, if_false, Except.ok.injEq] at h
        subst h
        exact ⟨⟨[], by simp, by simp⟩, [], by simp⟩
      | true =>
        simp only [hf, if_true] at h
        obtain ⟨⟨k, hk, nk⟩, tr, htr⟩ := forLoops_no_LoopEnd self _ _ _ _ s h
        exact ⟨⟨k, hk, nk⟩, tr, htr⟩
    obtain ⟨⟨k, hk, nk⟩, tr, htr⟩ := hpost
    have hsong : s1.m_songlsttick =
        ((List.range self.m_seq.getNbTracks).map s1.ticks).foldl max 0 := by
      rw [t2, List.range_eq_range']
      rfl
    have hfl : (l.filter fun x => x.2.IsLoopEnd) = [] :=
      List.filter_eq_nil_iff.mpr fun x hx => by simp [n1 x hx]
    have hfk : (k.filter fun x => x.2.IsLoopEnd) = [] :=
      List.filter_eq_nil_iff.mpr fun x hx => by simp [nk x hx]
    have hf0 : ((PrepareMidiFile self
        { ({} : ConvState) with
          m_trkstates := resize [] self.m_seq.getNbTracks
          m_beflooptrkstates := resize [] self.m_seq.getNbTracks
          m_songlsttick := 0 }).m_midiout.events.filter fun x => x.2.IsLoopEnd) = [] :=
      List.filter_eq_nil_iff.mpr fun x hx => by simp [hprep x hx]
    refine ⟨s1.ticks, ?_, ?_, ?_, ?_⟩
    · rw [htr, List.filter_append, List.take_left' hlen, t1, List.range_eq_range']
      simp [PrepareMidiFile]
    · intro t ht
      exact (le_foldl_max _ 0).2 _ (List.mem_map_of_mem _ (List.mem_range.mpr ht))
    · rintro ⟨trk, htrk, e, he, hm⟩
      obtain ⟨i, hi, rfl⟩ := List.getElem_of_mem htrk
      have hflag : s1.m_bshouldloop = true := by
        refine t7 ⟨i, ?_, e, ?_, hm⟩
        · rw [← List.range_eq_range']
          exact List.mem_range.mpr hi
        · have : self.m_seq.track i = self.m_seq.tracks[i] := by
            unfold MusicSequence.track
            rw [List.getD_eq_getElem _ _ hi]
          rw [this]
          exact he
      rw [hk, e1, hflag, if_pos rfl, List.filter_append, List.filter_append, List.filter_append,
        hf0, hfl, hfk, hsong]
      rfl
    · intro hno
      exact List.filter_eq_nil_iff.mpr fun x hx => by
        simp [((ExportAsSingleTrack_without_loop_point self hno).2 s h0).1 x hx]

/-- C22 for the tempo track and the track that marks its loop point at tick 100 and ends at tick
150, with one repetition: the export succeeds and puts one marker that ends the loop. -/
theorem Export_single_track_LoopEnd_witness :
    ((converter seqLoopNote none .SingleTrack 1).m_midifmt = .SingleTrack ∧
      (∀ trk ∈ (converter seqLoopNote none .SingleTrack 1).m_seq.tracks,
        ∀ e ∈ trk.events, e.Handled (converter seqLoopNote none .SingleTrack 1)) ∧
      ∃ trk ∈ (converter seqLoopNote none .SingleTrack 1).m_seq.tracks,
        ∃ e ∈ processed trk.events, e.evcode = LoopPointSet) ∧
    ∃ s, Export (converter seqLoopNote none .SingleTrack 1) = .ok s ∧
      ∃ tick, s.m_midiout.events.filter (fun x => x.2.IsLoopEnd) =
        [(0, PutTextEvent tick .META_MARKER_TEXT TXT_LoopEnd)] :=
  ⟨⟨rfl, by decide, by decide⟩,
    ((Export_single_track_LoopEnd (converter seqLoopNote none .SingleTrack 1) rfl).1
      (by decide)).elim fun s hs =>
      ((Export_single_track_LoopEnd (converter seqLoopNote none .SingleTrack 1) rfl).2
        s hs).elim fun _ he => ⟨s, hs, _, he.2.2.1 (by decide)⟩⟩


/-! ## Partial overrides -/

/-- C31: a remap with one component only. The override statement of `HandlePlayNote` is
entered only when the remap gives both a preset other than 255 and a bank other than -1; its
branches for a missing bank or a missing preset (`Restore bank only`, `Restore preset only`)
are never reached. For the note 5 of DSE program 1, remapped to preset 9 with bank -1, and
for the note 6, remapped to bank 2 with preset 255, on a track without a latched override,
`HandlePlayNote` puts the note-on and the note-off only and leaves the latch and the override
values as they were. -/
theorem HandlePlayNote_partial_override_ignored :
    HandlePlayNote (converter (oneTrack []) (some tablePartialOverride) .MultiTrack 0) 0 0
        { ticks_ := 10, dseprgm_ := 1 } ⟨100, [0x55, 5]⟩ =
      ( { ticks_ := 10, dseprgm_ := 1, lasthold_ := 5 },
        [ ⟨10, .NoteOn 0 60 100⟩, ⟨15, .NoteOff 0 60 100⟩ ] ) ∧
    HandlePlayNote (converter (oneTrack []) (some tablePartialOverride) .MultiTrack 0) 0 0
        { ticks_ := 10, dseprgm_ := 1 } ⟨100, [0x56, 5]⟩ =
      ( { ticks_ := 10, dseprgm_ := 1, lasthold_ := 5 },
        [ ⟨10, .NoteOn 0 61 100⟩, ⟨15, .NoteOff 0 61 100⟩ ] ) := by
  decide

/-! ## Control events -/

/-- C34: the events set-expression, set-track-volume and set-track-pan with the parameter `p`
succeed, put one control change on the channel `trkchan` at the tick count of the track, with
the controller 0x0B, 0x07 and 0x0A and the value `p`, and change the event counter only. -/
theorem HandleEvent_controllers (self : DSESequenceToMidi) (trkno trkchan p : Nat)
    (rest : List Nat) (v : EventVars) :
    HandleEvent self trkno trkchan ⟨SetExpress, p :: rest⟩ v = .ok
      { v with
        state := { v.state with eventno_ := u32 (v.state.eventno_ + 1) }
        outtrack := v.outtrack ++ [⟨v.state.ticks_, .ControlChange trkchan 0x0B p⟩] } ∧
    HandleEvent self trkno trkchan ⟨SetTrkVol, p :: rest⟩ v = .ok
      { v with
        state := { v.state with eventno_ := u32 (v.state.eventno_ + 1) }
        outtrack := v.outtrack ++ [⟨v.state.ticks_, .ControlChange trkchan 0x07 p⟩] } ∧
    HandleEvent self trkno trkchan ⟨SetTrkPan, p :: rest⟩ v = .ok
      { v with
        state := { v.state with eventno_ := u32 (v.state.eventno_ + 1) }
        outtrack := v.outtrack ++ [⟨v.state.ticks_, .ControlChange trkchan 0x0A p⟩] } := by
  refine ⟨?_, ?_, ?_⟩ <;>
    simp +decide [HandleEvent, HandleEvent.dispatch, HandleEvent.switch, Except.map,
      RepeatLastPause, PauseUntilRel, Delay_HN, Delay_64N, NoteOnBeg, NoteOnEnd, SetOctave,
      SetTempo, SetExpress, SetTrkVol, SetTrkPan, TrkEvent.front]

/-- C35: a set-octave event with the parameter byte `p` succeeds, puts no message and changes
the octave, which becomes `p` also above the maximum octave 9, and the event counter only; a
note-on event that follows is decoded from the octave `p`. -/
theorem HandleEvent_SetOctave_unclamped (self : DSESequenceToMidi) (trkno trkchan p : Nat)
    (rest : List Nat) (v : EventVars) (hp : p < 256) :
    HandleEvent self trkno trkchan ⟨SetOctave, p :: rest⟩ v = .ok
      { v with state := { v.state with
          octave_ := p, eventno_ := u32 (v.state.eventno_ + 1) } } ∧
    ∀ ev, NoteOnBeg ≤ ev.evcode ∧ ev.evcode ≤ NoteOnEnd →
      ∃ v', HandleEvent self trkno trkchan ev
          { v with state := { v.state with
              octave_ := p, eventno_ := u32 (v.state.eventno_ + 1) } } = .ok v' ∧
        v'.state.octave_ = u8 (self.ParsePlayNoteParam1 ev.front p).inout_curoctave := by
  have e : intToU8 (i8 p) = p := by
    unfold intToU8 i8
    split_ifs <;> omega
  refine ⟨?_, fun ev hev => HandleEvent_note_octave self trkno trkchan ev _ hev⟩
  simp +decide [HandleEvent, HandleEvent.dispatch, HandleEvent.switch, Except.map,
    RepeatLastPause, PauseUntilRel, Delay_HN, Delay_64N, NoteOnBeg, NoteOnEnd, SetOctave,
    SetTempo, TrkEvent.front, e]

/-- C35 for the octave 12, above the maximum octave 9. -/
theorem HandleEvent_SetOctave_unclamped_witness :
    (12 : Nat) < 256 ∧
    HandleEvent (converter (oneTrack []) none .MultiTrack 0) 0 0 ⟨SetOctave, [12]⟩ varsInit =
      .ok { varsInit with state := { varsInit.state with
          octave_ := 12, eventno_ := u32 (varsInit.state.eventno_ + 1) } } :=
  ⟨by decide,
    (HandleEvent_SetOctave_unclamped (converter (oneTrack []) none .MultiTrack 0) 0 0 12 []
      varsInit (by decide)).1⟩

/-! ## The checksums of the GS messages -/

/-- C40: in GS mode `PrepareMidiFile` puts two system-exclusive messages; their address, data
and checksum bytes are 40 00 7F 00 41 and 40 10 15 00 1B, and in both the sum of these five
bytes is a multiple of 128. -/
theorem PrepareMidiFile_GS_checksums (self : DSESequenceToMidi) (s : ConvState)
    (hmode : self.m_midimode = .GS) :
    (((PrepareMidiFile self s).m_midiout.events.drop s.m_midiout.events.length).filterMap
        fun x => x.2.sysexBytes).map rolandFields =
      [[0x40, 0x00, 0x7F, 0x00, 0x41], [0x40, 0x10, 0x15, 0x00, 0x1B]] ∧
    ∀ fields ∈ (((PrepareMidiFile self s).m_midiout.events.drop
        s.m_midiout.events.length).filterMap fun x => x.2.sysexBytes).map rolandFields,
      fields.sum % 128 = 0 := by
  have e : (((PrepareMidiFile self s).m_midiout.events.drop s.m_midiout.events.length).filterMap
        fun x => x.2.sysexBytes).map rolandFields =
      [[0x40, 0x00, 0x7F, 0x00, 0x41], [0x40, 0x10, 0x15, 0x00, 0x1B]] := by
    unfold PrepareMidiFile
    simp only [hmode, MIDIMultiTrack.Put, List.map_cons, List.map_nil, List.append_assoc,
      List.drop_left]
    rfl
  rw [e]
  exact ⟨rfl, by decide⟩

/-- C40 for a converter in GS mode, from the empty output. -/
theorem PrepareMidiFile_GS_checksums_witness :
    ({ converter (oneTrack []) none .MultiTrack 0 with m_midimode := .GS }
      : DSESequenceToMidi).m_midimode = .GS ∧
    ∀ fields ∈ (((PrepareMidiFile
        { converter (oneTrack []) none .MultiTrack 0 with m_midimode := .GS }
        {}).m_midiout.events.drop 0).filterMap fun x => x.2.sysexBytes).map rolandFields,
      fields.sum % 128 = 0 :=
  ⟨rfl, (PrepareMidiFile_GS_checksums
    { converter (oneTrack []) none .MultiTrack 0 with m_midimode := .GS } {} rfl).2⟩


/-! ## Marking a loop point -/

/-- C32: a loop-point event that is honoured (multi-track layout, or no loop point set yet in
the single-track layout), handled when the event counter of the track is `i`: `HandleEvent`
succeeds, puts the marker text `LoopStart` and the loop meta message at the tick count of the
track, sets the loop point of the track to `i + 1`, saves the state of the track with that loop
point, sets the loop flag and leaves the tick count as it was. On the first pass over a track
`pre ++ marker :: post ++ tail` the event counter at the marker is its index, so the saved loop
point is `pre.length + 1`. -/
theorem HandleEvent_LoopPointSet_marks (self : DSESequenceToMidi) (trkno trkchan : Nat)
    (ev : TrkEvent) (v : EventVars) (i : Nat) (hp : ev.evcode = LoopPointSet)
    (hnew : self.m_midifmt = .MultiTrack ∨ v.m_bLoopBegSet = false)
    (hi : v.state.eventno_ = i) (hsize : i + 1 < 4294967296) :
    (∃ v', HandleEvent self trkno trkchan ev v = .ok v' ∧
      v'.outtrack = v.outtrack ++
        [ ⟨v.state.ticks_, .Text .META_MARKER_TEXT "LoopStart"⟩,
          ⟨v.state.ticks_, .MetaType .META_TRACK_LOOP⟩ ] ∧
      v'.state = { v.state with looppoint_ := i + 1, eventno_ := i + 1 } ∧
      v'.befloopstate = { v.state with looppoint_ := i + 1 } ∧
      v'.m_bshouldloop = true ∧
      v'.state.ticks_ = v.state.ticks_) ∧
    ∀ (outtrk : Nat) (pre post tail : List TrkEvent) (s : ConvState),
      (self.m_seq.track trkno).events = pre ++ ev :: (post ++ tail) →
      trkno < s.m_trkstates.length → trkno < s.m_beflooptrkstates.length →
      (s.m_trkstates.getD trkno default).eventno_ = 0 →
      (self.m_midifmt = .MultiTrack ∨ s.m_bLoopBegSet = false) →
      (∀ e ∈ pre, e.Handled self ∧ e.evcode ≠ EndOfTrack ∧ e.evcode ≠ LoopPointSet) →
      (∀ e ∈ post, e.Handled self ∧ e.evcode ≠ EndOfTrack ∧ e.evcode ≠ LoopPointSet) →
      (∀ e ∈ tail.head?, e.evcode = EndOfTrack) →
      pre.length + 1 < 4294967296 →
      ∃ s', ExportATrack self trkno outtrk 0 s = .ok s' ∧
        (s'.m_beflooptrkstates.getD trkno default).looppoint_ = pre.length + 1 ∧
        s'.m_bshouldloop = true := by
  have hn : ∀ b : Bool, (self.m_midifmt = .MultiTrack ∨ b = false) →
      ¬ (self.m_midifmt = eMIDIFormat.SingleTrack ∧ b = true) := by
    rintro b (h | h) ⟨h1, h2⟩
    · rw [h] at h1
      exact eMIDIFormat.noConfusion h1
    · rw [h] at h2
      exact Bool.noConfusion h2
  have e1 : u32 (v.state.eventno_ + 1) = i + 1 := by
    rw [hi]
    exact Nat.mod_eq_of_lt hsize
  refine ⟨⟨_, HandleEvent_LoopPointSet self trkno trkchan ev v hp (hn _ hnew), rfl, ?_, ?_, rfl,
    rfl⟩, ?_⟩
  · exact congrArg
      (fun n => ({ v.state with looppoint_ := n, eventno_ := n } : TrkState)) e1
  · exact congrArg (fun n => ({ v.state with looppoint_ := n } : TrkState)) e1
  · intro outtrk pre post tail s htrk h1 h2 he0 hs hpre hpost htail hsz
    obtain ⟨s', k1, _, _, _, k5, k6⟩ := ExportATrack_first_pass self trkno outtrk pre post tail
      ev s htrk h1 h2 he0 (hn _ hs) hp hpre hpost htail hsz
    exact ⟨s', k1, k5, k6⟩

/-- C32 for a loop-point event handled as third event of a track, at tick 100. -/
theorem HandleEvent_LoopPointSet_marks_witness :
    ((⟨LoopPointSet, []⟩ : TrkEvent).evcode = LoopPointSet ∧
      ((converter seqLoopNote none .MultiTrack 0).m_midifmt = .MultiTrack ∨
        varsInit.m_bLoopBegSet = false) ∧
      ({ varsInit with state := { ticks_ := 100, eventno_ := 2 } } : EventVars).state.eventno_
        = 2 ∧
      2 + 1 < 4294967296) ∧
    ∃ v', HandleEvent (converter seqLoopNote none .MultiTrack 0) 1 1 ⟨LoopPointSet, []⟩
        { varsInit with state := { ticks_ := 100, eventno_ := 2 } } = .ok v' ∧
      v'.outtrack = [ ⟨100, .Text .META_MARKER_TEXT "LoopStart"⟩,
        ⟨100, .MetaType .META_TRACK_LOOP⟩ ] ∧
      v'.state = { ticks_ := 100, eventno_ := 3, looppoint_ := 3 } :=
  ⟨by decide,
    (HandleEvent_LoopPointSet_marks (converter seqLoopNote none .MultiTrack 0) 1 1
      ⟨LoopPointSet, []⟩ { varsInit with state := { ticks_ := 100, eventno_ := 2 } } 2 rfl
      (Or.inl rfl) rfl (by decide)).1.elim fun v' h => ⟨v', h.1, h.2.1, h.2.2.1⟩⟩

/-! ## The end of a track -/

/-- The events before the first end-of-track event: none of them is an end-of-track event, and
what follows them is nothing or starts with one. -/
theorem processed_spec (evs : List TrkEvent) :
    ∃ rest, evs = processed evs ++ rest ∧
      (∀ e ∈ processed evs, e.evcode ≠ EndOfTrack) ∧
      (∀ e ∈ rest.head?, e.evcode = EndOfTrack) := by
  induction evs with
  | nil => exact ⟨[], rfl, by simp [processed], by simp⟩
  | cons a l ih =>
    by_cases hc : a.evcode = EndOfTrack ∧ ¬ ShouldExportEventsPastEoT
    · have hp : processed (a :: l) = [] := by
        unfold processed
        simp only [List.takeWhile, decide_eq_true hc, Bool.not_true]
      rw [hp]
      refine ⟨a :: l, rfl, by simp, ?_⟩
      intro e he
      simp only [List.head?_cons, Option.mem_def, Option.some.injEq] at he
      rw [← he]
      exact hc.1
    · have hp : processed (a :: l) = a :: processed l := by
        unfold processed
        simp only [List.takeWhile, decide_eq_false hc, Bool.not_false]
      obtain ⟨rest, h1, h2, h3⟩ := ih
      rw [hp]
      refine ⟨rest, by rw [List.cons_append, ← h1], ?_, h3⟩
      intro e he
      rcases List.mem_cons.mp he with rfl | he
      · intro hq
        exact hc ⟨hq, by simp [ShouldExportEventsPastEoT]⟩
      · exact h2 e he

/-- C37: `ExportATrack` from the event index `evno`. It succeeds when every event of the track
is handled. When it succeeds, the events from `evno` on are `handled ++ rest`, where no event
of `handled` is an end-of-track event and `rest` is empty or starts with one; `HandleEvent` was
called on the events of `handled`, once each and in order, and on no other event; their
number is at most the length of the track minus `evno`. -/
theorem ExportATrack_stops_at_EndOfTrack (self : DSESequenceToMidi) (intrk outtrk evno : Nat)
    (s : ConvState) :
    ((∀ e ∈ (self.m_seq.track intrk).events, e.Handled self) →
      ∃ s', ExportATrack self intrk outtrk evno s = .ok s') ∧
    ∀ s', ExportATrack self intrk outtrk evno s = .ok s' →
      ∃ handled rest, (self.m_seq.track intrk).events.drop evno = handled ++ rest ∧
        (∀ e ∈ handled, e.evcode ≠ EndOfTrack) ∧
        (∀ e ∈ rest.head?, e.evcode = EndOfTrack) ∧
        handled.length ≤ (self.m_seq.track intrk).events.length - evno ∧
        s'.trace = s.trace ++ [.enter intrk evno (s.ticks intrk)] ++
          (List.range' evno handled.length).map (TraceEntry.event intrk) ++
          [.leave intrk (s'.ticks intrk)] := by
  refine ⟨fun hall => ExportATrack_ok self intrk outtrk evno s hall, fun s' h => ?_⟩
  obtain ⟨rest, h1, h2, h3⟩ := processed_spec ((self.m_seq.track intrk).events.drop evno)
  refine ⟨_, rest, h1, h2, h3, ?_, ExportATrack_trace self intrk outtrk evno s s' h⟩
  have hl := congrArg List.length h1
  rw [List.length_drop, List.length_append] at hl
  omega

/-- C37 for the second track of `seqLoopNote`, a replay from the event after its loop point:
the export succeeds and stops before the end-of-track event. -/
theorem ExportATrack_stops_at_EndOfTrack_witness :
    (∀ e ∈ ((converter seqLoopNote none .MultiTrack 1).m_seq.track 1).events,
      e.Handled (converter seqLoopNote none .MultiTrack 1)) ∧
    ∃ s', ExportATrack (converter seqLoopNote none .MultiTrack 1) 1 1 3
        { m_trkstates := [{}, {}], m_beflooptrkstates := [{}, {}] } = .ok s' ∧
      ∃ handled rest,
        ((converter seqLoopNote none .MultiTrack 1).m_seq.track 1).events.drop 3 =
          handled ++ rest ∧
        (∀ e ∈ handled, e.evcode ≠ EndOfTrack) ∧
        (∀ e ∈ rest.head?, e.evcode = EndOfTrack) :=
  ⟨by decide,
    ((ExportATrack_stops_at_EndOfTrack (converter seqLoopNote none .MultiTrack 1) 1 1 3
      { m_trkstates := [{}, {}], m_beflooptrkstates := [{}, {}] }).1 (by decide)).elim
      fun s' hs => ⟨s', hs,
        ((ExportATrack_stops_at_EndOfTrack (converter seqLoopNote none .MultiTrack 1) 1 1 3
          { m_trkstates := [{}, {}], m_beflooptrkstates := [{}, {}] }).2 s' hs).elim
          fun handled h => h.elim fun rest h => ⟨handled, rest, h.1, h.2.1, h.2.2.1⟩⟩⟩


/-! ## Agreement of the messages put with the state of the track -/

/-- The last bank select of two lists of messages in a row. -/
theorem lastBankSelect_append (out msgs : List MIDITimedBigMessage) :
    lastBankSelect (out ++ msgs) = (lastBankSelect msgs).or (lastBankSelect out) := by
  unfold lastBankSelect
  rw [List.filterMap_append, List.getLast?_append]

/-- The last program change of two lists of messages in a row. -/
theorem lastProgramChange_append (out msgs : List MIDITimedBigMessage) :
    lastProgramChange (out ++ msgs) = (lastProgramChange msgs).or (lastProgramChange out) := by
  unfold lastProgramChange
  rw [List.filterMap_append, List.getLast?_append]

/-- Messages that are neither bank selects nor program changes have no last one. -/
theorem lastBankSelect_none (msgs : List MIDITimedBigMessage)
    (h : ∀ m ∈ msgs, m.bankValue = none ∧ m.programValue = none) :
    lastBankSelect msgs = none ∧ lastProgramChange msgs = none := by
  have h1 : msgs.filterMap MIDITimedBigMessage.bankValue = [] :=
    List.filterMap_eq_nil_iff.mpr fun m hm => (h m hm).1
  have h2 : msgs.filterMap MIDITimedBigMessage.programValue = [] :=
    List.filterMap_eq_nil_iff.mpr fun m hm => (h m hm).2
  unfold lastBankSelect lastProgramChange
  rw [h1, h2]
  exact ⟨rfl, rfl⟩

/-- Messages that are neither bank selects nor program changes, put for a state with the same
effective bank and program, keep the agreement. -/
theorem TrkState.Agrees.frame (st st' : TrkState) (out msgs : List MIDITimedBigMessage)
    (hb : st'.effectiveBank = st.effectiveBank) (hp : st'.effectivePrgm = st.effectivePrgm)
    (hm : ∀ m ∈ msgs, m.bankValue = none ∧ m.programValue = none) (h : st.Agrees out) :
    st'.Agrees (out ++ msgs) := by
  obtain ⟨n1, n2⟩ := lastBankSelect_none msgs hm
  unfold TrkState.Agrees
  rw [lastBankSelect_append, lastProgramChange_append, n1, n2, hb, hp]
  exact h

/-- A bank select and a program change that carry the effective bank and program of the new
state restore the agreement. -/
theorem TrkState.Agrees.both (st' : TrkState) (out : List MIDITimedBigMessage)
    (t1 t2 chan trkchan b p : Nat) (hb : b % 256 = st'.effectiveBank % 256)
    (hp : p % 256 = st'.effectivePrgm % 256) :
    st'.Agrees (out ++ [⟨t1, .ControlChange chan C_GM_BANK b⟩, ⟨t2, .ProgramChange trkchan p⟩]) := by
  unfold TrkState.Agrees
  rw [lastBankSelect_append, lastProgramChange_append]
  have e1 : lastBankSelect
      [⟨t1, .ControlChange chan C_GM_BANK b⟩, ⟨t2, .ProgramChange trkchan p⟩] = some b := rfl
  have e2 : lastProgramChange
      [⟨t1, .ControlChange chan C_GM_BANK b⟩, ⟨t2, .ProgramChange trkchan p⟩] = some p := rfl
  rw [e1, e2]
  refine ⟨fun x hx => ?_, fun x hx => ?_⟩
  · simp only [Option.or_some, Option.some.injEq] at hx
    rw [← hx]
    exact hb
  · simp only [Option.or_some, Option.some.injEq] at hx
    rw [← hx]
    exact hp

/-- A note-on or a note-off is neither a bank select nor a program change. -/
theorem MIDITimedBigMessage.note_values (m : MIDITimedBigMessage)
    (h : m.IsNoteOn = true ∨ m.IsNoteOff = true) :
    m.bankValue = none ∧ m.programValue = none := by
  obtain ⟨t, body⟩ := m
  cases body <;>
    simp_all [MIDITimedBigMessage.IsNoteOn, MIDITimedBigMessage.IsNoteOff,
      MIDITimedBigMessage.bankValue, MIDITimedBigMessage.programValue]

/-- The byte of a number is the number, as bytes. -/
theorem u8_mod (n : Nat) : u8 n % 256 = n % 256 := by
  unfold u8
  omega

/-- `HandleSetPreset` keeps the agreement: without a latched override it puts the new bank and
program, with one it puts nothing and the override stays in force. -/
theorem HandleSetPreset_agrees (self : DSESequenceToMidi) (ev : TrkEvent) (trkno trkchan : Nat)
    (state : TrkState) (mess_time : Nat) (out : List MIDITimedBigMessage)
    (h : state.Agrees out) :
    (HandleSetPreset self ev trkno trkchan state mess_time).1.Agrees
      (out ++ (HandleSetPreset self ev trkno trkchan state mess_time).2) ∧
    (state.presetoverriden = true →
      (HandleSetPreset self ev trkno trkchan state mess_time).2 = []) := by
  obtain ⟨i, b, p, m, t, hs⟩ := HandleSetPreset_state self ev trkno trkchan state mess_time
  have hout : (HandleSetPreset self ev trkno trkchan state mess_time).2 =
      if !state.presetoverriden then
        [ ⟨state.ticks_, .ControlChange (self.m_seq.track trkno).chan C_GM_BANK
            (u8 (HandleSetPreset self ev trkno trkchan state mess_time).1.curbank_)⟩,
          ⟨mess_time, .ProgramChange trkchan
            (HandleSetPreset self ev trkno trkchan state mess_time).1.prgm_⟩ ]
      else [] := by
    unfold HandleSetPreset
    simp only []
    cases self.m_convtable with
    | none => rfl
    | some convtable =>
      simp only []
      cases convtable.FindConversionInfo ev.front <;> rfl
  cases hl : state.presetoverriden with
  | false =>
    refine ⟨?_, fun hq => Bool.noConfusion hq⟩
    rw [hout, hl]
    simp only [Bool.not_false, if_true]
    apply TrkState.Agrees.both
    · rw [u8_mod, hs]
      unfold TrkState.effectiveBank
      simp [hl]
    · rw [hs]
      unfold TrkState.effectivePrgm
      simp [hl]
  | true =>
    have e : (HandleSetPreset self ev trkno trkchan state mess_time).2 = [] := by
      rw [hout, hl]
      rfl
    refine ⟨?_, fun _ => e⟩
    rw [e]
    refine TrkState.Agrees.frame state _ out [] ?_ ?_ (by simp) h
    · rw [hs]
      unfold TrkState.effectiveBank
      simp [hl]
    · rw [hs]
      unfold TrkState.effectivePrgm
      simp [hl]

/-- The override statement of `HandlePlayNote` keeps the agreement. -/
theorem HandlePlayNote.override_agrees (chan trkchan : Nat) (st : TrkState)
    (rd : NoteRemapData) (out : List MIDITimedBigMessage) (h : st.Agrees out) :
    (HandlePlayNote.override chan trkchan st rd).1.Agrees
      (out ++ (HandlePlayNote.override chan trkchan st rd).2) := by
  by_cases c1 : st.presetoverriden = true ∧ rd.destpreset = 255 ∧ rd.destbank = -1
  · unfold HandlePlayNote.override
    rw [if_pos c1]
    apply TrkState.Agrees.both
    · rw [u8_mod]
      rfl
    · rfl
  · by_cases c2 : rd.destpreset ≠ 255 ∧ rd.destbank ≠ -1
    · obtain ⟨f2, f1⟩ := HandlePlayNote.override_full chan trkchan st rd c2.1 c2.2
      obtain ⟨hb, hp⟩ := h
      rw [f1, f2]
      unfold TrkState.Agrees
      rw [lastBankSelect_append, lastProgramChange_append]
      unfold TrkState.effectiveBank at hb ⊢
      unfold TrkState.effectivePrgm at hp ⊢
      simp only [if_true]
      refine ⟨fun x hx => ?_, fun x hx => ?_⟩
      · by_cases k1 : st.presetoverriden = false ∨ (st.ovrbank_ : Int) ≠ rd.destbank
        · simp only [if_pos k1] at hx ⊢
          by_cases k2 : st.presetoverriden = false ∨ st.ovrprgm_ ≠ rd.destpreset
          · rw [if_pos k2] at hx
            have e : lastBankSelect
                ([⟨st.ticks_, .ControlChange chan C_GM_BANK (u8 (intToU16 rd.destbank))⟩] ++
                  [⟨st.ticks_, .ProgramChange trkchan rd.destpreset⟩]) =
                some (u8 (intToU16 rd.destbank)) := rfl
            rw [e] at hx
            simp only [Option.or_some, Option.some.injEq] at hx
            rw [← hx, u8_mod]
          · rw [if_neg k2] at hx
            have e : lastBankSelect
                ([⟨st.ticks_, .ControlChange chan C_GM_BANK (u8 (intToU16 rd.destbank))⟩] ++
                  ([] : List MIDITimedBigMessage)) =
                some (u8 (intToU16 rd.destbank)) := rfl
            rw [e] at hx
            simp only [Option.or_some, Option.some.injEq] at hx
            rw [← hx, u8_mod]
        · simp only [if_neg k1] at hx ⊢
          have hl : st.presetoverriden = true := by
            cases hq : st.presetoverriden with
            | false => exact absurd (Or.inl hq) k1
            | true => rfl
          have e : lastBankSelect (([] : List MIDITimedBigMessage) ++
              (if st.presetoverriden = false ∨ st.ovrprgm_ ≠ rd.destpreset then
                [⟨st.ticks_, .ProgramChange trkchan rd.destpreset⟩] else [])) = none := by
            split_ifs <;> rfl
          rw [e] at hx
          have hb2 := hb x (by simpa using hx)
          rw [hl] at hb2
          simpa using hb2
      · by_cases k2 : st.presetoverriden = false ∨ st.ovrprgm_ ≠ rd.destpreset
        · have e : lastProgramChange
              ((if st.presetoverriden = false ∨ (st.ovrbank_ : Int) ≠ rd.destbank then
                [⟨st.ticks_, .ControlChange chan C_GM_BANK (u8 (intToU16 rd.destbank))⟩]
                else []) ++
                (if st.presetoverriden = false ∨ st.ovrprgm_ ≠ rd.destpreset then
                  [⟨st.ticks_, .ProgramChange trkchan rd.destpreset⟩] else [])) =
              some rd.destpreset := by
            rw [if_pos k2]
            split_ifs <;> rfl
          rw [e] at hx
          simp only [Option.or_some, Option.some.injEq] at hx
          rw [← hx]
        · have hl : st.presetoverriden = true := by
            cases hq : st.presetoverriden with
            | false => exact absurd (Or.inl hq) k2
            | true => rfl
          have hq : st.ovrprgm_ = rd.destpreset := by
            by_contra hne
            exact k2 (Or.inr hne)
          have e : lastProgramChange
              ((if st.presetoverriden = false ∨ (st.ovrbank_ : Int) ≠ rd.destbank then
                [⟨st.ticks_, .ControlChange chan C_GM_BANK (u8 (intToU16 rd.destbank))⟩]
                else []) ++
                (if st.presetoverriden = false ∨ st.ovrprgm_ ≠ rd.destpreset then
                  [⟨st.ticks_, .ProgramChange trkchan rd.destpreset⟩] else [])) = none := by
            rw [if_neg k2]
            split_ifs <;> rfl
          rw [e] at hx
          have hp2 := hp x (by simpa using hx)
          rw [hl] at hp2
          rw [← hq]
          simpa using hp2
    · have e : HandlePlayNote.override chan trkchan st rd = (st, []) := by
        unfold HandlePlayNote.override
        rw [if_neg c1, if_neg c2]
      rw [e, List.append_nil]
      exact h

/-- `HandlePlayNote` keeps the agreement. -/
theorem HandlePlayNote_agrees (self : DSESequenceToMidi) (trkno trkchan : Nat)
    (state : TrkState) (ev : TrkEvent) (out : List MIDITimedBigMessage)
    (h : state.Agrees out) :
    (HandlePlayNote self trkno trkchan state ev).1.Agrees
      (out ++ (HandlePlayNote self trkno trkchan state ev).2) := by
  obtain ⟨k1, k2, k3, _, k5, k6⟩ := HandlePlayNote.parse_keeps self state ev
  have h0 : (HandlePlayNote.parse self state ev).1.Agrees out := by
    have hb : (HandlePlayNote.parse self state ev).1.effectiveBank = state.effectiveBank := by
      unfold TrkState.effectiveBank
      rw [k1, k2, k5]
    have hp : (HandlePlayNote.parse self state ev).1.effectivePrgm = state.effectivePrgm := by
      unfold TrkState.effectivePrgm
      rw [k1, k3, k6]
    have := TrkState.Agrees.frame state _ out [] hb hp (by simp) h
    rwa [List.append_nil] at this
  cases htbl : self.m_convtable with
  | none =>
    rw [HandlePlayNote_without_table self trkno trkchan state ev htbl]
    refine TrkState.Agrees.frame _ _ out _ rfl rfl ?_ h0
    intro m hm
    simp only [List.mem_cons, List.mem_singleton, List.not_mem_nil, or_false] at hm
    rcases hm with rfl | rfl
    · exact MIDITimedBigMessage.note_values _ (Or.inl rfl)
    · exact MIDITimedBigMessage.note_values _ (Or.inr rfl)
  | some convtable =>
    obtain ⟨noteon, noteoff, hon, _, hoff, heq⟩ :=
      HandlePlayNote_with_table self convtable trkno trkchan state ev htbl
    rw [heq]
    show TrkState.Agrees _ (out ++ (_ ++ [noteon, noteoff]))
    rw [← List.append_assoc]
    refine TrkState.Agrees.frame _ _ _ _ rfl rfl ?_
      (HandlePlayNote.override_agrees _ trkchan _ _ out h0)
    intro m hm
    simp only [List.mem_cons, List.mem_singleton, List.not_mem_nil, or_false] at hm
    rcases hm with rfl | rfl
    · exact MIDITimedBigMessage.note_values _ (Or.inl hon)
    · exact MIDITimedBigMessage.note_values _ (Or.inr hoff)


/-- A state with the same effective bank and program agrees with the same messages. -/
theorem TrkState.Agrees.congr (st st' : TrkState) (out : List MIDITimedBigMessage)
    (hb : st'.effectiveBank = st.effectiveBank) (hp : st'.effectivePrgm = st.effectivePrgm)
    (h : st.Agrees out) : st'.Agrees out := by
  unfold TrkState.Agrees
  rw [hb, hp]
  exact h

/-- An event that is neither a set-preset nor a note-on event leaves the effective bank and
program as they are and puts neither a bank select nor a program change. -/
theorem HandleEvent.dispatch_other (self : DSESequenceToMidi) (trkno trkchan : Nat)
    (ev : TrkEvent) (v w : EventVars) (hd : HandleEvent.dispatch self trkno trkchan ev v = .ok w)
    (hp : ev.evcode ≠ SetPreset) (hn : ¬ (NoteOnBeg ≤ ev.evcode ∧ ev.evcode ≤ NoteOnEnd)) :
    w.state.effectiveBank = v.state.effectiveBank ∧
    w.state.effectivePrgm = v.state.effectivePrgm ∧
    ∃ msgs, w.outtrack = v.outtrack ++ msgs ∧
      ∀ m ∈ msgs, m.bankValue = none ∧ m.programValue = none := by
  unfold HandleEvent.dispatch at hd
  simp only [] at hd
  by_cases c1 : RepeatLastPause ≤ ev.evcode ∧ ev.evcode ≤ PauseUntilRel
  · rw [if_pos c1] at hd
    cases hq : HandlePauses ev.evcode ev v.state with
    | error e => simp [hq, Except.map] at hd
    | ok st =>
      simp only [hq, Except.map, Except.ok.injEq] at hd
      subst hd
      obtain ⟨t, l, hs⟩ := HandlePauses_state _ _ _ _ hq
      subst hs
      exact ⟨rfl, rfl, [], by simp, by simp⟩
  · rw [if_neg c1] at hd
    by_cases c2 : Delay_HN ≤ ev.evcode ∧ ev.evcode ≤ Delay_64N
    · rw [if_pos c2] at hd
      cases hq : HandleFixedPauses self ev v.state with
      | error e => simp [hq, Except.map] at hd
      | ok st =>
        simp only [hq, Except.map, Except.ok.injEq] at hd
        subst hd
        obtain ⟨t, l, hs⟩ := HandleFixedPauses_state _ _ _ _ hq
        subst hs
        exact ⟨rfl, rfl, [], by simp, by simp⟩
    · rw [if_neg c2, if_neg hn] at hd
      unfold HandleEvent.switch at hd
      simp only [] at hd
      split_ifs at hd with h4 h5 h6 h7 h8 h9 h10 h11
      · cases hq : ConvertTempoToMicrosecPerQuarterNote ev.front with
        | error e => simp [hq, Except.map] at hd
        | ok st =>
          simp only [hq, Except.map, Except.ok.injEq] at hd
          subst hd
          exact ⟨rfl, rfl, _, rfl, by
            simp [MIDITimedBigMessage.bankValue, MIDITimedBigMessage.programValue]⟩
      · simp only [Except.ok.injEq] at hd
        subst hd
        exact ⟨rfl, rfl, [], by simp, by simp⟩
      · simp only [Except.ok.injEq] at hd
        subst hd
        exact ⟨rfl, rfl, _, rfl, by
          simp +decide [MIDITimedBigMessage.bankValue, MIDITimedBigMessage.programValue,
            C_GM_BANK]⟩
      · simp only [Except.ok.injEq] at hd
        subst hd
        exact ⟨rfl, rfl, _, rfl, by
          simp +decide [MIDITimedBigMessage.bankValue, MIDITimedBigMessage.programValue,
            C_GM_BANK]⟩
      · simp only [Except.ok.injEq] at hd
        subst hd
        exact ⟨rfl, rfl, _, rfl, by
          simp +decide [MIDITimedBigMessage.bankValue, MIDITimedBigMessage.programValue,
            C_GM_BANK]⟩
      · simp only [Except.ok.injEq] at hd
        subst hd
        exact ⟨rfl, rfl, _, rfl, by
          simp [MIDITimedBigMessage.bankValue, MIDITimedBigMessage.programValue]⟩
      · simp only [Except.ok.injEq] at hd
        subst hd
        unfold HandleEvent.loopPointSet
        by_cases hc : self.m_midifmt = eMIDIFormat.SingleTrack ∧ v.m_bLoopBegSet
        · rw [if_pos hc]
          exact ⟨rfl, rfl, [], by simp, by simp⟩
        · rw [if_neg hc]
          exact ⟨rfl, rfl, _, rfl, by
            simp [MIDITimedBigMessage.bankValue, MIDITimedBigMessage.programValue,
              PutTextEvent]⟩
      · simp only [Except.ok.injEq] at hd
        subst hd
        exact ⟨rfl, rfl, _, rfl, by
          simp [MIDITimedBigMessage.bankValue, MIDITimedBigMessage.programValue, PutTextEvent]⟩
      · simp only [Except.ok.injEq] at hd
        subst hd
        exact ⟨rfl, rfl, [], by simp, by simp⟩

/-- One call of `HandleEvent` keeps the agreement of the messages put with the state of the
track, whatever was put before; a set-preset event handled while an override is latched puts
nothing. -/
theorem HandleEvent_agrees (self : DSESequenceToMidi) (trkno trkchan : Nat) (ev : TrkEvent)
    (v v' : EventVars) (h : HandleEvent self trkno trkchan ev v = .ok v') :
    ∃ msgs, v'.outtrack = v.outtrack ++ msgs ∧
      (∀ out, v.state.Agrees out → v'.state.Agrees (out ++ msgs)) ∧
      (ev.evcode = SetPreset → v.state.presetoverriden = true → msgs = []) := by
  by_cases hp : ev.evcode = SetPreset
  · rw [HandleEvent_SetPreset self trkno trkchan ev v hp] at h
    simp only [Except.ok.injEq] at h
    subst h
    refine ⟨_, rfl, fun out ha => ?_, fun _ hl =>
      (HandleSetPreset_agrees self ev trkno trkchan v.state v.state.ticks_ [] (by
        unfold TrkState.Agrees lastBankSelect lastProgramChange
        simp)).2 hl⟩
    exact TrkState.Agrees.congr _ _ _ rfl rfl
      (HandleSetPreset_agrees self ev trkno trkchan v.state v.state.ticks_ out ha).1
  · by_cases hn : NoteOnBeg ≤ ev.evcode ∧ ev.evcode ≤ NoteOnEnd
    · rw [HandleEvent_note self trkno trkchan ev v hn] at h
      simp only [Except.ok.injEq] at h
      subst h
      refine ⟨_, rfl, fun out ha => ?_, fun hq => absurd hq hp⟩
      exact TrkState.Agrees.congr _ _ _ rfl rfl
        (HandlePlayNote_agrees self trkno trkchan v.state ev out ha)
    · unfold HandleEvent at h
      cases hd : HandleEvent.dispatch self trkno trkchan ev v with
      | error e => simp [hd, Except.map] at h
      | ok w =>
        simp only [hd, Except.map, Except.ok.injEq] at h
        subst h
        obtain ⟨hb, hq, msgs, hm, hk⟩ :=
          HandleEvent.dispatch_other self trkno trkchan ev v w hd hp hn
        refine ⟨msgs, hm, fun out ha => ?_, fun hq2 => absurd hq2 hp⟩
        exact TrkState.Agrees.frame v.state _ out msgs hb hq hk ha

/-- The agreement through a list of events. -/
theorem HandleEvents_agrees (self : DSESequenceToMidi) (trkno trkchan : Nat)
    (evs : List TrkEvent) :
    ∀ w w', HandleEvents self trkno trkchan evs w = .ok w' →
      w.state.Agrees w.outtrack → w'.state.Agrees w'.outtrack := by
  induction evs with
  | nil =>
    intro w w' h ha
    simp only [HandleEvents, Except.ok.injEq] at h
    subst h
    exact ha
  | cons a rest ih =>
    intro w w' h ha
    rw [HandleEvents] at h
    cases hv : HandleEvent self trkno trkchan a w with
    | error e => simp [hv] at h
    | ok w1 =>
      simp only [hv] at h
      obtain ⟨msgs, hm, hk, _⟩ := HandleEvent_agrees self trkno trkchan a w w1 hv
      refine ih w1 w' h ?_
      rw [hm]
      exact hk _ ha

/-- The messages of an output track after more messages were put on it. -/
theorem MIDIMultiTrack.GetTrack_Put (m : MIDIMultiTrack) (trk : Nat)
    (msgs : List MIDITimedBigMessage) :
    (m.Put trk msgs).GetTrack trk = m.GetTrack trk ++ msgs := by
  unfold MIDIMultiTrack.Put MIDIMultiTrack.GetTrack
  simp only [List.filter_append, List.map_append]
  congr 1
  induction msgs with
  | nil => rfl
  | cons a l ih => simp [List.filter_cons, ih]

/-- The agreement through `ExportATrack`, between the live state of the track and the messages
of the output track it is exported to. -/
theorem ExportATrack_agrees (self : DSESequenceToMidi) (intrk outtrk evno : Nat)
    (s s' : ConvState) (h : ExportATrack self intrk outtrk evno s = .ok s')
    (hlen : intrk < s.m_trkstates.length)
    (ha : (s.m_trkstates.getD intrk default).Agrees (s.m_midiout.GetTrack outtrk)) :
    (s'.m_trkstates.getD intrk default).Agrees (s'.m_midiout.GetTrack outtrk) := by
  have hstep : ∀ ev evno (a b : ConvState),
      ExportATrack.step self intrk outtrk evno ev a = .ok b →
      intrk < a.m_trkstates.length →
      intrk < b.m_trkstates.length ∧
      ((a.m_trkstates.getD intrk default).Agrees (a.m_midiout.GetTrack outtrk) →
        (b.m_trkstates.getD intrk default).Agrees (b.m_midiout.GetTrack outtrk)) := by
    intro ev evno a b hs hla
    unfold ExportATrack.step at hs
    cases hv : HandleEvent self intrk (self.m_seq.track intrk).chan ev (a.load intrk) with
    | error e => simp [hv, Except.map] at hs
    | ok v =>
      simp only [hv, Except.map, Except.ok.injEq] at hs
      subst hs
      obtain ⟨msgs, hm, hk, _⟩ := HandleEvent_agrees self intrk _ ev _ v hv
      have hv2 : v.outtrack = msgs := by
        rw [hm]
        rfl
      refine ⟨?_, fun hq => ?_⟩
      · show intrk < (a.m_trkstates.set intrk v.state).length
        rw [List.length_set]
        exact hla
      · show ((a.m_trkstates.set intrk v.state).getD intrk default).Agrees
          ((a.m_midiout.Put outtrk v.outtrack).GetTrack outtrk)
        rw [getD_set_self _ _ _ hla, MIDIMultiTrack.GetTrack_Put, hv2]
        exact hk _ hq
  have key := ExportATrack_rel
    (fun a b : ConvState => intrk < a.m_trkstates.length →
      intrk < b.m_trkstates.length ∧
      ((a.m_trkstates.getD intrk default).Agrees (a.m_midiout.GetTrack outtrk) →
        (b.m_trkstates.getD intrk default).Agrees (b.m_midiout.GetTrack outtrk)))
    (fun a hla => ⟨hla, fun hq => hq⟩)
    (fun a b c hab hbc hla =>
      ⟨(hbc (hab hla).1).1, fun hq => (hbc (hab hla).1).2 ((hab hla).2 hq)⟩)
    self intrk outtrk evno (fun ev _ evno a b hs => hstep ev evno a b hs)
    (fun a e _ hla => ⟨hla, fun hq => hq⟩) s s' h
  exact (key hlen).2 ha

/-- C38: the agreement of the messages put with the state of the track. The effective bank and
program of a track are its override values when an override is latched and its current bank and
program otherwise. Whatever was put before, a call of `HandleEvent` that succeeds keeps the
agreement: afterwards the last bank select, if any was put, carries the effective bank, and
the last program change, if any, the effective program, as bytes. A set-preset event handled
while an override is latched puts nothing. The agreement holds before the first message, and so
after every list of events and, for the messages of the output track, after `ExportATrack`. -/
theorem HandleEvent_keeps_agreement (self : DSESequenceToMidi) (trkno trkchan : Nat)
    (ev : TrkEvent) (v v' : EventVars) (h : HandleEvent self trkno trkchan ev v = .ok v') :
    (∃ msgs, v'.outtrack = v.outtrack ++ msgs ∧
      (∀ out, v.state.Agrees out → v'.state.Agrees (out ++ msgs)) ∧
      (ev.evcode = SetPreset → v.state.presetoverriden = true → msgs = [])) ∧
    (∀ st : TrkState, st.Agrees []) ∧
    (∀ evs w w', HandleEvents self trkno trkchan evs w = .ok w' →
      w.state.Agrees w.outtrack → w'.state.Agrees w'.outtrack) ∧
    (∀ outtrk evno s s', ExportATrack self trkno outtrk evno s = .ok s' →
      trkno < s.m_trkstates.length →
      (s.m_trkstates.getD trkno default).Agrees (s.m_midiout.GetTrack outtrk) →
      (s'.m_trkstates.getD trkno default).Agrees (s'.m_midiout.GetTrack outtrk)) :=
  ⟨HandleEvent_agrees self trkno trkchan ev v v' h,
    fun _ => ⟨fun _ hb => Option.noConfusion hb, fun _ hp => Option.noConfusion hp⟩,
    fun evs => HandleEvents_agrees self trkno trkchan evs,
    fun outtrk evno s s' hs hl ha => ExportATrack_agrees self trkno outtrk evno s s' hs hl ha⟩

/-- C38 for a set-preset event followed by a note that the table remaps to preset 9 in bank 2:
after both events the last bank select and the last program change carry the override. -/
theorem HandleEvent_keeps_agreement_witness :
    (∃ v', HandleEvent (converter (oneTrack []) (some tableOverride) .MultiTrack 0) 0 0
        ⟨SetPreset, [1]⟩ varsInit = .ok v') ∧
    varsInit.state.Agrees varsInit.outtrack ∧
    ∃ w', HandleEvents (converter (oneTrack []) (some tableOverride) .MultiTrack 0) 0 0
        [⟨SetPreset, [1]⟩, ⟨100, [0x55, 5]⟩] varsInit = .ok w' ∧
      w'.state.Agrees w'.outtrack ∧
      lastBankSelect w'.outtrack = some 2 ∧ lastProgramChange w'.outtrack = some 9 :=
  ⟨⟨_, rfl⟩, by decide, _, rfl,
    (HandleEvent_keeps_agreement (converter (oneTrack []) (some tableOverride) .MultiTrack 0)
      0 0 ⟨SetPreset, [1]⟩ varsInit _ rfl).2.2.1 [⟨SetPreset, [1]⟩, ⟨100, [0x55, 5]⟩]
      varsInit _ rfl (by decide),
    by decide, by decide⟩


/-! ## The channel and the output track of the messages -/

/-- The messages with a channel are the channel messages. -/
theorem MIDITimedBigMessage.isSome_channel (m : MIDITimedBigMessage) :
    m.channel.isSome = m.IsChannel := by
  obtain ⟨t, body⟩ := m
  cases body <;> rfl

/-- A message with a channel is not the marker that starts the loop. -/
theorem MIDITimedBigMessage.channel_not_LoopStart (m : MIDITimedBigMessage) (c : Nat)
    (h : m.channel = some c) : m.IsLoopStart = false := by
  obtain ⟨t, body⟩ := m
  cases body <;> simp_all [MIDITimedBigMessage.channel, MIDITimedBigMessage.IsLoopStart]

/-- The text of an event marker is not the text that starts the loop. -/
theorem evmark_ne_LoopStart (ev : TrkEvent) : evmark ev ≠ TXT_LoopStart := by
  intro h
  have h1 := evmark_head ev
  rw [h] at h1
  revert h1
  decide

/-- The messages of `HandleSetPreset` carry the channel of the track. -/
theorem HandleSetPreset_channels (self : DSESequenceToMidi) (ev : TrkEvent) (trkno trkchan : Nat)
    (state : TrkState) (mess_time : Nat) :
    ∀ m ∈ (HandleSetPreset self ev trkno trkchan state mess_time).2,
      m.channel = some trkchan ∨ m.channel = some (self.m_seq.track trkno).chan := by
  unfold HandleSetPreset
  simp only []
  split_ifs <;> simp [MIDITimedBigMessage.channel]

/-- The messages of the override statement carry the channel of the track. -/
theorem HandlePlayNote.override_channels (chan trkchan : Nat) (state : TrkState)
    (remapdata : NoteRemapData) :
    ∀ m ∈ (HandlePlayNote.override chan trkchan state remapdata).2,
      m.channel = some trkchan ∨ m.channel = some chan := by
  have hb : ∀ st, ∀ m ∈ (HandlePlayNote.overrideBank chan st remapdata).2,
      m.channel = some trkchan ∨ m.channel = some chan := by
    intro st
    unfold HandlePlayNote.overrideBank
    split_ifs <;> simp [MIDITimedBigMessage.channel]
  have hp : ∀ st, ∀ m ∈ (HandlePlayNote.overridePreset trkchan st remapdata).2,
      m.channel = some trkchan ∨ m.channel = some chan := by
    intro st
    unfold HandlePlayNote.overridePreset
    split_ifs <;> simp [MIDITimedBigMessage.channel]
  unfold HandlePlayNote.override
  split_ifs
  · simp [MIDITimedBigMessage.channel]
  · intro m hm
    rcases List.mem_append.mp hm with h | h
    · exact hb _ m h
    · exact hp _ m h
  · simp

/-- The messages of `HandlePlayNote` carry the channel of the track. -/
theorem HandlePlayNote_channels (self : DSESequenceToMidi) (trkno trkchan : Nat)
    (state : TrkState) (ev : TrkEvent) :
    ∀ m ∈ (HandlePlayNote self trkno trkchan state ev).2,
      m.channel = some trkchan ∨ m.channel = some (self.m_seq.track trkno).chan := by
  have hc : ∀ st n, ∀ m ∈ (HandlePlayNote.convert self trkno trkchan st n).out,
      m.channel = some trkchan ∨ m.channel = some (self.m_seq.track trkno).chan := by
    intro st n
    unfold HandlePlayNote.convert
    cases self.m_convtable with
    | none => simp
    | some convtable => exact HandlePlayNote.override_channels _ trkchan st _
  intro m hm
  unfold HandlePlayNote at hm
  simp only [] at hm
  rcases List.mem_append.mp hm with h | h
  · exact hc _ _ m h
  · simp only [List.mem_cons, List.mem_singleton, List.not_mem_nil, or_false] at h
    rcases h with h | h
    · rw [h]
      split_ifs <;> exact Or.inl rfl
    · rw [h]
      exact Or.inl rfl

/-- The messages that the `switch` of `HandleEvent` puts: those with a channel carry the
channel of the track, and only a loop-point event puts the marker that starts the loop. -/
theorem HandleEvent.switch_routing (self : DSESequenceToMidi) (trkno trkchan : Nat)
    (ev : TrkEvent) (v v' : EventVars) (h : HandleEvent.switch self trkno trkchan ev v = .ok v') :
    ∃ msgs, v'.outtrack = v.outtrack ++ msgs ∧
      ∀ m ∈ msgs, (m.channel = some trkchan ∨ m.channel = some (self.m_seq.track trkno).chan) ∨
        (m.channel = none ∧ (ev.evcode ≠ LoopPointSet → m.IsLoopStart = false)) := by
  unfold HandleEvent.switch at h
  simp only [] at h
  split_ifs at h with h4 h5 h6 h7 h8 h9 h10 h11 h12
  · cases hp : ConvertTempoToMicrosecPerQuarterNote ev.front with
    | error e => simp [hp, Except.map] at h
    | ok st =>
      simp only [hp, Except.map, Except.ok.injEq] at h
      subst h
      exact ⟨_, rfl, by
        simp [MIDITimedBigMessage.channel, MIDITimedBigMessage.IsLoopStart]⟩
  · simp only [Except.ok.injEq] at h
    subst h
    exact ⟨[], by simp, by simp⟩
  · simp only [Except.ok.injEq] at h
    subst h
    exact ⟨_, rfl, by simp [MIDITimedBigMessage.channel]⟩
  · simp only [Except.ok.injEq] at h
    subst h
    exact ⟨_, rfl, by simp [MIDITimedBigMessage.channel]⟩
  · simp only [Except.ok.injEq] at h
    subst h
    exact ⟨_, rfl, by simp [MIDITimedBigMessage.channel]⟩
  · simp only [Except.ok.injEq] at h
    subst h
    exact ⟨_, rfl, fun m hm => Or.inl (HandleSetPreset_channels self ev trkno trkchan _ _ m hm)⟩
  · simp only [Except.ok.injEq] at h
    subst h
    exact ⟨_, rfl, by simp [MIDITimedBigMessage.channel]⟩
  · simp only [Except.ok.injEq] at h
    subst h
    unfold HandleEvent.loopPointSet
    by_cases hc : self.m_midifmt = eMIDIFormat.SingleTrack ∧ v.m_bLoopBegSet
    · rw [if_pos hc]
      exact ⟨[], by simp, by simp⟩
    · rw [if_neg hc]
      exact ⟨_, rfl, by simp [PutTextEvent, MIDITimedBigMessage.channel, h11]⟩
  · simp only [Except.ok.injEq] at h
    subst h
    refine ⟨_, rfl, ?_⟩
    intro m hm
    simp only [List.mem_singleton] at hm
    subst hm
    refine Or.inr ⟨rfl, fun _ => ?_⟩
    have hne := evmark_ne_LoopStart ev
    simp [PutTextEvent, MIDITimedBigMessage.IsLoopStart, hne]
  · simp only [Except.ok.injEq] at h
    subst h
    exact ⟨[], by simp, by simp⟩

/-- The messages that `HandleEvent` puts: those with a channel carry the channel of the track,
and only a loop-point event puts the marker that starts the loop. -/
theorem HandleEvent_routing (self : DSESequenceToMidi) (trkno trkchan : Nat) (ev : TrkEvent)
    (v v' : EventVars) (h : HandleEvent self trkno trkchan ev v = .ok v') :
    ∃ msgs, v'.outtrack = v.outtrack ++ msgs ∧
      ∀ m ∈ msgs, (m.channel = some trkchan ∨ m.channel = some (self.m_seq.track trkno).chan) ∨
        (m.channel = none ∧ (ev.evcode ≠ LoopPointSet → m.IsLoopStart = false)) := by
  unfold HandleEvent at h
  cases hd : HandleEvent.dispatch self trkno trkchan ev v with
  | error e => simp [hd, Except.map] at h
  | ok w =>
    simp only [hd, Except.map, Except.ok.injEq] at h
    subst h
    show ∃ msgs, w.outtrack = v.outtrack ++ msgs ∧ _
    unfold HandleEvent.dispatch at hd
    simp only [] at hd
    by_cases c1 : RepeatLastPause ≤ ev.evcode ∧ ev.evcode ≤ PauseUntilRel
    · rw [if_pos c1] at hd
      cases hq : HandlePauses ev.evcode ev v.state with
      | error e => simp [hq, Except.map] at hd
      | ok st =>
        simp only [hq, Except.map, Except.ok.injEq] at hd
        subst hd
        exact ⟨[], by simp, by simp⟩
    · rw [if_neg c1] at hd
      by_cases c2 : Delay_HN ≤ ev.evcode ∧ ev.evcode ≤ Delay_64N
      · rw [if_pos c2] at hd
        cases hq : HandleFixedPauses self ev v.state with
        | error e => simp [hq, Except.map] at hd
        | ok st =>
          simp only [hq, Except.map, Except.ok.injEq] at hd
          subst hd
          exact ⟨[], by simp, by simp⟩
      · rw [if_neg c2] at hd
        by_cases c3 : NoteOnBeg ≤ ev.evcode ∧ ev.evcode ≤ NoteOnEnd
        · rw [if_pos c3] at hd
          simp only [Except.ok.injEq] at hd
          subst hd
          exact ⟨_, rfl, fun m hm => Or.inl (HandlePlayNote_channels self trkno trkchan _ ev m hm)⟩
        · rw [if_neg c3] at hd
          exact HandleEvent.switch_routing self trkno trkchan ev v w hd

/-- The messages that one call of `HandleEvent` from `ExportATrack` adds to the output: they go
to the output track `outtrk`, those with a channel carry the channel of the track `intrk`, and
only a loop-point event puts the marker that starts the loop. -/
theorem ExportATrack.step_routing (self : DSESequenceToMidi) (intrk outtrk evno : Nat)
    (ev : TrkEvent) (s s' : ConvState)
    (h : ExportATrack.step self intrk outtrk evno ev s = .ok s') :
    ∃ msgs : List MIDITimedBigMessage,
      s'.m_midiout.events = s.m_midiout.events ++ msgs.map (fun m => (outtrk, m)) ∧
      ∀ m ∈ msgs, (m.channel = none ∨ m.channel = some (self.m_seq.track intrk).chan) ∧
        (ev.evcode ≠ LoopPointSet → m.IsLoopStart = false) := by
  unfold ExportATrack.step at h
  cases hv : HandleEvent self intrk (self.m_seq.track intrk).chan ev (s.load intrk) with
  | error e => simp [hv, Except.map] at h
  | ok v =>
    simp only [hv, Except.map, Except.ok.injEq] at h
    subst h
    obtain ⟨msgs, hm, hk⟩ := HandleEvent_routing self intrk _ ev _ v hv
    refine ⟨msgs, ?_, ?_⟩
    · have hv2 : v.outtrack = msgs := by
        rw [hm]
        rfl
      show (s.m_midiout.Put outtrk v.outtrack).events = _
      rw [hv2]
      rfl
    · intro m hmem
      rcases hk m hmem with (hc | hc) | ⟨hn, hl⟩
      · exact ⟨Or.inr hc, fun _ => MIDITimedBigMessage.channel_not_LoopStart m _ hc⟩
      · exact ⟨Or.inr hc, fun _ => MIDITimedBigMessage.channel_not_LoopStart m _ hc⟩
      · exact ⟨Or.inl hn, hl⟩

/-- The messages of one pass of `ExportATrack` over the track `intrk` go to the output track
`outtrk`, and those with a channel carry the channel of the track `intrk`. -/
theorem ExportATrack_routing (self : DSESequenceToMidi) (intrk outtrk evno : Nat)
    (s s' : ConvState) (h : ExportATrack self intrk outtrk evno s = .ok s') :
    ∃ msgs : List MIDITimedBigMessage,
      s'.m_midiout.events = s.m_midiout.events ++ msgs.map (fun m => (outtrk, m)) ∧
      ∀ m ∈ msgs, m.channel = none ∨ m.channel = some (self.m_seq.track intrk).chan := by
  revert s s'
  apply ExportATrack_rel
    (fun a b : ConvState => ∃ msgs : List MIDITimedBigMessage,
      b.m_midiout.events = a.m_midiout.events ++ msgs.map (fun m => (outtrk, m)) ∧
      ∀ m ∈ msgs, m.channel = none ∨ m.channel = some (self.m_seq.track intrk).chan)
    (fun a => ⟨[], by simp, by simp⟩)
  · rintro a b c ⟨l1, h1, k1⟩ ⟨l2, h2, k2⟩
    refine ⟨l1 ++ l2, by rw [h2, h1, List.map_append, List.append_assoc], ?_⟩
    intro x hx
    rcases List.mem_append.mp hx with hx | hx
    · exact k1 x hx
    · exact k2 x hx
  · intro ev _ evno a b hs
    obtain ⟨msgs, hm, hk⟩ := ExportATrack.step_routing self intrk outtrk evno ev a b hs
    exact ⟨msgs, hm, fun m hmem => (hk m hmem).1⟩
  · intro a t _
    exact ⟨[], by simp, by simp⟩

/-- A reflexive and transitive relation that every step of a multi-track export preserves, the
passes being those of a track to the output track of the same number, holds between the state
after `PrepareMidiFile` and the final state. -/
theorem ExportAsMultiTrack_rel_own (R : ConvState → ConvState → Prop) (hrefl : ∀ s, R s s)
    (htrans : ∀ a b c, R a b → R b c → R a c) (self : DSESequenceToMidi)
    (hexp : ∀ t evno s s', ExportATrack self t t evno s = .ok s' → R s s')
    (hput : ∀ (s : ConvState) trk ticks,
      R s { s with
        m_midiout := s.m_midiout.Put trk [PutTextEvent ticks .META_MARKER_TEXT TXT_LoopEnd] })
    (hrestore : ∀ trkno s, R s (RestoreTrackState trkno s))
    (s0 s : ConvState) (h : ExportAsMultiTrack self s0 = .ok s) :
    R (PrepareMidiFile self { s0 with
        m_trkstates := resize s0.m_trkstates self.m_seq.getNbTracks
        m_beflooptrkstates := resize s0.m_beflooptrkstates self.m_seq.getNbTracks
        m_songlsttick := 0 }) s := by
  have hloop : ∀ t sa sb, LoopATrack self id t sa = .ok sb → R sa sb := by
    intro t sa sb hb
    exact htrans _ _ _ (hrestore t sa) (hexp t _ _ sb hb)
  unfold ExportAsMultiTrack at h
  simp only [] at h
  split at h
  · exact Except.noConfusion h
  · rename_i s1 hs1
    have h1 := forTracks_rel R hrefl htrans _ _
      (by
        intro t _ sa sb hb
        cases he : ExportATrack self t t 0 sa with
        | error e => simp [he, Except.map] at hb
        | ok sc =>
          simp only [he, Except.map, Except.ok.injEq] at hb
          subst hb
          refine htrans _ _ _ (hexp t 0 sa sc he) ?_
          split_ifs
          · exact hput sc _ _
          · exact hrefl sc) _ _ hs1
    refine htrans _ _ _ h1 ?_
    split_ifs at h
    · exact forLoops_rel R hrefl htrans _
        (forTracks_rel R hrefl htrans _ _ (fun t _ sa sb hb => hloop t sa sb hb)) _ _ _ h
    · simp only [Except.ok.injEq] at h
      subst h
      exact hrefl s1

/-- A reflexive and transitive relation that every step of a single-track export preserves, the
passes being those of a track of the sequence to the output track 0, holds between the state
after `PrepareMidiFile` and the final state. -/
theorem ExportAsSingleTrack_rel_zero (R : ConvState → ConvState → Prop) (hrefl : ∀ s, R s s)
    (htrans : ∀ a b c, R a b → R b c → R a c) (self : DSESequenceToMidi)
    (hexp : ∀ t, t < self.m_seq.getNbTracks → ∀ evno s s',
      ExportATrack self t 0 evno s = .ok s' → R s s')
    (hput : ∀ (s : ConvState) ticks,
      R s { s with
        m_midiout := s.m_midiout.Put 0 [PutTextEvent ticks .META_MARKER_TEXT TXT_LoopEnd] })
    (hrestore : ∀ trkno s, R s (RestoreTrackState trkno s))
    (htick : ∀ (s : ConvState) ticks, R s { s with m_songlsttick := ticks })
    (s0 s : ConvState) (h : ExportAsSingleTrack self s0 = .ok s) :
    R (PrepareMidiFile self { s0 with
        m_trkstates := resize s0.m_trkstates self.m_seq.getNbTracks
        m_beflooptrkstates := resize s0.m_beflooptrkstates self.m_seq.getNbTracks
        m_songlsttick := 0 }) s := by
  have hloop : ∀ t, t < self.m_seq.getNbTracks → ∀ sa sb,
      LoopATrack self (fun _ => 0) t sa = .ok sb → R sa sb := by
    intro t ht sa sb hb
    exact htrans _ _ _ (hrestore t sa) (hexp t ht _ _ sb hb)
  unfold ExportAsSingleTrack at h
  simp only [] at h
  split at h
  · exact Except.noConfusion h
  · rename_i s1 hs1
    have h1 := forTracks_rel R hrefl htrans _ _
      (by
        intro t ht sa sb hb
        cases he : ExportATrack self t 0 0 sa with
        | error e => simp [he, Except.map] at hb
        | ok sc =>
          simp only [he, Except.map, Except.ok.injEq] at hb
          subst hb
          refine htrans _ _ _ (hexp t (List.mem_range.mp ht) 0 sa sc he) ?_
          split_ifs
          · exact htick sc _
          · exact hrefl sc) _ _ hs1
    refine htrans _ _ _ h1 ?_
    split_ifs at h
    · refine htrans _ _ _ (hput s1 s1.m_songlsttick) ?_
      exact forLoops_rel R hrefl htrans _
        (forTracks_rel R hrefl htrans _ _
          (fun t ht sa sb hb => hloop t (List.mem_range.mp ht) sa sb hb)) _ _ _ h
    · simp only [Except.ok.injEq] at h
      subst h
      exact hrefl s1

/-- The messages of `PrepareMidiFile` are put on output track 0 and none has a channel. -/
theorem PrepareMidiFile_routing (self : DSESequenceToMidi) :
    ∀ x ∈ (PrepareMidiFile self
        { ({} : ConvState) with
          m_trkstates := resize [] self.m_seq.getNbTracks
          m_beflooptrkstates := resize [] self.m_seq.getNbTracks
          m_songlsttick := 0 }).m_midiout.events, x.1 = 0 ∧ x.2.channel = none := by
  unfold PrepareMidiFile
  cases self.m_midimode <;>
    simp +decide [MIDIMultiTrack.Put, PutTextEvent, MIDITimedBigMessage.channel]

/-- Messages added to the output, each of which has the property `P`. -/
theorem added_trans (P : Nat × MIDITimedBigMessage → Prop) (a b c : ConvState)
    (h1 : ∃ l, b.m_midiout.events = a.m_midiout.events ++ l ∧ ∀ x ∈ l, P x)
    (h2 : ∃ l, c.m_midiout.events = b.m_midiout.events ++ l ∧ ∀ x ∈ l, P x) :
    ∃ l, c.m_midiout.events = a.m_midiout.events ++ l ∧ ∀ x ∈ l, P x := by
  obtain ⟨l1, e1, k1⟩ := h1
  obtain ⟨l2, e2, k2⟩ := h2
  refine ⟨l1 ++ l2, by rw [e2, e1, List.append_assoc], ?_⟩
  intro x hx
  rcases List.mem_append.mp hx with hx | hx
  · exact k1 x hx
  · exact k2 x hx

/-- C36: message routing. A pass of `ExportATrack` over the track `intrk` to the output track
`outtrk` puts every message on `outtrk`, and every channel message it puts (`channel` is the
channel of a note-on, note-off, control-change, program-change or pitch-bend message) carries
the channel of the track `intrk`. The multi-track export makes its passes, first and replayed,
with `outtrk = intrk`: in its output every channel message on output track `t` carries the
channel of the track `t`. The single-track export makes them with `outtrk = 0`: every message
of its output is on output track 0 and every channel message carries the channel of a track of
the sequence. -/
theorem Export_message_routing (self : DSESequenceToMidi) :
    (∀ intrk outtrk evno s s', ExportATrack self intrk outtrk evno s = .ok s' →
      ∃ msgs : List MIDITimedBigMessage,
        s'.m_midiout.events = s.m_midiout.events ++ msgs.map (fun m => (outtrk, m)) ∧
        ∀ m ∈ msgs, m.channel = none ∨ m.channel = some (self.m_seq.track intrk).chan) ∧
    (∀ m : MIDITimedBigMessage, m.channel.isSome = m.IsChannel) ∧
    (∀ trkno s, LoopATrack self id trkno s = ExportATrack self trkno trkno
      ((RestoreTrackState trkno s).m_trkstates.getD trkno default).looppoint_
      (RestoreTrackState trkno s)) ∧
    (∀ trkno s, LoopATrack self (fun _ => 0) trkno s = ExportATrack self trkno 0
      ((RestoreTrackState trkno s).m_trkstates.getD trkno default).looppoint_
      (RestoreTrackState trkno s)) ∧
    ∀ s, Export self = .ok s →
      (self.m_midifmt = .MultiTrack → ∀ x ∈ s.m_midiout.events,
        x.2.channel = none ∨ x.2.channel = some (self.m_seq.track x.1).chan) ∧
      (self.m_midifmt = .SingleTrack → ∀ x ∈ s.m_midiout.events,
        x.1 = 0 ∧ (x.2.channel = none ∨
          ∃ t, t < self.m_seq.getNbTracks ∧ x.2.channel = some (self.m_seq.track t).chan)) := by
  refine ⟨ExportATrack_routing self, MIDITimedBigMessage.isSome_channel, fun _ _ => rfl,
    fun _ _ => rfl, ?_⟩
  intro s h
  have hprep := PrepareMidiFile_routing self
  refine ⟨fun hfmt => ?_, fun hfmt => ?_⟩
  · have hE : Export self = ExportAsMultiTrack self {} := by
      unfold Export
      rw [hfmt]
    rw [hE] at h
    obtain ⟨l, hl, hk⟩ := ExportAsMultiTrack_rel_own
      (fun a b : ConvState => ∃ l, b.m_midiout.events = a.m_midiout.events ++ l ∧
        ∀ x ∈ l, x.2.channel = none ∨ x.2.channel = some (self.m_seq.track x.1).chan)
      (fun a => ⟨[], by simp, by simp⟩) (added_trans _) self
      (by
        intro t evno a b hb
        obtain ⟨msgs, hm, hc⟩ := ExportATrack_routing self t t evno a b hb
        refine ⟨_, hm, ?_⟩
        intro x hx
        obtain ⟨m, hmem, rfl⟩ := List.mem_map.mp hx
        exact hc m hmem)
      (fun a trk ticks => ⟨_, rfl, by simp [PutTextEvent, MIDITimedBigMessage.channel]⟩)
      (fun trkno a => ⟨[], by simp [RestoreTrackState], by simp⟩) {} s h
    intro x hx
    rw [hl] at hx
    rcases List.mem_append.mp hx with hx | hx
    · exact Or.inl (hprep x hx).2
    · exact hk x hx
  · have hE : Export self = ExportAsSingleTrack self {} := by
      unfold Export
      rw [hfmt]
    rw [hE] at h
    obtain ⟨l, hl, hk⟩ := ExportAsSingleTrack_rel_zero
      (fun a b : ConvState => ∃ l, b.m_midiout.events = a.m_midiout.events ++ l ∧
        ∀ x ∈ l, x.1 = 0 ∧ (x.2.channel = none ∨
          ∃ t, t < self.m_seq.getNbTracks ∧ x.2.channel = some (self.m_seq.track t).chan))
      (fun a => ⟨[], by simp, by simp⟩) (added_trans _) self
      (by
        intro t ht evno a b hb
        obtain ⟨msgs, hm, hc⟩ := ExportATrack_routing self t 0 evno a b hb
        refine ⟨_, hm, ?_⟩
        intro x hx
        obtain ⟨m, hmem, rfl⟩ := List.mem_map.mp hx
        refine ⟨rfl, ?_⟩
        rcases hc m hmem with hn | hn
        · exact Or.inl hn
        · exact Or.inr ⟨t, ht, hn⟩)
      (fun a ticks => ⟨_, rfl, by simp [PutTextEvent, MIDITimedBigMessage.channel]⟩)
      (fun trkno a => ⟨[], by simp [RestoreTrackState], by simp⟩)
      (fun a ticks => ⟨[], by simp, by simp⟩) {} s h
    intro x hx
    rw [hl] at hx
    rcases List.mem_append.mp hx with hx | hx
    · exact ⟨(hprep x hx).1, Or.inl (hprep x hx).2⟩
    · exact hk x hx

/-- C36 for the tempo track on channel 0 and the track on channel 1 that marks its loop point
and plays a note, with one repetition: in the multi-track layout every channel message on
output track `t` carries the channel of the track `t`, and in the single-track layout every
message is on output track 0. -/
theorem Export_message_routing_witness :
    (∃ s, Export (converter seqLoopNote none .MultiTrack 1) = .ok s ∧
      ∀ x ∈ s.m_midiout.events, x.2.channel = none ∨
        x.2.channel = some ((converter seqLoopNote none .MultiTrack 1).m_seq.track x.1).chan) ∧
    ∃ s, Export (converter seqLoopNote none .SingleTrack 1) = .ok s ∧
      ∀ x ∈ s.m_midiout.events, x.1 = 0 :=
  ⟨⟨_, rfl, ((Export_message_routing (converter seqLoopNote none .MultiTrack 1)).2.2.2.2
      _ rfl).1 rfl⟩,
    _, rfl, fun x hx =>
      (((Export_message_routing (converter seqLoopNote none .SingleTrack 1)).2.2.2.2
        _ rfl).2 rfl x hx).1⟩

/-! ## Later loop points in the single-track layout -/

/-- A call of `HandleEvent` from `ExportATrack` in the single-track layout keeps the two loop
flags equal and the output with one marker that starts the loop when they are set, none when
they are not. -/
theorem ExportATrack.step_OneLoopStart (self : DSESequenceToMidi)
    (hfmt : self.m_midifmt = .SingleTrack) (intrk outtrk evno : Nat) (ev : TrkEvent)
    (s s' : ConvState) (h : ExportATrack.step self intrk outtrk evno ev s = .ok s')
    (hi : s.OneLoopStart) : s'.OneLoopStart := by
  obtain ⟨hi1, hi2⟩ := hi
  by_cases hp : ev.evcode = LoopPointSet
  · by_cases hset : s.m_bLoopBegSet = true
    · unfold ExportATrack.step at h
      rw [HandleEvent_LoopPointSet_skipped self intrk _ ev (s.load intrk) hp ⟨hfmt, hset⟩] at h
      simp only [Except.map, Except.ok.injEq] at h
      subst h
      refine ⟨hi1, ?_⟩
      show ((s.m_midiout.events ++ List.map (fun m => (outtrk, m)) []).filter
        fun x : Nat × MIDITimedBigMessage => x.2.IsLoopStart).length =
          if s.m_bLoopBegSet then 1 else 0
      rw [List.map_nil, List.append_nil]
      exact hi2
    · unfold ExportATrack.step at h
      rw [HandleEvent_LoopPointSet self intrk _ ev (s.load intrk) hp (fun hc => hset hc.2)] at h
      simp only [Except.map, Except.ok.injEq] at h
      subst h
      refine ⟨?_, ?_⟩
      · show true = if self.m_midifmt = eMIDIFormat.SingleTrack then true else s.m_bLoopBegSet
        rw [if_pos hfmt]
      · show ((s.m_midiout.events ++ List.map (fun m => (outtrk, m))
            ([] ++ [PutTextEvent (s.load intrk).state.ticks_ .META_MARKER_TEXT TXT_LoopStart,
              ⟨(s.load intrk).state.ticks_, .MetaType .META_TRACK_LOOP⟩])).filter
          fun x : Nat × MIDITimedBigMessage => x.2.IsLoopStart).length =
          if (if self.m_midifmt = eMIDIFormat.SingleTrack then true else s.m_bLoopBegSet) = true
            then 1 else 0
        rw [if_pos hfmt, if_pos rfl, List.filter_append, List.length_append, hi2,
          if_neg hset]
        simp [PutTextEvent, MIDITimedBigMessage.IsLoopStart]
  · obtain ⟨msgs, hm, hk⟩ := ExportATrack.step_routing self intrk outtrk evno ev s s' h
    unfold ExportATrack.step at h
    cases hv : HandleEvent self intrk (self.m_seq.track intrk).chan ev (s.load intrk) with
    | error e => simp [hv, Except.map] at h
    | ok v =>
      simp only [hv, Except.map, Except.ok.injEq] at h
      subst h
      obtain ⟨_, _, h3, _⟩ := HandleEvent_frame self intrk _ ev _ v hv
      obtain ⟨_, _, h7, h8⟩ := h3 hp
      have hnone : ((msgs.map fun m => (outtrk, m)).filter fun x => x.2.IsLoopStart) = [] := by
        refine List.filter_eq_nil_iff.mpr ?_
        intro x hx
        obtain ⟨m, hmem, rfl⟩ := List.mem_map.mp hx
        simp [(hk m hmem).2 hp]
      refine ⟨?_, ?_⟩
      · show v.m_bshouldloop = v.m_bLoopBegSet
        rw [h7, h8]
        exact hi1
      · rw [hm, List.filter_append, hnone, List.append_nil]
        show _ = if v.m_bLoopBegSet = true then 1 else 0
        rw [h8]
        exact hi2

/-- The same for `ExportATrack`. -/
theorem ExportATrack_OneLoopStart (self : DSESequenceToMidi)
    (hfmt : self.m_midifmt = .SingleTrack) (intrk outtrk evno : Nat) (s s' : ConvState)
    (h : ExportATrack self intrk outtrk evno s = .ok s') (hi : s.OneLoopStart) :
    s'.OneLoopStart := by
  have key := ExportATrack_rel (fun a b : ConvState => a.OneLoopStart → b.OneLoopStart)
    (fun _ ha => ha) (fun _ _ _ h1 h2 ha => h2 (h1 ha)) self intrk outtrk evno
    (fun ev _ evno a b hs => ExportATrack.step_OneLoopStart self hfmt intrk outtrk evno ev a b hs)
    (fun _ _ _ ha => ha) s s' h
  exact key hi

/-- No pass of `ExportATrack` clears the loop flag. -/
theorem ExportATrack_shouldloop (self : DSESequenceToMidi) (intrk outtrk evno : Nat)
    (s s' : ConvState) (h : ExportATrack self intrk outtrk evno s = .ok s')
    (hs : s.m_bshouldloop = true) : s'.m_bshouldloop = true := by
  have key := ExportATrack_rel
    (fun a b : ConvState => a.m_bshouldloop = true → b.m_bshouldloop = true)
    (fun _ ha => ha) (fun _ _ _ h1 h2 ha => h2 (h1 ha)) self intrk outtrk evno
    (by
      intro ev _ evno a b hb ha
      unfold ExportATrack.step at hb
      cases hv : HandleEvent self intrk (self.m_seq.track intrk).chan ev (a.load intrk) with
      | error e => simp [hv, Except.map] at hb
      | ok v =>
        simp only [hv, Except.map, Except.ok.injEq] at hb
        subst hb
        exact HandleEvent_shouldloop self intrk _ ev _ v hv ha)
    (fun _ _ _ ha => ha) s s' h
  exact key hs

/-- The repetitions of either export method do not clear the loop flag. -/
theorem forLoops_shouldloop (self : DSESequenceToMidi) (outtrk : Nat → Nat) (l : List Nat)
    (n : Nat) (s s' : ConvState)
    (h : forLoops (forTracks (LoopATrack self outtrk) l) n s = .ok s')
    (hs : s.m_bshouldloop = true) : s'.m_bshouldloop = true := by
  have key := forLoops_rel
    (fun a b : ConvState => a.m_bshouldloop = true → b.m_bshouldloop = true)
    (fun _ ha => ha) (fun _ _ _ h1 h2 ha => h2 (h1 ha)) _
    (forTracks_rel
      (fun a b : ConvState => a.m_bshouldloop = true → b.m_bshouldloop = true)
      (fun _ ha => ha) (fun _ _ _ h1 h2 ha => h2 (h1 ha)) (LoopATrack self outtrk) l
      (fun t _ a b hb ha =>
        ExportATrack_shouldloop self t _ _ (RestoreTrackState t a) b hb ha)) n s s' h
  exact key hs

/-- The state after `PrepareMidiFile` on a freshly constructed converter: the loop flags are
clear and no marker that starts the loop is in the output. -/
theorem PrepareMidiFile_OneLoopStart (self : DSESequenceToMidi) :
    (PrepareMidiFile self
        { ({} : ConvState) with
          m_trkstates := resize [] self.m_seq.getNbTracks
          m_beflooptrkstates := resize [] self.m_seq.getNbTracks
          m_songlsttick := 0 }).OneLoopStart := by
  unfold ConvState.OneLoopStart PrepareMidiFile
  cases self.m_midimode <;>
    simp +decide [MIDIMultiTrack.Put, PutTextEvent, MIDITimedBigMessage.IsLoopStart]

/-- The single-track export leaves the two loop flags equal and the output with one marker that
starts the loop when they are set, none when they are not. -/
theorem ExportAsSingleTrack_OneLoopStart (self : DSESequenceToMidi)
    (hfmt : self.m_midifmt = .SingleTrack) (s : ConvState)
    (h : ExportAsSingleTrack self {} = .ok s) : s.OneLoopStart := by
  have key := ExportAsSingleTrack_rel (fun a b : ConvState => a.OneLoopStart → b.OneLoopStart)
    (fun _ ha => ha) (fun _ _ _ h1 h2 ha => h2 (h1 ha)) self
    (fun intrk outtrk evno a b hb => ExportATrack_OneLoopStart self hfmt intrk outtrk evno a b hb)
    (by
      intro a trk ticks ha
      refine ⟨ha.1, ?_⟩
      show ((a.m_midiout.events ++
          [(trk, PutTextEvent ticks .META_MARKER_TEXT TXT_LoopEnd)]).filter
        fun x : Nat × MIDITimedBigMessage => x.2.IsLoopStart).length =
          if a.m_bLoopBegSet then 1 else 0
      rw [List.filter_append, List.length_append, ha.2]
      simp +decide [PutTextEvent, MIDITimedBigMessage.IsLoopStart])
    (fun _ _ ha => ha) (fun _ _ ha => ha) {} s h
  exact key (PrepareMidiFile_OneLoopStart self)

/-- C33: later loop points in the single-track layout. Once a loop-point event has been
honoured (`m_bLoopBegSet` is set, and no event clears it), `HandleEvent` on a loop-point event,
of any track and in any pass, puts no message and changes neither a saved state nor a loop
point nor a flag: it only increments the event counter. A loop-point event that is honoured
sets `m_bLoopBegSet`. The output of the export holds exactly one marker `LoopStart` when some
track has a loop-point event before its first end-of-track event, and none when no track has
one. -/
theorem Export_single_track_later_markers (self : DSESequenceToMidi)
    (hfmt : self.m_midifmt = .SingleTrack) :
    (∀ trkno trkchan ev v, ev.evcode = LoopPointSet → v.m_bLoopBegSet = true →
      HandleEvent self trkno trkchan ev v = .ok
        { v with state := { v.state with eventno_ := u32 (v.state.eventno_ + 1) } }) ∧
    (∀ trkno trkchan ev v v', HandleEvent self trkno trkchan ev v = .ok v' →
      (v.m_bLoopBegSet = true → v'.m_bLoopBegSet = true) ∧
      (ev.evcode = LoopPointSet → v'.m_bLoopBegSet = true)) ∧
    ∀ s, Export self = .ok s →
      ((∃ trk ∈ self.m_seq.tracks, ∃ e ∈ processed trk.events, e.evcode = LoopPointSet) →
        (s.m_midiout.events.filter fun x => x.2.IsLoopStart).length = 1) ∧
      ((∀ trk ∈ self.m_seq.tracks, ∀ e ∈ processed trk.events, e.evcode ≠ LoopPointSet) →
        (s.m_midiout.events.filter fun x => x.2.IsLoopStart).length = 0) := by
  refine ⟨?_, ?_, ?_⟩
  · intro trkno trkchan ev v hp hset
    exact HandleEvent_LoopPointSet_skipped self trkno trkchan ev v hp ⟨hfmt, hset⟩
  · intro trkno trkchan ev v v' h
    by_cases hp : ev.evcode = LoopPointSet
    · by_cases hset : self.m_midifmt = eMIDIFormat.SingleTrack ∧ v.m_bLoopBegSet = true
      · rw [HandleEvent_LoopPointSet_skipped self trkno trkchan ev v hp hset] at h
        simp only [Except.ok.injEq] at h
        subst h
        exact ⟨fun hb => hb, fun _ => hset.2⟩
      · rw [HandleEvent_LoopPointSet self trkno trkchan ev v hp hset] at h
        simp only [Except.ok.injEq] at h
        subst h
        exact ⟨fun _ => if_pos hfmt, fun _ => if_pos hfmt⟩
    · obtain ⟨_, _, h3, _⟩ := HandleEvent_frame self trkno trkchan ev v v' h
      obtain ⟨_, _, _, f2⟩ := h3 hp
      exact ⟨fun hb => f2.trans hb, fun hq => absurd hq hp⟩
  · have hE : Export self = ExportAsSingleTrack self {} := by
      unfold Export
      rw [hfmt]
    rw [hE]
    intro s h0
    obtain ⟨hi1, hi2⟩ := ExportAsSingleTrack_OneLoopStart self hfmt s h0
    have h := h0
    revert h
    unfold ExportAsSingleTrack
    simp only []
    generalize hfp : forTracks _ _ _ = fp
    intro h
    cases fp with
    | error e => exact Except.noConfusion h
    | ok s1 =>
      simp only [] at h
      refine ⟨?_, ?_⟩
      · rintro ⟨trk, htrk, e, he, hm⟩
        obtain ⟨i, hi, rfl⟩ := List.getElem_of_mem htrk
        rw [List.range_eq_range'] at hfp
        obtain ⟨_, _, _, _, _, _, t7⟩ := firstpass_songlsttick self _
          (by
            intro t a b hb
            cases he : ExportATrack self t 0 0 a with
            | error e => simp [he, Except.map] at hb
            | ok sc =>
              simp only [he, Except.map, Except.ok.injEq] at hb
              subst hb
              refine ⟨sc, rfl, ?_, ?_, ?_, ?_, ?_, ?_⟩
              · split_ifs <;> rfl
              · split_ifs <;> rfl
              · split_ifs with c
                · exact (Nat.max_eq_right (Nat.le_of_lt c)).symm
                · exact (Nat.max_eq_left (Nat.le_of_not_lt c)).symm
              · split_ifs <;> rfl
              · split_ifs <;> rfl
              · split_ifs <;> rfl) self.m_seq.getNbTracks 0 _ s1 hfp
          (fun hb => Bool.noConfusion hb)
        have hflag : s1.m_bshouldloop = true := by
          refine t7 ⟨i, ?_, e, ?_, hm⟩
          · rw [← List.range_eq_range']
            exact List.mem_range.mpr hi
          · have : self.m_seq.track i = self.m_seq.tracks[i] := by
              unfold MusicSequence.track
              rw [List.getD_eq_getElem _ _ hi]
            rw [this]
            exact he
        rw [if_pos hflag] at h
        have hs : s.m_bshouldloop = true := forLoops_shouldloop self _ _ _ _ s h hflag
        rw [hi2, ← hi1, hs]
        rfl
      · intro hno
        obtain ⟨h1, _, _⟩ := firstpass_without_marker self hno _ (fun _ => 0)
          (by
            intro t a b hb
            cases he : ExportATrack self t 0 0 a with
            | error e => simp [he, Except.map] at hb
            | ok sc =>
              simp only [he, Except.map, Except.ok.injEq] at hb
              subst hb
              refine ⟨sc, rfl, ?_, ?_, ?_⟩
              · split_ifs <;> rfl
              · split_ifs <;> rfl
              · intro hsc
                split_ifs
                · exact ⟨hsc, rfl⟩
                · exact ⟨hsc, rfl⟩) _ s1 hfp rfl
        simp only [h1, Bool.false_eq_true, if_false, Except.ok.injEq] at h
        subst h
        rw [hi2, ← hi1, h1]
        rfl

/-- C33 for the single-track export of the two tracks that both mark a loop point, with two
repetitions: the marker of the second track is skipped, and the output holds one marker
`LoopStart`. -/
theorem Export_single_track_later_markers_witness :
    (converter seqTwoLoopTracks none .SingleTrack 2).m_midifmt = .SingleTrack ∧
    (∃ trk ∈ (converter seqTwoLoopTracks none .SingleTrack 2).m_seq.tracks,
      ∃ e ∈ processed trk.events, e.evcode = LoopPointSet) ∧
    ∃ s, Export (converter seqTwoLoopTracks none .SingleTrack 2) = .ok s ∧
      (s.m_midiout.events.filter fun x => x.2.IsLoopStart).length = 1 :=
  ⟨rfl, by decide, _, rfl,
    ((Export_single_track_later_markers (converter seqTwoLoopTracks none .SingleTrack 2)
      rfl).2.2 _ rfl).1 (by decide)⟩


/-! ## The agreement across a loop repetition -/

/-- C39, the restore: the state of the track is reset to the loop snapshot but no message is
put. For the track `[SetPreset 1, LoopPointSet, NoteOn, SetPreset 2, NoteOn, EndOfTrack]` the
last program change of the first pass is 2 and the restored state has the program 1, so the
state after the restore does not agree with the messages put, although the state before it
does; with one repetition the first note is replayed right after the marker `LoopEnd`, with
no program change before it. -/
theorem Export_restore_breaks_agreement :
    (Export (converter seqPresetAfterLoop none .MultiTrack 0)).map
        (fun s => (lastProgramChange (s.m_midiout.GetTrack 0),
          ((RestoreTrackState 0 s).m_trkstates.getD 0 default).effectivePrgm,
          decide ((s.m_trkstates.getD 0 default).Agrees (s.m_midiout.GetTrack 0)),
          decide (((RestoreTrackState 0 s).m_trkstates.getD 0 default).Agrees
            (s.m_midiout.GetTrack 0)))) = .ok (some 2, 1, true, false) ∧
    (Export (converter seqPresetAfterLoop none .MultiTrack 1)).map
        (fun s => (s.m_midiout.GetTrack 0).drop 9) =
      .ok [ ⟨0, .ControlChange 0 0 0⟩, ⟨0, .ProgramChange 0 2⟩, ⟨0, .NoteOn 0 7 100⟩,
            ⟨5, .NoteOff 0 7 100⟩, ⟨0, .Text .META_MARKER_TEXT "LoopEnd"⟩,
            ⟨0, .NoteOn 0 5 100⟩, ⟨5, .NoteOff 0 5 100⟩, ⟨0, .ControlChange 0 0 0⟩,
            ⟨0, .ProgramChange 0 2⟩, ⟨0, .NoteOn 0 7 100⟩, ⟨5, .NoteOff 0 7 100⟩ ] := by
  decide

/-- The messages of an output track after messages were put on the output track `trk`. -/
theorem MIDIMultiTrack.GetTrack_of_events (m m' : MIDIMultiTrack) (trk t : Nat)
    (msgs : List MIDITimedBigMessage)
    (h : m'.events = m.events ++ msgs.map (fun x => (trk, x))) :
    m'.GetTrack t = if trk = t then m.GetTrack t ++ msgs else m.GetTrack t := by
  unfold MIDIMultiTrack.GetTrack
  rw [h, List.filter_append, List.map_append]
  by_cases c : trk = t
  · rw [if_pos c]
    subst c
    congr 1
    clear h
    induction msgs with
    | nil => rfl
    | cons a l ih => simp [List.filter_cons, ih]
  · rw [if_neg c]
    have hnone : ((msgs.map fun x => (trk, x)).filter fun e => e.1 = t) = [] := by
      refine List.filter_eq_nil_iff.mpr ?_
      intro x hx
      obtain ⟨y, _, rfl⟩ := List.mem_map.mp hx
      simp [c]
    rw [hnone, List.map_nil, List.append_nil]

/-- Every state agrees with messages that hold neither a bank select nor a program change. -/
theorem TrkState.Agrees.of_none (st : TrkState) (out : List MIDITimedBigMessage)
    (h : ∀ m ∈ out, m.bankValue = none ∧ m.programValue = none) : st.Agrees out := by
  obtain ⟨n1, n2⟩ := lastBankSelect_none out h
  unfold TrkState.Agrees
  rw [n1, n2]
  exact ⟨fun _ hb => Option.noConfusion hb, fun _ hp => Option.noConfusion hp⟩

/-- `PrepareMidiFile` on a freshly constructed converter puts neither a bank select nor a
program change. -/
theorem PrepareMidiFile_no_preset (self : DSESequenceToMidi) :
    ∀ x ∈ (PrepareMidiFile self
        { ({} : ConvState) with
          m_trkstates := resize [] self.m_seq.getNbTracks
          m_beflooptrkstates := resize [] self.m_seq.getNbTracks
          m_songlsttick := 0 }).m_midiout.events,
      x.2.bankValue = none ∧ x.2.programValue = none := by
  unfold PrepareMidiFile
  cases self.m_midimode <;>
    simp +decide [MIDIMultiTrack.Put, PutTextEvent, MIDITimedBigMessage.bankValue,
      MIDITimedBigMessage.programValue]

/-- The first pass of the multi-track export: when it is over, the live state of every track
agrees with the messages of the output track of the same number. `body` is the body of the
first loop of `ExportAsMultiTrack`. -/
theorem firstpass_agrees (self : DSESequenceToMidi)
    (body : Nat → ConvState → Except Err ConvState)
    (hbody : ∀ t s s', body t s = .ok s' → ∃ s1, ExportATrack self t t 0 s = .ok s1 ∧
      s'.m_trkstates = s1.m_trkstates ∧
      ∃ msgs : List MIDITimedBigMessage,
        s'.m_midiout.events = s1.m_midiout.events ++ msgs.map (fun x => (t, x)) ∧
        ∀ m ∈ msgs, m.bankValue = none ∧ m.programValue = none)
    (n : Nat) (l : List Nat) (hl : ∀ t ∈ l, t < n) (s s' : ConvState)
    (h : forTracks body l s = .ok s')
    (hlen : s.m_trkstates.length = n)
    (ha : ∀ t, t < n → (s.m_trkstates.getD t default).Agrees (s.m_midiout.GetTrack t)) :
    s'.m_trkstates.length = n ∧
    ∀ t, t < n → (s'.m_trkstates.getD t default).Agrees (s'.m_midiout.GetTrack t) := by
  have key := forTracks_rel
    (fun a b : ConvState =>
      (a.m_trkstates.length = n ∧
        ∀ t, t < n → (a.m_trkstates.getD t default).Agrees (a.m_midiout.GetTrack t)) →
      (b.m_trkstates.length = n ∧
        ∀ t, t < n → (b.m_trkstates.getD t default).Agrees (b.m_midiout.GetTrack t)))
    (fun _ hi => hi) (fun _ _ _ h1 h2 hi => h2 (h1 hi)) body l
    (by
      intro j hj a b hb hi
      obtain ⟨c, he, hst, msgs, hm, hk⟩ := hbody j a b hb
      have hjn : j < a.m_trkstates.length := by
        rw [hi.1]
        exact hl j hj
      have hclen : c.m_trkstates.length = a.m_trkstates.length :=
        (ExportATrack_keeps self j j 0 (j + 1) (Nat.ne_of_lt (Nat.lt_succ_self j)) a c he).1
      obtain ⟨pass, hp, _⟩ := ExportATrack_routing self j j 0 a c he
      refine ⟨by rw [hst, hclen]; exact hi.1, ?_⟩
      intro t ht
      rw [hst, MIDIMultiTrack.GetTrack_of_events c.m_midiout b.m_midiout j t msgs hm,
        MIDIMultiTrack.GetTrack_of_events a.m_midiout c.m_midiout j t pass hp]
      by_cases c1 : j = t
      · subst c1
        rw [if_pos rfl, if_pos rfl]
        have hc := ExportATrack_agrees self j j 0 a c he hjn (hi.2 j ht)
        rw [MIDIMultiTrack.GetTrack_of_events a.m_midiout c.m_midiout j j pass hp,
          if_pos rfl] at hc
        exact TrkState.Agrees.frame _ _ _ msgs rfl rfl hk hc
      · rw [if_neg c1, if_neg c1,
          (ExportATrack_keeps self j j 0 t c1 a c he).2.2.1]
        exact hi.2 t ht) s s' h
  exact key ⟨hlen, ha⟩

/-- The multi-track export without a repetition ends when the first pass is over: in its final
state the live state of every track agrees with the messages of the output track of the same
number. -/
theorem ExportAsMultiTrack_first_pass_agrees (self : DSESequenceToMidi)
    (hn : self.m_nbloops = 0) (s : ConvState) (h : ExportAsMultiTrack self {} = .ok s) :
    ∀ t, t < self.m_seq.getNbTracks →
      t < s.m_trkstates.length ∧
      (s.m_trkstates.getD t default).Agrees (s.m_midiout.GetTrack t) := by
  have hprep := PrepareMidiFile_no_preset self
  revert h
  unfold ExportAsMultiTrack
  simp only []
  generalize hfp : forTracks _ _ _ = fp
  intro h
  cases fp with
  | error e => exact Except.noConfusion h
  | ok s1 =>
    simp only [] at h
    have hs : s = s1 := by
      rw [hn] at h
      split_ifs at h
      · simp only [forLoops, Except.ok.injEq] at h
        exact h.symm
      · simp only [Except.ok.injEq] at h
        exact h.symm
    subst hs
    obtain ⟨k1, k2⟩ := firstpass_agrees self _
      (by
        intro t a b hb
        cases he : ExportATrack self t t 0 a with
        | error e => simp [he, Except.map] at hb
        | ok sc =>
          simp only [he, Except.map, Except.ok.injEq] at hb
          subst hb
          refine ⟨sc, rfl, ?_, ?_⟩
          · split_ifs <;> rfl
          · split_ifs
            · exact ⟨_, rfl, by
                simp [PutTextEvent, MIDITimedBigMessage.bankValue,
                  MIDITimedBigMessage.programValue]⟩
            · exact ⟨[], by simp, by simp⟩)
      self.m_seq.getNbTracks (List.range self.m_seq.getNbTracks)
      (fun t ht => List.mem_range.mp ht) _ s hfp
      (by simp [PrepareMidiFile, resize])
      (by
        intro t _
        refine TrkState.Agrees.of_none _ _ ?_
        intro m hm
        unfold MIDIMultiTrack.GetTrack at hm
        obtain ⟨x, hx, rfl⟩ := List.mem_map.mp hm
        exact hprep x (List.mem_filter.mp hx).1)
    intro t ht
    exact ⟨by rw [k1]; exact ht, k2 t ht⟩

/-- C39: the restore of a track before a loop repetition. Every repetition of a track starts
with `RestoreTrackState`, which puts no message and replaces the live state of the track by its
saved state, the tick count apart. So the restored state agrees with the messages `out` put
for the track exactly when the last bank select of `out`, if there is one, carries the
effective bank of the saved state and the last program change, if there is one, its effective
program, as bytes. When the live state agreed with `out` before the restore, this is the case
exactly when the effective bank of the saved state is, as a byte, the one of the live state if
a bank select was put, and the effective program of the saved state is the one of the live
state if a program change was put. The live state of every track does agree with the messages
of its output track when the first pass of the multi-track export is over, which is the final
state of the export without a repetition. -/
theorem RestoreTrackState_agreement (self : DSESequenceToMidi) (trkno : Nat) (s : ConvState)
    (out : List MIDITimedBigMessage) (hlen : trkno < s.m_trkstates.length) :
    (∀ outtrk : Nat → Nat, LoopATrack self outtrk trkno s =
      ExportATrack self trkno (outtrk trkno)
        ((RestoreTrackState trkno s).m_trkstates.getD trkno default).looppoint_
        (RestoreTrackState trkno s)) ∧
    (RestoreTrackState trkno s).m_midiout = s.m_midiout ∧
    (RestoreTrackState trkno s).m_trkstates.getD trkno default =
      { s.m_beflooptrkstates.getD trkno default with
        ticks_ := (s.m_trkstates.getD trkno default).ticks_ } ∧
    (((RestoreTrackState trkno s).m_trkstates.getD trkno default).Agrees out ↔
      (∀ b, lastBankSelect out = some b →
        b % 256 = (s.m_beflooptrkstates.getD trkno default).effectiveBank % 256) ∧
      (∀ p, lastProgramChange out = some p →
        p % 256 = (s.m_beflooptrkstates.getD trkno default).effectivePrgm % 256)) ∧
    ((s.m_trkstates.getD trkno default).Agrees out →
      (((RestoreTrackState trkno s).m_trkstates.getD trkno default).Agrees out ↔
        (lastBankSelect out ≠ none →
          (s.m_beflooptrkstates.getD trkno default).effectiveBank % 256 =
            (s.m_trkstates.getD trkno default).effectiveBank % 256) ∧
        (lastProgramChange out ≠ none →
          (s.m_beflooptrkstates.getD trkno default).effectivePrgm % 256 =
            (s.m_trkstates.getD trkno default).effectivePrgm % 256))) ∧
    (self.m_midifmt = .MultiTrack → self.m_nbloops = 0 → ∀ s1, Export self = .ok s1 →
      ∀ t, t < self.m_seq.getNbTracks →
        t < s1.m_trkstates.length ∧
        (s1.m_trkstates.getD t default).Agrees (s1.m_midiout.GetTrack t)) := by
  have hlive : (RestoreTrackState trkno s).m_trkstates.getD trkno default =
      { s.m_beflooptrkstates.getD trkno default with
        ticks_ := (s.m_trkstates.getD trkno default).ticks_ } := by
    unfold RestoreTrackState
    simp only []
    rw [getD_set_self _ _ _ (by rw [List.length_set]; exact hlen), getD_set_self _ _ _ hlen]
  have eb : ({ s.m_beflooptrkstates.getD trkno default with
      ticks_ := (s.m_trkstates.getD trkno default).ticks_ } : TrkState).effectiveBank =
      (s.m_beflooptrkstates.getD trkno default).effectiveBank := rfl
  have ep : ({ s.m_beflooptrkstates.getD trkno default with
      ticks_ := (s.m_trkstates.getD trkno default).ticks_ } : TrkState).effectivePrgm =
      (s.m_beflooptrkstates.getD trkno default).effectivePrgm := rfl
  have hsaved : ((RestoreTrackState trkno s).m_trkstates.getD trkno default).Agrees out ↔
      (∀ b, lastBankSelect out = some b →
        b % 256 = (s.m_beflooptrkstates.getD trkno default).effectiveBank % 256) ∧
      (∀ p, lastProgramChange out = some p →
        p % 256 = (s.m_beflooptrkstates.getD trkno default).effectivePrgm % 256) := by
    rw [hlive]
    unfold TrkState.Agrees
    rw [eb, ep]
  refine ⟨fun _ => rfl, rfl, hlive, hsaved, ?_, ?_⟩
  · intro ha
    rw [hsaved]
    have hb := ha.1
    have hp := ha.2
    constructor
    · intro hk
      constructor
      · intro hne
        cases hq : lastBankSelect out with
        | none => exact absurd hq hne
        | some b => rw [← hk.1 b hq, hb b hq]
      · intro hne
        cases hq : lastProgramChange out with
        | none => exact absurd hq hne
        | some p => rw [← hk.2 p hq, hp p hq]
    · intro hk
      constructor
      · intro b hq
        rw [hb b hq, hk.1 (by rw [hq]; exact Option.noConfusion)]
      · intro p hq
        rw [hp p hq, hk.2 (by rw [hq]; exact Option.noConfusion)]
  · intro hfmt hn s1 h1
    have hE : Export self = ExportAsMultiTrack self {} := by
      unfold Export
      rw [hfmt]
    rw [hE] at h1
    exact ExportAsMultiTrack_first_pass_agrees self hn s1 h1

/-- C39 for a track whose live state has the program 2, the last program change put, and
whose saved state has the program 1: the live state agrees with the messages and the restored
state does not. For the track `[SetPreset 1, LoopPointSet, NoteOn, SetPreset 2, NoteOn,
EndOfTrack]` the multi-track export without a repetition ends in a state that agrees with the
messages of the output track. -/
theorem RestoreTrackState_agreement_witness :
    (0 < stateProgramChanged.m_trkstates.length ∧
      (stateProgramChanged.m_trkstates.getD 0 default).Agrees
        [⟨0, .ControlChange 0 0 0⟩, ⟨0, .ProgramChange 0 2⟩]) ∧
    (¬ ((RestoreTrackState 0 stateProgramChanged).m_trkstates.getD 0 default).Agrees
        [⟨0, .ControlChange 0 0 0⟩, ⟨0, .ProgramChange 0 2⟩]) ∧
    ∃ s, Export (converter seqPresetAfterLoop none .MultiTrack 0) = .ok s ∧
      (s.m_trkstates.getD 0 default).Agrees (s.m_midiout.GetTrack 0) :=
  ⟨⟨by decide, by decide⟩,
    fun h =>
      absurd
        ((((RestoreTrackState_agreement (converter seqPresetAfterLoop none .MultiTrack 0) 0
          stateProgramChanged [⟨0, .ControlChange 0 0 0⟩, ⟨0, .ProgramChange 0 2⟩]
          (by decide)).2.2.2.2.1 (by decide)).mp h).2 (by decide))
        (by decide),
    _, rfl,
    ((RestoreTrackState_agreement (converter seqPresetAfterLoop none .MultiTrack 0) 0
      stateProgramChanged [] (by decide)).2.2.2.2.2 rfl rfl _ rfl 0 (by decide)).2⟩

end DSE
